import Mathlib

/-!
# Mathics software rasterizer: a verification development

Shallow embedding of the rasterizer (`Framebuffer`, `rasterizer`), the camera
(`PinholeCamera`), the cube map (`CubeMap`) and the shading evaluator (`light`).

Modelling conventions.

* `float` is modelled by exact rational arithmetic (`ℚ`): no rounding, no overflow,
  no NaN.  Division is the field division of `ℚ` (with `x / 0 = 0`); where the source
  compares the result of a division against bounds, the model states explicitly that
  a zero divisor fails the test, as the IEEE infinities and NaN do.
* `std::size_t` and `unsigned int` are modelled by `Nat`.  `int` has two models.  In the
  machine model (the routines `prerenderTriangle32`, `renderTriangle32`,
  `renderTexturedTriangle32` and the predicates `covers`, `covered`) an `int` is an
  `Int` in `[-2^31, 2^31)` and every `int` operation on the fixed-point coordinates and
  the edge values wraps its result to 32 bits (`int32`), as two's-complement hardware
  does; the pixel counters, which stay below 2^27, are incremented as they are.  In the ideal model (the
  routines `prerenderTriangle`, `renderTriangle`, `renderTexturedTriangle` and the
  predicates `coversIdeal`, `coveredIdeal`) an `int` is an unbounded `Int`; the two
  agree while no intermediate value leaves the 32-bit range.  `x << 4` and `x >> 4` are
  multiplication by 16 and division by 16 rounding down.
* Library functions that have no rational counterpart (`std::sqrt`, `std::cos`,
  `std::sin`, `std::tan`, the constant pi) are parameters, collected in `Libm`.  The
  routines whose contract needs the square root of an arbitrary number (`orient`,
  `setSize`) are also given over any field of scalars with the square root as a
  parameter (`CameraOver`, `setSizeAboutOver`); at the rationals they are the routines
  above, and their contracts are proved over the reals with `Real.sqrt`.
* `std::vector` and `std::array` are lists; reading outside a list yields a default
  value and writing outside is a no-op (the source has undefined behaviour there).
* The framebuffer a triangle is drawn into is a value separate from the cube maps
  read by the shading evaluator.  The global pointer `reflectionMap` is an argument of
  `light` and of the `renderTriangle` overloads, `none` standing for the null pointer;
  state the source mutates in place (the point lights' shadow cameras, the cached face
  of a cube map) is returned.
* A loop `for (int i = lo; i <= hi; i++)` is the iteration of its body, a function on
  the record of the loop variables, `(hi - lo + 1).toNat` times.
-/

namespace math

/-- Library functions of `<cmath>` and `<numbers>` used by the source. -/
structure Libm where
  sqrt : ℚ → ℚ
  cos : ℚ → ℚ
  sin : ℚ → ℚ
  tan : ℚ → ℚ
  pi : ℚ

/-- The class template `Vector<N>`: `N` components. -/
abbrev Vector (N : Nat) := Fin N → ℚ

abbrev Vec2 := Vector 2

abbrev Vec3 := Vector 3

abbrev Vec4 := Vector 4

/-- The class template `Matrix<M, N>`: `M` rows, each a `Vector<N>`. -/
abbrev Matrix (M N : Nat) := Fin M → Vector N

abbrev Mat3 := Matrix 3 3

/-- The member `Vector<N>::dot`. -/
def dot {N : Nat} (lhs rhs : Vector N) : ℚ := ∑ i, lhs i * rhs i

/-- The member `Vector<3>::cross`. -/
def cross (lhs rhs : Vec3) : Vec3 :=
  ![lhs 1 * rhs 2 - lhs 2 * rhs 1,
    lhs 2 * rhs 0 - lhs 0 * rhs 2,
    lhs 0 * rhs 1 - lhs 1 * rhs 0]

/-- The member `Vector<N>::norm()`: `std::sqrt(dot(*this))`. -/
def norm (m : Libm) {N : Nat} (v : Vector N) : ℚ := m.sqrt (dot v v)

/-- The member `Vector<N>::unit()`: the vector divided by its norm. -/
def unit (m : Libm) {N : Nat} (v : Vector N) : Vector N := fun i => v i / norm m v

/-- The member `Vector<N>::projectOnto`. -/
def projectOnto (m : Libm) {N : Nat} (v rhs : Vector N) : Vector N :=
  (dot v rhs / norm m rhs) • rhs

/-- The member `Vector<N>::sum`. -/
def sum {N : Nat} (v : Vector N) : ℚ := ∑ i, v i

/-- The member `Vector<3>::max`: the largest component (`std::max_element`). -/
def max3 (v : Vec3) : ℚ := max (max (v 0) (v 1)) (v 2)

/-- The member `Matrix<M, N>::getColumn`. -/
def getColumn {M N : Nat} (a : Matrix M N) (i : Fin N) : Vector M := fun j => a j i

/-- The member `Matrix<M, N>::transpose`. -/
def transpose {M N : Nat} (a : Matrix M N) : Matrix N M := fun i => getColumn a i

/-- The member `Matrix<3, 3>::determinant`. -/
def determinant (a : Mat3) : ℚ :=
  a 0 0 * (a 1 1 * a 2 2 - a 1 2 * a 2 1) +
  a 0 1 * (a 1 2 * a 2 0 - a 1 0 * a 2 2) +
  a 0 2 * (a 1 0 * a 2 1 - a 1 1 * a 2 0)

/-- The member `Matrix<3, 3>::inverse`: the adjugate divided by the determinant. -/
def inverse (a : Mat3) : Mat3 := fun i j =>
  (![![a 1 1 * a 2 2 - a 2 1 * a 1 2,
       a 0 2 * a 2 1 - a 0 1 * a 2 2,
       a 0 1 * a 1 2 - a 0 2 * a 1 1],
     ![a 1 2 * a 2 0 - a 1 0 * a 2 2,
       a 0 0 * a 2 2 - a 0 2 * a 2 0,
       a 1 0 * a 0 2 - a 0 0 * a 1 2],
     ![a 1 0 * a 2 1 - a 2 0 * a 1 1,
       a 2 0 * a 0 1 - a 0 0 * a 2 1,
       a 0 0 * a 1 1 - a 1 0 * a 0 1]] : Mat3) i j / determinant a

/-- The product `operator*(Matrix<M, N>, Matrix<N, O>)`. -/
def mul {M N O : Nat} (lhs : Matrix M N) (rhs : Matrix N O) : Matrix M O :=
  fun i j => dot (lhs i) (getColumn rhs j)

/-- The product `operator*(Matrix<M, N>, Vector<N>)`, the vector read as a column. -/
def mulVec {M N : Nat} (lhs : Matrix M N) (rhs : Vector N) : Vector M :=
  fun i => dot (lhs i) rhs

/-- The product `operator*(Vector<M>, Matrix<M, N>)`, the vector read as a row. -/
def vecMul {M N : Nat} (lhs : Vector M) (rhs : Matrix M N) : Vector N :=
  fun j => dot lhs (getColumn rhs j)

/-- The library function `std::max(a, b)`: `(a < b) ? b : a`. -/
def stdMax (a b : ℚ) : ℚ := if a < b then b else a

/-- The library function `std::round` followed by `static_cast<int>`: round to nearest,
halfway cases away from zero. -/
def roundToInt (x : ℚ) : Int := if 0 ≤ x then ⌊x + 1 / 2⌋ else -⌊-x + 1 / 2⌋

/-- The conversion `static_cast<std::size_t>` of a non-negative `float`: truncation. -/
def truncToSize (x : ℚ) : Nat := ⌊x⌋.toNat

/-- The class `PinholeCamera`, with its shadow-map rasterization scratch fields. -/
structure PinholeCamera where
  center : Vec3
  a : Vec3
  b : Vec3
  c : Vec3
  projectionMatrix : Mat3
  width : Nat
  height : Nat
  sc : Mat3
  sp : Vec3
  p : Vec3

/-- The member `PinholeCamera::project`. -/
def PinholeCamera.project (camera : PinholeCamera) (point : Vec3) : Vec3 :=
  let q := mulVec camera.projectionMatrix (point - camera.center)
  ![q 0 / q 2, q 1 / q 2, 1 / q 2]

/-- The divisor `q.z()` of `PinholeCamera::project`. -/
def PinholeCamera.projectDivisor (camera : PinholeCamera) (point : Vec3) : ℚ :=
  mulVec camera.projectionMatrix (point - camera.center) 2

/-- The member `PinholeCamera::unproject`. -/
def PinholeCamera.unproject (camera : PinholeCamera) (projection : Vec3) : Vec3 :=
  fun i => camera.center i +
    (camera.a i * projection 0 + camera.b i * projection 1 + camera.c i) / projection 2

/-- The function `math::rotationZ`. -/
def rotationZ (m : Libm) (theta : ℚ) : Mat3 :=
  ![![m.cos theta, -m.sin theta, 0],
    ![m.sin theta, m.cos theta, 0],
    ![0, 0, 1]]

/-- The library function `std::copysign(1.0f, z)`; the rationals have no negative
zero. -/
def copysignOne (z : ℚ) : ℚ := if 0 ≤ z then 1 else -1

/-- The function `math::axesZ`: the remaining axes from a single normalized z-axis. -/
def axesZ (axis : Vec3) : Mat3 :=
  let sign := copysignOne (axis 2)
  let a := -1 / (sign + axis 2)
  let b := axis 0 * axis 1 * a
  ![![1 + sign * axis 0 * axis 0 * a, sign * b, -sign * axis 0],
    ![b, sign + axis 1 * axis 1 * a, -axis 1],
    axis]

/-- The member `Vector<3>::rotatedAboutAxis(origin, axis, theta)`. -/
def rotatedAboutAxisFrom (m : Libm) (v origin axis : Vec3) (theta : ℚ) : Vec3 :=
  let axes := axesZ (unit m axis)
  mulVec (transpose axes) (mulVec (rotationZ m theta) (mulVec axes (v - origin))) + origin

/-- The member `Vector<3>::rotatedAboutAxis(axis, theta)`, which `rotateAboutAxis`
assigns to the vector. -/
def rotatedAboutAxis (m : Libm) (v axis : Vec3) (theta : ℚ) : Vec3 :=
  rotatedAboutAxisFrom m v 0 axis theta

/-- The member `PinholeCamera::getProjectionMatrix`. -/
def PinholeCamera.getProjectionMatrix (camera : PinholeCamera) : Mat3 :=
  inverse (transpose ![camera.a, camera.b, camera.c])

/-- The member `PinholeCamera::getViewDirection`. -/
def PinholeCamera.getViewDirection (camera : PinholeCamera) : Vec3 :=
  cross camera.b camera.a

/-- The member `PinholeCamera::getFocalLength`. -/
def PinholeCamera.getFocalLength (camera : PinholeCamera) : ℚ :=
  dot camera.c camera.getViewDirection

/-- Assigns `projectionMatrix = getProjectionMatrix()`. -/
def PinholeCamera.refresh (camera : PinholeCamera) : PinholeCamera :=
  { camera with projectionMatrix := camera.getProjectionMatrix }

/-- The member `PinholeCamera::pan`. -/
def PinholeCamera.pan (m : Libm) (camera : PinholeCamera) (theta : ℚ) : PinholeCamera :=
  PinholeCamera.refresh
    { camera with
      a := rotatedAboutAxis m camera.a camera.b theta
      c := rotatedAboutAxis m camera.c camera.b theta }

/-- The member `PinholeCamera::tilt`. -/
def PinholeCamera.tilt (m : Libm) (camera : PinholeCamera) (theta : ℚ) : PinholeCamera :=
  PinholeCamera.refresh
    { camera with
      b := rotatedAboutAxis m camera.b camera.a theta
      c := rotatedAboutAxis m camera.c camera.a theta }

/-- The member `PinholeCamera::roll`. -/
def PinholeCamera.roll (m : Libm) (camera : PinholeCamera) (theta : ℚ) : PinholeCamera :=
  let viewDirection := camera.getViewDirection
  PinholeCamera.refresh
    { camera with
      a := rotatedAboutAxis m camera.a viewDirection theta
      b := rotatedAboutAxis m camera.b viewDirection theta
      c := rotatedAboutAxis m camera.c viewDirection theta }

/-- The member `PinholeCamera::orient`. -/
def PinholeCamera.orient (m : Libm) (camera : PinholeCamera) (direction up : Vec3) :
    PinholeCamera :=
  let focalLength := camera.getFocalLength
  let direction := unit m direction
  let a := cross direction (unit m up)
  let b := cross a direction
  PinholeCamera.refresh
    { camera with
      a := a
      b := b
      c := fun i => direction i * focalLength - a i * ((camera.width : ℚ) / 2) -
        b i * ((camera.height : ℚ) / 2) }

/-- The constructor `PinholeCamera(width, height, hfov)`; the scratch fields, which the
source leaves uninitialized, are zero. -/
def PinholeCamera.mk3 (m : Libm) (width height : Nat) (hfov : ℚ) : PinholeCamera :=
  PinholeCamera.refresh
    { center := 0
      a := ![1, 0, 0]
      b := ![0, 1, 0]
      c := ![-((width : ℚ) / 2), -((height : ℚ) / 2), -((width : ℚ) / (2 * m.tan (hfov / 2)))]
      projectionMatrix := 0
      width := width
      height := height
      sc := 0
      sp := 0
      p := 0 }

/-- The constructor `PinholeCamera(width, height, hfov, center, direction, up)`. -/
def PinholeCamera.mk6 (m : Libm) (width height : Nat) (hfov : ℚ) (center direction up : Vec3) :
    PinholeCamera :=
  PinholeCamera.orient m { PinholeCamera.mk3 m width height hfov with center := center }
    direction up

/-- The loop of `math::power`: square-and-multiply over the bits of the exponent. -/
def powerLoop (base : ℚ) (exponent : Nat) (result : ℚ) : ℚ :=
  if exponent = 0 then result
  else
    powerLoop (base * base) (exponent >>> 1)
      (if exponent &&& 1 ≠ 0 then result * base else result)
termination_by exponent
decreasing_by
  rename_i h
  rw [Nat.shiftRight_eq_div_pow]
  exact Nat.div_lt_self (Nat.pos_of_ne_zero h) (by norm_num)

/-- The function `math::power`. -/
def power (base : ℚ) (exponent : Nat) : ℚ := powerLoop base exponent 1

end math

namespace graphics

open math

/-- The class `Framebuffer`: a colour plane and a depth plane, both row-major. -/
structure Framebuffer where
  buffer : List Vec4
  zBuffer : List ℚ
  width : Nat
  height : Nat

/-- The member `Framebuffer::zLookup`: the depth stored at pixel `(x, y)`. -/
def Framebuffer.zLookup (fb : Framebuffer) (x y : Nat) : ℚ :=
  fb.zBuffer.getD (y * fb.width + x) 0

/-- The colour stored at pixel `(x, y)`: `framebuffer[y][x]`. -/
def Framebuffer.pixel (fb : Framebuffer) (x y : Nat) : Vec4 :=
  fb.buffer.getD (y * fb.width + x) 0

/-- Both planes have exactly `width * height` elements. -/
def Framebuffer.WellFormed (fb : Framebuffer) : Prop :=
  fb.buffer.length = fb.width * fb.height ∧ fb.zBuffer.length = fb.width * fb.height

/-- The member `Framebuffer::bilinearLookup`. -/
def Framebuffer.bilinearLookup (fb : Framebuffer) (x y : ℚ) : Vec4 :=
  let x1 := truncToSize x
  let x2 := x1 + 1
  let y1 := truncToSize y
  let y2 := y1 + 1
  if x2 ≥ fb.width ∨ y2 ≥ fb.height then fb.buffer.getD (y1 * fb.width + x1) 0
  else
    let fx1 : ℚ := x1
    let fx2 : ℚ := x2
    let fy1 : ℚ := y1
    let fy2 : ℚ := y2
    ((fx2 - x) * (fy2 - y)) • fb.buffer.getD (y1 * fb.width + x1) 0 +
      ((x - fx1) * (fy2 - y)) • fb.buffer.getD (y1 * fb.width + x2) 0 +
      ((fx2 - x) * (y - fy1)) • fb.buffer.getD (y2 * fb.width + x1) 0 +
      ((x - fx1) * (y - fy1)) • fb.buffer.getD (y2 * fb.width + x2) 0

/-- The member `Framebuffer::getVisibility`: the comparison converted to `float`, with
`epsilon = 0.1f`. -/
def Framebuffer.getVisibility (fb : Framebuffer) (x y : Nat) (z : ℚ) : ℚ :=
  if z ≥ fb.zBuffer.getD (y * fb.width + x) 0 - 1 / 10 then 1 else 0

/-- The member `Framebuffer::getBilinearVisibility`. -/
def Framebuffer.getBilinearVisibility (fb : Framebuffer) (x y z : ℚ) : ℚ :=
  let x1 := truncToSize x
  let x2 := x1 + 1
  let y1 := truncToSize y
  let y2 := y1 + 1
  if x2 ≥ fb.width ∨ y2 ≥ fb.height then fb.getVisibility x1 y1 z
  else
    let fx1 : ℚ := x1
    let fx2 : ℚ := x2
    let fy1 : ℚ := y1
    let fy2 : ℚ := y2
    (fx2 - x) * (fy2 - y) * fb.getVisibility x1 y1 z +
      (x - fx1) * (fy2 - y) * fb.getVisibility x2 y1 z +
      (fx2 - x) * (y - fy1) * fb.getVisibility x1 y2 z +
      (x - fx1) * (y - fy1) * fb.getVisibility x2 y2 z

/-- The constructor `Framebuffer(width, height)`: both planes value-initialized. -/
def Framebuffer.ofSize (width height : Nat) : Framebuffer where
  buffer := List.replicate (width * height) 0
  zBuffer := List.replicate (width * height) 0
  width := width
  height := height

/-- Modelled from the spec: the constant `color::black` of the module `color`, which is
not among the sources; the spec calls the value returned on a face miss "black". -/
def black : Vec4 := ![0, 0, 0, 1]

/-- The class `CubeMap`: six cameras, six framebuffers and the cached face index. -/
structure CubeMap where
  cameras : List PinholeCamera
  framebuffers : List Framebuffer
  previousHit : Nat

instance : Inhabited PinholeCamera := ⟨⟨0, 0, 0, 0, 0, 0, 0, 0, 0, 0⟩⟩

instance : Inhabited Framebuffer := ⟨⟨[], [], 0, 0⟩⟩

/-- The element `cameras[i]`. -/
def CubeMap.camera (cm : CubeMap) (i : Nat) : PinholeCamera := cm.cameras.getD i default

/-- The element `framebuffers[i]`. -/
def CubeMap.framebuffer (cm : CubeMap) (i : Nat) : Framebuffer :=
  cm.framebuffers.getD i default

/-- The member `CubeMap::getPosition`. -/
def CubeMap.getPosition (cm : CubeMap) : Vec3 := (cm.camera 0).center

/-- The member `CubeMap::setPosition`. -/
def CubeMap.setPosition (cm : CubeMap) (position : Vec3) : CubeMap :=
  { cm with cameras := cm.cameras.map fun camera => { camera with center := position } }

/-- The bounds test of `CubeMap::lookup` and `CubeMap::getVisibility` on a projection
whose components were divided by `divisor`: both coordinates in `[0, width)`.  A zero
divisor fails the test, as the IEEE infinities and NaN it produces do. -/
def onFace (camera : PinholeCamera) (divisor : ℚ) (projection : Vec3) : Prop :=
  divisor ≠ 0 ∧ 0 ≤ projection 0 ∧ projection 0 < camera.width ∧
    0 ≤ projection 1 ∧ projection 1 < camera.width

instance (camera : PinholeCamera) (divisor : ℚ) (projection : Vec3) :
    Decidable (onFace camera divisor projection) := by
  unfold onFace; infer_instance

/-- The sampling shared by the two hit branches of `CubeMap::lookup`: face `i` for
positive depth, face `i + 3` with transposed coordinates otherwise. -/
def CubeMap.sample (cm : CubeMap) (i : Nat) (projection : Vec3) : Vec4 :=
  if projection 2 > 0 then (cm.framebuffer i).bilinearLookup (projection 0) (projection 1)
  else (cm.framebuffer (i + 3)).bilinearLookup (projection 1) (projection 0)

/-- The probing loop of `CubeMap::lookup` over the primary cameras still to try. -/
def CubeMap.lookupProbe (cm : CubeMap) (ray : Vec3) : List Nat → Vec4 × CubeMap
  | [] => (black, cm)
  | i :: rest =>
    if i ≠ cm.previousHit ∧
        onFace (cm.camera i) ((cm.camera i).projectDivisor ray) ((cm.camera i).project ray) then
      (cm.sample i ((cm.camera i).project ray), { cm with previousHit := i })
    else cm.lookupProbe ray rest

/-- The member `CubeMap::lookup`: the colour and the cube map with its updated cache. -/
def CubeMap.lookup (cm : CubeMap) (ray : Vec3) : Vec4 × CubeMap :=
  let ray := ray + cm.getPosition
  let projection := (cm.camera cm.previousHit).project ray
  if onFace (cm.camera cm.previousHit) ((cm.camera cm.previousHit).projectDivisor ray)
      projection then
    (cm.sample cm.previousHit projection, cm)
  else cm.lookupProbe ray [0, 1, 2]

/-- The projection `Vec3(p[0], p[1], w) / p[2]` of `CubeMap::getVisibility`. -/
def shadowProjection (camera : PinholeCamera) (w : ℚ) : Vec3 :=
  ![camera.p 0 / camera.p 2, camera.p 1 / camera.p 2, w / camera.p 2]

/-- The comparison shared by the two hit branches of `CubeMap::getVisibility`. -/
def CubeMap.compare (cm : CubeMap) (i : Nat) (projection : Vec3) : ℚ :=
  if projection 2 > 0 then
    (cm.framebuffer i).getBilinearVisibility (projection 0) (projection 1) (projection 2)
  else
    (cm.framebuffer (i + 3)).getBilinearVisibility (projection 1) (projection 0)
      (-projection 2)

/-- The probing loop of `CubeMap::getVisibility`. -/
def CubeMap.visibilityProbe (cm : CubeMap) (w : ℚ) : List Nat → ℚ × CubeMap
  | [] => (0, cm)
  | i :: rest =>
    if i ≠ cm.previousHit ∧
        onFace (cm.camera i) ((cm.camera i).p 2) (shadowProjection (cm.camera i) w) then
      (cm.compare i (shadowProjection (cm.camera i) w), { cm with previousHit := i })
    else cm.visibilityProbe w rest

/-- The member `CubeMap::getVisibility`. -/
def CubeMap.getVisibility (cm : CubeMap) (w : ℚ) : ℚ × CubeMap :=
  let projection := shadowProjection (cm.camera cm.previousHit) w
  if onFace (cm.camera cm.previousHit) ((cm.camera cm.previousHit).p 2) projection then
    (cm.compare cm.previousHit projection, cm)
  else cm.visibilityProbe w [0, 1, 2]

/-- The member `CubeMap::unrollCameras`. -/
def unrollCameras (m : Libm) (cameras : List PinholeCamera) : List PinholeCamera :=
  let cameras := cameras.set 1 ((cameras.getD 1 default).tilt m (m.pi * (1 / 2)))
  let cameras := cameras.set 2 ((cameras.getD 2 default).pan m (m.pi * (1 / 2)))
  let cameras := cameras.set 3 ((cameras.getD 3 default).tilt m m.pi)
  let cameras := cameras.set 3 ((cameras.getD 3 default).roll m (m.pi * (3 / 2)))
  let cameras := cameras.set 4 ((cameras.getD 4 default).tilt m (m.pi * (3 / 2)))
  let cameras := cameras.set 4 ((cameras.getD 4 default).roll m (m.pi * (3 / 2)))
  let cameras := cameras.set 5 ((cameras.getD 5 default).pan m (m.pi * (3 / 2)))
  cameras.set 5 ((cameras.getD 5 default).roll m (m.pi * (1 / 2)))

/-- The constructor `CubeMap(resolution, position)`. -/
def CubeMap.ofResolution (m : Libm) (resolution : Nat) (position : Vec3) : CubeMap where
  cameras := unrollCameras m (List.replicate 6
    (PinholeCamera.mk6 m resolution resolution (m.pi / 2) position ![1, 0, 0] ![0, 1, 0]))
  framebuffers := List.replicate 6 (Framebuffer.ofSize resolution resolution)
  previousHit := 0

/-- The constructor `CubeMap(framebuffers)`. -/
def CubeMap.ofFramebuffers (m : Libm) (framebuffers : List Framebuffer) : CubeMap where
  cameras := unrollCameras m (List.replicate 6
    (PinholeCamera.mk6 m (framebuffers.getD 0 default).width (framebuffers.getD 0 default).width
      (m.pi / 2) 0 ![1, 0, 0] ![0, 1, 0]))
  framebuffers := framebuffers
  previousHit := 0

/-- The back-face test of the three triangle routines: true when the triangle is
rejected. -/
def backFacing (camera : PinholeCamera) (t1 t2 t3 : Vec3) : Prop :=
  0 ≤ dot (t1 - camera.center) (cross (t2 - t1) (t3 - t1))

instance (camera : PinholeCamera) (t1 t2 t3 : Vec3) :
    Decidable (backFacing camera t1 t2 t3) := by
  unfold backFacing; infer_instance

/-- The six fixed-point screen coordinates (4-bit subpixel precision) of a projected
triangle. -/
structure FixedPoint where
  p1x : Int
  p1y : Int
  p2x : Int
  p2y : Int
  p3x : Int
  p3y : Int

/-- The conversion of the projected vertices to fixed point. -/
def toFixed (p1 p2 p3 : Vec3) : FixedPoint where
  p1x := roundToInt (p1 0 * 16)
  p1y := roundToInt (p1 1 * 16)
  p2x := roundToInt (p2 0 * 16)
  p2y := roundToInt (p2 1 * 16)
  p3x := roundToInt (p3 0 * 16)
  p3y := roundToInt (p3 1 * 16)

def FixedPoint.minX (f : FixedPoint) : Int :=
  max ((min (min f.p1x f.p2x) f.p3x + 15) >>> (4 : Nat)) 0

def FixedPoint.minY (f : FixedPoint) : Int :=
  max ((min (min f.p1y f.p2y) f.p3y + 15) >>> (4 : Nat)) 0

def FixedPoint.maxX (f : FixedPoint) (width : Nat) : Int :=
  min ((max (max f.p1x f.p2x) f.p3x + 15) >>> (4 : Nat)) ((width : Int) - 1)

def FixedPoint.maxY (f : FixedPoint) (height : Nat) : Int :=
  min ((max (max f.p1y f.p2y) f.p3y + 15) >>> (4 : Nat)) ((height : Int) - 1)

def FixedPoint.a1 (f : FixedPoint) : Int := f.p1y - f.p2y

def FixedPoint.a2 (f : FixedPoint) : Int := f.p2y - f.p3y

def FixedPoint.a3 (f : FixedPoint) : Int := f.p3y - f.p1y

def FixedPoint.b1 (f : FixedPoint) : Int := f.p2x - f.p1x

def FixedPoint.b2 (f : FixedPoint) : Int := f.p3x - f.p2x

def FixedPoint.b3 (f : FixedPoint) : Int := f.p1x - f.p3x

def FixedPoint.fa1 (f : FixedPoint) : Int := f.a1 <<< (4 : Int)

def FixedPoint.fa2 (f : FixedPoint) : Int := f.a2 <<< (4 : Int)

def FixedPoint.fa3 (f : FixedPoint) : Int := f.a3 <<< (4 : Int)

def FixedPoint.fb1 (f : FixedPoint) : Int := f.b1 <<< (4 : Int)

def FixedPoint.fb2 (f : FixedPoint) : Int := f.b2 <<< (4 : Int)

def FixedPoint.fb3 (f : FixedPoint) : Int := f.b3 <<< (4 : Int)

/-- The coverage test `(v1 | v2 | v3) >= 0` on the three edge values. -/
def coverageTest (v1 v2 v3 : Int) : Prop := 0 ≤ Int.lor (Int.lor v1 v2) v3

instance (v1 v2 v3 : Int) : Decidable (coverageTest v1 v2 v3) := by
  unfold coverageTest; infer_instance

/-- The number of iterations of `for (int i = lo; i <= hi; i++)`. -/
def loopCount (lo hi : Int) : Nat := (hi - lo + 1).toNat

/-- The variables of the inner loop of `Framebuffer::prerenderTriangle`. -/
structure PrePixel where
  x : Int
  v1 : Int
  v2 : Int
  v3 : Int
  z : ℚ
  zBuffer : List ℚ

/-- The variables of the outer loop of `Framebuffer::prerenderTriangle`; `zb` is the
offset of the current scanline in the depth plane. -/
structure PreRow where
  y : Int
  u1 : Int
  u2 : Int
  u3 : Int
  w : ℚ
  zb : Nat
  zBuffer : List ℚ

/-- One iteration of the inner loop of `Framebuffer::prerenderTriangle`. -/
def prerenderPixel (f : FixedPoint) (rc : Vec3) (zb : Nat) (s : PrePixel) : PrePixel where
  x := s.x + 1
  v1 := s.v1 + f.fa2
  v2 := s.v2 + f.fa3
  v3 := s.v3 + f.fa1
  z := s.z + rc 0
  zBuffer :=
    if coverageTest s.v1 s.v2 s.v3 then
      s.zBuffer.set (zb + s.x.toNat) (stdMax (s.zBuffer.getD (zb + s.x.toNat) 0) s.z)
    else s.zBuffer

/-- One iteration of the outer loop of `Framebuffer::prerenderTriangle`: a whole
scanline. -/
def prerenderRow (f : FixedPoint) (rc : Vec3) (width : Nat) (minX maxX : Int)
    (s : PreRow) : PreRow where
  y := s.y + 1
  u1 := s.u1 + f.fb2
  u2 := s.u2 + f.fb3
  u3 := s.u3 + f.fb1
  w := s.w + rc 1
  zb := s.zb + width
  zBuffer :=
    ((prerenderPixel f rc s.zb)^[loopCount minX maxX]
      ⟨minX, s.u1, s.u2, s.u3, s.w, s.zBuffer⟩).zBuffer

/-- The plane coefficients of the reciprocal depth in `prerenderTriangle`. -/
def prerenderRc (p1 p2 p3 : Vec3) : Vec3 :=
  mulVec (inverse ![![p1 0, p1 1, 1], ![p2 0, p2 1, 1], ![p3 0, p3 1, 1]])
    ![p1 2, p2 2, p3 2]

/-- The state of the outer loop of `prerenderTriangle` on entry. -/
def prerenderInit (f : FixedPoint) (rc : Vec3) (width : Nat) (zBuffer : List ℚ) : PreRow where
  y := f.minY
  u1 := f.b2 * ((f.minY <<< (4 : Int)) - f.p2y) + f.a2 * ((f.minX <<< (4 : Int)) - f.p2x)
  u2 := f.b3 * ((f.minY <<< (4 : Int)) - f.p3y) + f.a3 * ((f.minX <<< (4 : Int)) - f.p3x)
  u3 := f.b1 * ((f.minY <<< (4 : Int)) - f.p1y) + f.a1 * ((f.minX <<< (4 : Int)) - f.p1x)
  w := dot rc ![(f.minX : ℚ), (f.minY : ℚ), 1]
  zb := f.minY.toNat * width
  zBuffer := zBuffer

/-- The two early returns shared by the three triangle routines: the back-face test and
the test for a vertex with non-positive reciprocal depth. -/
def rejected (camera : PinholeCamera) (t1 t2 t3 : Vec3) : Prop :=
  backFacing camera t1 t2 t3 ∨
    (camera.project t1 2 ≤ 0 ∨ camera.project t2 2 ≤ 0 ∨ camera.project t3 2 ≤ 0)

instance (camera : PinholeCamera) (t1 t2 t3 : Vec3) :
    Decidable (rejected camera t1 t2 t3) := by
  unfold rejected; infer_instance

/-- The member `Framebuffer::prerenderTriangle`. -/
def Framebuffer.prerenderTriangle (fb : Framebuffer) (camera : PinholeCamera)
    (t1 t2 t3 : Vec3) : Framebuffer :=
  if backFacing camera t1 t2 t3 then fb
  else
    let p1 := camera.project t1
    let p2 := camera.project t2
    let p3 := camera.project t3
    if p1 2 ≤ 0 ∨ p2 2 ≤ 0 ∨ p3 2 ≤ 0 then fb
    else
      let f := toFixed p1 p2 p3
      let rc := prerenderRc p1 p2 p3
      { fb with
        zBuffer :=
          ((prerenderRow f rc fb.width f.minX (f.maxX fb.width))^[loopCount f.minY
            (f.maxY fb.height)] (prerenderInit f rc fb.width fb.zBuffer)).zBuffer }

/-- The struct `Material`. -/
structure Material where
  kA : ℚ
  kT : ℚ
  kE : Nat
  kM : ℚ
  kX : ℚ
  kR : ℚ
  kF : ℚ

/-- The struct `DirectionalLight`. -/
structure DirectionalLight where
  direction : Vec3
  strength : ℚ
  specularStrength : ℚ
  specularColor : Vec3

/-- The class `PointLight`. -/
structure PointLight where
  position : Vec3
  strength : ℚ
  specularStrength : ℚ
  specularColor : Vec3
  shadowMap : CubeMap

/-- The member `PointLight::setPosition`. -/
def PointLight.setPosition (pointLight : PointLight) (position : Vec3) : PointLight :=
  { pointLight with
    position := position
    shadowMap := pointLight.shadowMap.setPosition position }

/-- The diffuse term one directional light adds to `kD`. -/
def directionalDiffuse (normal : Vec3) (l : DirectionalLight) : ℚ :=
  stdMax 0 (dot l.direction normal * l.strength)

/-- The specular term one directional light adds to `kS`. -/
def directionalSpecular (reflectedRay : Vec3) (material : Material) (l : DirectionalLight) :
    Vec3 :=
  (power (stdMax 0 (dot reflectedRay l.direction)) material.kE * l.specularStrength *
    material.kT) • l.specularColor

/-- The loop over the point lights in the first branch of `light` (no specular term):
the accumulated `kD` and the lights with their updated shadow-map caches. -/
def diffusePointLights (m : Libm) (normal surfacePoint : Vec3) (w : ℚ) :
    ℚ → List PointLight → ℚ × List PointLight
  | kD, [] => (kD, [])
  | kD, pointLight :: rest =>
    let visibility := pointLight.shadowMap.getVisibility w
    let direction := pointLight.position - surfacePoint
    let distance := norm m direction
    let next := diffusePointLights m normal surfacePoint w
      (if visibility.1 ≠ 0 then
        kD + visibility.1 * stdMax 0 (dot direction normal * pointLight.strength /
          (distance * distance * distance))
      else kD) rest
    (next.1, { pointLight with shadowMap := visibility.2 } :: next.2)

/-- The specular term one visible point light adds to `kS`. -/
def pointSpecular (m : Libm) (reflectedRay surfacePoint : Vec3) (material : Material)
    (visibility : ℚ) (pointLight : PointLight) : Vec3 :=
  let direction := pointLight.position - surfacePoint
  let distance := norm m direction
  (visibility * power (stdMax 0 (dot reflectedRay (unit m direction))) material.kE *
    pointLight.specularStrength * material.kT / distance) • pointLight.specularColor

/-- The loop over the point lights in the second branch of `light` (pure mirror). -/
def specularPointLights (m : Libm) (reflectedRay surfacePoint : Vec3) (w : ℚ)
    (material : Material) : Vec3 → List PointLight → Vec3 × List PointLight
  | kS, [] => (kS, [])
  | kS, pointLight :: rest =>
    let visibility := pointLight.shadowMap.getVisibility w
    let next := specularPointLights m reflectedRay surfacePoint w material
      (if visibility.1 ≠ 0 then
        kS + pointSpecular m reflectedRay surfacePoint material visibility.1 pointLight
      else kS) rest
    (next.1, { pointLight with shadowMap := visibility.2 } :: next.2)

/-- The loop over the point lights in the third branch of `light` (diffuse and
specular). -/
def mixedPointLights (m : Libm) (normal reflectedRay surfacePoint : Vec3) (w : ℚ)
    (material : Material) : ℚ × Vec3 → List PointLight → (ℚ × Vec3) × List PointLight
  | acc, [] => (acc, [])
  | acc, pointLight :: rest =>
    let visibility := pointLight.shadowMap.getVisibility w
    let direction := pointLight.position - surfacePoint
    let distance := norm m direction
    let next := mixedPointLights m normal reflectedRay surfacePoint w material
      (if visibility.1 ≠ 0 then
        (acc.1 + visibility.1 * stdMax 0 (dot (unit m direction) normal * pointLight.strength /
            (distance * distance)),
          acc.2 + pointSpecular m reflectedRay surfacePoint material visibility.1 pointLight)
      else acc) rest
    (next.1, { pointLight with shadowMap := visibility.2 } :: next.2)

/-- The saturating curve applied to `kD`. -/
def compress (material : Material) (kD : ℚ) : ℚ := 1 - 1 / (material.kM * kD + material.kX)

/-- The first part of `light`: the factors `kD` and `kS` accumulated over the lights in
the branch the material selects, and the point lights with updated caches. -/
def accumulate (m : Libm) (normal reflectedRay surfacePoint : Vec3)
    (directionalLights : List DirectionalLight) (pointLights : List PointLight) (w : ℚ)
    (material : Material) : (ℚ × Vec3) × List PointLight :=
  if material.kT = 0 ∧ material.kR ≠ 1 then
    let r := diffusePointLights m normal surfacePoint w
      (directionalLights.foldl (fun kD l => kD + directionalDiffuse normal l) material.kA)
      pointLights
    ((compress material r.1, 0), r.2)
  else if material.kR = 1 then
    let r := specularPointLights m reflectedRay surfacePoint w material
      (directionalLights.foldl (fun kS l => kS + directionalSpecular reflectedRay material l) 0)
      pointLights
    ((material.kA, r.1), r.2)
  else
    let r := mixedPointLights m normal reflectedRay surfacePoint w material
      (directionalLights.foldl
        (fun acc l => (acc.1 + directionalDiffuse normal l,
          acc.2 + directionalSpecular reflectedRay material l)) (material.kA, 0))
      pointLights
    ((compress material r.1.1, r.1.2), r.2)

/-- The rescaling at the end of `light`: divide by the largest channel when it exceeds
one. -/
def clampColor (result : Vec3) : Vec3 :=
  if max3 result > 1 then fun i => result i / max3 result else result

/-- The shaded colour `result` of `light`, before the final multiplication by the
surface alpha, with the point lights and the bound environment map as `light` leaves
them.  The global `reflectionMap` is an argument; `none` is the null pointer. -/
def shade (m : Libm) (reflectionMap : Option CubeMap) (color : Vec4)
    (normal surfacePoint cameraPosition : Vec3) (directionalLights : List DirectionalLight)
    (pointLights : List PointLight) (w : ℚ) (material : Material) :
    Vec3 × List PointLight × Option CubeMap :=
  let ray := unit m (cameraPosition - surfacePoint)
  let reflectedRay := (2 : ℚ) • projectOnto m ray normal - ray
  let acc := accumulate m normal reflectedRay surfacePoint directionalLights pointLights w
    material
  let kD := acc.1.1
  let kS := acc.1.2
  let subcolor : Vec3 := ![color 0, color 1, color 2]
  match reflectionMap with
  | none => (clampColor (kS + kD • subcolor), acc.2, none)
  | some environment =>
    if material.kR = 0 then (clampColor (kS + kD • subcolor), acc.2, some environment)
    else
      let kU := material.kR - material.kF * dot ray normal
      let looked := environment.lookup reflectedRay
      (clampColor (kS + (((1 - kU) * kD) • subcolor +
          kU • ![looked.1 0, looked.1 1, looked.1 2])),
        acc.2, some looked.2)

/-- The function `light`: the colour `Vec4(result, 1) * color.a()`. -/
def light (m : Libm) (reflectionMap : Option CubeMap) (color : Vec4)
    (normal surfacePoint cameraPosition : Vec3) (directionalLights : List DirectionalLight)
    (pointLights : List PointLight) (w : ℚ) (material : Material) :
    Vec4 × List PointLight × Option CubeMap :=
  let s := shade m reflectionMap color normal surfacePoint cameraPosition directionalLights
    pointLights w material
  (fun i => (![s.1 0, s.1 1, s.1 2, 1] : Vec4) i * color 3, s.2)

/-- Applies `g` to the three primary cameras `cameras[0..2]` of the shadow map of a
point light: the body of `for (std::size_t i = 0; i < 3; i++)`. -/
def onPrimaryCameras (g : PinholeCamera → PinholeCamera) (pointLight : PointLight) :
    PointLight :=
  { pointLight with
    shadowMap :=
      { pointLight.shadowMap with
        cameras := (pointLight.shadowMap.cameras.take 3).map g ++
          pointLight.shadowMap.cameras.drop 3 } }

/-- The shadow-coordinate setup of `renderTriangle` for one shadow camera `sh`: `sp` is
computed from `sc` before the plane coefficients are added to `sc`. -/
def shadowSetup (camera : PinholeCamera) (lv : Vec3) (q0 rc00 rc10 : ℚ)
    (sh : PinholeCamera) : PinholeCamera :=
  let cm1 := transpose ![camera.a, camera.b, camera.c]
  let sf := mulVec sh.projectionMatrix (camera.center - sh.center)
  let sc := mul sh.projectionMatrix cm1
  { sh with
    sc := ![![sc 0 0 + rc00 * sf 0, sc 0 1 + rc10 * sf 0, sc 0 2],
            ![sc 1 0 + rc00 * sf 1, sc 1 1 + rc10 * sf 1, sc 1 2],
            ![sc 2 0 + rc00 * sf 2, sc 2 1 + rc10 * sf 2, sc 2 2]]
    sp := q0 • sf + mulVec sc lv }

/-- The assignment `cameras[i].p = cameras[i].sp` at the start of a scanline. -/
def shadowRowStart (sh : PinholeCamera) : PinholeCamera := { sh with p := sh.sp }

/-- The update `cameras[i].p += cameras[i].sc.getColumn(0)` after a pixel. -/
def shadowPixelAdvance (sh : PinholeCamera) : PinholeCamera :=
  { sh with p := sh.p + getColumn sh.sc 0 }

/-- The update `cameras[i].sp += cameras[i].sc.getColumn(1)` after a scanline. -/
def shadowRowAdvance (sh : PinholeCamera) : PinholeCamera :=
  { sh with sp := sh.sp + getColumn sh.sc 1 }

/-- The compositing assignment `cb[x] = color + (1.0f - color.a()) * cb[x]`. -/
def composite (color existing : Vec4) : Vec4 := color + (1 - color 3) • existing

/-- The variables of the inner loop of the vertex-coloured `renderTriangle`. -/
structure ShadePixel where
  x : Int
  v1 : Int
  v2 : Int
  v3 : Int
  p : Vector 8
  pointLights : List PointLight
  reflectionMap : Option CubeMap
  buffer : List Vec4

/-- The variables of the outer loop of the vertex-coloured `renderTriangle`; `cb` and
`zb` are the offsets of the current scanline in the two planes. -/
structure ShadeRow where
  y : Int
  u1 : Int
  u2 : Int
  u3 : Int
  q : Vector 8
  cb : Nat
  zb : Nat
  pointLights : List PointLight
  reflectionMap : Option CubeMap
  buffer : List Vec4

/-- The guard of the shading statement: coverage and the depth gate `p[0] >= zb[x]`. -/
def shadeGate (zBuffer : List ℚ) (zb : Nat) (x v1 v2 v3 : Int) (p0 : ℚ) : Prop :=
  coverageTest v1 v2 v3 ∧ p0 ≥ zBuffer.getD (zb + x.toNat) 0

instance (zBuffer : List ℚ) (zb : Nat) (x v1 v2 v3 : Int) (p0 : ℚ) :
    Decidable (shadeGate zBuffer zb x v1 v2 v3 p0) := by
  unfold shadeGate; infer_instance

/-- The call of `light` at a pixel of the vertex-coloured `renderTriangle`. -/
def shadePixelLight (m : Libm) (camera : PinholeCamera)
    (directionalLights : List DirectionalLight) (material : Material) (y : Int)
    (s : ShadePixel) : Vec4 × List PointLight × Option CubeMap :=
  light m s.reflectionMap ![s.p 1, s.p 2, s.p 3, s.p 4] (unit m ![s.p 5, s.p 6, s.p 7])
    (camera.unproject ![(s.x : ℚ), (y : ℚ), s.p 0]) camera.center directionalLights
    s.pointLights (s.p 0) material

/-- One iteration of the inner loop of the vertex-coloured `renderTriangle`. -/
def shadePixel (m : Libm) (camera : PinholeCamera) (f : FixedPoint) (rc : Matrix 3 8)
    (directionalLights : List DirectionalLight) (material : Material) (zBuffer : List ℚ)
    (cb zb : Nat) (y : Int) (s : ShadePixel) : ShadePixel :=
  let hit := shadeGate zBuffer zb s.x s.v1 s.v2 s.v3 (s.p 0)
  let lit := shadePixelLight m camera directionalLights material y s
  { x := s.x + 1
    v1 := s.v1 + f.fa2
    v2 := s.v2 + f.fa3
    v3 := s.v3 + f.fa1
    p := s.p + rc 0
    pointLights :=
      (if hit then lit.2.1 else s.pointLights).map (onPrimaryCameras shadowPixelAdvance)
    reflectionMap := if hit then lit.2.2 else s.reflectionMap
    buffer :=
      if hit then
        s.buffer.set (cb + s.x.toNat) (composite lit.1 (s.buffer.getD (cb + s.x.toNat) 0))
      else s.buffer }

/-- The state of the inner loop of the vertex-coloured `renderTriangle` on entry to a
scanline. -/
def shadeRowStart (minX : Int) (s : ShadeRow) : ShadePixel where
  x := minX
  v1 := s.u1
  v2 := s.u2
  v3 := s.u3
  p := s.q
  pointLights := s.pointLights.map (onPrimaryCameras shadowRowStart)
  reflectionMap := s.reflectionMap
  buffer := s.buffer

/-- One iteration of the outer loop of the vertex-coloured `renderTriangle`. -/
def shadeRow (m : Libm) (camera : PinholeCamera) (f : FixedPoint) (rc : Matrix 3 8)
    (directionalLights : List DirectionalLight) (material : Material) (zBuffer : List ℚ)
    (width : Nat) (minX maxX : Int) (s : ShadeRow) : ShadeRow :=
  let inner := (shadePixel m camera f rc directionalLights material zBuffer s.cb s.zb s.y)^[
    loopCount minX maxX] (shadeRowStart minX s)
  { y := s.y + 1
    u1 := s.u1 + f.fb2
    u2 := s.u2 + f.fb3
    u3 := s.u3 + f.fb1
    q := s.q + rc 1
    cb := s.cb + width
    zb := s.zb + width
    pointLights := inner.pointLights.map (onPrimaryCameras shadowRowAdvance)
    reflectionMap := inner.reflectionMap
    buffer := inner.buffer }

/-- The plane coefficients `rc` of the vertex-coloured `renderTriangle`: one column per
attribute (reciprocal depth, colour, normal). -/
def shadeRc (p1 p2 p3 : Vec3) (c1 c2 c3 : Vec4) (n1 n2 n3 : Vec3) : Matrix 3 8 :=
  mul (inverse ![![p1 0, p1 1, 1], ![p2 0, p2 1, 1], ![p3 0, p3 1, 1]])
    ![![p1 2, c1 0, c1 1, c1 2, c1 3, n1 0, n1 1, n1 2],
      ![p2 2, c2 0, c2 1, c2 2, c2 3, n2 0, n2 1, n2 2],
      ![p3 2, c3 0, c3 1, c3 2, c3 3, n3 0, n3 1, n3 2]]

/-- The edge values `u1`, `u2`, `u3` of `renderTriangle` at the first pixel of the scan
box. -/
def renderEdges (f : FixedPoint) : Int × Int × Int :=
  ((f.p3x - f.p2x) * ((f.minY <<< (4 : Int)) - f.p2y) -
      (f.p3y - f.p2y) * ((f.minX <<< (4 : Int)) - f.p2x),
    (f.p1x - f.p3x) * ((f.minY <<< (4 : Int)) - f.p3y) -
      (f.p1y - f.p3y) * ((f.minX <<< (4 : Int)) - f.p3x),
    (f.p2x - f.p1x) * ((f.minY <<< (4 : Int)) - f.p1y) -
      (f.p2y - f.p1y) * ((f.minX <<< (4 : Int)) - f.p1x))

/-- The state of the outer loop of the vertex-coloured `renderTriangle` on entry, after
the shadow-coordinate setup of every point light. -/
def shadeInit (camera : PinholeCamera) (f : FixedPoint) (rc : Matrix 3 8) (width : Nat)
    (pointLights : List PointLight) (reflectionMap : Option CubeMap) (buffer : List Vec4) :
    ShadeRow :=
  let lv : Vec3 := ![(f.minX : ℚ), (f.minY : ℚ), 1]
  let q := vecMul lv rc
  { y := f.minY
    u1 := (renderEdges f).1
    u2 := (renderEdges f).2.1
    u3 := (renderEdges f).2.2
    q := q
    cb := f.minY.toNat * width
    zb := f.minY.toNat * width
    pointLights :=
      pointLights.map (onPrimaryCameras (shadowSetup camera lv (q 0) (rc 0 0) (rc 1 0)))
    reflectionMap := reflectionMap
    buffer := buffer }

/-- The result of a `renderTriangle` call: the framebuffer, the point lights (whose
shadow cameras carry scratch fields and caches) and the bound environment map. -/
structure Rendered where
  framebuffer : Framebuffer
  pointLights : List PointLight
  reflectionMap : Option CubeMap

/-- The vertex-coloured overload of `Framebuffer::renderTriangle`. -/
def Framebuffer.renderTriangle (m : Libm) (fb : Framebuffer) (camera : PinholeCamera)
    (t1 t2 t3 : Vec3) (c1 c2 c3 : Vec4) (n1 n2 n3 : Vec3)
    (directionalLights : List DirectionalLight) (pointLights : List PointLight)
    (reflectionMap : Option CubeMap) (material : Material) : Rendered :=
  if backFacing camera t1 t2 t3 then ⟨fb, pointLights, reflectionMap⟩
  else
    let p1 := camera.project t1
    let p2 := camera.project t2
    let p3 := camera.project t3
    if p1 2 ≤ 0 ∨ p2 2 ≤ 0 ∨ p3 2 ≤ 0 then ⟨fb, pointLights, reflectionMap⟩
    else
      let f := toFixed p1 p2 p3
      let rc := shadeRc p1 p2 p3 c1 c2 c3 n1 n2 n3
      let final := (shadeRow m camera f rc directionalLights material fb.zBuffer fb.width
        f.minX (f.maxX fb.width))^[loopCount f.minY (f.maxY fb.height)]
        (shadeInit camera f rc fb.width pointLights reflectionMap fb.buffer)
      ⟨{ fb with buffer := final.buffer }, final.pointLights, final.reflectionMap⟩

/-- The variables of the inner loop of the textured `renderTriangle`. -/
structure TexturePixel where
  x : Int
  v1 : Int
  v2 : Int
  v3 : Int
  p : Vector 4
  dx : ℚ
  dy : ℚ
  n : ℚ
  pointLights : List PointLight
  reflectionMap : Option CubeMap
  buffer : List Vec4

/-- The variables of the outer loop of the textured `renderTriangle`. -/
structure TextureRow where
  y : Int
  u1 : Int
  u2 : Int
  u3 : Int
  q : Vector 4
  rdx : ℚ
  rdy : ℚ
  rn : ℚ
  cb : Nat
  zb : Nat
  pointLights : List PointLight
  reflectionMap : Option CubeMap
  buffer : List Vec4

/-- The wrap of an unwrapped texture coordinate `t` into the unit interval:
`static_cast<int>(floor(t)) % 2 ? 1 + floor(t) - t : t - floor(t)`. -/
def wrapCoordinate (t : ℚ) : ℚ :=
  if Int.tmod ⌊t⌋ 2 ≠ 0 then 1 + (⌊t⌋ : ℚ) - t else t - (⌊t⌋ : ℚ)

/-- The texel coordinates computed at a pixel of the textured `renderTriangle`. -/
def textureCoordinates (texture : Framebuffer) (dx dy n : ℚ) : ℚ × ℚ :=
  (wrapCoordinate (dx / n) * ((texture.width - 1 : Nat) : ℚ),
    wrapCoordinate (dy / n) * ((texture.height - 1 : Nat) : ℚ))

/-- The call of `light` at a pixel of the textured `renderTriangle`. -/
def texturePixelLight (m : Libm) (camera : PinholeCamera) (texture : Framebuffer)
    (directionalLights : List DirectionalLight) (material : Material) (y : Int)
    (s : TexturePixel) : Vec4 × List PointLight × Option CubeMap :=
  light m s.reflectionMap
    (texture.bilinearLookup (textureCoordinates texture s.dx s.dy s.n).1
      (textureCoordinates texture s.dx s.dy s.n).2)
    (unit m ![s.p 1, s.p 2, s.p 3])
    (camera.unproject ![(s.x : ℚ), (y : ℚ), s.p 0]) camera.center directionalLights
    s.pointLights (s.p 0) material

/-- One iteration of the inner loop of the textured `renderTriangle`. -/
def texturePixel (m : Libm) (camera : PinholeCamera) (texture : Framebuffer) (f : FixedPoint)
    (rc : Matrix 3 4) (dc : Matrix 3 2) (nc : Vec3)
    (directionalLights : List DirectionalLight) (material : Material) (zBuffer : List ℚ)
    (cb zb : Nat) (y : Int) (s : TexturePixel) : TexturePixel :=
  let hit := shadeGate zBuffer zb s.x s.v1 s.v2 s.v3 (s.p 0)
  let lit := texturePixelLight m camera texture directionalLights material y s
  { x := s.x + 1
    v1 := s.v1 + f.fa2
    v2 := s.v2 + f.fa3
    v3 := s.v3 + f.fa1
    p := s.p + rc 0
    dx := s.dx + dc 0 0
    dy := s.dy + dc 0 1
    n := s.n + nc 0
    pointLights :=
      (if hit then lit.2.1 else s.pointLights).map (onPrimaryCameras shadowPixelAdvance)
    reflectionMap := if hit then lit.2.2 else s.reflectionMap
    buffer :=
      if hit then
        s.buffer.set (cb + s.x.toNat) (composite lit.1 (s.buffer.getD (cb + s.x.toNat) 0))
      else s.buffer }

/-- The state of the inner loop of the textured `renderTriangle` on entry to a
scanline. -/
def textureRowStart (minX : Int) (s : TextureRow) : TexturePixel where
  x := minX
  v1 := s.u1
  v2 := s.u2
  v3 := s.u3
  p := s.q
  dx := s.rdx
  dy := s.rdy
  n := s.rn
  pointLights := s.pointLights.map (onPrimaryCameras shadowRowStart)
  reflectionMap := s.reflectionMap
  buffer := s.buffer

/-- One iteration of the outer loop of the textured `renderTriangle`. -/
def textureRow (m : Libm) (camera : PinholeCamera) (texture : Framebuffer) (f : FixedPoint)
    (rc : Matrix 3 4) (dc : Matrix 3 2) (nc : Vec3)
    (directionalLights : List DirectionalLight) (material : Material) (zBuffer : List ℚ)
    (width : Nat) (minX maxX : Int) (s : TextureRow) : TextureRow :=
  let inner := (texturePixel m camera texture f rc dc nc directionalLights material zBuffer
    s.cb s.zb s.y)^[loopCount minX maxX] (textureRowStart minX s)
  { y := s.y + 1
    u1 := s.u1 + f.fb2
    u2 := s.u2 + f.fb3
    u3 := s.u3 + f.fb1
    q := s.q + rc 1
    rdx := s.rdx + dc 1 0
    rdy := s.rdy + dc 1 1
    rn := s.rn + nc 1
    cb := s.cb + width
    zb := s.zb + width
    pointLights := inner.pointLights.map (onPrimaryCameras shadowRowAdvance)
    reflectionMap := inner.reflectionMap
    buffer := inner.buffer }

/-- The plane coefficients `rc` of the textured `renderTriangle`: reciprocal depth and
normal. -/
def textureRc (p1 p2 p3 : Vec3) (n1 n2 n3 : Vec3) : Matrix 3 4 :=
  mul (inverse ![![p1 0, p1 1, 1], ![p2 0, p2 1, 1], ![p3 0, p3 1, 1]])
    ![![p1 2, n1 0, n1 1, n1 2],
      ![p2 2, n2 0, n2 1, n2 2],
      ![p3 2, n3 0, n3 1, n3 2]]

/-- The matrix `tc` of the textured `renderTriangle`: the camera basis times the inverse
of the matrix of the vertices relative to the camera centre. -/
def textureTc (camera : PinholeCamera) (t1 t2 t3 : Vec3) : Mat3 :=
  mul ![camera.a, camera.b, camera.c]
    (inverse ![t1 - camera.center, t2 - camera.center, t3 - camera.center])

/-- The matrix `dc` of the textured `renderTriangle`. -/
def textureDc (camera : PinholeCamera) (t1 t2 t3 : Vec3) (r1 r2 r3 : Vec2) : Matrix 3 2 :=
  mul (textureTc camera t1 t2 t3) ![r1, r2, r3]

/-- The vector `nc` of the textured `renderTriangle`. -/
def textureNc (camera : PinholeCamera) (t1 t2 t3 : Vec3) : Vec3 :=
  ![sum (textureTc camera t1 t2 t3 0), sum (textureTc camera t1 t2 t3 1),
    sum (textureTc camera t1 t2 t3 2)]

/-- The state of the outer loop of the textured `renderTriangle` on entry. -/
def textureInit (camera : PinholeCamera) (f : FixedPoint) (rc : Matrix 3 4) (dc : Matrix 3 2)
    (nc : Vec3) (width : Nat) (pointLights : List PointLight)
    (reflectionMap : Option CubeMap) (buffer : List Vec4) : TextureRow :=
  let lv : Vec3 := ![(f.minX : ℚ), (f.minY : ℚ), 1]
  let q := vecMul lv rc
  { y := f.minY
    u1 := (renderEdges f).1
    u2 := (renderEdges f).2.1
    u3 := (renderEdges f).2.2
    q := q
    rdx := dot (getColumn dc 0) lv
    rdy := dot (getColumn dc 1) lv
    rn := dot nc lv
    cb := f.minY.toNat * width
    zb := f.minY.toNat * width
    pointLights :=
      pointLights.map (onPrimaryCameras (shadowSetup camera lv (q 0) (rc 0 0) (rc 1 0)))
    reflectionMap := reflectionMap
    buffer := buffer }

/-- The textured overload of `Framebuffer::renderTriangle`. -/
def Framebuffer.renderTexturedTriangle (m : Libm) (fb : Framebuffer) (camera : PinholeCamera)
    (texture : Framebuffer) (t1 t2 t3 : Vec3) (r1 r2 r3 : Vec2) (n1 n2 n3 : Vec3)
    (directionalLights : List DirectionalLight) (pointLights : List PointLight)
    (reflectionMap : Option CubeMap) (material : Material) : Rendered :=
  if backFacing camera t1 t2 t3 then ⟨fb, pointLights, reflectionMap⟩
  else
    let p1 := camera.project t1
    let p2 := camera.project t2
    let p3 := camera.project t3
    if p1 2 ≤ 0 ∨ p2 2 ≤ 0 ∨ p3 2 ≤ 0 then ⟨fb, pointLights, reflectionMap⟩
    else
      let f := toFixed p1 p2 p3
      let rc := textureRc p1 p2 p3 n1 n2 n3
      let dc := textureDc camera t1 t2 t3 r1 r2 r3
      let nc := textureNc camera t1 t2 t3
      let final := (textureRow m camera texture f rc dc nc directionalLights material
        fb.zBuffer fb.width f.minX (f.maxX fb.width))^[loopCount f.minY (f.maxY fb.height)]
        (textureInit camera f rc dc nc fb.width pointLights reflectionMap fb.buffer)
      ⟨{ fb with buffer := final.buffer }, final.pointLights, final.reflectionMap⟩

/-- A sequence of `prerenderTriangle` calls with one camera, in list order. -/
def prerenderAll (fb : Framebuffer) (camera : PinholeCamera) (triangles : List (Vec3 × Vec3 × Vec3)) :
    Framebuffer :=
  triangles.foldl (fun acc t => acc.prerenderTriangle camera t.1 t.2.1 t.2.2) fb

end graphics

namespace graphics

open math

/-- The value an `int` holds when the mathematical result of an operation is `x`: the
representative of `x` modulo `2^32` in `[-2^31, 2^31)`, 32-bit two's complement. -/
@[irreducible]
def int32 (x : Int) : Int := (x + 2147483648) % 4294967296 - 2147483648

/-- The sum `a + b` of two `int`s. -/
def add32 (a b : Int) : Int := int32 (a + b)

/-- The difference `a - b` of two `int`s. -/
def sub32 (a b : Int) : Int := int32 (a - b)

/-- The product `a * b` of two `int`s. -/
def mul32 (a b : Int) : Int := int32 (a * b)

/-- The shift `a << 4` of an `int`. -/
def shl32 (a : Int) : Int := int32 (a <<< (4 : Int))

/-- The conversion `static_cast<int>` of a float that holds the integer `v`: `v` itself
when an `int` can hold it.  Outside that range the conversion is undefined in the source
language; the value is then the one the conversion instruction of x86-64 delivers,
`INT_MIN`. -/
def castInt (v : Int) : Int :=
  if -2147483648 ≤ v ∧ v < 2147483648 then v else -2147483648

/-- The conversion `static_cast<int>` of a `std::size_t`: the value modulo `2^32`, read as
32-bit two's complement. -/
def castSize (n : Nat) : Int :=
  if n % 4294967296 < 2147483648 then ((n % 4294967296 : Nat) : Int)
  else ((n % 4294967296 : Nat) : Int) - 4294967296

/-- The conversion of the projected vertices to fixed point, in 32-bit `int`s. -/
def toFixed32 (p1 p2 p3 : Vec3) : FixedPoint where
  p1x := castInt (roundToInt (p1 0 * 16))
  p1y := castInt (roundToInt (p1 1 * 16))
  p2x := castInt (roundToInt (p2 0 * 16))
  p2y := castInt (roundToInt (p2 1 * 16))
  p3x := castInt (roundToInt (p3 0 * 16))
  p3y := castInt (roundToInt (p3 1 * 16))

def FixedPoint.minX32 (f : FixedPoint) : Int :=
  max (add32 (min (min f.p1x f.p2x) f.p3x) 15 >>> (4 : Nat)) 0

def FixedPoint.minY32 (f : FixedPoint) : Int :=
  max (add32 (min (min f.p1y f.p2y) f.p3y) 15 >>> (4 : Nat)) 0

def FixedPoint.maxX32 (f : FixedPoint) (width : Nat) : Int :=
  min (add32 (max (max f.p1x f.p2x) f.p3x) 15 >>> (4 : Nat)) (sub32 (castSize width) 1)

def FixedPoint.maxY32 (f : FixedPoint) (height : Nat) : Int :=
  min (add32 (max (max f.p1y f.p2y) f.p3y) 15 >>> (4 : Nat)) (sub32 (castSize height) 1)

def FixedPoint.a1_32 (f : FixedPoint) : Int := sub32 f.p1y f.p2y

def FixedPoint.a2_32 (f : FixedPoint) : Int := sub32 f.p2y f.p3y

def FixedPoint.a3_32 (f : FixedPoint) : Int := sub32 f.p3y f.p1y

def FixedPoint.b1_32 (f : FixedPoint) : Int := sub32 f.p2x f.p1x

def FixedPoint.b2_32 (f : FixedPoint) : Int := sub32 f.p3x f.p2x

def FixedPoint.b3_32 (f : FixedPoint) : Int := sub32 f.p1x f.p3x

def FixedPoint.fa1_32 (f : FixedPoint) : Int := shl32 f.a1_32

def FixedPoint.fa2_32 (f : FixedPoint) : Int := shl32 f.a2_32

def FixedPoint.fa3_32 (f : FixedPoint) : Int := shl32 f.a3_32

def FixedPoint.fb1_32 (f : FixedPoint) : Int := shl32 f.b1_32

def FixedPoint.fb2_32 (f : FixedPoint) : Int := shl32 f.b2_32

def FixedPoint.fb3_32 (f : FixedPoint) : Int := shl32 f.b3_32

/-- One iteration of the inner loop of `Framebuffer::prerenderTriangle`, in 32-bit
`int`s.  The counter `x` stays below `2^27`, the bound of the scan box, and is not
wrapped. -/
def prerenderPixel32 (f : FixedPoint) (rc : Vec3) (zb : Nat) (s : PrePixel) : PrePixel where
  x := s.x + 1
  v1 := add32 s.v1 f.fa2_32
  v2 := add32 s.v2 f.fa3_32
  v3 := add32 s.v3 f.fa1_32
  z := s.z + rc 0
  zBuffer :=
    if coverageTest s.v1 s.v2 s.v3 then
      s.zBuffer.set (zb + s.x.toNat) (stdMax (s.zBuffer.getD (zb + s.x.toNat) 0) s.z)
    else s.zBuffer

/-- One iteration of the outer loop of `Framebuffer::prerenderTriangle`, in 32-bit
`int`s: a whole scanline. -/
def prerenderRow32 (f : FixedPoint) (rc : Vec3) (width : Nat) (minX maxX : Int)
    (s : PreRow) : PreRow where
  y := s.y + 1
  u1 := add32 s.u1 f.fb2_32
  u2 := add32 s.u2 f.fb3_32
  u3 := add32 s.u3 f.fb1_32
  w := s.w + rc 1
  zb := s.zb + width
  zBuffer :=
    ((prerenderPixel32 f rc s.zb)^[loopCount minX maxX]
      ⟨minX, s.u1, s.u2, s.u3, s.w, s.zBuffer⟩).zBuffer

/-- The state of the outer loop of `prerenderTriangle` on entry, in 32-bit `int`s. -/
def prerenderInit32 (f : FixedPoint) (rc : Vec3) (width : Nat) (zBuffer : List ℚ) :
    PreRow where
  y := f.minY32
  u1 := add32 (mul32 f.b2_32 (sub32 (shl32 f.minY32) f.p2y))
    (mul32 f.a2_32 (sub32 (shl32 f.minX32) f.p2x))
  u2 := add32 (mul32 f.b3_32 (sub32 (shl32 f.minY32) f.p3y))
    (mul32 f.a3_32 (sub32 (shl32 f.minX32) f.p3x))
  u3 := add32 (mul32 f.b1_32 (sub32 (shl32 f.minY32) f.p1y))
    (mul32 f.a1_32 (sub32 (shl32 f.minX32) f.p1x))
  w := dot rc ![(f.minX32 : ℚ), (f.minY32 : ℚ), 1]
  zb := f.minY32.toNat * width
  zBuffer := zBuffer

/-- The member `Framebuffer::prerenderTriangle`, in 32-bit `int`s. -/
def Framebuffer.prerenderTriangle32 (fb : Framebuffer) (camera : PinholeCamera)
    (t1 t2 t3 : Vec3) : Framebuffer :=
  if backFacing camera t1 t2 t3 then fb
  else
    let p1 := camera.project t1
    let p2 := camera.project t2
    let p3 := camera.project t3
    if p1 2 ≤ 0 ∨ p2 2 ≤ 0 ∨ p3 2 ≤ 0 then fb
    else
      let f := toFixed32 p1 p2 p3
      let rc := prerenderRc p1 p2 p3
      { fb with
        zBuffer :=
          ((prerenderRow32 f rc fb.width f.minX32 (f.maxX32 fb.width))^[loopCount f.minY32
            (f.maxY32 fb.height)] (prerenderInit32 f rc fb.width fb.zBuffer)).zBuffer }

/-- One iteration of the inner loop of the vertex-coloured `renderTriangle`, in 32-bit
`int`s. -/
def shadePixel32 (m : Libm) (camera : PinholeCamera) (f : FixedPoint) (rc : Matrix 3 8)
    (directionalLights : List DirectionalLight) (material : Material) (zBuffer : List ℚ)
    (cb zb : Nat) (y : Int) (s : ShadePixel) : ShadePixel :=
  let hit := shadeGate zBuffer zb s.x s.v1 s.v2 s.v3 (s.p 0)
  let lit := shadePixelLight m camera directionalLights material y s
  { x := s.x + 1
    v1 := add32 s.v1 f.fa2_32
    v2 := add32 s.v2 f.fa3_32
    v3 := add32 s.v3 f.fa1_32
    p := s.p + rc 0
    pointLights :=
      (if hit then lit.2.1 else s.pointLights).map (onPrimaryCameras shadowPixelAdvance)
    reflectionMap := if hit then lit.2.2 else s.reflectionMap
    buffer :=
      if hit then
        s.buffer.set (cb + s.x.toNat) (composite lit.1 (s.buffer.getD (cb + s.x.toNat) 0))
      else s.buffer }

/-- One iteration of the outer loop of the vertex-coloured `renderTriangle`, in 32-bit
`int`s. -/
def shadeRow32 (m : Libm) (camera : PinholeCamera) (f : FixedPoint) (rc : Matrix 3 8)
    (directionalLights : List DirectionalLight) (material : Material) (zBuffer : List ℚ)
    (width : Nat) (minX maxX : Int) (s : ShadeRow) : ShadeRow :=
  let inner := (shadePixel32 m camera f rc directionalLights material zBuffer s.cb s.zb
    s.y)^[loopCount minX maxX] (shadeRowStart minX s)
  { y := s.y + 1
    u1 := add32 s.u1 f.fb2_32
    u2 := add32 s.u2 f.fb3_32
    u3 := add32 s.u3 f.fb1_32
    q := s.q + rc 1
    cb := s.cb + width
    zb := s.zb + width
    pointLights := inner.pointLights.map (onPrimaryCameras shadowRowAdvance)
    reflectionMap := inner.reflectionMap
    buffer := inner.buffer }

/-- The edge values `u1`, `u2`, `u3` of `renderTriangle` at the first pixel of the scan
box, in 32-bit `int`s. -/
def renderEdges32 (f : FixedPoint) : Int × Int × Int :=
  (sub32 (mul32 (sub32 f.p3x f.p2x) (sub32 (shl32 f.minY32) f.p2y))
      (mul32 (sub32 f.p3y f.p2y) (sub32 (shl32 f.minX32) f.p2x)),
    sub32 (mul32 (sub32 f.p1x f.p3x) (sub32 (shl32 f.minY32) f.p3y))
      (mul32 (sub32 f.p1y f.p3y) (sub32 (shl32 f.minX32) f.p3x)),
    sub32 (mul32 (sub32 f.p2x f.p1x) (sub32 (shl32 f.minY32) f.p1y))
      (mul32 (sub32 f.p2y f.p1y) (sub32 (shl32 f.minX32) f.p1x)))

/-- The state of the outer loop of the vertex-coloured `renderTriangle` on entry, in
32-bit `int`s. -/
def shadeInit32 (camera : PinholeCamera) (f : FixedPoint) (rc : Matrix 3 8) (width : Nat)
    (pointLights : List PointLight) (reflectionMap : Option CubeMap) (buffer : List Vec4) :
    ShadeRow :=
  let lv : Vec3 := ![(f.minX32 : ℚ), (f.minY32 : ℚ), 1]
  let q := vecMul lv rc
  { y := f.minY32
    u1 := (renderEdges32 f).1
    u2 := (renderEdges32 f).2.1
    u3 := (renderEdges32 f).2.2
    q := q
    cb := f.minY32.toNat * width
    zb := f.minY32.toNat * width
    pointLights :=
      pointLights.map (onPrimaryCameras (shadowSetup camera lv (q 0) (rc 0 0) (rc 1 0)))
    reflectionMap := reflectionMap
    buffer := buffer }

/-- The vertex-coloured overload of `Framebuffer::renderTriangle`, in 32-bit `int`s. -/
def Framebuffer.renderTriangle32 (m : Libm) (fb : Framebuffer) (camera : PinholeCamera)
    (t1 t2 t3 : Vec3) (c1 c2 c3 : Vec4) (n1 n2 n3 : Vec3)
    (directionalLights : List DirectionalLight) (pointLights : List PointLight)
    (reflectionMap : Option CubeMap) (material : Material) : Rendered :=
  if backFacing camera t1 t2 t3 then ⟨fb, pointLights, reflectionMap⟩
  else
    let p1 := camera.project t1
    let p2 := camera.project t2
    let p3 := camera.project t3
    if p1 2 ≤ 0 ∨ p2 2 ≤ 0 ∨ p3 2 ≤ 0 then ⟨fb, pointLights, reflectionMap⟩
    else
      let f := toFixed32 p1 p2 p3
      let rc := shadeRc p1 p2 p3 c1 c2 c3 n1 n2 n3
      let final := (shadeRow32 m camera f rc directionalLights material fb.zBuffer fb.width
        f.minX32 (f.maxX32 fb.width))^[loopCount f.minY32 (f.maxY32 fb.height)]
        (shadeInit32 camera f rc fb.width pointLights reflectionMap fb.buffer)
      ⟨{ fb with buffer := final.buffer }, final.pointLights, final.reflectionMap⟩

/-- One iteration of the inner loop of the textured `renderTriangle`, in 32-bit `int`s. -/
def texturePixel32 (m : Libm) (camera : PinholeCamera) (texture : Framebuffer)
    (f : FixedPoint) (rc : Matrix 3 4) (dc : Matrix 3 2) (nc : Vec3)
    (directionalLights : List DirectionalLight) (material : Material) (zBuffer : List ℚ)
    (cb zb : Nat) (y : Int) (s : TexturePixel) : TexturePixel :=
  let hit := shadeGate zBuffer zb s.x s.v1 s.v2 s.v3 (s.p 0)
  let lit := texturePixelLight m camera texture directionalLights material y s
  { x := s.x + 1
    v1 := add32 s.v1 f.fa2_32
    v2 := add32 s.v2 f.fa3_32
    v3 := add32 s.v3 f.fa1_32
    p := s.p + rc 0
    dx := s.dx + dc 0 0
    dy := s.dy + dc 0 1
    n := s.n + nc 0
    pointLights :=
      (if hit then lit.2.1 else s.pointLights).map (onPrimaryCameras shadowPixelAdvance)
    reflectionMap := if hit then lit.2.2 else s.reflectionMap
    buffer :=
      if hit then
        s.buffer.set (cb + s.x.toNat) (composite lit.1 (s.buffer.getD (cb + s.x.toNat) 0))
      else s.buffer }

/-- One iteration of the outer loop of the textured `renderTriangle`, in 32-bit `int`s. -/
def textureRow32 (m : Libm) (camera : PinholeCamera) (texture : Framebuffer)
    (f : FixedPoint) (rc : Matrix 3 4) (dc : Matrix 3 2) (nc : Vec3)
    (directionalLights : List DirectionalLight) (material : Material) (zBuffer : List ℚ)
    (width : Nat) (minX maxX : Int) (s : TextureRow) : TextureRow :=
  let inner := (texturePixel32 m camera texture f rc dc nc directionalLights material zBuffer
    s.cb s.zb s.y)^[loopCount minX maxX] (textureRowStart minX s)
  { y := s.y + 1
    u1 := add32 s.u1 f.fb2_32
    u2 := add32 s.u2 f.fb3_32
    u3 := add32 s.u3 f.fb1_32
    q := s.q + rc 1
    rdx := s.rdx + dc 1 0
    rdy := s.rdy + dc 1 1
    rn := s.rn + nc 1
    cb := s.cb + width
    zb := s.zb + width
    pointLights := inner.pointLights.map (onPrimaryCameras shadowRowAdvance)
    reflectionMap := inner.reflectionMap
    buffer := inner.buffer }

/-- The state of the outer loop of the textured `renderTriangle` on entry, in 32-bit
`int`s. -/
def textureInit32 (camera : PinholeCamera) (f : FixedPoint) (rc : Matrix 3 4)
    (dc : Matrix 3 2) (nc : Vec3) (width : Nat) (pointLights : List PointLight)
    (reflectionMap : Option CubeMap) (buffer : List Vec4) : TextureRow :=
  let lv : Vec3 := ![(f.minX32 : ℚ), (f.minY32 : ℚ), 1]
  let q := vecMul lv rc
  { y := f.minY32
    u1 := (renderEdges32 f).1
    u2 := (renderEdges32 f).2.1
    u3 := (renderEdges32 f).2.2
    q := q
    rdx := dot (getColumn dc 0) lv
    rdy := dot (getColumn dc 1) lv
    rn := dot nc lv
    cb := f.minY32.toNat * width
    zb := f.minY32.toNat * width
    pointLights :=
      pointLights.map (onPrimaryCameras (shadowSetup camera lv (q 0) (rc 0 0) (rc 1 0)))
    reflectionMap := reflectionMap
    buffer := buffer }

/-- The textured overload of `Framebuffer::renderTriangle`, in 32-bit `int`s. -/
def Framebuffer.renderTexturedTriangle32 (m : Libm) (fb : Framebuffer)
    (camera : PinholeCamera) (texture : Framebuffer) (t1 t2 t3 : Vec3) (r1 r2 r3 : Vec2)
    (n1 n2 n3 : Vec3) (directionalLights : List DirectionalLight)
    (pointLights : List PointLight) (reflectionMap : Option CubeMap) (material : Material) :
    Rendered :=
  if backFacing camera t1 t2 t3 then ⟨fb, pointLights, reflectionMap⟩
  else
    let p1 := camera.project t1
    let p2 := camera.project t2
    let p3 := camera.project t3
    if p1 2 ≤ 0 ∨ p2 2 ≤ 0 ∨ p3 2 ≤ 0 then ⟨fb, pointLights, reflectionMap⟩
    else
      let f := toFixed32 p1 p2 p3
      let rc := textureRc p1 p2 p3 n1 n2 n3
      let dc := textureDc camera t1 t2 t3 r1 r2 r3
      let nc := textureNc camera t1 t2 t3
      let final := (textureRow32 m camera texture f rc dc nc directionalLights material
        fb.zBuffer fb.width f.minX32 (f.maxX32 fb.width))^[loopCount f.minY32
          (f.maxY32 fb.height)]
        (textureInit32 camera f rc dc nc fb.width pointLights reflectionMap fb.buffer)
      ⟨{ fb with buffer := final.buffer }, final.pointLights, final.reflectionMap⟩

end graphics

namespace graphics

open math

/-- The fixed-point screen coordinates of a triangle seen by a camera. -/
def projectFixed (camera : PinholeCamera) (t1 t2 t3 : Vec3) : FixedPoint :=
  toFixed (camera.project t1) (camera.project t2) (camera.project t3)

/-- Pixel `(x, y)` lies in the scan box `[minX, maxX] x [minY, maxY]`. -/
def inScanBox (f : FixedPoint) (width height : Nat) (x y : Nat) : Prop :=
  f.minX ≤ x ∧ (x : Int) ≤ f.maxX width ∧ f.minY ≤ y ∧ (y : Int) ≤ f.maxY height

/-- The first edge function at pixel `(x, y)`, in closed form. -/
def FixedPoint.edge1 (f : FixedPoint) (x y : Int) : Int :=
  (f.p3x - f.p2x) * (16 * y - f.p2y) - (f.p3y - f.p2y) * (16 * x - f.p2x)

/-- The second edge function at pixel `(x, y)`, in closed form. -/
def FixedPoint.edge2 (f : FixedPoint) (x y : Int) : Int :=
  (f.p1x - f.p3x) * (16 * y - f.p3y) - (f.p1y - f.p3y) * (16 * x - f.p3x)

/-- The third edge function at pixel `(x, y)`, in closed form. -/
def FixedPoint.edge3 (f : FixedPoint) (x y : Int) : Int :=
  (f.p2x - f.p1x) * (16 * y - f.p1y) - (f.p2y - f.p1y) * (16 * x - f.p1x)

/-- Pixel `(x, y)` passes the coverage test of the triangle when no `int` overflows: the
test on the edge functions taken in the integers. -/
def FixedPoint.coversIdeal (f : FixedPoint) (x y : Nat) : Prop :=
  coverageTest (f.edge1 x y) (f.edge2 x y) (f.edge3 x y)

/-- The triangle is not rejected by the two early returns, and pixel `(x, y)` lies in its
scan box and passes its coverage test, when no `int` overflows. -/
def coveredIdeal (fb : Framebuffer) (camera : PinholeCamera) (t1 t2 t3 : Vec3)
    (x y : Nat) : Prop :=
  ¬ rejected camera t1 t2 t3 ∧
    inScanBox (projectFixed camera t1 t2 t3) fb.width fb.height x y ∧
    (projectFixed camera t1 t2 t3).coversIdeal x y

/-- The fixed-point screen coordinates of a triangle seen by a camera, as the 32-bit
`int`s the routines hold. -/
def projectFixed32 (camera : PinholeCamera) (t1 t2 t3 : Vec3) : FixedPoint :=
  toFixed32 (camera.project t1) (camera.project t2) (camera.project t3)

/-- Pixel `(x, y)` lies in the scan box `[minX, maxX] x [minY, maxY]` the routines compute
in 32-bit `int`s. -/
def inScanBox32 (f : FixedPoint) (width height : Nat) (x y : Nat) : Prop :=
  f.minX32 ≤ x ∧ (x : Int) ≤ f.maxX32 width ∧ f.minY32 ≤ y ∧ (y : Int) ≤ f.maxY32 height

/-- Pixel `(x, y)` passes the coverage test of the triangle: the test `(v1 | v2 | v3) >= 0`
on the values the 32-bit variables `v1`, `v2`, `v3` hold at the pixel, the edge functions
wrapped to 32 bits. -/
def FixedPoint.covers (f : FixedPoint) (x y : Nat) : Prop :=
  coverageTest (int32 (f.edge1 x y)) (int32 (f.edge2 x y)) (int32 (f.edge3 x y))

/-- The triangle is not rejected by the two early returns, and pixel `(x, y)` lies in its
scan box and passes its coverage test, all in the 32-bit `int`s of the routines. -/
def covered (fb : Framebuffer) (camera : PinholeCamera) (t1 t2 t3 : Vec3)
    (x y : Nat) : Prop :=
  ¬ rejected camera t1 t2 t3 ∧
    inScanBox32 (projectFixed32 camera t1 t2 t3) fb.width fb.height x y ∧
    (projectFixed32 camera t1 t2 t3).covers x y

/-- The reciprocal depth of the triangle interpolated at pixel `(x, y)`: the fitted plane
evaluated there. -/
def interpolatedDepth (camera : PinholeCamera) (t1 t2 t3 : Vec3) (x y : Nat) : ℚ :=
  dot (prerenderRc (camera.project t1) (camera.project t2) (camera.project t3))
    ![(x : ℚ), (y : ℚ), 1]

/-- The planes fitted to the vertex attributes, evaluated at the screen point `(x, y)`:
`(x, y, 1) * rc`, one component per attribute. -/
def planeAt {N : Nat} (rc : Matrix 3 N) (x y : ℚ) : Vector N := vecMul ![x, y, 1] rc

/-- The matrix whose rows are the projected screen positions `(x, y, 1)` of the three
vertices; its determinant is twice the signed area of the projected triangle, so the
positions are collinear exactly when it is zero. -/
def screenMatrix (p1 p2 p3 : Vec3) : Mat3 :=
  ![![p1 0, p1 1, 1], ![p2 0, p2 1, 1], ![p3 0, p3 1, 1]]

/-- The attribute values at the three vertices in the vertex-coloured `renderTriangle`:
reciprocal depth, colour and normal. -/
def colourAttributes (p1 p2 p3 : Vec3) (c1 c2 c3 : Vec4) (n1 n2 n3 : Vec3) : Matrix 3 8 :=
  ![![p1 2, c1 0, c1 1, c1 2, c1 3, n1 0, n1 1, n1 2],
    ![p2 2, c2 0, c2 1, c2 2, c2 3, n2 0, n2 1, n2 2],
    ![p3 2, c3 0, c3 1, c3 2, c3 3, n3 0, n3 1, n3 2]]

/-- The attribute values at the three vertices in the textured `renderTriangle`:
reciprocal depth and normal. -/
def textureAttributes (p1 p2 p3 : Vec3) (n1 n2 n3 : Vec3) : Matrix 3 4 :=
  ![![p1 2, n1 0, n1 1, n1 2], ![p2 2, n2 0, n2 1, n2 2], ![p3 2, n3 0, n3 1, n3 2]]

/-- The affine functions of screen coordinates with coefficient matrix `A` (one
function per column: `x * A 0 + y * A 1 + A 2`) take the given attribute values at the
three projected vertices. -/
def Interpolates {N : Nat} (A : Matrix 3 N) (p1 p2 p3 : Vec3) (attributes : Matrix 3 N) :
    Prop :=
  planeAt A (p1 0) (p1 1) = attributes 0 ∧ planeAt A (p2 0) (p2 1) = attributes 1 ∧
    planeAt A (p3 0) (p3 1) = attributes 2

/-- The variables of the inner loop of `prerenderTriangle` at the moment pixel `(x, y)`
is tested. -/
def prerenderStateAt (fb : Framebuffer) (camera : PinholeCamera) (t1 t2 t3 : Vec3)
    (x y : Nat) : PrePixel :=
  let f := projectFixed camera t1 t2 t3
  let rc := prerenderRc (camera.project t1) (camera.project t2) (camera.project t3)
  let row := (prerenderRow f rc fb.width f.minX (f.maxX fb.width))^[y - f.minY.toNat]
    (prerenderInit f rc fb.width fb.zBuffer)
  (prerenderPixel f rc row.zb)^[x - f.minX.toNat]
    ⟨f.minX, row.u1, row.u2, row.u3, row.w, row.zBuffer⟩

/-- The variables of the inner loop of the vertex-coloured `renderTriangle` at the moment
pixel number `k` of scanline number `j` of the scan box is tested, the outer loop having
started in state `s0`. -/
def shadeStateAt (m : Libm) (camera : PinholeCamera) (f : FixedPoint) (rc : Matrix 3 8)
    (directionalLights : List DirectionalLight) (material : Material) (zBuffer : List ℚ)
    (width : Nat) (minX maxX : Int) (s0 : ShadeRow) (j k : Nat) : ShadePixel :=
  let row := (shadeRow m camera f rc directionalLights material zBuffer width minX maxX)^[j] s0
  (shadePixel m camera f rc directionalLights material zBuffer row.cb row.zb row.y)^[k]
    (shadeRowStart minX row)

/-- The variables of the inner loop of the textured `renderTriangle` at the moment pixel
number `k` of scanline number `j` of the scan box is tested. -/
def textureStateAt (m : Libm) (camera : PinholeCamera) (texture : Framebuffer)
    (f : FixedPoint) (rc : Matrix 3 4) (dc : Matrix 3 2) (nc : Vec3)
    (directionalLights : List DirectionalLight) (material : Material) (zBuffer : List ℚ)
    (width : Nat) (minX maxX : Int) (s0 : TextureRow) (j k : Nat) : TexturePixel :=
  let row := (textureRow m camera texture f rc dc nc directionalLights material zBuffer width
    minX maxX)^[j] s0
  (texturePixel m camera texture f rc dc nc directionalLights material zBuffer row.cb row.zb
    row.y)^[k] (textureRowStart minX row)

instance (f : FixedPoint) (width height x y : Nat) : Decidable (inScanBox f width height x y) := by
  unfold inScanBox; infer_instance

instance (f : FixedPoint) (x y : Nat) : Decidable (f.coversIdeal x y) := by
  unfold FixedPoint.coversIdeal; infer_instance

instance (fb : Framebuffer) (camera : PinholeCamera) (t1 t2 t3 : Vec3) (x y : Nat) :
    Decidable (coveredIdeal fb camera t1 t2 t3 x y) := by
  unfold coveredIdeal; infer_instance

instance (f : FixedPoint) (width height x y : Nat) :
    Decidable (inScanBox32 f width height x y) := by
  unfold inScanBox32; infer_instance

instance (f : FixedPoint) (x y : Nat) : Decidable (f.covers x y) := by
  unfold FixedPoint.covers; infer_instance

instance (fb : Framebuffer) (camera : PinholeCamera) (t1 t2 t3 : Vec3) (x y : Nat) :
    Decidable (covered fb camera t1 t2 t3 x y) := by
  unfold covered; infer_instance

/-- The loop variables of the vertex-coloured `renderTriangle` at the moment pixel
`(x, y)` is tested. -/
def renderStateAt (m : Libm) (fb : Framebuffer) (camera : PinholeCamera) (t1 t2 t3 : Vec3)
    (c1 c2 c3 : Vec4) (n1 n2 n3 : Vec3) (directionalLights : List DirectionalLight)
    (pointLights : List PointLight) (reflectionMap : Option CubeMap) (material : Material)
    (x y : Nat) : ShadePixel :=
  let f := projectFixed camera t1 t2 t3
  let rc := shadeRc (camera.project t1) (camera.project t2) (camera.project t3) c1 c2 c3 n1 n2 n3
  shadeStateAt m camera f rc directionalLights material fb.zBuffer fb.width f.minX
    (f.maxX fb.width) (shadeInit camera f rc fb.width pointLights reflectionMap fb.buffer)
    (y - f.minY.toNat) (x - f.minX.toNat)

/-- The loop variables of the textured `renderTriangle` at the moment pixel `(x, y)` is
tested. -/
def renderTexturedStateAt (m : Libm) (fb : Framebuffer) (camera : PinholeCamera)
    (texture : Framebuffer) (t1 t2 t3 : Vec3) (r1 r2 r3 : Vec2) (n1 n2 n3 : Vec3)
    (directionalLights : List DirectionalLight) (pointLights : List PointLight)
    (reflectionMap : Option CubeMap) (material : Material) (x y : Nat) : TexturePixel :=
  let f := projectFixed camera t1 t2 t3
  let rc := textureRc (camera.project t1) (camera.project t2) (camera.project t3) n1 n2 n3
  let dc := textureDc camera t1 t2 t3 r1 r2 r3
  let nc := textureNc camera t1 t2 t3
  textureStateAt m camera texture f rc dc nc directionalLights material fb.zBuffer fb.width
    f.minX (f.maxX fb.width)
    (textureInit camera f rc dc nc fb.width pointLights reflectionMap fb.buffer)
    (y - f.minY.toNat) (x - f.minX.toNat)

/-- The variables of the inner loop of the vertex-coloured `renderTriangle`, in 32-bit
`int`s, at the moment pixel number `k` of scanline number `j` of the scan box is tested,
the outer loop having started in state `s0`. -/
def shadeStateAt32 (m : Libm) (camera : PinholeCamera) (f : FixedPoint) (rc : Matrix 3 8)
    (directionalLights : List DirectionalLight) (material : Material) (zBuffer : List ℚ)
    (width : Nat) (minX maxX : Int) (s0 : ShadeRow) (j k : Nat) : ShadePixel :=
  let row := (shadeRow32 m camera f rc directionalLights material zBuffer width minX
    maxX)^[j] s0
  (shadePixel32 m camera f rc directionalLights material zBuffer row.cb row.zb row.y)^[k]
    (shadeRowStart minX row)

/-- The variables of the inner loop of the textured `renderTriangle`, in 32-bit `int`s, at
the moment pixel number `k` of scanline number `j` of the scan box is tested. -/
def textureStateAt32 (m : Libm) (camera : PinholeCamera) (texture : Framebuffer)
    (f : FixedPoint) (rc : Matrix 3 4) (dc : Matrix 3 2) (nc : Vec3)
    (directionalLights : List DirectionalLight) (material : Material) (zBuffer : List ℚ)
    (width : Nat) (minX maxX : Int) (s0 : TextureRow) (j k : Nat) : TexturePixel :=
  let row := (textureRow32 m camera texture f rc dc nc directionalLights material zBuffer
    width minX maxX)^[j] s0
  (texturePixel32 m camera texture f rc dc nc directionalLights material zBuffer row.cb
    row.zb row.y)^[k] (textureRowStart minX row)

/-- The loop variables of the vertex-coloured `renderTriangle`, in 32-bit `int`s, at the
moment pixel `(x, y)` is tested. -/
def renderStateAt32 (m : Libm) (fb : Framebuffer) (camera : PinholeCamera) (t1 t2 t3 : Vec3)
    (c1 c2 c3 : Vec4) (n1 n2 n3 : Vec3) (directionalLights : List DirectionalLight)
    (pointLights : List PointLight) (reflectionMap : Option CubeMap) (material : Material)
    (x y : Nat) : ShadePixel :=
  let f := projectFixed32 camera t1 t2 t3
  let rc := shadeRc (camera.project t1) (camera.project t2) (camera.project t3) c1 c2 c3 n1 n2 n3
  shadeStateAt32 m camera f rc directionalLights material fb.zBuffer fb.width f.minX32
    (f.maxX32 fb.width) (shadeInit32 camera f rc fb.width pointLights reflectionMap fb.buffer)
    (y - f.minY32.toNat) (x - f.minX32.toNat)

/-- The loop variables of the textured `renderTriangle`, in 32-bit `int`s, at the moment
pixel `(x, y)` is tested. -/
def renderTexturedStateAt32 (m : Libm) (fb : Framebuffer) (camera : PinholeCamera)
    (texture : Framebuffer) (t1 t2 t3 : Vec3) (r1 r2 r3 : Vec2) (n1 n2 n3 : Vec3)
    (directionalLights : List DirectionalLight) (pointLights : List PointLight)
    (reflectionMap : Option CubeMap) (material : Material) (x y : Nat) : TexturePixel :=
  let f := projectFixed32 camera t1 t2 t3
  let rc := textureRc (camera.project t1) (camera.project t2) (camera.project t3) n1 n2 n3
  let dc := textureDc camera t1 t2 t3 r1 r2 r3
  let nc := textureNc camera t1 t2 t3
  textureStateAt32 m camera texture f rc dc nc directionalLights material fb.zBuffer fb.width
    f.minX32 (f.maxX32 fb.width)
    (textureInit32 camera f rc dc nc fb.width pointLights reflectionMap fb.buffer)
    (y - f.minY32.toNat) (x - f.minX32.toNat)

end graphics

namespace math

/-- The library functions are exact on the arguments the cube-map constructors pass to
them: the square root of 1, the tangent of a quarter of `pi`, and the cosine and sine of
one, two and three quarter turns. -/
def Libm.ExactOnQuarterTurns (m : Libm) : Prop :=
  m.sqrt 1 = 1 ∧ m.tan (m.pi / 2 / 2) = 1 ∧
    m.cos (m.pi * (1 / 2)) = 0 ∧ m.sin (m.pi * (1 / 2)) = 1 ∧
    m.cos m.pi = -1 ∧ m.sin m.pi = 0 ∧
    m.cos (m.pi * (3 / 2)) = 0 ∧ m.sin (m.pi * (3 / 2)) = -1

instance (m : Libm) : Decidable m.ExactOnQuarterTurns := by
  unfold Libm.ExactOnQuarterTurns; infer_instance

/-- A camera with the given centre, basis and image size, its projection matrix derived
from the basis and its scratch fields zero. -/
def PinholeCamera.ofBasis (center a b c : Vec3) (width height : Nat) : PinholeCamera :=
  PinholeCamera.refresh
    { center := center
      a := a
      b := b
      c := c
      projectionMatrix := 0
      width := width
      height := height
      sc := 0
      sp := 0
      p := 0 }

/-- The six cameras of a cube map of the given resolution and position: the basis vectors
`a`, `b`, `c` of each face, with `h` half the resolution. -/
def faceCameras (position : Vec3) (w : Nat) : List PinholeCamera :=
  [PinholeCamera.ofBasis position ![0, 0, 1] ![0, 1, 0]
      ![(w : ℚ) / 2, -((w : ℚ) / 2), -((w : ℚ) / 2)] w w,
    PinholeCamera.ofBasis position ![0, 0, 1] ![-1, 0, 0]
      ![(w : ℚ) / 2, (w : ℚ) / 2, -((w : ℚ) / 2)] w w,
    PinholeCamera.ofBasis position ![1, 0, 0] ![0, 1, 0]
      ![-((w : ℚ) / 2), -((w : ℚ) / 2), -((w : ℚ) / 2)] w w,
    PinholeCamera.ofBasis position ![0, -1, 0] ![0, 0, -1]
      ![-((w : ℚ) / 2), (w : ℚ) / 2, (w : ℚ) / 2] w w,
    PinholeCamera.ofBasis position ![1, 0, 0] ![0, 0, -1]
      ![-((w : ℚ) / 2), -((w : ℚ) / 2), (w : ℚ) / 2] w w,
    PinholeCamera.ofBasis position ![0, -1, 0] ![-1, 0, 0]
      ![(w : ℚ) / 2, (w : ℚ) / 2, (w : ℚ) / 2] w w]

end math

namespace graphics

open math

/-- The quotient `n / (t / h)` lies in `[0, 2 h)`: the condition on numerator and divisor
for one coordinate of a projection to fall on a face of resolution `2 h`. -/
def inFaceRange (t n : ℚ) : Prop := (0 < t ∧ 0 ≤ n ∧ n < 2 * t) ∨ (t < 0 ∧ n ≤ 0 ∧ 2 * t < n)

/-- Library functions that are exact on the arguments the cube-map constructors pass:
square roots of 0 and 1, and the trigonometric functions at the multiples of a quarter
turn, the half turn being `pi = 22 / 7`. -/
def tableLibm : Libm where
  sqrt x := if x = 1 then 1 else 0
  cos x := if x = 11 / 7 then 0 else if x = 22 / 7 then -1 else if x = 33 / 7 then 0 else 1
  sin x := if x = 11 / 7 then 1 else if x = 22 / 7 then 0 else if x = 33 / 7 then -1 else 0
  tan x := if x = 11 / 14 then 1 else 0
  pi := 22 / 7

/-- The material `flat` of the module `graphics:Material`. -/
def flat : Material := ⟨1 / 100, 0, 0, 3, 1, 0, 0⟩

/-- A 2 x 2 texture of opaque texels. -/
def sampleTexture : Framebuffer where
  buffer := [![1, 0, 0, 1], ![0, 1, 0, 1], ![0, 0, 1, 1], ![1, 1, 1, 1]]
  zBuffer := [0, 0, 0, 0]
  width := 2
  height := 2

/-- A camera at the origin with a 4 x 4 image, looking along the negative z-axis. -/
def sampleCamera : PinholeCamera :=
  PinholeCamera.refresh
    { center := 0
      a := ![1, 0, 0]
      b := ![0, 1, 0]
      c := ![-2, -2, -2]
      projectionMatrix := 0
      width := 4
      height := 4
      sc := 0
      sp := 0
      p := 0 }

/-- An empty 4 x 4 framebuffer. -/
def sampleFramebuffer : Framebuffer := Framebuffer.ofSize 4 4

/-- A front-facing triangle in the plane `z = -2`, projecting to the pixels `(0, 0)`,
`(4, 0)` and `(0, 4)`. -/
def sampleTriangle : Vec3 × Vec3 × Vec3 := (![-2, -2, -2], ![2, -2, -2], ![-2, 2, -2])

/-- A front-facing triangle whose projections under `sampleCamera` are the pixels
`(0, 4096)`, `(-2048, -2052)` and `(2048, -2052)`: at pixel `(0, 0)` its first edge function
is `65536 * 32832 = 2151677952`, above `2^31 - 1`. -/
def overflowTriangle : Vec3 × Vec3 × Vec3 :=
  (![-2, 4094, -2], ![-2050, -2054, -2], ![2046, -2054, -2])

/-- The sample triangle with the opposite winding: it faces away from the camera. -/
def sampleBackTriangle : Vec3 × Vec3 × Vec3 := (![-2, -2, -2], ![-2, 2, -2], ![2, -2, -2])

end graphics

namespace graphics
open math

/-- The value of `result` in `light` on reaching the test `result.max() > 1.0f`: the
shaded colour before the rescaling and before the multiplication by the surface alpha. -/
def unclamped (m : Libm) (reflectionMap : Option CubeMap) (color : Vec4)
    (normal surfacePoint cameraPosition : Vec3) (directionalLights : List DirectionalLight)
    (pointLights : List PointLight) (w : ℚ) (material : Material) : Vec3 :=
  let ray := unit m (cameraPosition - surfacePoint)
  let reflectedRay := (2 : ℚ) • projectOnto m ray normal - ray
  let acc := accumulate m normal reflectedRay surfacePoint directionalLights pointLights w
    material
  let kD := acc.1.1
  let kS := acc.1.2
  let subcolor : Vec3 := ![color 0, color 1, color 2]
  match reflectionMap with
  | none => kS + kD • subcolor
  | some environment =>
    if material.kR = 0 then kS + kD • subcolor
    else
      let kU := material.kR - material.kF * dot ray normal
      kS + (((1 - kU) * kD) • subcolor +
        kU • ![(environment.lookup reflectedRay).1 0, (environment.lookup reflectedRay).1 1,
          (environment.lookup reflectedRay).1 2])

/-- The diffuse factor `kD` that `light` computes when both light lists are empty: the
ambience factor `kA`, passed through the saturating curve except in the branch
`kR == 1`. -/
def ambientFactor (material : Material) : ℚ :=
  if material.kR = 1 then material.kA else compress material material.kA

/-- The shadow cameras of the point lights, light by light. -/
def shadowCameras (pointLights : List PointLight) : List (List PinholeCamera) :=
  pointLights.map (fun pointLight => pointLight.shadowMap.cameras)

/-- The effect of `for (std::size_t i = 0; i < 3; i++)` with body `g` on the cameras of one
shadow map. -/
def onPrimary (g : PinholeCamera → PinholeCamera) (cameras : List PinholeCamera) :
    List PinholeCamera :=
  (cameras.take 3).map g ++ cameras.drop 3

/-- What one scanline of `nx` pixels of `renderTriangle` does to a primary shadow camera:
`p = sp`, then `nx` times `p += sc.getColumn(0)`, then `sp += sc.getColumn(1)`. -/
def shadowScanline (nx : Nat) (sh : PinholeCamera) : PinholeCamera :=
  shadowRowAdvance (shadowPixelAdvance^[nx] (shadowRowStart sh))

/-- What `renderTriangle` has done to a primary shadow camera at the moment pixel number
`k` of scanline number `j` is tested: the setup, `j` scanlines of `nx` pixels, the start
of the scanline, `k` pixel advances. -/
def shadowAt (camera : PinholeCamera) (lv : Vec3) (q0 rc00 rc10 : ℚ) (nx j k : Nat)
    (sh : PinholeCamera) : PinholeCamera :=
  shadowPixelAdvance^[k]
    (shadowRowStart ((shadowScanline nx)^[j] (shadowSetup camera lv q0 rc00 rc10 sh)))

/-- The material `shiny` of `Material.cpp`. -/
def shiny : Material := ⟨1 / 100, 1, 100, 3, 1, 0, 0⟩

/-- A directional light along the z-axis with a white highlight of strength `2`. -/
def sampleSun : DirectionalLight := ⟨![0, 0, 1], 1, 2, ![1, 1, 1]⟩

/-- The material `chrome` of `Material.cpp`. -/
def chrome : Material := ⟨0, 0, 0, 0, 0, 1, 0⟩

/-- A material with `kR == 1` like `chrome`, but with the ambience factor `1 / 2`. -/
def tintedMirror : Material := ⟨1 / 2, 0, 0, 0, 0, 1, 0⟩

/-- A point light above the sample triangle, with a shadow cube map of resolution `2`. -/
def samplePointLight : PointLight :=
  ⟨![0, 0, 1], 1, 1, ![1, 1, 1], CubeMap.ofResolution tableLibm 2 ![0, 0, 1]⟩

/-- The row vector `(x, y, 1) * tc` of the textured `renderTriangle`: the coordinates of
the direction `a * x + b * y + c` of the viewing ray through the screen point `(x, y)` in
the basis `t1 - center`, `t2 - center`, `t3 - center`, when that is a basis. -/
def rayWeights (camera : PinholeCamera) (t1 t2 t3 : Vec3) (x y : ℚ) : Vec3 :=
  vecMul ![x, y, 1] (textureTc camera t1 t2 t3)

end graphics

namespace graphics
open math

/-- A decoded image as the image library presents it to `Framebuffer(filename)`, after
`mirror('y')`: its width, height, number of channels, and the sample of channel `j` at
index `i`.  The library is not part of the repository. -/
structure Image where
  width : Nat
  height : Nat
  spectrum : Nat
  data : Nat → Nat → ℚ

/-- The constructor `Framebuffer(filename)` applied to the decoded image: the colour plane
is resized to `width * height` and filled from the image; the depth plane is not touched
and stays as default-constructed, empty. -/
def Framebuffer.ofImage (image : Image) : Framebuffer where
  buffer := (List.range (image.width * image.height)).map fun i =>
    if image.spectrum = 1 then
      ![image.data 0 i / 255, image.data 0 i / 255, image.data 0 i / 255, 1]
    else if image.spectrum = 3 then
      ![image.data 0 i / 255, image.data 1 i / 255, image.data 2 i / 255, 1]
    else
      ![image.data 0 i / 255, image.data 1 i / 255, image.data 2 i / 255,
        image.data 3 i / 255]
  zBuffer := []
  width := image.width
  height := image.height

/-- The member `Framebuffer::fill`: `buffer[i] = color` for `i < width * height`. -/
def Framebuffer.fill (fb : Framebuffer) (color : Vec4) : Framebuffer :=
  { fb with
    buffer := (List.range (fb.width * fb.height)).foldl (fun b i => b.set i color) fb.buffer }

/-- The member `Framebuffer::clear`: `fill(color::empty)`; the constant of the module
`color`, which is not among the sources, is a parameter. -/
def Framebuffer.clear (empty : Vec4) (fb : Framebuffer) : Framebuffer := fb.fill empty

/-- The member `Framebuffer::zFill`: `zBuffer[i] = z` for `i < width * height`. -/
def Framebuffer.zFill (fb : Framebuffer) (z : ℚ) : Framebuffer :=
  { fb with
    zBuffer := (List.range (fb.width * fb.height)).foldl (fun b i => b.set i z) fb.zBuffer }

/-- The member `Framebuffer::zClear`. -/
def Framebuffer.zClear (fb : Framebuffer) : Framebuffer := fb.zFill 0

/-- The member `Framebuffer::zTransform`, with the library function `std::exp` as a
parameter: `buffer[i] = Vec4(-exp(-zBuffer[i] * 0.5f) + 1.0f)`. -/
def Framebuffer.zTransform (exp : ℚ → ℚ) (fb : Framebuffer) : Framebuffer :=
  { fb with
    buffer := (List.range (fb.width * fb.height)).foldl
      (fun b i => b.set i (fun _ => -exp (-(fb.zBuffer.getD i 0) * (1 / 2)) + 1)) fb.buffer }

/-- The library function `std::clamp(v, lo, hi)`. -/
def stdClamp (v lo hi : Int) : Int := if v < lo then lo else if hi < v then hi else v

/-- The member `Framebuffer::blit(surface, offsetX, offsetY)`: the surface after the copy.
The framebuffer itself is `const`; the overload `blit()` hands the colour plane to
`glDrawPixels` and changes nothing. -/
def Framebuffer.blit (fb surface : Framebuffer) (offsetX offsetY : Int) : Framebuffer :=
  let minX := (stdClamp offsetX 0 surface.width).toNat
  let minY := (stdClamp offsetY 0 surface.height).toNat
  let maxX := (stdClamp (offsetX + fb.width) 0 surface.width).toNat
  let maxY := (stdClamp (offsetY + fb.height) 0 surface.height).toNat
  { surface with
    buffer := (List.range' minX (maxX - minX)).foldl
      (fun b x => (List.range' minY (maxY - minY)).foldl
        (fun b y => b.set (y * surface.width + x)
          (fb.buffer.getD (((y : Int) - offsetY) * fb.width + x - offsetX).toNat 0)) b)
      surface.buffer }

/-- The member `Framebuffer::flip`: a new framebuffer of the same size with the colour
plane rotated by a half turn. -/
def Framebuffer.flip (fb : Framebuffer) : Framebuffer :=
  { Framebuffer.ofSize fb.width fb.height with
    buffer := (List.range fb.width).foldl
      (fun b x => (List.range fb.height).foldl
        (fun b y => b.set ((fb.height - 1 - y) * fb.width + (fb.width - 1 - x))
          (fb.buffer.getD (y * fb.width + x) 0)) b)
      (Framebuffer.ofSize fb.width fb.height).buffer }

/-- A decoded grey-scale image of one pixel. -/
def sampleImage : Image := ⟨1, 1, 1, fun _ _ => 255⟩

end graphics

namespace graphics
open math

/-- The conversion `static_cast<unsigned int>` and the arithmetic of `unsigned int`:
modulo `2 ^ 32`. -/
def u32 (n : Nat) : Nat := n % 2 ^ 32

/-- The struct `TriangleMesh`; the pointer `texture` is an option. -/
structure TriangleMesh where
  vertices : List Vec3
  colors : List Vec4
  triangles : List (Nat × Nat × Nat)
  normals : List Vec3
  textureCoordinates : List Vec2
  texture : Option Framebuffer
  material : Material

/-- The constructor `TriangleMesh(material)`: an empty mesh without texture. -/
def TriangleMesh.empty (material : Material) : TriangleMesh :=
  ⟨[], [], [], [], [], none, material⟩

/-- The overload `addTriangle(p1, p2, p3, c1, c2, c3)`. -/
def TriangleMesh.addTriangle (m : Libm) (mesh : TriangleMesh) (p1 p2 p3 : Vec3)
    (c1 c2 c3 : Vec4) : TriangleMesh :=
  let i := u32 mesh.vertices.length
  { mesh with
    vertices := mesh.vertices ++ [p1, p2, p3]
    triangles := mesh.triangles ++ [(i, u32 (i + 1), u32 (i + 2))]
    normals := mesh.normals ++ List.replicate 3 (unit m (cross (p2 - p1) (p3 - p1)))
    colors := mesh.colors ++ [c1, c2, c3] }

/-- The overload `addTriangle(p1, p2, p3, r1, r2, r3)` with texture coordinates. -/
def TriangleMesh.addTexturedTriangle (m : Libm) (mesh : TriangleMesh) (p1 p2 p3 : Vec3)
    (r1 r2 r3 : Vec2) : TriangleMesh :=
  let i := u32 mesh.vertices.length
  { mesh with
    vertices := mesh.vertices ++ [p1, p2, p3]
    triangles := mesh.triangles ++ [(i, u32 (i + 1), u32 (i + 2))]
    normals := mesh.normals ++ List.replicate 3 (unit m (cross (p2 - p1) (p3 - p1)))
    textureCoordinates := mesh.textureCoordinates ++ [r1, r2, r3] }

/-- The overload `addQuad(p1, p2, p3, p4, c1, c2, c3, c4)`. -/
def TriangleMesh.addQuad (m : Libm) (mesh : TriangleMesh) (p1 p2 p3 p4 : Vec3)
    (c1 c2 c3 c4 : Vec4) : TriangleMesh :=
  (mesh.addTriangle m p1 p2 p3 c1 c2 c3).addTriangle m p1 p3 p4 c1 c3 c4

/-- The overload `addQuad(p1, p2, p3, p4, r1, r2, r3, r4)` with texture coordinates. -/
def TriangleMesh.addTexturedQuad (m : Libm) (mesh : TriangleMesh) (p1 p2 p3 p4 : Vec3)
    (r1 r2 r3 r4 : Vec2) : TriangleMesh :=
  (mesh.addTexturedTriangle m p1 p2 p3 r1 r2 r3).addTexturedTriangle m p1 p3 p4 r1 r3 r4

/-- The member `addAlignedBox`: eight vertices, twelve triangles, eight colours. -/
def TriangleMesh.addAlignedBox (mesh : TriangleMesh) (p1 p2 : Vec3) (color : Vec4) :
    TriangleMesh :=
  let j := u32 mesh.vertices.length
  { mesh with
    vertices := mesh.vertices ++
      [p1, ![p1 0, p1 1, p2 2], ![p1 0, p2 1, p1 2], ![p1 0, p2 1, p2 2],
        ![p2 0, p1 1, p1 2], ![p2 0, p1 1, p2 2], ![p2 0, p2 1, p1 2], p2]
    triangles := mesh.triangles ++
      [(j, u32 (j + 1), u32 (j + 5)), (j, u32 (j + 2), u32 (j + 3)),
        (j, u32 (j + 3), u32 (j + 1)), (j, u32 (j + 4), u32 (j + 6)),
        (j, u32 (j + 5), u32 (j + 4)), (j, u32 (j + 6), u32 (j + 2)),
        (u32 (j + 7), u32 (j + 1), u32 (j + 3)), (u32 (j + 7), u32 (j + 2), u32 (j + 6)),
        (u32 (j + 7), u32 (j + 3), u32 (j + 2)), (u32 (j + 7), u32 (j + 4), u32 (j + 5)),
        (u32 (j + 7), u32 (j + 5), u32 (j + 1)), (u32 (j + 7), u32 (j + 6), u32 (j + 4))]
    colors := mesh.colors ++ List.replicate 8 color }

/-- One iteration of the loop of `addAlignedCylinder`: four vertices and four triangles
for the subdivision number `i`; `j` is the index of the bottom centre. -/
def cylinderStep (m : Libm) (bottomCenter : Vec3) (radius height : ℚ) (subdivisions j : Nat)
    (mesh : TriangleMesh) (i : Nat) : TriangleMesh :=
  let k := u32 mesh.vertices.length
  let rim (n : Nat) : Vec3 :=
    bottomCenter + radius • ![m.cos ((n : ℚ) / subdivisions * 2 * m.pi), 0,
      m.sin ((n : ℚ) / subdivisions * 2 * m.pi)]
  { mesh with
    vertices := mesh.vertices ++
      [rim i, rim (i + 1), rim i + ![0, height, 0], rim (i + 1) + ![0, height, 0]]
    triangles := mesh.triangles ++
      [(j, k, u32 (k + 1)), (u32 (j + 1), u32 (k + 3), u32 (k + 2)),
        (u32 (k + 1), k, u32 (k + 2)), (u32 (k + 1), u32 (k + 2), u32 (k + 3))] }

/-- The member `addAlignedCylinder`. -/
def TriangleMesh.addAlignedCylinder (m : Libm) (mesh : TriangleMesh) (bottomCenter : Vec3)
    (radius height : ℚ) (subdivisions : Nat) (color : Vec4) : TriangleMesh :=
  let j := u32 mesh.vertices.length
  let start : TriangleMesh :=
    { mesh with vertices := mesh.vertices ++ [bottomCenter, bottomCenter + ![0, height, 0]] }
  let looped := (List.range subdivisions).foldl
    (cylinderStep m bottomCenter radius height subdivisions j) start
  { looped with colors := looped.colors ++ List.replicate (u32 (subdivisions * 4 + 2)) color }

/-- The member `TriangleMesh::prerender`: the depth pre-pass over the triangles of the
mesh, all of them for a textured mesh, those with three vertex alphas `>= 1` otherwise. -/
def TriangleMesh.prerender (mesh : TriangleMesh) (fb : Framebuffer) (camera : PinholeCamera) :
    Framebuffer :=
  mesh.triangles.foldl
    (fun fb triangle =>
      if mesh.texture.isSome then
        fb.prerenderTriangle camera (mesh.vertices.getD triangle.1 0)
          (mesh.vertices.getD triangle.2.1 0) (mesh.vertices.getD triangle.2.2 0)
      else if mesh.colors.getD triangle.1 0 3 ≥ 1 ∧ mesh.colors.getD triangle.2.1 0 3 ≥ 1 ∧
          mesh.colors.getD triangle.2.2 0 3 ≥ 1 then
        fb.prerenderTriangle camera (mesh.vertices.getD triangle.1 0)
          (mesh.vertices.getD triangle.2.1 0) (mesh.vertices.getD triangle.2.2 0)
      else fb)
    fb

/-- The member `TriangleMesh::render`: the pre-pass, then every triangle through the
overload of `renderTriangle` the mesh selects. -/
def TriangleMesh.render (m : Libm) (mesh : TriangleMesh) (fb : Framebuffer)
    (camera : PinholeCamera) (directionalLights : List DirectionalLight)
    (pointLights : List PointLight) (reflectionMap : Option CubeMap) : Rendered :=
  match mesh.texture with
  | some texture =>
    mesh.triangles.foldl
      (fun s triangle =>
        s.framebuffer.renderTexturedTriangle m camera texture
          (mesh.vertices.getD triangle.1 0) (mesh.vertices.getD triangle.2.1 0)
          (mesh.vertices.getD triangle.2.2 0) (mesh.textureCoordinates.getD triangle.1 0)
          (mesh.textureCoordinates.getD triangle.2.1 0)
          (mesh.textureCoordinates.getD triangle.2.2 0) (mesh.normals.getD triangle.1 0)
          (mesh.normals.getD triangle.2.1 0) (mesh.normals.getD triangle.2.2 0)
          directionalLights s.pointLights s.reflectionMap mesh.material)
      ⟨mesh.prerender fb camera, pointLights, reflectionMap⟩
  | none =>
    mesh.triangles.foldl
      (fun s triangle =>
        s.framebuffer.renderTriangle m camera
          (mesh.vertices.getD triangle.1 0) (mesh.vertices.getD triangle.2.1 0)
          (mesh.vertices.getD triangle.2.2 0) (mesh.colors.getD triangle.1 0)
          (mesh.colors.getD triangle.2.1 0) (mesh.colors.getD triangle.2.2 0)
          (mesh.normals.getD triangle.1 0) (mesh.normals.getD triangle.2.1 0)
          (mesh.normals.getD triangle.2.2 0)
          directionalLights s.pointLights s.reflectionMap mesh.material)
      ⟨mesh.prerender fb camera, pointLights, reflectionMap⟩

/-- The overload `addTriangle(p1, p2, p3, color)`. -/
def TriangleMesh.addUniformTriangle (m : Libm) (mesh : TriangleMesh) (p1 p2 p3 : Vec3)
    (color : Vec4) : TriangleMesh :=
  mesh.addTriangle m p1 p2 p3 color color color

/-- The overload `addQuad(p1, p2, p3, p4, color)`. -/
def TriangleMesh.addUniformQuad (m : Libm) (mesh : TriangleMesh) (p1 p2 p3 p4 : Vec3)
    (color : Vec4) : TriangleMesh :=
  mesh.addQuad m p1 p2 p3 p4 color color color color

/-- A call of one of the colour variants of the mesh builders, with its arguments. -/
inductive MeshOp where
  | addTriangle (p1 p2 p3 : Vec3) (c1 c2 c3 : Vec4)
  | addUniformTriangle (p1 p2 p3 : Vec3) (color : Vec4)
  | addQuad (p1 p2 p3 p4 : Vec3) (c1 c2 c3 c4 : Vec4)
  | addUniformQuad (p1 p2 p3 p4 : Vec3) (color : Vec4)
  | addAlignedBox (p1 p2 : Vec3) (color : Vec4)
  | addAlignedCylinder (bottomCenter : Vec3) (radius height : ℚ) (subdivisions : Nat)
      (color : Vec4)

/-- The effect of one call on the mesh. -/
def MeshOp.apply (m : Libm) (mesh : TriangleMesh) : MeshOp → TriangleMesh
  | .addTriangle p1 p2 p3 c1 c2 c3 => mesh.addTriangle m p1 p2 p3 c1 c2 c3
  | .addUniformTriangle p1 p2 p3 color => mesh.addUniformTriangle m p1 p2 p3 color
  | .addQuad p1 p2 p3 p4 c1 c2 c3 c4 => mesh.addQuad m p1 p2 p3 p4 c1 c2 c3 c4
  | .addUniformQuad p1 p2 p3 p4 color => mesh.addUniformQuad m p1 p2 p3 p4 color
  | .addAlignedBox p1 p2 color => mesh.addAlignedBox p1 p2 color
  | .addAlignedCylinder bottomCenter radius height subdivisions color =>
    mesh.addAlignedCylinder m bottomCenter radius height subdivisions color

/-- A sequence of calls, in order, on a mesh. -/
def TriangleMesh.build (m : Libm) (mesh : TriangleMesh) (ops : List MeshOp) : TriangleMesh :=
  ops.foldl (MeshOp.apply m) mesh

/-- The calls whose only effect on the mesh is that of `addTriangle`. -/
def MeshOp.byTriangles : MeshOp → Bool
  | .addAlignedBox _ _ _ => false
  | .addAlignedCylinder _ _ _ _ _ => false
  | _ => true

/-- The number of colours `addAlignedCylinder` appends is computed in `unsigned int`;
this is the condition that the computation does not wrap (always true of a box or a
triangle call). -/
def MeshOp.countFits : MeshOp → Prop
  | .addAlignedCylinder _ _ _ subdivisions _ => subdivisions * 4 + 2 < 2 ^ 32
  | _ => True

/-- Every index of every triangle is below `bound`. -/
def indicesBelow (triangles : List (Nat × Nat × Nat)) (bound : Nat) : Prop :=
  ∀ triangle ∈ triangles, triangle.1 < bound ∧ triangle.2.1 < bound ∧ triangle.2.2 < bound

instance (triangles : List (Nat × Nat × Nat)) (bound : Nat) :
    Decidable (indicesBelow triangles bound) := by
  unfold indicesBelow; infer_instance

/-- The part of mesh well-formedness about indices and colours: every triangle index is
below `vertices.size()` and there is one colour per vertex. -/
def TriangleMesh.Indexed (mesh : TriangleMesh) : Prop :=
  indicesBelow mesh.triangles mesh.vertices.length ∧
    mesh.colors.length = mesh.vertices.length

/-- The ways in which `addBin` leaves by an exception: the two `std::runtime_error`s it
throws itself and the `std::bad_array_new_length` of an array `new` with a negative
count. -/
inductive LoadError where
  | cannotOpen
  | positionsMissing
  | badArrayLength
  deriving DecidableEq

/-- The reading of raw bytes as numbers (memory layout): `int`, `unsigned int` and `float`
from the bytes that were read into the object. -/
structure Decoder where
  int : List Nat → Int
  unsigned : List Nat → Nat
  float : List Nat → ℚ

/-- An input file stream: the bytes not yet read and the failure flag. -/
structure FileStream where
  bytes : List Nat
  failed : Bool

/-- The call `file.read(buffer, n)`: the bytes delivered and the stream after it. When fewer
than `n` bytes are left the stream delivers them and fails; a failed stream delivers
nothing. -/
def FileStream.read (s : FileStream) (n : Nat) : List Nat × FileStream :=
  if s.failed then ([], s)
  else if s.bytes.length < n then (s.bytes, ⟨[], true⟩)
  else (s.bytes.take n, ⟨s.bytes.drop n, false⟩)

/-- The `count` floats of an array that `read` filled with `bytes`, four bytes each. -/
def floatsOf (d : Decoder) (bytes : List Nat) (count : Nat) : List ℚ :=
  (List.range count).map (fun i => d.float ((bytes.drop (4 * i)).take 4))

/-- The `count` elements of a `Vec3` array filled with `bytes`. -/
def vec3sOf (d : Decoder) (bytes : List Nat) (count : Nat) : List Vec3 :=
  (List.range count).map (fun i =>
    ![(floatsOf d bytes (3 * count)).getD (3 * i) 0,
      (floatsOf d bytes (3 * count)).getD (3 * i + 1) 0,
      (floatsOf d bytes (3 * count)).getD (3 * i + 2) 0])

/-- The `count` elements of a `Vec2` array filled with `bytes`. -/
def vec2sOf (d : Decoder) (bytes : List Nat) (count : Nat) : List Vec2 :=
  (List.range count).map (fun i =>
    ![(floatsOf d bytes (2 * count)).getD (2 * i) 0,
      (floatsOf d bytes (2 * count)).getD (2 * i + 1) 0])

/-- The `count` elements of an `unsigned int` array filled with `bytes`. -/
def unsignedsOf (d : Decoder) (bytes : List Nat) (count : Nat) : List Nat :=
  (List.range count).map (fun i => d.unsigned ((bytes.drop (4 * i)).take 4))

/-- What a call of `addBin` leaves: the exception it left by, if any, and the mesh. -/
structure Loaded where
  error : Option LoadError
  mesh : TriangleMesh

/-- The member `TriangleMesh::addBin`, on the content of the file (`none` when it cannot
be opened). The `char ch` is read four times into the same variable, so a read that
delivers nothing leaves the previous value (`indeterminate` before the first read);
`121` is the character `y`. An array `new` with a negative count
throws; with another count it is taken to succeed. -/
def TriangleMesh.addBin (d : Decoder) (indeterminate : Nat) (mesh : TriangleMesh)
    (file : Option (List Nat)) : Loaded :=
  let j := u32 mesh.vertices.length
  match file with
  | none => ⟨some .cannotOpen, mesh⟩
  | some bytes =>
    let r0 := FileStream.read ⟨bytes, false⟩ 4
    let vertexCount := d.int r0.1
    if vertexCount < 0 then ⟨some .badArrayLength, mesh⟩
    else
      let n := vertexCount.toNat
      let r1 := r0.2.read 1
      let ch1 := r1.1.headD indeterminate
      if ch1 ≠ 121 then ⟨some .positionsMissing, mesh⟩
      else
        let r2 := r1.2.read 1
        let ch2 := r2.1.headD ch1
        let r3 := r2.2.read 1
        let ch3 := r3.1.headD ch2
        let r4 := r3.2.read 1
        let ch4 := r4.1.headD ch3
        let rv := r4.2.read (n * 3 * 4)
        let mesh1 := { mesh with vertices := mesh.vertices ++ vec3sOf d rv.1 n }
        let rc := if ch2 = 121 then rv.2.read (n * 3 * 4) else ([], rv.2)
        let mesh2 :=
          if ch2 = 121 then
            { mesh1 with
              colors := mesh1.colors ++ (vec3sOf d rc.1 n).map (fun c => ![c 0, c 1, c 2, 1]) }
          else mesh1
        let rn := if ch3 = 121 then rc.2.read (n * 3 * 4) else ([], rc.2)
        let mesh3 :=
          if ch3 = 121 then { mesh2 with normals := mesh2.normals ++ vec3sOf d rn.1 n }
          else mesh2
        let rt := if ch4 = 121 then rn.2.read (n * 2 * 4) else ([], rn.2)
        let mesh4 :=
          if ch4 = 121 then
            { mesh3 with textureCoordinates := mesh3.textureCoordinates ++ vec2sOf d rt.1 n }
          else mesh3
        let r5 := rt.2.read 4
        let triangleCount := d.int r5.1
        if triangleCount * 3 < 0 then ⟨some .badArrayLength, mesh4⟩
        else
          let k := triangleCount.toNat
          let r6 := r5.2.read (k * 3 * 4)
          let triangles := unsignedsOf d r6.1 (k * 3)
          ⟨none,
            { mesh4 with
              triangles := mesh4.triangles ++ (List.range k).map (fun i =>
                (u32 (triangles.getD (3 * i) 0 + j), u32 (triangles.getD (3 * i + 1) 0 + j),
                  u32 (triangles.getD (3 * i + 2) 0 + j))) }⟩

/-- The three vertex colours of a triangle of the mesh have alpha `>= 1`: the test of the
coloured branch of `prerender`. -/
def TriangleMesh.opaqueVertices (mesh : TriangleMesh) (triangle : Nat × Nat × Nat) : Bool :=
  decide (mesh.colors.getD triangle.1 0 3 ≥ 1 ∧ mesh.colors.getD triangle.2.1 0 3 ≥ 1 ∧
    mesh.colors.getD triangle.2.2 0 3 ≥ 1)

/-- The three vertices `vertices[triangle[0]]`, `vertices[triangle[1]]` and
`vertices[triangle[2]]` of a triangle of the mesh. -/
def TriangleMesh.corners (mesh : TriangleMesh) (triangle : Nat × Nat × Nat) :
    Vec3 × Vec3 × Vec3 :=
  (mesh.vertices.getD triangle.1 0, mesh.vertices.getD triangle.2.1 0,
    mesh.vertices.getD triangle.2.2 0)

/-- A texture of a single red texel of alpha one half. -/
def sampleTranslucentTexture : Framebuffer := ⟨[![1, 0, 0, 1 / 2]], [0], 1, 1⟩

/-- A mesh of the one triangle `sampleTriangle`, textured with a single texel of alpha
one half. -/
def sampleTexturedMesh : TriangleMesh :=
  { vertices := [sampleTriangle.1, sampleTriangle.2.1, sampleTriangle.2.2]
    colors := []
    triangles := [(0, 1, 2)]
    normals := List.replicate 3 ![0, 0, 1]
    textureCoordinates := [![0, 0], ![1, 0], ![0, 1]]
    texture := some sampleTranslucentTexture
    material := flat }

/-- The same triangle as a coloured mesh with one translucent vertex. -/
def sampleTranslucentMesh : TriangleMesh :=
  { sampleTexturedMesh with
    colors := [![1, 0, 0, 1], ![1, 0, 0, 1], ![1, 0, 0, 1 / 2]]
    textureCoordinates := []
    texture := none }

/-- A decoder for the examples: a number is its first byte, as a signed byte for `int`. -/
def sampleDecoder : Decoder where
  int := fun bytes => if bytes.headD 0 < 128 then (bytes.headD 0 : Int) else bytes.headD 0 - 256
  unsigned := fun bytes => bytes.headD 0
  float := fun bytes => (bytes.headD 0 : ℚ)

/-- A file without the position stream: one vertex announced, first flag `n`. -/
def sampleFileWithoutPositions : List Nat := [1, 0, 0, 0, 110, 110, 110, 110]

/-- A file of one vertex `(1, 2, 3)` with positions only and no triangle. -/
def sampleFile : List Nat :=
  [1, 0, 0, 0, 121, 110, 110, 110, 1, 0, 0, 0, 2, 0, 0, 0, 3, 0, 0, 0, 0, 0, 0, 0]

end graphics

namespace math

abbrev Mat2 := Matrix 2 2

/-- The function `math::identity<N>()`. -/
def identity (N : Nat) : Matrix N N := fun i j => if i = j then 1 else 0

/-- The quotient `operator/(Matrix<M, N>, float)`: every entry divided by `rhs`. -/
def divScalar {M N : Nat} (lhs : Matrix M N) (rhs : ℚ) : Matrix M N := fun i j => lhs i j / rhs

/-- The member `Matrix<1, 1>::determinant`. -/
def determinant1 (a : Matrix 1 1) : ℚ := a 0 0

/-- The member `Matrix<2, 2>::determinant`. -/
def determinant2 (a : Mat2) : ℚ := a 0 0 * a 1 1 - a 0 1 * a 1 0

/-- The member `Matrix<2, 2>::inverse`. -/
def inverse2 (a : Mat2) : Mat2 :=
  divScalar ![![a 1 1, -a 0 1], ![-a 1 0, a 0 0]] (determinant2 a)

/-- The member `Matrix<2, 2>::cofactor`: the signed determinant of the submatrix without
`row` and `col`; the index `i + (i >= row)` of the source is `row.succAbove i`. -/
def cofactor2 (a : Mat2) (row col : Fin 2) : ℚ :=
  let submatrix : Matrix 1 1 := fun i j => a (row.succAbove i) (col.succAbove j)
  if (row.val + col.val) % 2 ≠ 0 then -determinant1 submatrix else determinant1 submatrix

/-- The member `Matrix<3, 3>::cofactor`. -/
def cofactor (a : Mat3) (row col : Fin 3) : ℚ :=
  let submatrix : Mat2 := fun i j => a (row.succAbove i) (col.succAbove j)
  if (row.val + col.val) % 2 ≠ 0 then -determinant2 submatrix else determinant2 submatrix

/-- The member `Matrix<2, 2>::comatrix`. -/
def comatrix2 (a : Mat2) : Mat2 := fun i j => cofactor2 a i j

/-- The member `Matrix<3, 3>::comatrix`. -/
def comatrix (a : Mat3) : Mat3 := fun i j => cofactor a i j

/-- The member `Matrix<2, 2>::adjugate`. -/
def adjugate2 (a : Mat2) : Mat2 := transpose (comatrix2 a)

/-- The member `Matrix<3, 3>::adjugate`. -/
def adjugate (a : Mat3) : Mat3 := transpose (comatrix a)

/-- The member `Vector<2>::cross`. -/
def cross2 (lhs rhs : Vec2) : ℚ := lhs 0 * rhs 1 - lhs 1 * rhs 0

/-- The function `math::lineIntersection`: the returned flag, and the value of the
reference parameter `intersection` after the call. -/
def lineIntersection (l1p1 l1p2 l2p1 l2p2 intersection : Vec2) : Bool × Vec2 :=
  let r := l1p2 - l1p1
  let s := l2p2 - l2p1
  if cross2 r s = 0 then (false, intersection)
  else
    let t := cross2 (l2p1 - l1p1) s / cross2 r s
    let u := cross2 (l2p1 - l1p1) r / cross2 r s
    if t ≥ 0 ∧ t ≤ 1 ∧ u ≥ 0 ∧ u ≤ 1 then (true, l1p1 + t • r) else (false, intersection)

/-- The member `PinholeCamera::getPrincipalPoint`. -/
def PinholeCamera.getPrincipalPoint (camera : PinholeCamera) : Vec2 :=
  ![-dot camera.c camera.a, -dot camera.c camera.b]

/-- Library functions with a square root that is exact on the squares `0`, `1`, `4`, `9`,
`16` and `36`, and otherwise as `tableLibm`. -/
def squaresLibm : Libm where
  sqrt x := if x = 1 then 1 else if x = 4 then 2 else if x = 9 then 3 else
    if x = 16 then 4 else if x = 36 then 6 else 0
  cos x := if x = 11 / 7 then 0 else if x = 22 / 7 then -1 else if x = 33 / 7 then 0 else 1
  sin x := if x = 11 / 7 then 1 else if x = 22 / 7 then 0 else if x = 33 / 7 then -1 else 0
  tan x := if x = 11 / 14 then 1 else 0
  pi := 22 / 7

/-- A 2 x 2 matrix of determinant `-2`. -/
def sampleMat2 : Mat2 := ![![1, 2], ![3, 4]]

/-- A 3 x 3 matrix of determinant `1`. -/
def sampleMat3 : Mat3 := ![![1, 2, 3], ![0, 1, 4], ![5, 6, 0]]

end math

namespace graphics
open math

/-- The doubled signed area `(p2.x-p1.x)(p3.y-p1.y) - (p3.x-p1.x)(p2.y-p1.y)` of a projected
triangle, on the projected coordinates before they are rounded to fixed point. -/
def doubledSignedArea (p1 p2 p3 : Vec3) : ℚ :=
  (p2 0 - p1 0) * (p3 1 - p1 1) - (p3 0 - p1 0) * (p2 1 - p1 1)

/-- The three edge functions of `renderTriangle` (the expressions that initialise `u1`,
`u2`, `u3`) at the screen point `(x, y)`, on the projected coordinates before they are
rounded to fixed point. -/
def screenEdges (p1 p2 p3 : Vec3) (x y : ℚ) : ℚ × ℚ × ℚ :=
  ((p3 0 - p2 0) * (y - p2 1) - (p3 1 - p2 1) * (x - p2 0),
    (p1 0 - p3 0) * (y - p3 1) - (p1 1 - p3 1) * (x - p3 0),
    (p2 0 - p1 0) * (y - p1 1) - (p2 1 - p1 1) * (x - p1 0))

/-- The member `TriangleMesh::getCenter`: the mean of the vertices. -/
def TriangleMesh.getCenter (mesh : TriangleMesh) : Vec3 :=
  fun i => (mesh.vertices.foldl (fun center vertex => center + vertex) (0 : Vec3)) i /
    (mesh.vertices.length : ℚ)

/-- The member `TriangleMesh::scale(center, multiplier)`. -/
def TriangleMesh.scaleAbout (mesh : TriangleMesh) (center : Vec3) (multiplier : ℚ) :
    TriangleMesh :=
  { mesh with
    vertices := mesh.vertices.map fun vertex i =>
      (vertex i - center i) * multiplier + center i }

/-- The member `TriangleMesh::scale(multiplier)`. -/
def TriangleMesh.scale (mesh : TriangleMesh) (multiplier : ℚ) : TriangleMesh :=
  mesh.scaleAbout mesh.getCenter multiplier

/-- The member `TriangleMesh::getSize(center)`: the mean distance of the vertices from
`center`. -/
def TriangleMesh.getSizeAbout (m : Libm) (mesh : TriangleMesh) (center : Vec3) : ℚ :=
  mesh.vertices.foldl (fun size vertex => size + norm m (vertex - center)) 0 /
    (mesh.vertices.length : ℚ)

/-- The member `TriangleMesh::getSize()`. -/
def TriangleMesh.getSize (m : Libm) (mesh : TriangleMesh) : ℚ :=
  mesh.getSizeAbout m mesh.getCenter

/-- The member `TriangleMesh::setSize(center, size)`. -/
def TriangleMesh.setSizeAbout (m : Libm) (mesh : TriangleMesh) (center : Vec3) (size : ℚ) :
    TriangleMesh :=
  mesh.scaleAbout center (size / mesh.getSize m)

/-- The member `TriangleMesh::setSize(size)`. -/
def TriangleMesh.setSize (m : Libm) (mesh : TriangleMesh) (size : ℚ) : TriangleMesh :=
  mesh.scale (size / mesh.getSize m)

/-- A mesh of the two vertices `(0, 0, 0)` and `(2, 0, 0)`. -/
def sampleSegmentMesh : TriangleMesh :=
  { TriangleMesh.empty flat with vertices := [![0, 0, 0], ![2, 0, 0]] }

end graphics

namespace graphics
open math

/-- The doubled signed area of the fixed-point triangle: the common value of
`E1 + E2 + E3`, positive for the winding the coverage test accepts. -/
def FixedPoint.doubledArea (f : FixedPoint) : Int :=
  (f.p2x - f.p1x) * (f.p3y - f.p1y) - (f.p2y - f.p1y) * (f.p3x - f.p1x)

/-- The three directed edges of the fixed-point triangle, start and end point: the edge
`p2 -> p3` on which `E1` vanishes, `p3 -> p1` for `E2`, `p1 -> p2` for `E3`. -/
def FixedPoint.directedEdges (f : FixedPoint) : List ((Int × Int) × (Int × Int)) :=
  [((f.p2x, f.p2y), (f.p3x, f.p3y)), ((f.p3x, f.p3y), (f.p1x, f.p1y)),
    ((f.p1x, f.p1y), (f.p2x, f.p2y))]

/-- The sample point `(16 x, 16 y)` of pixel `(x, y)` lies on the segment from `s` to `e`
at the parameter `t`. -/
def onSegment (s e : Int × Int) (t : ℚ) (x y : Nat) : Prop :=
  16 * (x : ℚ) = (s.1 : ℚ) + t * ((e.1 : ℚ) - (s.1 : ℚ)) ∧
    16 * (y : ℚ) = (s.2 : ℚ) + t * ((e.2 : ℚ) - (s.2 : ℚ))

instance (s e : Int × Int) (t : ℚ) (x y : Nat) : Decidable (onSegment s e t x y) := by
  unfold onSegment; infer_instance

/-- The triangle that completes the sample triangle to a square: it shares the edge from
pixel `(4, 0)` to pixel `(0, 4)`, traversed the other way, and has the same winding. -/
def sampleNeighbourTriangle : Vec3 × Vec3 × Vec3 :=
  (![2, -2, -2], ![2, 2, -2], ![-2, 2, -2])

/-- The constructor `PointLight(resolution, position, strength, specularStrength,
specularColor)`. -/
def PointLight.ofResolution (m : Libm) (resolution : Nat) (position : Vec3)
    (strength specularStrength : ℚ) (specularColor : Vec3) : PointLight where
  position := position
  strength := strength
  specularStrength := specularStrength
  specularColor := specularColor
  shadowMap := CubeMap.ofResolution m resolution position

/-- The member `PointLight::getPosition`. -/
def PointLight.getPosition (pointLight : PointLight) : Vec3 := pointLight.position

/-- The orientation and image size of a camera: everything but its centre and its scratch
fields. -/
def orientation (camera : PinholeCamera) : Vec3 × Vec3 × Vec3 × Mat3 × Nat × Nat :=
  (camera.a, camera.b, camera.c, camera.projectionMatrix, camera.width, camera.height)

end graphics

namespace graphics
open math

/-- The third branch of `light` (diffuse and specular terms together), evaluated whatever
the material: the factors `kD` and `kS` it computes and the point lights with updated
caches. -/
def combinedAccumulate (m : Libm) (normal reflectedRay surfacePoint : Vec3)
    (directionalLights : List DirectionalLight) (pointLights : List PointLight) (w : ℚ)
    (material : Material) : (ℚ × Vec3) × List PointLight :=
  let r := mixedPointLights m normal reflectedRay surfacePoint w material
    (directionalLights.foldl
      (fun acc l => (acc.1 + directionalDiffuse normal l,
        acc.2 + directionalSpecular reflectedRay material l)) (material.kA, 0))
    pointLights
  ((compress material r.1.1, r.1.2), r.2)

/-- The part of `light` after the three branches: the colour composed from the factors
`kD`, `kS` and the point lights `acc` a branch has left. -/
def composeLight (m : Libm) (reflectionMap : Option CubeMap) (color : Vec4)
    (normal surfacePoint cameraPosition : Vec3) (material : Material)
    (acc : (ℚ × Vec3) × List PointLight) : Vec4 × List PointLight × Option CubeMap :=
  let ray := unit m (cameraPosition - surfacePoint)
  let reflectedRay := (2 : ℚ) • projectOnto m ray normal - ray
  let kD := acc.1.1
  let kS := acc.1.2
  let subcolor : Vec3 := ![color 0, color 1, color 2]
  let s : Vec3 × List PointLight × Option CubeMap :=
    match reflectionMap with
    | none => (clampColor (kS + kD • subcolor), acc.2, none)
    | some environment =>
      if material.kR = 0 then (clampColor (kS + kD • subcolor), acc.2, some environment)
      else
        let kU := material.kR - material.kF * dot ray normal
        let looked := environment.lookup reflectedRay
        (clampColor (kS + (((1 - kU) * kD) • subcolor +
            kU • ![looked.1 0, looked.1 1, looked.1 2])),
          acc.2, some looked.2)
  (fun i => (![s.1 0, s.1 1, s.1 2, 1] : Vec4) i * color 3, s.2)

/-- The function `light` with the third (combined) branch taken whatever the material. -/
def combinedLight (m : Libm) (reflectionMap : Option CubeMap) (color : Vec4)
    (normal surfacePoint cameraPosition : Vec3) (directionalLights : List DirectionalLight)
    (pointLights : List PointLight) (w : ℚ) (material : Material) :
    Vec4 × List PointLight × Option CubeMap :=
  composeLight m reflectionMap color normal surfacePoint cameraPosition material
    (combinedAccumulate m normal
      ((2 : ℚ) • projectOnto m (unit m (cameraPosition - surfacePoint)) normal -
        unit m (cameraPosition - surfacePoint))
      surfacePoint directionalLights pointLights w material)

/-- The subscripts the probing loop of `CubeMap::lookup` and `CubeMap::getVisibility`
applies to `cameras` (first list) and to `framebuffers` (second list), `probe i` being the
divisor and the projection computed with `cameras[i]`: every `i` other than the cached
face subscripts `cameras`, and the first hit subscripts `framebuffers` with `i` or
`i + 3`. -/
def CubeMap.probeAccesses (cm : CubeMap) (probe : Nat → ℚ × Vec3) :
    List Nat → List Nat × List Nat
  | [] => ([], [])
  | i :: rest =>
    if i ≠ cm.previousHit then
      if onFace (cm.camera i) (probe i).1 (probe i).2 then
        ([i], [if (probe i).2 2 > 0 then i else i + 3])
      else (i :: (cm.probeAccesses probe rest).1, (cm.probeAccesses probe rest).2)
    else cm.probeAccesses probe rest

/-- The subscripts a call of `CubeMap::lookup` or `CubeMap::getVisibility` applies to
`cameras` and to `framebuffers`: the cached face first, then the probing loop. -/
def CubeMap.faceAccesses (cm : CubeMap) (probe : Nat → ℚ × Vec3) : List Nat × List Nat :=
  if onFace (cm.camera cm.previousHit) (probe cm.previousHit).1 (probe cm.previousHit).2 then
    ([cm.previousHit],
      [if (probe cm.previousHit).2 2 > 0 then cm.previousHit else cm.previousHit + 3])
  else
    (cm.previousHit :: (cm.probeAccesses probe [0, 1, 2]).1,
      (cm.probeAccesses probe [0, 1, 2]).2)

/-- The subscripts of a call `lookup(ray)`; `getPosition` reads `cameras[0]` first. -/
def CubeMap.lookupAccesses (cm : CubeMap) (ray : Vec3) : List Nat × List Nat :=
  let accesses := cm.faceAccesses fun i =>
    ((cm.camera i).projectDivisor (ray + cm.getPosition),
      (cm.camera i).project (ray + cm.getPosition))
  (0 :: accesses.1, accesses.2)

/-- The subscripts of a call `getVisibility(w)`. -/
def CubeMap.visibilityAccesses (cm : CubeMap) (w : ℚ) : List Nat × List Nat :=
  cm.faceAccesses fun i => ((cm.camera i).p 2, shadowProjection (cm.camera i) w)

end graphics

namespace math

/-- The member `Vector<N>::dot`, over any field of scalars. -/
def dotOver {K : Type} [Field K] {N : Nat} (lhs rhs : Fin N → K) : K := ∑ i, lhs i * rhs i

/-- The member `Vector<3>::cross`, over any field of scalars. -/
def crossOver {K : Type} [Field K] (lhs rhs : Fin 3 → K) : Fin 3 → K :=
  ![lhs 1 * rhs 2 - lhs 2 * rhs 1,
    lhs 2 * rhs 0 - lhs 0 * rhs 2,
    lhs 0 * rhs 1 - lhs 1 * rhs 0]

/-- The member `Vector<N>::norm()`: `std::sqrt(dot(*this))`, over any field of scalars with
the square root `sqrt`. -/
def normOver {K : Type} [Field K] (sqrt : K → K) {N : Nat} (v : Fin N → K) : K :=
  sqrt (dotOver v v)

/-- The member `Vector<N>::unit()`, over any field of scalars. -/
def unitOver {K : Type} [Field K] (sqrt : K → K) {N : Nat} (v : Fin N → K) : Fin N → K :=
  fun i => v i / normOver sqrt v

/-- The member `Matrix<M, N>::transpose`, over any field of scalars. -/
def transposeOver {K : Type} {M N : Nat} (a : Fin M → Fin N → K) : Fin N → Fin M → K :=
  fun i j => a j i

/-- The member `Matrix<3, 3>::determinant`, over any field of scalars. -/
def determinantOver {K : Type} [Field K] (a : Fin 3 → Fin 3 → K) : K :=
  a 0 0 * (a 1 1 * a 2 2 - a 1 2 * a 2 1) +
  a 0 1 * (a 1 2 * a 2 0 - a 1 0 * a 2 2) +
  a 0 2 * (a 1 0 * a 2 1 - a 1 1 * a 2 0)

/-- The member `Matrix<3, 3>::inverse`, over any field of scalars. -/
def inverseOver {K : Type} [Field K] (a : Fin 3 → Fin 3 → K) : Fin 3 → Fin 3 → K := fun i j =>
  (![![a 1 1 * a 2 2 - a 2 1 * a 1 2,
       a 0 2 * a 2 1 - a 0 1 * a 2 2,
       a 0 1 * a 1 2 - a 0 2 * a 1 1],
     ![a 1 2 * a 2 0 - a 1 0 * a 2 2,
       a 0 0 * a 2 2 - a 0 2 * a 2 0,
       a 1 0 * a 0 2 - a 0 0 * a 1 2],
     ![a 1 0 * a 2 1 - a 2 0 * a 1 1,
       a 2 0 * a 0 1 - a 0 0 * a 2 1,
       a 0 0 * a 1 1 - a 1 0 * a 0 1]] : Fin 3 → Fin 3 → K) i j / determinantOver a

/-- The fields of the class `PinholeCamera` that `orient` reads or writes, over any field
of scalars. -/
structure CameraOver (K : Type) where
  center : Fin 3 → K
  a : Fin 3 → K
  b : Fin 3 → K
  c : Fin 3 → K
  projectionMatrix : Fin 3 → Fin 3 → K
  width : Nat
  height : Nat

/-- The camera without its shadow-map scratch fields. -/
def PinholeCamera.over (camera : PinholeCamera) : CameraOver ℚ :=
  { center := camera.center
    a := camera.a
    b := camera.b
    c := camera.c
    projectionMatrix := camera.projectionMatrix
    width := camera.width
    height := camera.height }

/-- The member `PinholeCamera::getProjectionMatrix`, over any field of scalars. -/
def CameraOver.getProjectionMatrix {K : Type} [Field K] (camera : CameraOver K) :
    Fin 3 → Fin 3 → K :=
  inverseOver (transposeOver ![camera.a, camera.b, camera.c])

/-- The member `PinholeCamera::getViewDirection`, over any field of scalars. -/
def CameraOver.getViewDirection {K : Type} [Field K] (camera : CameraOver K) : Fin 3 → K :=
  crossOver camera.b camera.a

/-- The member `PinholeCamera::getFocalLength`, over any field of scalars. -/
def CameraOver.getFocalLength {K : Type} [Field K] (camera : CameraOver K) : K :=
  dotOver camera.c camera.getViewDirection

/-- The member `PinholeCamera::getPrincipalPoint`, over any field of scalars. -/
def CameraOver.getPrincipalPoint {K : Type} [Field K] (camera : CameraOver K) : Fin 2 → K :=
  ![-dotOver camera.c camera.a, -dotOver camera.c camera.b]

/-- The member `PinholeCamera::orient`, over any field of scalars with the square root
`sqrt`. -/
def CameraOver.orient {K : Type} [Field K] (sqrt : K → K) (camera : CameraOver K)
    (direction up : Fin 3 → K) : CameraOver K :=
  let focalLength := camera.getFocalLength
  let direction := unitOver sqrt direction
  let a := crossOver direction (unitOver sqrt up)
  let b := crossOver a direction
  let oriented : CameraOver K :=
    { camera with
      a := a
      b := b
      c := fun i => direction i * focalLength - a i * ((camera.width : K) / 2) -
        b i * ((camera.height : K) / 2) }
  { oriented with projectionMatrix := oriented.getProjectionMatrix }

/-- The camera `graphics.sampleCamera` before its projection matrix is computed, over any
field of scalars: 4 x 4 pixels, focal length 2. -/
def sampleCameraOver (K : Type) [Field K] : CameraOver K :=
  { center := 0
    a := ![1, 0, 0]
    b := ![0, 1, 0]
    c := ![-2, -2, -2]
    projectionMatrix := 0
    width := 4
    height := 4 }

end math

namespace graphics
open math

/-- The member `TriangleMesh::getCenter` on the list of vertices, over any field of
scalars. -/
def getCenterOver {K : Type} [Field K] (vertices : List (Fin 3 → K)) : Fin 3 → K :=
  fun i => (vertices.foldl (fun center vertex => center + vertex) (0 : Fin 3 → K)) i /
    (vertices.length : K)

/-- The member `TriangleMesh::scale(center, multiplier)` on the list of vertices, over any
field of scalars. -/
def scaleOver {K : Type} [Field K] (vertices : List (Fin 3 → K)) (center : Fin 3 → K)
    (multiplier : K) : List (Fin 3 → K) :=
  vertices.map fun vertex i => (vertex i - center i) * multiplier + center i

/-- The member `TriangleMesh::getSize(center)` on the list of vertices, over any field of
scalars with the square root `sqrt`. -/
def getSizeAboutOver {K : Type} [Field K] (sqrt : K → K) (vertices : List (Fin 3 → K))
    (center : Fin 3 → K) : K :=
  vertices.foldl (fun size vertex => size + normOver sqrt (vertex - center)) 0 /
    (vertices.length : K)

/-- The member `TriangleMesh::getSize()` on the list of vertices, over any field of
scalars. -/
def getSizeOver {K : Type} [Field K] (sqrt : K → K) (vertices : List (Fin 3 → K)) : K :=
  getSizeAboutOver sqrt vertices (getCenterOver vertices)

/-- The member `TriangleMesh::setSize(center, size)` on the list of vertices, over any
field of scalars. -/
def setSizeAboutOver {K : Type} [Field K] (sqrt : K → K) (vertices : List (Fin 3 → K))
    (center : Fin 3 → K) (size : K) : List (Fin 3 → K) :=
  scaleOver vertices center (size / getSizeOver sqrt vertices)

/-- The vertices `(0, 0, 0)` and `(2, 0, 0)` of `sampleSegmentMesh`, over any field of
scalars. -/
def sampleSegmentOver (K : Type) [Field K] : List (Fin 3 → K) := [![0, 0, 0], ![2, 0, 0]]

end graphics

namespace math

/-- For an invertible 3 x 3 matrix, `M * a = v` exactly when `a = M.inverse() * v`. -/
theorem mulVec_inverse_iff (M : Mat3) (hdet : determinant M ≠ 0) (v a : Vec3) :
    (∀ i, dot (M i) a = v i) ↔ a = mulVec (inverse M) v := by
  constructor
  · intro h
    have h0 := h 0
    have h1 := h 1
    have h2 := h 2
    simp only [dot, Fin.sum_univ_three] at h0 h1 h2
    funext r
    simp only [mulVec, dot, Fin.sum_univ_three, inverse]
    rw [← h0, ← h1, ← h2]
    fin_cases r <;>
      simp only [Fin.zero_eta, Fin.mk_one, Fin.reduceFinMk, Matrix.cons_val_zero,
        Matrix.cons_val_one, Matrix.head_cons, Matrix.cons_val_two, Matrix.tail_cons] <;>
      field_simp <;> unfold determinant <;> ring
  · intro h i
    subst h
    simp only [mulVec, dot, Fin.sum_univ_three, inverse, Matrix.cons_val_zero,
      Matrix.cons_val_one, Matrix.head_cons, Matrix.cons_val_two, Matrix.tail_cons]
    fin_cases i <;>
      simp only [Fin.zero_eta, Fin.mk_one, Fin.reduceFinMk] <;>
      field_simp <;> unfold determinant <;> ring

end math

namespace graphics

open math

theorem shl4 (x : Int) : x <<< (4 : Int) = x * 16 := by
  have h := Int.shiftLeft_eq_mul_pow x 4
  simpa using h

theorem shr4 (x : Int) : x >>> (4 : Nat) = x / 16 := by
  rw [Int.shiftRight_eq_div_pow]; norm_num

theorem lor_nonneg_iff (a b : Int) : 0 ≤ Int.lor a b ↔ 0 ≤ a ∧ 0 ≤ b := by
  cases a <;> cases b <;> simp [Int.lor, Int.negSucc_lt_zero]

theorem coverageTest_iff (v1 v2 v3 : Int) :
    coverageTest v1 v2 v3 ↔ 0 ≤ v1 ∧ 0 ≤ v2 ∧ 0 ≤ v3 := by
  unfold coverageTest
  rw [lor_nonneg_iff, lor_nonneg_iff, and_assoc]

theorem stdMax_eq_max (a b : ℚ) : stdMax a b = max a b := by
  unfold stdMax
  split_ifs with h
  · exact (max_eq_right h.le).symm
  · exact (max_eq_left (not_lt.mp h)).symm

/-- The state of the inner loop of `prerenderTriangle` after `n` iterations. -/
theorem prerenderPixel_iterate (f : FixedPoint) (rc : Vec3) (zb : Nat) (s : PrePixel)
    (hx : 0 ≤ s.x) (n : Nat) :
    let r := (prerenderPixel f rc zb)^[n] s
    r.x = s.x + n ∧ r.v1 = s.v1 + n * f.fa2 ∧ r.v2 = s.v2 + n * f.fa3 ∧
      r.v3 = s.v3 + n * f.fa1 ∧ r.z = s.z + n * rc 0 ∧
      r.zBuffer.length = s.zBuffer.length ∧
      (∀ k, k < n → coverageTest (s.v1 + k * f.fa2) (s.v2 + k * f.fa3) (s.v3 + k * f.fa1) →
        zb + s.x.toNat + k < s.zBuffer.length →
        r.zBuffer.getD (zb + s.x.toNat + k) 0 =
          stdMax (s.zBuffer.getD (zb + s.x.toNat + k) 0) (s.z + k * rc 0)) ∧
      (∀ idx, (∀ k, k < n → idx = zb + s.x.toNat + k →
          ¬ coverageTest (s.v1 + k * f.fa2) (s.v2 + k * f.fa3) (s.v3 + k * f.fa1)) →
        r.zBuffer.getD idx 0 = s.zBuffer.getD idx 0) := by
  induction n with
  | zero => simp
  | succ n ih =>
    rw [Function.iterate_succ_apply']
    obtain ⟨h1, h2, h3, h4, h5, h6, h7, h8⟩ := ih
    set r := (prerenderPixel f rc zb)^[n] s with hr
    have hidx : zb + r.x.toNat = zb + s.x.toNat + n := by rw [h1]; omega
    refine ⟨?_, ?_, ?_, ?_, ?_, ?_, ?_, ?_⟩
    · simp only [prerenderPixel, h1]; push_cast; ring
    · simp only [prerenderPixel, h2]; push_cast; ring
    · simp only [prerenderPixel, h3]; push_cast; ring
    · simp only [prerenderPixel, h4]; push_cast; ring
    · simp only [prerenderPixel, h5]; push_cast; ring
    · simp only [prerenderPixel]; split_ifs <;> simp [h6]
    · intro k hk hcov hlen
      simp only [prerenderPixel, hidx, h2, h3, h4, h5]
      rcases Nat.lt_succ_iff_lt_or_eq.mp hk with hlt | heq
      · have hne : zb + s.x.toNat + n ≠ zb + s.x.toNat + k := by omega
        split_ifs
        · rw [List.getD_eq_getElem?_getD, List.getElem?_set_ne hne,
            ← List.getD_eq_getElem?_getD]
          exact h7 k hlt hcov hlen
        · exact h7 k hlt hcov hlen
      · subst heq
        rw [if_pos hcov]
        have hkeep : r.zBuffer.getD (zb + s.x.toNat + k) 0 =
            s.zBuffer.getD (zb + s.x.toNat + k) 0 :=
          h8 _ (fun k2 hk2 he => by omega)
        rw [hkeep, List.getD_eq_getElem?_getD, List.getElem?_set_self (by rw [h6]; exact hlen)]
        rfl
    · intro idx hno
      simp only [prerenderPixel, hidx, h2, h3, h4]
      have hprev : r.zBuffer.getD idx 0 = s.zBuffer.getD idx 0 :=
        h8 idx (fun k hk he => hno k (Nat.lt_succ_of_lt hk) he)
      split_ifs with hc
      · have hne : zb + s.x.toNat + n ≠ idx := fun he =>
          hno n (Nat.lt_succ_self n) he.symm hc
        rw [List.getD_eq_getElem?_getD, List.getElem?_set_ne hne,
          ← List.getD_eq_getElem?_getD]
        exact hprev
      · exact hprev

end graphics

namespace graphics

open math

/-- The state of the outer loop of `prerenderTriangle` after `n` scanlines. -/
theorem prerenderRow_iterate (f : FixedPoint) (rc : Vec3) (width : Nat) (minX maxX : Int)
    (s : PreRow) (hx : 0 ≤ minX)
    (hw : ∀ k, k < loopCount minX maxX → minX.toNat + k < width) (n : Nat) :
    let r := (prerenderRow f rc width minX maxX)^[n] s
    r.y = s.y + n ∧ r.u1 = s.u1 + n * f.fb2 ∧ r.u2 = s.u2 + n * f.fb3 ∧
      r.u3 = s.u3 + n * f.fb1 ∧ r.w = s.w + n * rc 1 ∧ r.zb = s.zb + n * width ∧
      r.zBuffer.length = s.zBuffer.length ∧
      (∀ j k, j < n → k < loopCount minX maxX →
        coverageTest (s.u1 + j * f.fb2 + k * f.fa2) (s.u2 + j * f.fb3 + k * f.fa3)
          (s.u3 + j * f.fb1 + k * f.fa1) →
        s.zb + j * width + minX.toNat + k < s.zBuffer.length →
        r.zBuffer.getD (s.zb + j * width + minX.toNat + k) 0 =
          stdMax (s.zBuffer.getD (s.zb + j * width + minX.toNat + k) 0)
            (s.w + j * rc 1 + k * rc 0)) ∧
      (∀ idx, (∀ j k, j < n → k < loopCount minX maxX →
          idx = s.zb + j * width + minX.toNat + k →
          ¬ coverageTest (s.u1 + j * f.fb2 + k * f.fa2) (s.u2 + j * f.fb3 + k * f.fa3)
            (s.u3 + j * f.fb1 + k * f.fa1)) →
        r.zBuffer.getD idx 0 = s.zBuffer.getD idx 0) := by
  induction n with
  | zero => simp
  | succ n ih =>
    rw [Function.iterate_succ_apply']
    obtain ⟨h1, h2, h3, h4, h5, h6, h7, h8, h9⟩ := ih
    set r := (prerenderRow f rc width minX maxX)^[n] s with hr
    obtain ⟨-, -, -, -, -, i6, i7, i8⟩ := prerenderPixel_iterate f rc r.zb
      ⟨minX, r.u1, r.u2, r.u3, r.w, r.zBuffer⟩ hx (loopCount minX maxX)
    simp only [] at i6 i7 i8
    rw [h2, h3, h4, h5, h6] at i7 i8
    rw [h6] at i6
    have hdisj : ∀ j k k2, j < n → k < loopCount minX maxX → k2 < loopCount minX maxX →
        s.zb + j * width + minX.toNat + k ≠ s.zb + n * width + minX.toNat + k2 := by
      intro j k k2 hj hk hk2 he
      have a1 := hw k hk
      have a2 : (j + 1) * width ≤ n * width := Nat.mul_le_mul_right _ hj
      rw [Nat.succ_mul] at a2
      omega
    refine ⟨?_, ?_, ?_, ?_, ?_, ?_, ?_, ?_, ?_⟩
    · simp only [prerenderRow, h1]; push_cast; ring
    · simp only [prerenderRow, h2]; push_cast; ring
    · simp only [prerenderRow, h3]; push_cast; ring
    · simp only [prerenderRow, h4]; push_cast; ring
    · simp only [prerenderRow, h5]; push_cast; ring
    · simp only [prerenderRow, h6]; ring
    · simp only [prerenderRow]; rw [h6, i6, h7]
    · intro j k hj hk hcov hlen
      simp only [prerenderRow, h2, h3, h4, h5, h6]
      rcases Nat.lt_succ_iff_lt_or_eq.mp hj with hlt | heq
      · rw [i8 _ (fun k2 hk2 he => absurd he (hdisj j k k2 hlt hk hk2))]
        exact h8 j k hlt hk hcov hlen
      · subst heq
        rw [i7 k hk hcov (by rw [h7]; exact hlen)]
        rw [h9 _ (fun j2 k2 hj2 hk2 he => absurd he.symm (hdisj j2 k2 k hj2 hk2 hk))]
    · intro idx hno
      simp only [prerenderRow, h2, h3, h4, h5, h6]
      rw [i8 idx (fun k hk he => hno n k (Nat.lt_succ_self n) hk he)]
      exact h9 idx (fun j k hj hk he => hno j k (Nat.lt_succ_of_lt hj) hk he)

end graphics

namespace graphics

open math

theorem minX_nonneg (f : FixedPoint) : 0 ≤ f.minX := le_max_right _ _

theorem minY_nonneg (f : FixedPoint) : 0 ≤ f.minY := le_max_right _ _

theorem maxX_lt (f : FixedPoint) (width : Nat) : f.maxX width ≤ (width : Int) - 1 :=
  min_le_right _ _

theorem maxY_lt (f : FixedPoint) (height : Nat) : f.maxY height ≤ (height : Int) - 1 :=
  min_le_right _ _

theorem scan_in_row (f : FixedPoint) (width : Nat) (k : Nat)
    (hk : k < loopCount f.minX (f.maxX width)) : f.minX.toNat + k < width := by
  have h1 := minX_nonneg f
  have h2 := maxX_lt f width
  unfold loopCount at hk
  omega

/-- The depth plane after the loops of `prerenderTriangle`, pixel by pixel. -/
theorem prerender_loops (f : FixedPoint) (rc : Vec3) (width height : Nat) (zBuffer : List ℚ)
    (hlen : zBuffer.length = width * height) (x y : Nat) (hx : x < width) :
    let r := (prerenderRow f rc width f.minX (f.maxX width))^[loopCount f.minY
      (f.maxY height)] (prerenderInit f rc width zBuffer)
    (inScanBox f width height x y ∧ f.coversIdeal x y →
      r.zBuffer.getD (y * width + x) 0 =
        max (zBuffer.getD (y * width + x) 0) (dot rc ![(x : ℚ), (y : ℚ), 1])) ∧
    (¬ (inScanBox f width height x y ∧ f.coversIdeal x y) →
      r.zBuffer.getD (y * width + x) 0 = zBuffer.getD (y * width + x) 0) := by
  have hmx := minX_nonneg f
  have hmy := minY_nonneg f
  have hMx := maxX_lt f width
  have hMy := maxY_lt f height
  obtain ⟨-, -, -, -, -, -, -, b1, b2⟩ := prerenderRow_iterate f rc width f.minX (f.maxX width)
    (prerenderInit f rc width zBuffer) hmx (scan_in_row f width) (loopCount f.minY
      (f.maxY height))
  have edges : ∀ j k : Nat,
      (prerenderInit f rc width zBuffer).u1 + j * f.fb2 + k * f.fa2 =
        f.edge1 (f.minX.toNat + k : Nat) (f.minY.toNat + j : Nat) ∧
      (prerenderInit f rc width zBuffer).u2 + j * f.fb3 + k * f.fa3 =
        f.edge2 (f.minX.toNat + k : Nat) (f.minY.toNat + j : Nat) ∧
      (prerenderInit f rc width zBuffer).u3 + j * f.fb1 + k * f.fa1 =
        f.edge3 (f.minX.toNat + k : Nat) (f.minY.toNat + j : Nat) := by
    intro j k
    have ex : ((f.minX.toNat + k : Nat) : Int) = f.minX + k := by omega
    have ey : ((f.minY.toNat + j : Nat) : Int) = f.minY + j := by omega
    rw [ex, ey]
    simp only [prerenderInit, FixedPoint.edge1, FixedPoint.edge2, FixedPoint.edge3,
      FixedPoint.fa1, FixedPoint.fa2, FixedPoint.fa3, FixedPoint.fb1, FixedPoint.fb2,
      FixedPoint.fb3, FixedPoint.a1, FixedPoint.a2, FixedPoint.a3, FixedPoint.b1,
      FixedPoint.b2, FixedPoint.b3, shl4]
    refine ⟨by ring, by ring, by ring⟩
  constructor
  · rintro ⟨⟨hx1, hx2, hy1, hy2⟩, hcov⟩
    obtain ⟨k, hk⟩ : ∃ k : Nat, x = f.minX.toNat + k := ⟨x - f.minX.toNat, by omega⟩
    obtain ⟨j, hj⟩ : ∃ j : Nat, y = f.minY.toNat + j := ⟨y - f.minY.toNat, by omega⟩
    have hidx : (prerenderInit f rc width zBuffer).zb + j * width + f.minX.toNat + k =
        y * width + x := by
      simp only [prerenderInit]; rw [hj, hk]; ring
    have hjn : j < loopCount f.minY (f.maxY height) := by unfold loopCount; omega
    have hkn : k < loopCount f.minX (f.maxX width) := by unfold loopCount; omega
    obtain ⟨e1, e2, e3⟩ := edges j k
    have hc : coverageTest ((prerenderInit f rc width zBuffer).u1 + j * f.fb2 + k * f.fa2)
        ((prerenderInit f rc width zBuffer).u2 + j * f.fb3 + k * f.fa3)
        ((prerenderInit f rc width zBuffer).u3 + j * f.fb1 + k * f.fa1) := by
      rw [e1, e2, e3, ← hk, ← hj]; exact hcov
    have hy' : y < height := by omega
    have hin : y * width + x < zBuffer.length := by
      rw [hlen]
      calc y * width + x < y * width + width := by omega
        _ = (y + 1) * width := by ring
        _ ≤ height * width := Nat.mul_le_mul_right _ hy'
        _ = width * height := by ring
    have := b1 j k hjn hkn hc (by rw [hidx]; exact hin)
    rw [hidx] at this
    rw [this, stdMax_eq_max]
    congr 1
    have ex : (x : ℚ) = ((f.minX.toNat : Int) : ℚ) + k := by rw [hk]; push_cast; ring
    have ey : (y : ℚ) = ((f.minY.toNat : Int) : ℚ) + j := by rw [hj]; push_cast; ring
    rw [Int.toNat_of_nonneg hmx] at ex
    rw [Int.toNat_of_nonneg hmy] at ey
    simp only [prerenderInit, dot, Fin.sum_univ_three, Matrix.cons_val_zero,
      Matrix.cons_val_one, Matrix.head_cons, Matrix.cons_val_two, Matrix.tail_cons, ex, ey]
    ring
  · intro hno
    apply b2
    intro j k hj hk he hc
    apply hno
    have hk' := scan_in_row f width k hk
    have hidx : f.minY.toNat * width + j * width + f.minX.toNat + k =
        (f.minY.toNat + j) * width + (f.minX.toNat + k) := by ring
    simp only [prerenderInit] at he
    rw [hidx] at he
    have hxe : x = f.minX.toNat + k := by
      have := congrArg (· % width) he
      simp only [Nat.mul_add_mod_of_lt hx, Nat.mul_add_mod_of_lt hk'] at this
      exact this
    have hye : y = f.minY.toNat + j := by
      have := congrArg (· / width) he
      have hwpos : 0 < width := by omega
      simp only [] at this
      rw [Nat.add_comm, Nat.add_mul_div_right _ _ hwpos, Nat.div_eq_of_lt hx,
        Nat.add_comm ((f.minY.toNat + j) * width), Nat.add_mul_div_right _ _ hwpos,
        Nat.div_eq_of_lt hk'] at this
      omega
    obtain ⟨e1, e2, e3⟩ := edges j k
    rw [e1, e2, e3, ← hxe, ← hye] at hc
    refine ⟨⟨?_, ?_, ?_, ?_⟩, hc⟩
    · omega
    · unfold loopCount at hk; omega
    · omega
    · unfold loopCount at hj; omega

end graphics

namespace graphics

open math

/-- The two early returns of `prerenderTriangle` merged into one test. -/
theorem prerenderTriangle_eq (fb : Framebuffer) (camera : PinholeCamera) (t1 t2 t3 : Vec3) :
    fb.prerenderTriangle camera t1 t2 t3 =
      if rejected camera t1 t2 t3 then fb
      else
        { fb with
          zBuffer :=
            ((prerenderRow (projectFixed camera t1 t2 t3)
              (prerenderRc (camera.project t1) (camera.project t2) (camera.project t3)) fb.width
              (projectFixed camera t1 t2 t3).minX
              ((projectFixed camera t1 t2 t3).maxX fb.width))^[loopCount
                (projectFixed camera t1 t2 t3).minY
                ((projectFixed camera t1 t2 t3).maxY fb.height)]
              (prerenderInit (projectFixed camera t1 t2 t3)
                (prerenderRc (camera.project t1) (camera.project t2) (camera.project t3))
                fb.width fb.zBuffer)).zBuffer } := by
  unfold Framebuffer.prerenderTriangle rejected projectFixed
  by_cases hb : backFacing camera t1 t2 t3
  · simp [hb]
  · by_cases hz : camera.project t1 2 ≤ 0 ∨ camera.project t2 2 ≤ 0 ∨ camera.project t3 2 ≤ 0
    · simp only [hb, hz, if_true, if_false, or_true]
    · simp only [hb, hz, if_false, or_self]

theorem prerenderTriangle_width (fb : Framebuffer) (camera : PinholeCamera) (t1 t2 t3 : Vec3) :
    (fb.prerenderTriangle camera t1 t2 t3).width = fb.width := by
  rw [prerenderTriangle_eq]
  split_ifs <;> rfl

theorem prerenderTriangle_height (fb : Framebuffer) (camera : PinholeCamera)
    (t1 t2 t3 : Vec3) : (fb.prerenderTriangle camera t1 t2 t3).height = fb.height := by
  rw [prerenderTriangle_eq]
  split_ifs <;> rfl

theorem prerenderTriangle_buffer (fb : Framebuffer) (camera : PinholeCamera)
    (t1 t2 t3 : Vec3) : (fb.prerenderTriangle camera t1 t2 t3).buffer = fb.buffer := by
  rw [prerenderTriangle_eq]
  split_ifs <;> rfl

theorem prerenderTriangle_length (fb : Framebuffer) (camera : PinholeCamera)
    (t1 t2 t3 : Vec3) :
    (fb.prerenderTriangle camera t1 t2 t3).zBuffer.length = fb.zBuffer.length := by
  rw [prerenderTriangle_eq]
  split_ifs
  · rfl
  · exact (prerenderRow_iterate _ _ fb.width _ _ _ (minX_nonneg _) (scan_in_row _ fb.width)
      _).2.2.2.2.2.2.1

theorem prerenderTriangle_wellFormed (fb : Framebuffer) (camera : PinholeCamera)
    (t1 t2 t3 : Vec3) (h : fb.WellFormed) : (fb.prerenderTriangle camera t1 t2 t3).WellFormed := by
  unfold Framebuffer.WellFormed at *
  rw [prerenderTriangle_width, prerenderTriangle_height, prerenderTriangle_buffer,
    prerenderTriangle_length]
  exact h

/-- The depth plane after one `prerenderTriangle` call, pixel by pixel. -/
theorem prerenderTriangle_zLookup (fb : Framebuffer) (camera : PinholeCamera)
    (t1 t2 t3 : Vec3) (hwf : fb.WellFormed) (x y : Nat) (hx : x < fb.width) :
    (coveredIdeal fb camera t1 t2 t3 x y →
      (fb.prerenderTriangle camera t1 t2 t3).zLookup x y =
        max (fb.zLookup x y) (interpolatedDepth camera t1 t2 t3 x y)) ∧
    (¬ coveredIdeal fb camera t1 t2 t3 x y →
      (fb.prerenderTriangle camera t1 t2 t3).zLookup x y = fb.zLookup x y) := by
  unfold Framebuffer.zLookup
  rw [prerenderTriangle_width, prerenderTriangle_eq]
  unfold coveredIdeal
  by_cases hr : rejected camera t1 t2 t3
  · simp [hr]
  · simp only [hr, if_false, not_false_eq_true, true_and]
    exact prerender_loops (projectFixed camera t1 t2 t3) _ fb.width fb.height fb.zBuffer
      hwf.2 x y hx

end graphics

namespace graphics

open math

theorem prerenderAll_cons (fb : Framebuffer) (camera : PinholeCamera)
    (t : Vec3 × Vec3 × Vec3) (rest : List (Vec3 × Vec3 × Vec3)) :
    prerenderAll fb camera (t :: rest) =
      prerenderAll (fb.prerenderTriangle camera t.1 t.2.1 t.2.2) camera rest := rfl

theorem prerenderAll_frame (camera : PinholeCamera) (triangles : List (Vec3 × Vec3 × Vec3)) :
    ∀ fb : Framebuffer, (prerenderAll fb camera triangles).width = fb.width ∧
      (prerenderAll fb camera triangles).height = fb.height ∧
      (prerenderAll fb camera triangles).buffer = fb.buffer ∧
      (fb.WellFormed → (prerenderAll fb camera triangles).WellFormed) := by
  induction triangles with
  | nil => intro fb; exact ⟨rfl, rfl, rfl, id⟩
  | cons t rest ih =>
    intro fb
    rw [prerenderAll_cons]
    obtain ⟨h1, h2, h3, h4⟩ := ih (fb.prerenderTriangle camera t.1 t.2.1 t.2.2)
    refine ⟨?_, ?_, ?_, ?_⟩
    · rw [h1, prerenderTriangle_width]
    · rw [h2, prerenderTriangle_height]
    · rw [h3, prerenderTriangle_buffer]
    · exact fun h => h4 (prerenderTriangle_wellFormed fb camera _ _ _ h)

/-- Two pixels of one framebuffer with the same offset are the same pixel. -/
theorem pixel_index_inj (width x y x2 y2 : Nat) (hx : x < width) (hx2 : x2 < width)
    (he : y * width + x = y2 * width + x2) : x = x2 ∧ y = y2 := by
  have h1 : x = x2 := by
    have := congrArg (· % width) he
    simp only [Nat.mul_add_mod_of_lt hx, Nat.mul_add_mod_of_lt hx2] at this
    exact this
  subst h1
  refine ⟨rfl, ?_⟩
  have hpos : 0 < width := by omega
  have h2 : y * width = y2 * width := by omega
  exact Nat.eq_of_mul_eq_mul_right hpos h2

/-- An offset of a pixel of a framebuffer lies within its planes. -/
theorem pixel_offset_lt (width height x y : Nat) (hx : x < width) (hy : y < height) :
    y * width + x < width * height := by
  calc y * width + x < y * width + width := by omega
    _ = (y + 1) * width := by ring
    _ ≤ height * width := Nat.mul_le_mul_right _ hy
    _ = width * height := by ring

/-- A coordinate at or above a non-negative lower bound is the bound plus an offset. -/
theorem offset_exists (lo : Int) (x : Nat) (h0 : 0 ≤ lo) (h : lo ≤ x) :
    ∃ k : Nat, x = lo.toNat + k := ⟨x - lo.toNat, by omega⟩

theorem cast_offset (lo : Int) (k : Nat) (h0 : 0 ≤ lo) :
    ((lo.toNat + k : Nat) : Int) = lo + k := by omega

theorem cast_offset_rat (lo : Int) (k : Nat) (h0 : 0 ≤ lo) :
    ((lo.toNat + k : Nat) : ℚ) = (lo : ℚ) + k := by
  push_cast
  rw [show ((lo.toNat : Nat) : ℚ) = ((lo.toNat : Int) : ℚ) by norm_cast,
    Int.toNat_of_nonneg h0]

/-- A coordinate between the bounds of a loop is visited by it. -/
theorem loopCount_mem (lo hi : Int) (x k : Nat) (h0 : 0 ≤ lo) (h2 : (x : Int) ≤ hi)
    (hk : x = lo.toNat + k) : k < loopCount lo hi := by
  unfold loopCount; omega

/-- A coordinate visited by a loop lies between its bounds. -/
theorem loopCount_range (lo hi : Int) (k : Nat) (h0 : 0 ≤ lo) (hk : k < loopCount lo hi) :
    lo ≤ ((lo.toNat + k : Nat) : Int) ∧ ((lo.toNat + k : Nat) : Int) ≤ hi := by
  unfold loopCount at hk; omega

theorem loopCount_in_row (lo hi : Int) (width k : Nat) (h0 : 0 ≤ lo)
    (hM : hi ≤ (width : Int) - 1) (hk : k < loopCount lo hi) : lo.toNat + k < width := by
  unfold loopCount at hk; omega

theorem below_size (hi : Int) (size y : Nat) (h : (y : Int) ≤ hi)
    (hM : hi ≤ (size : Int) - 1) : y < size := by omega

end graphics

namespace graphics

open math

theorem int32_emod (x : Int) : int32 x % 4294967296 = x % 4294967296 := by
  unfold int32; omega

theorem int32_congr {a b : Int} (h : a % 4294967296 = b % 4294967296) : int32 a = int32 b := by
  unfold int32; omega

theorem int32_int32 (x : Int) : int32 (int32 x) = int32 x := int32_congr (int32_emod x)

/-- An `int` holds every value of its range unchanged. -/
theorem int32_of_range (x : Int) (h1 : -2147483648 ≤ x) (h2 : x < 2147483648) :
    int32 x = x := by
  unfold int32; omega

theorem int32_range (x : Int) : -2147483648 ≤ int32 x ∧ int32 x < 2147483648 := by
  unfold int32; omega

theorem int32_add (a b : Int) : int32 (int32 a + int32 b) = int32 (a + b) := by
  unfold int32; omega

theorem int32_add_left (a b : Int) : int32 (int32 a + b) = int32 (a + b) := by
  unfold int32; omega

theorem int32_sub (a b : Int) : int32 (int32 a - int32 b) = int32 (a - b) := by
  unfold int32; omega

theorem int32_sub_left (a b : Int) : int32 (int32 a - b) = int32 (a - b) := by
  unfold int32; omega

theorem int32_sub_right (a b : Int) : int32 (a - int32 b) = int32 (a - b) := by
  unfold int32; omega

theorem int32_mul (a b : Int) : int32 (int32 a * int32 b) = int32 (a * b) := by
  apply int32_congr
  rw [Int.mul_emod, int32_emod, int32_emod, ← Int.mul_emod]

theorem int32_mul_left (a b : Int) : int32 (int32 a * b) = int32 (a * b) := by
  apply int32_congr
  rw [Int.mul_emod, int32_emod, ← Int.mul_emod]

/-- The 32-bit sum, difference, product and shift are the wrapped integer operations on the
wrapped operands. -/
theorem add32_int32 (a b : Int) : add32 (int32 a) (int32 b) = int32 (a + b) := int32_add a b

theorem sub32_int32 (a b : Int) : sub32 (int32 a) (int32 b) = int32 (a - b) := int32_sub a b

theorem sub32_int32_left (a b : Int) : sub32 (int32 a) b = int32 (a - b) := int32_sub_left a b

theorem mul32_int32 (a b : Int) : mul32 (int32 a) (int32 b) = int32 (a * b) := int32_mul a b

theorem shl32_eq (a : Int) : shl32 a = int32 (a * 16) := by
  unfold shl32
  rw [show a <<< (4 : Int) = a * 16 from by
    have h := Int.shiftLeft_eq_mul_pow a 4
    simpa using h]

theorem shl32_int32 (a : Int) : shl32 (int32 a) = int32 (a * 16) := by
  rw [shl32_eq, int32_mul_left]

/-- One more addition of the increment to a wrapped running sum. -/
theorem add32_step (v a d e : Int) (n : Nat) (hv : v = int32 (a + n * d)) (he : e = int32 d) :
    add32 v e = int32 (a + ((n + 1 : Nat) : Int) * d) := by
  subst hv he
  unfold add32
  rw [int32_add]
  congr 1
  push_cast
  ring

theorem fa1_32_eq (f : FixedPoint) : f.fa1_32 = int32 f.fa1 := by
  unfold FixedPoint.fa1_32 FixedPoint.a1_32 FixedPoint.fa1 FixedPoint.a1 sub32
  rw [shl32_int32, shl4]

theorem fa2_32_eq (f : FixedPoint) : f.fa2_32 = int32 f.fa2 := by
  unfold FixedPoint.fa2_32 FixedPoint.a2_32 FixedPoint.fa2 FixedPoint.a2 sub32
  rw [shl32_int32, shl4]

theorem fa3_32_eq (f : FixedPoint) : f.fa3_32 = int32 f.fa3 := by
  unfold FixedPoint.fa3_32 FixedPoint.a3_32 FixedPoint.fa3 FixedPoint.a3 sub32
  rw [shl32_int32, shl4]

theorem fb1_32_eq (f : FixedPoint) : f.fb1_32 = int32 f.fb1 := by
  unfold FixedPoint.fb1_32 FixedPoint.b1_32 FixedPoint.fb1 FixedPoint.b1 sub32
  rw [shl32_int32, shl4]

theorem fb2_32_eq (f : FixedPoint) : f.fb2_32 = int32 f.fb2 := by
  unfold FixedPoint.fb2_32 FixedPoint.b2_32 FixedPoint.fb2 FixedPoint.b2 sub32
  rw [shl32_int32, shl4]

theorem fb3_32_eq (f : FixedPoint) : f.fb3_32 = int32 f.fb3 := by
  unfold FixedPoint.fb3_32 FixedPoint.b3_32 FixedPoint.fb3 FixedPoint.b3 sub32
  rw [shl32_int32, shl4]

/-- The state of the inner loop of `prerenderTriangle`, in 32-bit `int`s, after `n`
iterations: the edge values are the wrapped sums of the increments. -/
theorem prerenderPixel32_iterate (f : FixedPoint) (rc : Vec3) (zb : Nat) (s : PrePixel)
    (hx : 0 ≤ s.x) (g1 : int32 s.v1 = s.v1) (g2 : int32 s.v2 = s.v2)
    (g3 : int32 s.v3 = s.v3) (n : Nat) :
    let r := (prerenderPixel32 f rc zb)^[n] s
    r.x = s.x + n ∧ r.v1 = int32 (s.v1 + n * f.fa2) ∧ r.v2 = int32 (s.v2 + n * f.fa3) ∧
      r.v3 = int32 (s.v3 + n * f.fa1) ∧ r.z = s.z + n * rc 0 ∧
      r.zBuffer.length = s.zBuffer.length ∧
      (∀ k, k < n →
        coverageTest (int32 (s.v1 + k * f.fa2)) (int32 (s.v2 + k * f.fa3))
          (int32 (s.v3 + k * f.fa1)) →
        zb + s.x.toNat + k < s.zBuffer.length →
        r.zBuffer.getD (zb + s.x.toNat + k) 0 =
          stdMax (s.zBuffer.getD (zb + s.x.toNat + k) 0) (s.z + k * rc 0)) ∧
      (∀ idx, (∀ k, k < n → idx = zb + s.x.toNat + k →
          ¬ coverageTest (int32 (s.v1 + k * f.fa2)) (int32 (s.v2 + k * f.fa3))
            (int32 (s.v3 + k * f.fa1))) →
        r.zBuffer.getD idx 0 = s.zBuffer.getD idx 0) := by
  induction n with
  | zero => simp [g1, g2, g3]
  | succ n ih =>
    rw [Function.iterate_succ_apply']
    obtain ⟨h1, h2, h3, h4, h5, h6, h7, h8⟩ := ih
    set r := (prerenderPixel32 f rc zb)^[n] s with hr
    have hidx : zb + r.x.toNat = zb + s.x.toNat + n := by rw [h1]; omega
    refine ⟨?_, ?_, ?_, ?_, ?_, ?_, ?_, ?_⟩
    · simp only [prerenderPixel32, h1]; push_cast; ring
    · exact add32_step _ _ _ _ n h2 (fa2_32_eq f)
    · exact add32_step _ _ _ _ n h3 (fa3_32_eq f)
    · exact add32_step _ _ _ _ n h4 (fa1_32_eq f)
    · simp only [prerenderPixel32, h5]; push_cast; ring
    · simp only [prerenderPixel32]; split_ifs <;> simp [h6]
    · intro k hk hcov hlen
      simp only [prerenderPixel32, hidx, h2, h3, h4, h5]
      rcases Nat.lt_succ_iff_lt_or_eq.mp hk with hlt | heq
      · have hne : zb + s.x.toNat + n ≠ zb + s.x.toNat + k := by omega
        split_ifs
        · rw [List.getD_eq_getElem?_getD, List.getElem?_set_ne hne,
            ← List.getD_eq_getElem?_getD]
          exact h7 k hlt hcov hlen
        · exact h7 k hlt hcov hlen
      · subst heq
        rw [if_pos hcov]
        have hkeep : r.zBuffer.getD (zb + s.x.toNat + k) 0 =
            s.zBuffer.getD (zb + s.x.toNat + k) 0 :=
          h8 _ (fun k2 hk2 he => by omega)
        rw [hkeep, List.getD_eq_getElem?_getD, List.getElem?_set_self (by rw [h6]; exact hlen)]
        rfl
    · intro idx hno
      simp only [prerenderPixel32, hidx, h2, h3, h4]
      have hprev : r.zBuffer.getD idx 0 = s.zBuffer.getD idx 0 :=
        h8 idx (fun k hk he => hno k (Nat.lt_succ_of_lt hk) he)
      split_ifs with hc
      · have hne : zb + s.x.toNat + n ≠ idx := fun he =>
          hno n (Nat.lt_succ_self n) he.symm hc
        rw [List.getD_eq_getElem?_getD, List.getElem?_set_ne hne,
          ← List.getD_eq_getElem?_getD]
        exact hprev
      · exact hprev

/-- The state of the outer loop of `prerenderTriangle`, in 32-bit `int`s, after `n`
scanlines. -/
theorem prerenderRow32_iterate (f : FixedPoint) (rc : Vec3) (width : Nat) (minX maxX : Int)
    (s : PreRow) (hx : 0 ≤ minX)
    (hw : ∀ k, k < loopCount minX maxX → minX.toNat + k < width)
    (g1 : int32 s.u1 = s.u1) (g2 : int32 s.u2 = s.u2) (g3 : int32 s.u3 = s.u3) (n : Nat) :
    let r := (prerenderRow32 f rc width minX maxX)^[n] s
    r.y = s.y + n ∧ r.u1 = int32 (s.u1 + n * f.fb2) ∧ r.u2 = int32 (s.u2 + n * f.fb3) ∧
      r.u3 = int32 (s.u3 + n * f.fb1) ∧ r.w = s.w + n * rc 1 ∧ r.zb = s.zb + n * width ∧
      r.zBuffer.length = s.zBuffer.length ∧
      (∀ j k, j < n → k < loopCount minX maxX →
        coverageTest (int32 (s.u1 + j * f.fb2 + k * f.fa2))
          (int32 (s.u2 + j * f.fb3 + k * f.fa3)) (int32 (s.u3 + j * f.fb1 + k * f.fa1)) →
        s.zb + j * width + minX.toNat + k < s.zBuffer.length →
        r.zBuffer.getD (s.zb + j * width + minX.toNat + k) 0 =
          stdMax (s.zBuffer.getD (s.zb + j * width + minX.toNat + k) 0)
            (s.w + j * rc 1 + k * rc 0)) ∧
      (∀ idx, (∀ j k, j < n → k < loopCount minX maxX →
          idx = s.zb + j * width + minX.toNat + k →
          ¬ coverageTest (int32 (s.u1 + j * f.fb2 + k * f.fa2))
            (int32 (s.u2 + j * f.fb3 + k * f.fa3)) (int32 (s.u3 + j * f.fb1 + k * f.fa1))) →
        r.zBuffer.getD idx 0 = s.zBuffer.getD idx 0) := by
  induction n with
  | zero => simp [g1, g2, g3]
  | succ n ih =>
    rw [Function.iterate_succ_apply']
    obtain ⟨h1, h2, h3, h4, h5, h6, h7, h8, h9⟩ := ih
    set r := (prerenderRow32 f rc width minX maxX)^[n] s with hr
    obtain ⟨-, -, -, -, -, i6, i7, i8⟩ := prerenderPixel32_iterate f rc r.zb
      ⟨minX, r.u1, r.u2, r.u3, r.w, r.zBuffer⟩ hx (by rw [h2, int32_int32])
      (by rw [h3, int32_int32]) (by rw [h4, int32_int32]) (loopCount minX maxX)
    simp only [] at i6 i7 i8
    rw [h2, h3, h4, h5, h6] at i7 i8
    simp only [int32_add_left] at i7 i8
    rw [h6] at i6
    have hdisj : ∀ j k k2, j < n → k < loopCount minX maxX → k2 < loopCount minX maxX →
        s.zb + j * width + minX.toNat + k ≠ s.zb + n * width + minX.toNat + k2 := by
      intro j k k2 hj hk hk2 he
      have a1 := hw k hk
      have a2 : (j + 1) * width ≤ n * width := Nat.mul_le_mul_right _ hj
      rw [Nat.succ_mul] at a2
      omega
    refine ⟨?_, ?_, ?_, ?_, ?_, ?_, ?_, ?_, ?_⟩
    · simp only [prerenderRow32, h1]; push_cast; ring
    · exact add32_step _ _ _ _ n h2 (fb2_32_eq f)
    · exact add32_step _ _ _ _ n h3 (fb3_32_eq f)
    · exact add32_step _ _ _ _ n h4 (fb1_32_eq f)
    · simp only [prerenderRow32, h5]; push_cast; ring
    · simp only [prerenderRow32, h6]; ring
    · simp only [prerenderRow32]; rw [h6, i6, h7]
    · intro j k hj hk hcov hlen
      simp only [prerenderRow32, h2, h3, h4, h5, h6]
      rcases Nat.lt_succ_iff_lt_or_eq.mp hj with hlt | heq
      · rw [i8 _ (fun k2 hk2 he => absurd he (hdisj j k k2 hlt hk hk2))]
        exact h8 j k hlt hk hcov hlen
      · subst heq
        rw [i7 k hk hcov (by rw [h7]; exact hlen)]
        rw [h9 _ (fun j2 k2 hj2 hk2 he => absurd he.symm (hdisj j2 k2 k hj2 hk2 hk))]
    · intro idx hno
      simp only [prerenderRow32, h2, h3, h4, h5, h6]
      rw [i8 idx (fun k hk he => hno n k (Nat.lt_succ_self n) hk he)]
      exact h9 idx (fun j k hj hk he => hno j k (Nat.lt_succ_of_lt hj) hk he)

theorem minX32_nonneg (f : FixedPoint) : 0 ≤ f.minX32 := le_max_right _ _

theorem minY32_nonneg (f : FixedPoint) : 0 ≤ f.minY32 := le_max_right _ _

/-- The conversion of a size to `int` followed by the subtraction of one never exceeds
the size minus one. -/
theorem sub32_size_le (n : Nat) : sub32 (castSize n) 1 ≤ (n : Int) - 1 := by
  unfold sub32 castSize int32
  split_ifs <;> omega

/-- The conversion of a size to `int` is the size wrapped to 32 bits. -/
theorem castSize_eq (n : Nat) : castSize n = int32 (n : Int) := by
  unfold castSize int32
  split_ifs <;> omega

theorem maxX32_lt (f : FixedPoint) (width : Nat) : f.maxX32 width ≤ (width : Int) - 1 :=
  le_trans (min_le_right _ _) (sub32_size_le width)

theorem maxY32_lt (f : FixedPoint) (height : Nat) : f.maxY32 height ≤ (height : Int) - 1 :=
  le_trans (min_le_right _ _) (sub32_size_le height)

/-- The scan box computed in 32-bit `int`s ends below `2^27`: the loop counters `x` and
`y`, which run to one past the box, never overflow. -/
theorem scan_box32_bounded (f : FixedPoint) (width height : Nat) :
    f.maxX32 width < 134217728 ∧ f.maxY32 height < 134217728 := by
  constructor
  · refine lt_of_le_of_lt (min_le_left _ _) ?_
    have h := int32_range (max (max f.p1x f.p2x) f.p3x + 15)
    unfold add32
    rw [shr4]
    omega
  · refine lt_of_le_of_lt (min_le_left _ _) ?_
    have h := int32_range (max (max f.p1y f.p2y) f.p3y + 15)
    unfold add32
    rw [shr4]
    omega

theorem scan_in_row32 (f : FixedPoint) (width : Nat) (k : Nat)
    (hk : k < loopCount f.minX32 (f.maxX32 width)) : f.minX32.toNat + k < width :=
  loopCount_in_row _ _ width k (minX32_nonneg f) (maxX32_lt f width) hk

/-- The closed-form edge functions in terms of their values at a pixel `(mx, my)` and the
per-pixel and per-scanline increments. -/
theorem edge_steps (f : FixedPoint) (mx my : Int) (j k : Nat) :
    f.b2 * (my * 16 - f.p2y) + f.a2 * (mx * 16 - f.p2x) + j * f.fb2 + k * f.fa2 =
        f.edge1 (mx + k) (my + j) ∧
      f.b3 * (my * 16 - f.p3y) + f.a3 * (mx * 16 - f.p3x) + j * f.fb3 + k * f.fa3 =
        f.edge2 (mx + k) (my + j) ∧
      f.b1 * (my * 16 - f.p1y) + f.a1 * (mx * 16 - f.p1x) + j * f.fb1 + k * f.fa1 =
        f.edge3 (mx + k) (my + j) := by
  simp only [FixedPoint.edge1, FixedPoint.edge2, FixedPoint.edge3, FixedPoint.fa1,
    FixedPoint.fa2, FixedPoint.fa3, FixedPoint.fb1, FixedPoint.fb2, FixedPoint.fb3,
    FixedPoint.a1, FixedPoint.a2, FixedPoint.a3, FixedPoint.b1, FixedPoint.b2, FixedPoint.b3,
    shl4]
  refine ⟨by ring, by ring, by ring⟩

/-- A 32-bit edge value in the a/b-coefficient form of `prerenderTriangle` is the wrapped
integer expression. -/
theorem edge_init32 (b a my py mx px : Int) :
    add32 (mul32 (int32 b) (sub32 (shl32 my) py)) (mul32 (int32 a) (sub32 (shl32 mx) px)) =
      int32 (b * (my * 16 - py) + a * (mx * 16 - px)) := by
  unfold add32 mul32 sub32
  simp only [shl32_eq, int32_sub_left, int32_mul, int32_add]

/-- The edge values of `prerenderTriangle` on entry, in 32-bit `int`s, are the wrapped
integer expressions. -/
theorem prerenderInit32_edges (f : FixedPoint) (rc : Vec3) (width : Nat) (zBuffer : List ℚ) :
    (prerenderInit32 f rc width zBuffer).u1 =
        int32 (f.b2 * (f.minY32 * 16 - f.p2y) + f.a2 * (f.minX32 * 16 - f.p2x)) ∧
      (prerenderInit32 f rc width zBuffer).u2 =
        int32 (f.b3 * (f.minY32 * 16 - f.p3y) + f.a3 * (f.minX32 * 16 - f.p3x)) ∧
      (prerenderInit32 f rc width zBuffer).u3 =
        int32 (f.b1 * (f.minY32 * 16 - f.p1y) + f.a1 * (f.minX32 * 16 - f.p1x)) := by
  simp only [prerenderInit32, FixedPoint.a1_32, FixedPoint.a2_32, FixedPoint.a3_32,
    FixedPoint.b1_32, FixedPoint.b2_32, FixedPoint.b3_32, FixedPoint.a1, FixedPoint.a2,
    FixedPoint.a3, FixedPoint.b1, FixedPoint.b2, FixedPoint.b3]
  exact ⟨edge_init32 _ _ _ _ _ _, edge_init32 _ _ _ _ _ _, edge_init32 _ _ _ _ _ _⟩

theorem int32_add_left2 (a b c : Int) : int32 (int32 a + b + c) = int32 (a + b + c) := by
  unfold int32; omega

/-- The edge values the 32-bit loops of `prerenderTriangle` test at pixel number `k` of
scanline number `j` are the closed-form edge functions at that pixel, wrapped. -/
theorem prerender_edges32 (f : FixedPoint) (rc : Vec3) (width : Nat) (zBuffer : List ℚ)
    (j k : Nat) :
    int32 ((prerenderInit32 f rc width zBuffer).u1 + j * f.fb2 + k * f.fa2) =
        int32 (f.edge1 (f.minX32.toNat + k : Nat) (f.minY32.toNat + j : Nat)) ∧
      int32 ((prerenderInit32 f rc width zBuffer).u2 + j * f.fb3 + k * f.fa3) =
        int32 (f.edge2 (f.minX32.toNat + k : Nat) (f.minY32.toNat + j : Nat)) ∧
      int32 ((prerenderInit32 f rc width zBuffer).u3 + j * f.fb1 + k * f.fa1) =
        int32 (f.edge3 (f.minX32.toNat + k : Nat) (f.minY32.toNat + j : Nat)) := by
  have ex := cast_offset f.minX32 k (minX32_nonneg f)
  have ey := cast_offset f.minY32 j (minY32_nonneg f)
  obtain ⟨u1, u2, u3⟩ := prerenderInit32_edges f rc width zBuffer
  obtain ⟨e1, e2, e3⟩ := edge_steps f f.minX32 f.minY32 j k
  rw [ex, ey, u1, u2, u3, int32_add_left2, int32_add_left2, int32_add_left2, e1, e2, e3]
  exact ⟨rfl, rfl, rfl⟩

/-- The depth plane after the loops of `prerenderTriangle`, in 32-bit `int`s, pixel by
pixel. -/
theorem prerender_loops32 (f : FixedPoint) (rc : Vec3) (width height : Nat)
    (zBuffer : List ℚ) (hlen : zBuffer.length = width * height) (x y : Nat) (hx : x < width) :
    let r := (prerenderRow32 f rc width f.minX32 (f.maxX32 width))^[loopCount f.minY32
      (f.maxY32 height)] (prerenderInit32 f rc width zBuffer)
    (inScanBox32 f width height x y ∧ f.covers x y →
      r.zBuffer.getD (y * width + x) 0 =
        max (zBuffer.getD (y * width + x) 0) (dot rc ![(x : ℚ), (y : ℚ), 1])) ∧
    (¬ (inScanBox32 f width height x y ∧ f.covers x y) →
      r.zBuffer.getD (y * width + x) 0 = zBuffer.getD (y * width + x) 0) := by
  have hmx := minX32_nonneg f
  have hmy := minY32_nonneg f
  have hMx := maxX32_lt f width
  have hMy := maxY32_lt f height
  obtain ⟨u1, u2, u3⟩ := prerenderInit32_edges f rc width zBuffer
  obtain ⟨-, -, -, -, -, -, -, b1, b2⟩ := prerenderRow32_iterate f rc width f.minX32
    (f.maxX32 width) (prerenderInit32 f rc width zBuffer) hmx (scan_in_row32 f width)
    (by rw [u1, int32_int32]) (by rw [u2, int32_int32]) (by rw [u3, int32_int32])
    (loopCount f.minY32 (f.maxY32 height))
  have hidx : ∀ j k : Nat,
      (prerenderInit32 f rc width zBuffer).zb + j * width + f.minX32.toNat + k =
        (f.minY32.toNat + j) * width + (f.minX32.toNat + k) := by
    intro j k; simp only [prerenderInit32]; ring
  constructor
  · rintro ⟨⟨hx1, hx2, hy1, hy2⟩, hcov⟩
    obtain ⟨k, hk⟩ := offset_exists f.minX32 x hmx hx1
    obtain ⟨j, hj⟩ := offset_exists f.minY32 y hmy hy1
    have hjn := loopCount_mem f.minY32 (f.maxY32 height) y j hmy hy2 hj
    have hkn := loopCount_mem f.minX32 (f.maxX32 width) x k hmx hx2 hk
    obtain ⟨e1, e2, e3⟩ := prerender_edges32 f rc width zBuffer j k
    have hc : coverageTest
        (int32 ((prerenderInit32 f rc width zBuffer).u1 + j * f.fb2 + k * f.fa2))
        (int32 ((prerenderInit32 f rc width zBuffer).u2 + j * f.fb3 + k * f.fa3))
        (int32 ((prerenderInit32 f rc width zBuffer).u3 + j * f.fb1 + k * f.fa1)) := by
      rw [e1, e2, e3, ← hk, ← hj]; exact hcov
    have hin : y * width + x < zBuffer.length := by
      rw [hlen]
      exact pixel_offset_lt width height x y hx (below_size _ height y hy2 hMy)
    have := b1 j k hjn hkn hc (by rw [hidx, ← hk, ← hj]; exact hin)
    rw [hidx, ← hk, ← hj] at this
    rw [this, stdMax_eq_max]
    refine congrArg (max _) ?_
    have ex : (x : ℚ) = (f.minX32 : ℚ) + k := by rw [hk]; exact cast_offset_rat _ k hmx
    have ey : (y : ℚ) = (f.minY32 : ℚ) + j := by rw [hj]; exact cast_offset_rat _ j hmy
    simp only [prerenderInit32, dot, Fin.sum_univ_three, Matrix.cons_val_zero,
      Matrix.cons_val_one, Matrix.head_cons, Matrix.cons_val_two, Matrix.tail_cons, ex, ey]
    ring
  · intro hno
    apply b2
    intro j k hj hk he hc
    apply hno
    have hk2 := scan_in_row32 f width k hk
    rw [hidx] at he
    obtain ⟨hxe, hye⟩ := pixel_index_inj width x y _ _ hx hk2 he
    obtain ⟨e1, e2, e3⟩ := prerender_edges32 f rc width zBuffer j k
    rw [e1, e2, e3, ← hxe, ← hye] at hc
    obtain ⟨bx1, bx2⟩ := loopCount_range f.minX32 (f.maxX32 width) k hmx hk
    obtain ⟨by1, by2⟩ := loopCount_range f.minY32 (f.maxY32 height) j hmy hj
    rw [← hxe] at bx1 bx2
    rw [← hye] at by1 by2
    exact ⟨⟨bx1, bx2, by1, by2⟩, hc⟩

/-- The two early returns of `prerenderTriangle` merged into one test, in 32-bit
`int`s. -/
theorem prerenderTriangle32_eq (fb : Framebuffer) (camera : PinholeCamera)
    (t1 t2 t3 : Vec3) :
    fb.prerenderTriangle32 camera t1 t2 t3 =
      if rejected camera t1 t2 t3 then fb
      else
        { fb with
          zBuffer :=
            ((prerenderRow32 (projectFixed32 camera t1 t2 t3)
              (prerenderRc (camera.project t1) (camera.project t2) (camera.project t3)) fb.width
              (projectFixed32 camera t1 t2 t3).minX32
              ((projectFixed32 camera t1 t2 t3).maxX32 fb.width))^[loopCount
                (projectFixed32 camera t1 t2 t3).minY32
                ((projectFixed32 camera t1 t2 t3).maxY32 fb.height)]
              (prerenderInit32 (projectFixed32 camera t1 t2 t3)
                (prerenderRc (camera.project t1) (camera.project t2) (camera.project t3))
                fb.width fb.zBuffer)).zBuffer } := by
  unfold Framebuffer.prerenderTriangle32 rejected projectFixed32
  by_cases hb : backFacing camera t1 t2 t3
  · simp [hb]
  · by_cases hz : camera.project t1 2 ≤ 0 ∨ camera.project t2 2 ≤ 0 ∨ camera.project t3 2 ≤ 0
    · simp only [hb, hz, if_true, if_false, or_true]
    · simp only [hb, hz, if_false, or_self]

theorem prerenderTriangle32_width (fb : Framebuffer) (camera : PinholeCamera)
    (t1 t2 t3 : Vec3) : (fb.prerenderTriangle32 camera t1 t2 t3).width = fb.width := by
  rw [prerenderTriangle32_eq]
  split_ifs <;> rfl

/-- The depth plane after one `prerenderTriangle` call, in 32-bit `int`s, pixel by
pixel. -/
theorem prerenderTriangle32_zLookup (fb : Framebuffer) (camera : PinholeCamera)
    (t1 t2 t3 : Vec3) (hwf : fb.WellFormed) (x y : Nat) (hx : x < fb.width) :
    (covered fb camera t1 t2 t3 x y →
      (fb.prerenderTriangle32 camera t1 t2 t3).zLookup x y =
        max (fb.zLookup x y) (interpolatedDepth camera t1 t2 t3 x y)) ∧
    (¬ covered fb camera t1 t2 t3 x y →
      (fb.prerenderTriangle32 camera t1 t2 t3).zLookup x y = fb.zLookup x y) := by
  unfold Framebuffer.zLookup
  rw [prerenderTriangle32_width, prerenderTriangle32_eq]
  unfold covered
  by_cases hr : rejected camera t1 t2 t3
  · simp [hr]
  · simp only [hr, if_false, not_false_eq_true, true_and]
    exact prerender_loops32 (projectFixed32 camera t1 t2 t3) _ fb.width fb.height fb.zBuffer
      hwf.2 x y hx

end graphics

namespace graphics

open math

theorem sampleFramebuffer_wellFormed : sampleFramebuffer.WellFormed := by
  constructor <;> simp [sampleFramebuffer, Framebuffer.ofSize]

end graphics

namespace graphics

open math

/-- The two models of `int` part on overflow.  Pixel `(0, 0)` of the 4 x 4 framebuffer lies
inside `overflowTriangle`, and in unbounded integers all three edge functions are positive
there, the first being `2151677952`; in 32-bit `int`s that value wraps to `-2143289344`,
the coverage test of the routine fails, and the pre-pass leaves the depth of the pixel as it
was, where a pre-pass in unbounded integers would write it. -/
theorem coverage_wraps_on_overflow :
    (projectFixed sampleCamera overflowTriangle.1 overflowTriangle.2.1
        overflowTriangle.2.2).edge1 0 0 = 2151677952 ∧
    int32 ((projectFixed32 sampleCamera overflowTriangle.1 overflowTriangle.2.1
        overflowTriangle.2.2).edge1 0 0) = -2143289344 ∧
    coveredIdeal sampleFramebuffer sampleCamera overflowTriangle.1 overflowTriangle.2.1
      overflowTriangle.2.2 0 0 ∧
    ¬ covered sampleFramebuffer sampleCamera overflowTriangle.1 overflowTriangle.2.1
      overflowTriangle.2.2 0 0 ∧
    (sampleFramebuffer.prerenderTriangle32 sampleCamera overflowTriangle.1
      overflowTriangle.2.1 overflowTriangle.2.2).zLookup 0 0 = sampleFramebuffer.zLookup 0 0 ∧
    (sampleFramebuffer.prerenderTriangle sampleCamera overflowTriangle.1
      overflowTriangle.2.1 overflowTriangle.2.2).zLookup 0 0 =
      max (sampleFramebuffer.zLookup 0 0)
        (interpolatedDepth sampleCamera overflowTriangle.1 overflowTriangle.2.1
          overflowTriangle.2.2 0 0) ∧
    sampleFramebuffer.zLookup 0 0 <
      interpolatedDepth sampleCamera overflowTriangle.1 overflowTriangle.2.1
        overflowTriangle.2.2 0 0 := by
  have hwf : sampleFramebuffer.WellFormed := by
    constructor <;> simp [sampleFramebuffer, Framebuffer.ofSize]
  refine ⟨by decide!, by decide!, by decide!, by decide!, ?_, ?_, by decide!⟩
  · exact (prerenderTriangle32_zLookup sampleFramebuffer sampleCamera overflowTriangle.1
      overflowTriangle.2.1 overflowTriangle.2.2 hwf 0 0 (by decide)).2 (by decide!)
  · exact (prerenderTriangle_zLookup sampleFramebuffer sampleCamera overflowTriangle.1
      overflowTriangle.2.1 overflowTriangle.2.2 hwf 0 0 (by decide)).1 (by decide!)

end graphics

namespace graphics

open math

/-- The state of the inner loop of the vertex-coloured `renderTriangle` after `n`
iterations. -/
theorem shadePixel_iterate (m : Libm) (camera : PinholeCamera) (f : FixedPoint)
    (rc : Matrix 3 8) (dls : List DirectionalLight) (material : Material) (zBuffer : List ℚ)
    (cb zb : Nat) (y : Int) (s : ShadePixel) (hx : 0 ≤ s.x) (n : Nat) :
    let r := (shadePixel m camera f rc dls material zBuffer cb zb y)^[n] s
    r.x = s.x + n ∧ r.v1 = s.v1 + n * f.fa2 ∧ r.v2 = s.v2 + n * f.fa3 ∧
      r.v3 = s.v3 + n * f.fa1 ∧ r.p = s.p + (n : ℚ) • rc 0 ∧
      r.buffer.length = s.buffer.length ∧
      (∀ k, k < n →
        shadeGate zBuffer zb (s.x + k) (s.v1 + k * f.fa2) (s.v2 + k * f.fa3) (s.v3 + k * f.fa1)
          ((s.p + (k : ℚ) • rc 0) 0) →
        cb + s.x.toNat + k < s.buffer.length →
        r.buffer.getD (cb + s.x.toNat + k) 0 =
          composite (shadePixelLight m camera dls material y
            ((shadePixel m camera f rc dls material zBuffer cb zb y)^[k] s)).1
            (s.buffer.getD (cb + s.x.toNat + k) 0)) ∧
      (∀ idx, (∀ k, k < n → idx = cb + s.x.toNat + k →
          ¬ shadeGate zBuffer zb (s.x + k) (s.v1 + k * f.fa2) (s.v2 + k * f.fa3)
            (s.v3 + k * f.fa1) ((s.p + (k : ℚ) • rc 0) 0)) →
        r.buffer.getD idx 0 = s.buffer.getD idx 0) := by
  induction n with
  | zero => simp
  | succ n ih =>
    rw [Function.iterate_succ_apply']
    obtain ⟨h1, h2, h3, h4, h5, h6, h7, h8⟩ := ih
    set r := (shadePixel m camera f rc dls material zBuffer cb zb y)^[n] s with hr
    have hidx : cb + r.x.toNat = cb + s.x.toNat + n := by rw [h1]; omega
    have hgate : shadeGate zBuffer zb r.x r.v1 r.v2 r.v3 (r.p 0) ↔
        shadeGate zBuffer zb (s.x + n) (s.v1 + n * f.fa2) (s.v2 + n * f.fa3)
          (s.v3 + n * f.fa1) ((s.p + (n : ℚ) • rc 0) 0) := by
      rw [h1, h2, h3, h4, h5]
    refine ⟨?_, ?_, ?_, ?_, ?_, ?_, ?_, ?_⟩
    · simp only [shadePixel, h1]; push_cast; ring
    · simp only [shadePixel, h2]; push_cast; ring
    · simp only [shadePixel, h3]; push_cast; ring
    · simp only [shadePixel, h4]; push_cast; ring
    · simp only [shadePixel, h5]; push_cast; rw [add_smul, one_smul, add_assoc]
    · simp only [shadePixel]; split_ifs <;> simp [h6]
    · intro k hk hg hlen
      simp only [shadePixel, hidx]
      rcases Nat.lt_succ_iff_lt_or_eq.mp hk with hlt | heq
      · have hne : cb + s.x.toNat + n ≠ cb + s.x.toNat + k := by omega
        split_ifs
        · rw [List.getD_eq_getElem?_getD, List.getElem?_set_ne hne,
            ← List.getD_eq_getElem?_getD]
          exact h7 k hlt hg hlen
        · exact h7 k hlt hg hlen
      · subst heq
        rw [if_pos (hgate.mpr hg)]
        have hkeep : r.buffer.getD (cb + s.x.toNat + k) 0 =
            s.buffer.getD (cb + s.x.toNat + k) 0 :=
          h8 _ (fun k2 hk2 he => by omega)
        rw [hkeep, List.getD_eq_getElem?_getD, List.getElem?_set_self (by rw [h6]; exact hlen)]
        rfl
    · intro idx hno
      simp only [shadePixel, hidx]
      have hprev : r.buffer.getD idx 0 = s.buffer.getD idx 0 :=
        h8 idx (fun k hk he => hno k (Nat.lt_succ_of_lt hk) he)
      split_ifs with hc
      · have hne : cb + s.x.toNat + n ≠ idx := fun he =>
          hno n (Nat.lt_succ_self n) he.symm (hgate.mp hc)
        rw [List.getD_eq_getElem?_getD, List.getElem?_set_ne hne,
          ← List.getD_eq_getElem?_getD]
        exact hprev
      · exact hprev

end graphics

namespace graphics

open math

/-- The state of the outer loop of the vertex-coloured `renderTriangle` after `n`
scanlines. -/
theorem shadeRow_iterate (m : Libm) (camera : PinholeCamera) (f : FixedPoint)
    (rc : Matrix 3 8) (dls : List DirectionalLight) (material : Material) (zBuffer : List ℚ)
    (width : Nat) (minX maxX : Int) (s : ShadeRow) (hx : 0 ≤ minX)
    (hw : ∀ k, k < loopCount minX maxX → minX.toNat + k < width) (n : Nat) :
    let r := (shadeRow m camera f rc dls material zBuffer width minX maxX)^[n] s
    r.y = s.y + n ∧ r.u1 = s.u1 + n * f.fb2 ∧ r.u2 = s.u2 + n * f.fb3 ∧
      r.u3 = s.u3 + n * f.fb1 ∧ r.q = s.q + (n : ℚ) • rc 1 ∧ r.cb = s.cb + n * width ∧
      r.zb = s.zb + n * width ∧ r.buffer.length = s.buffer.length ∧
      (∀ j k, j < n → k < loopCount minX maxX →
        shadeGate zBuffer (s.zb + j * width) (minX + k) (s.u1 + j * f.fb2 + k * f.fa2)
          (s.u2 + j * f.fb3 + k * f.fa3) (s.u3 + j * f.fb1 + k * f.fa1)
          ((s.q + (j : ℚ) • rc 1 + (k : ℚ) • rc 0) 0) →
        s.cb + j * width + minX.toNat + k < s.buffer.length →
        r.buffer.getD (s.cb + j * width + minX.toNat + k) 0 =
          composite (shadePixelLight m camera dls material (s.y + j)
            (shadeStateAt m camera f rc dls material zBuffer width minX maxX s j k)).1
            (s.buffer.getD (s.cb + j * width + minX.toNat + k) 0)) ∧
      (∀ idx, (∀ j k, j < n → k < loopCount minX maxX →
          idx = s.cb + j * width + minX.toNat + k →
          ¬ shadeGate zBuffer (s.zb + j * width) (minX + k) (s.u1 + j * f.fb2 + k * f.fa2)
            (s.u2 + j * f.fb3 + k * f.fa3) (s.u3 + j * f.fb1 + k * f.fa1)
            ((s.q + (j : ℚ) • rc 1 + (k : ℚ) • rc 0) 0)) →
        r.buffer.getD idx 0 = s.buffer.getD idx 0) := by
  induction n with
  | zero => simp
  | succ n ih =>
    rw [Function.iterate_succ_apply']
    obtain ⟨h1, h2, h3, h4, h5, h6, h6z, h7, h8, h9⟩ := ih
    set r := (shadeRow m camera f rc dls material zBuffer width minX maxX)^[n] s with hr
    obtain ⟨-, -, -, -, -, i6, i7, i8⟩ := shadePixel_iterate m camera f rc dls material
      zBuffer r.cb r.zb r.y (shadeRowStart minX r) hx (loopCount minX maxX)
    have hgate : ∀ k : Nat,
        shadeGate zBuffer r.zb ((shadeRowStart minX r).x + k)
          ((shadeRowStart minX r).v1 + k * f.fa2) ((shadeRowStart minX r).v2 + k * f.fa3)
          ((shadeRowStart minX r).v3 + k * f.fa1)
          (((shadeRowStart minX r).p + (k : ℚ) • rc 0) 0) ↔
        shadeGate zBuffer (s.zb + n * width) (minX + k) (s.u1 + n * f.fb2 + k * f.fa2)
          (s.u2 + n * f.fb3 + k * f.fa3) (s.u3 + n * f.fb1 + k * f.fa1)
          ((s.q + (n : ℚ) • rc 1 + (k : ℚ) • rc 0) 0) := by
      intro k
      simp only [shadeRowStart]
      rw [h2, h3, h4, h5, h6z]
    have hcb : ∀ k : Nat, r.cb + (shadeRowStart minX r).x.toNat + k =
        s.cb + n * width + minX.toNat + k := by
      intro k; simp only [shadeRowStart]; rw [h6]
    have hbuf : (shadeRowStart minX r).buffer = r.buffer := rfl
    have hdisj : ∀ j k k2, j < n → k < loopCount minX maxX → k2 < loopCount minX maxX →
        s.cb + j * width + minX.toNat + k ≠ s.cb + n * width + minX.toNat + k2 := by
      intro j k k2 hj hk hk2 he
      have a1 := hw k hk
      have a2 : (j + 1) * width ≤ n * width := Nat.mul_le_mul_right _ hj
      rw [Nat.succ_mul] at a2
      omega
    refine ⟨?_, ?_, ?_, ?_, ?_, ?_, ?_, ?_, ?_, ?_⟩
    · simp only [shadeRow, h1]; push_cast; ring
    · simp only [shadeRow, h2]; push_cast; ring
    · simp only [shadeRow, h3]; push_cast; ring
    · simp only [shadeRow, h4]; push_cast; ring
    · simp only [shadeRow, h5]; push_cast; rw [add_smul, one_smul, add_assoc]
    · simp only [shadeRow, h6]; ring
    · simp only [shadeRow, h6z]; ring
    · simp only [shadeRow]; rw [i6, hbuf, h7]
    · intro j k hj hk hg hlen
      simp only [shadeRow]
      rcases Nat.lt_succ_iff_lt_or_eq.mp hj with hlt | heq
      · rw [i8 _ (fun k2 hk2 he => absurd (he.trans (hcb k2)) (hdisj j k k2 hlt hk hk2))]
        exact h8 j k hlt hk hg hlen
      · subst heq
        have := i7 k hk ((hgate k).mpr hg) (by rw [hcb, hbuf, h7]; exact hlen)
        rw [hcb, hbuf] at this
        rw [this, h9 _ (fun j2 k2 hj2 hk2 he => absurd he.symm (hdisj j2 k2 k hj2 hk2 hk)),
          ← h1]
        rfl
    · intro idx hno
      simp only [shadeRow]
      rw [i8 idx (fun k hk he hg =>
        hno n k (Nat.lt_succ_self n) hk (he.trans (hcb k)) ((hgate k).mp hg))]
      exact h9 idx (fun j k hj hk he => hno j k (Nat.lt_succ_of_lt hj) hk he)

end graphics

namespace graphics

open math

/-- The state of the inner loop of the textured `renderTriangle` after `n`
iterations. -/
theorem texturePixel_iterate (m : Libm) (camera : PinholeCamera) (texture : Framebuffer)
    (f : FixedPoint) (rc : Matrix 3 4) (dc : Matrix 3 2) (nc : Vec3) (dls : List DirectionalLight) (material : Material) (zBuffer : List ℚ)
    (cb zb : Nat) (y : Int) (s : TexturePixel) (hx : 0 ≤ s.x) (n : Nat) :
    let r := (texturePixel m camera texture f rc dc nc dls material zBuffer cb zb y)^[n] s
    r.x = s.x + n ∧ r.v1 = s.v1 + n * f.fa2 ∧ r.v2 = s.v2 + n * f.fa3 ∧
      r.v3 = s.v3 + n * f.fa1 ∧ r.p = s.p + (n : ℚ) • rc 0 ∧
      r.buffer.length = s.buffer.length ∧
      (∀ k, k < n →
        shadeGate zBuffer zb (s.x + k) (s.v1 + k * f.fa2) (s.v2 + k * f.fa3) (s.v3 + k * f.fa1)
          ((s.p + (k : ℚ) • rc 0) 0) →
        cb + s.x.toNat + k < s.buffer.length →
        r.buffer.getD (cb + s.x.toNat + k) 0 =
          composite (texturePixelLight m camera texture dls material y
            ((texturePixel m camera texture f rc dc nc dls material zBuffer cb zb y)^[k] s)).1
            (s.buffer.getD (cb + s.x.toNat + k) 0)) ∧
      (∀ idx, (∀ k, k < n → idx = cb + s.x.toNat + k →
          ¬ shadeGate zBuffer zb (s.x + k) (s.v1 + k * f.fa2) (s.v2 + k * f.fa3)
            (s.v3 + k * f.fa1) ((s.p + (k : ℚ) • rc 0) 0)) →
        r.buffer.getD idx 0 = s.buffer.getD idx 0) := by
  induction n with
  | zero => simp
  | succ n ih =>
    rw [Function.iterate_succ_apply']
    obtain ⟨h1, h2, h3, h4, h5, h6, h7, h8⟩ := ih
    set r := (texturePixel m camera texture f rc dc nc dls material zBuffer cb zb y)^[n] s with hr
    have hidx : cb + r.x.toNat = cb + s.x.toNat + n := by rw [h1]; omega
    have hgate : shadeGate zBuffer zb r.x r.v1 r.v2 r.v3 (r.p 0) ↔
        shadeGate zBuffer zb (s.x + n) (s.v1 + n * f.fa2) (s.v2 + n * f.fa3)
          (s.v3 + n * f.fa1) ((s.p + (n : ℚ) • rc 0) 0) := by
      rw [h1, h2, h3, h4, h5]
    refine ⟨?_, ?_, ?_, ?_, ?_, ?_, ?_, ?_⟩
    · simp only [texturePixel, h1]; push_cast; ring
    · simp only [texturePixel, h2]; push_cast; ring
    · simp only [texturePixel, h3]; push_cast; ring
    · simp only [texturePixel, h4]; push_cast; ring
    · simp only [texturePixel, h5]; push_cast; rw [add_smul, one_smul, add_assoc]
    · simp only [texturePixel]; split_ifs <;> simp [h6]
    · intro k hk hg hlen
      simp only [texturePixel, hidx]
      rcases Nat.lt_succ_iff_lt_or_eq.mp hk with hlt | heq
      · have hne : cb + s.x.toNat + n ≠ cb + s.x.toNat + k := by omega
        split_ifs
        · rw [List.getD_eq_getElem?_getD, List.getElem?_set_ne hne,
            ← List.getD_eq_getElem?_getD]
          exact h7 k hlt hg hlen
        · exact h7 k hlt hg hlen
      · subst heq
        rw [if_pos (hgate.mpr hg)]
        have hkeep : r.buffer.getD (cb + s.x.toNat + k) 0 =
            s.buffer.getD (cb + s.x.toNat + k) 0 :=
          h8 _ (fun k2 hk2 he => by omega)
        rw [hkeep, List.getD_eq_getElem?_getD, List.getElem?_set_self (by rw [h6]; exact hlen)]
        rfl
    · intro idx hno
      simp only [texturePixel, hidx]
      have hprev : r.buffer.getD idx 0 = s.buffer.getD idx 0 :=
        h8 idx (fun k hk he => hno k (Nat.lt_succ_of_lt hk) he)
      split_ifs with hc
      · have hne : cb + s.x.toNat + n ≠ idx := fun he =>
          hno n (Nat.lt_succ_self n) he.symm (hgate.mp hc)
        rw [List.getD_eq_getElem?_getD, List.getElem?_set_ne hne,
          ← List.getD_eq_getElem?_getD]
        exact hprev
      · exact hprev

end graphics

namespace graphics

open math

/-- The state of the outer loop of the textured `renderTriangle` after `n`
scanlines. -/
theorem textureRow_iterate (m : Libm) (camera : PinholeCamera) (texture : Framebuffer)
    (f : FixedPoint) (rc : Matrix 3 4) (dc : Matrix 3 2) (nc : Vec3) (dls : List DirectionalLight) (material : Material) (zBuffer : List ℚ)
    (width : Nat) (minX maxX : Int) (s : TextureRow) (hx : 0 ≤ minX)
    (hw : ∀ k, k < loopCount minX maxX → minX.toNat + k < width) (n : Nat) :
    let r := (textureRow m camera texture f rc dc nc dls material zBuffer width minX maxX)^[n] s
    r.y = s.y + n ∧ r.u1 = s.u1 + n * f.fb2 ∧ r.u2 = s.u2 + n * f.fb3 ∧
      r.u3 = s.u3 + n * f.fb1 ∧ r.q = s.q + (n : ℚ) • rc 1 ∧ r.cb = s.cb + n * width ∧
      r.zb = s.zb + n * width ∧ r.buffer.length = s.buffer.length ∧
      (∀ j k, j < n → k < loopCount minX maxX →
        shadeGate zBuffer (s.zb + j * width) (minX + k) (s.u1 + j * f.fb2 + k * f.fa2)
          (s.u2 + j * f.fb3 + k * f.fa3) (s.u3 + j * f.fb1 + k * f.fa1)
          ((s.q + (j : ℚ) • rc 1 + (k : ℚ) • rc 0) 0) →
        s.cb + j * width + minX.toNat + k < s.buffer.length →
        r.buffer.getD (s.cb + j * width + minX.toNat + k) 0 =
          composite (texturePixelLight m camera texture dls material (s.y + j)
            (textureStateAt m camera texture f rc dc nc dls material zBuffer width minX maxX s j k)).1
            (s.buffer.getD (s.cb + j * width + minX.toNat + k) 0)) ∧
      (∀ idx, (∀ j k, j < n → k < loopCount minX maxX →
          idx = s.cb + j * width + minX.toNat + k →
          ¬ shadeGate zBuffer (s.zb + j * width) (minX + k) (s.u1 + j * f.fb2 + k * f.fa2)
            (s.u2 + j * f.fb3 + k * f.fa3) (s.u3 + j * f.fb1 + k * f.fa1)
            ((s.q + (j : ℚ) • rc 1 + (k : ℚ) • rc 0) 0)) →
        r.buffer.getD idx 0 = s.buffer.getD idx 0) := by
  induction n with
  | zero => simp
  | succ n ih =>
    rw [Function.iterate_succ_apply']
    obtain ⟨h1, h2, h3, h4, h5, h6, h6z, h7, h8, h9⟩ := ih
    set r := (textureRow m camera texture f rc dc nc dls material zBuffer width minX maxX)^[n] s with hr
    obtain ⟨-, -, -, -, -, i6, i7, i8⟩ := texturePixel_iterate m camera texture f rc dc nc dls material
      zBuffer r.cb r.zb r.y (textureRowStart minX r) hx (loopCount minX maxX)
    have hgate : ∀ k : Nat,
        shadeGate zBuffer r.zb ((textureRowStart minX r).x + k)
          ((textureRowStart minX r).v1 + k * f.fa2) ((textureRowStart minX r).v2 + k * f.fa3)
          ((textureRowStart minX r).v3 + k * f.fa1)
          (((textureRowStart minX r).p + (k : ℚ) • rc 0) 0) ↔
        shadeGate zBuffer (s.zb + n * width) (minX + k) (s.u1 + n * f.fb2 + k * f.fa2)
          (s.u2 + n * f.fb3 + k * f.fa3) (s.u3 + n * f.fb1 + k * f.fa1)
          ((s.q + (n : ℚ) • rc 1 + (k : ℚ) • rc 0) 0) := by
      intro k
      simp only [textureRowStart]
      rw [h2, h3, h4, h5, h6z]
    have hcb : ∀ k : Nat, r.cb + (textureRowStart minX r).x.toNat + k =
        s.cb + n * width + minX.toNat + k := by
      intro k; simp only [textureRowStart]; rw [h6]
    have hbuf : (textureRowStart minX r).buffer = r.buffer := rfl
    have hdisj : ∀ j k k2, j < n → k < loopCount minX maxX → k2 < loopCount minX maxX →
        s.cb + j * width + minX.toNat + k ≠ s.cb + n * width + minX.toNat + k2 := by
      intro j k k2 hj hk hk2 he
      have a1 := hw k hk
      have a2 : (j + 1) * width ≤ n * width := Nat.mul_le_mul_right _ hj
      rw [Nat.succ_mul] at a2
      omega
    refine ⟨?_, ?_, ?_, ?_, ?_, ?_, ?_, ?_, ?_, ?_⟩
    · simp only [textureRow, h1]; push_cast; ring
    · simp only [textureRow, h2]; push_cast; ring
    · simp only [textureRow, h3]; push_cast; ring
    · simp only [textureRow, h4]; push_cast; ring
    · simp only [textureRow, h5]; push_cast; rw [add_smul, one_smul, add_assoc]
    · simp only [textureRow, h6]; ring
    · simp only [textureRow, h6z]; ring
    · simp only [textureRow]; rw [i6, hbuf, h7]
    · intro j k hj hk hg hlen
      simp only [textureRow]
      rcases Nat.lt_succ_iff_lt_or_eq.mp hj with hlt | heq
      · rw [i8 _ (fun k2 hk2 he => absurd (he.trans (hcb k2)) (hdisj j k k2 hlt hk hk2))]
        exact h8 j k hlt hk hg hlen
      · subst heq
        have := i7 k hk ((hgate k).mpr hg) (by rw [hcb, hbuf, h7]; exact hlen)
        rw [hcb, hbuf] at this
        rw [this, h9 _ (fun j2 k2 hj2 hk2 he => absurd he.symm (hdisj j2 k2 k hj2 hk2 hk)),
          ← h1]
        rfl
    · intro idx hno
      simp only [textureRow]
      rw [i8 idx (fun k hk he hg =>
        hno n k (Nat.lt_succ_self n) hk (he.trans (hcb k)) ((hgate k).mp hg))]
      exact h9 idx (fun j k hj hk he => hno j k (Nat.lt_succ_of_lt hj) hk he)

end graphics

namespace graphics

open math

theorem planeAt_apply {N : Nat} (rc : Matrix 3 N) (x y : ℚ) (i : Fin N) :
    planeAt rc x y i = x * rc 0 i + y * rc 1 i + rc 2 i := by
  simp [planeAt, vecMul, dot, getColumn, Fin.sum_univ_three]

/-- The incrementally updated attribute vector is the plane evaluated at the pixel. -/
theorem planeAt_step {N : Nat} (rc : Matrix 3 N) (a b : ℚ) (j k : Nat) :
    vecMul ![a, b, 1] rc + (j : ℚ) • rc 1 + (k : ℚ) • rc 0 = planeAt rc (a + k) (b + j) := by
  funext i
  rw [planeAt_apply]
  simp only [vecMul, dot, getColumn, Fin.sum_univ_three, Pi.add_apply, Pi.smul_apply,
    smul_eq_mul, Matrix.cons_val_zero, Matrix.cons_val_one, Matrix.head_cons,
    Matrix.cons_val_two, Matrix.tail_cons]
  ring

theorem renderEdges_step (f : FixedPoint) (j k : Nat) :
    (renderEdges f).1 + j * f.fb2 + k * f.fa2 =
        f.edge1 (f.minX.toNat + k : Nat) (f.minY.toNat + j : Nat) ∧
      (renderEdges f).2.1 + j * f.fb3 + k * f.fa3 =
        f.edge2 (f.minX.toNat + k : Nat) (f.minY.toNat + j : Nat) ∧
      (renderEdges f).2.2 + j * f.fb1 + k * f.fa1 =
        f.edge3 (f.minX.toNat + k : Nat) (f.minY.toNat + j : Nat) := by
  have hmx := minX_nonneg f
  have hmy := minY_nonneg f
  have ex : ((f.minX.toNat + k : Nat) : Int) = f.minX + k := by omega
  have ey : ((f.minY.toNat + j : Nat) : Int) = f.minY + j := by omega
  rw [ex, ey]
  simp only [renderEdges, FixedPoint.edge1, FixedPoint.edge2, FixedPoint.edge3,
    FixedPoint.fa1, FixedPoint.fa2, FixedPoint.fa3, FixedPoint.fb1, FixedPoint.fb2,
    FixedPoint.fb3, FixedPoint.a1, FixedPoint.a2, FixedPoint.a3, FixedPoint.b1,
    FixedPoint.b2, FixedPoint.b3, shl4]
  refine ⟨by ring, by ring, by ring⟩

/-- The guard of the shading statement at pixel number `k` of scanline number `j`, in
terms of the pixel `(x, y)`. -/
theorem shadeGate_at {N : Nat} (f : FixedPoint) (rc : Matrix 3 (N + 1)) (zBuffer : List ℚ)
    (width : Nat) (j k : Nat) :
    shadeGate zBuffer (f.minY.toNat * width + j * width) (f.minX + k)
        ((renderEdges f).1 + j * f.fb2 + k * f.fa2)
        ((renderEdges f).2.1 + j * f.fb3 + k * f.fa3)
        ((renderEdges f).2.2 + j * f.fb1 + k * f.fa1)
        ((vecMul ![(f.minX : ℚ), (f.minY : ℚ), 1] rc + (j : ℚ) • rc 1 + (k : ℚ) • rc 0) 0) ↔
      f.coversIdeal (f.minX.toNat + k) (f.minY.toNat + j) ∧
        zBuffer.getD ((f.minY.toNat + j) * width + (f.minX.toNat + k)) 0 ≤
          planeAt rc ((f.minX.toNat + k : Nat) : ℚ) ((f.minY.toNat + j : Nat) : ℚ) 0 := by
  have hmx := minX_nonneg f
  have hmy := minY_nonneg f
  obtain ⟨e1, e2, e3⟩ := renderEdges_step f j k
  have hi : f.minY.toNat * width + j * width + (f.minX + k).toNat =
      (f.minY.toNat + j) * width + (f.minX.toNat + k) := by
    have : (f.minX + k).toNat = f.minX.toNat + k := by omega
    rw [this]; ring
  have ex : ((f.minX.toNat + k : Nat) : ℚ) = (f.minX : ℚ) + k := by
    push_cast
    rw [show ((f.minX.toNat : Nat) : ℚ) = ((f.minX.toNat : Int) : ℚ) by norm_cast,
      Int.toNat_of_nonneg hmx]
  have ey : ((f.minY.toNat + j : Nat) : ℚ) = (f.minY : ℚ) + j := by
    push_cast
    rw [show ((f.minY.toNat : Nat) : ℚ) = ((f.minY.toNat : Int) : ℚ) by norm_cast,
      Int.toNat_of_nonneg hmy]
  unfold shadeGate FixedPoint.coversIdeal
  rw [e1, e2, e3, hi, planeAt_step, ex, ey]

/-- The fields of the loop state of the vertex-coloured `renderTriangle` on entry. -/
theorem shadeInit_fields (camera : PinholeCamera) (f : FixedPoint) (rc : Matrix 3 8)
    (width : Nat) (pls : List PointLight) (refl : Option CubeMap) (buffer : List Vec4) :
    (shadeInit camera f rc width pls refl buffer).y = f.minY ∧
      (shadeInit camera f rc width pls refl buffer).u1 = (renderEdges f).1 ∧
      (shadeInit camera f rc width pls refl buffer).u2 = (renderEdges f).2.1 ∧
      (shadeInit camera f rc width pls refl buffer).u3 = (renderEdges f).2.2 ∧
      (shadeInit camera f rc width pls refl buffer).q =
        vecMul ![(f.minX : ℚ), (f.minY : ℚ), 1] rc ∧
      (shadeInit camera f rc width pls refl buffer).cb = f.minY.toNat * width ∧
      (shadeInit camera f rc width pls refl buffer).zb = f.minY.toNat * width ∧
      (shadeInit camera f rc width pls refl buffer).buffer = buffer :=
  ⟨rfl, rfl, rfl, rfl, rfl, rfl, rfl, rfl⟩

/-- The colour plane after the loops of the vertex-coloured `renderTriangle`, pixel by
pixel: a pixel that lies in the scan box, passes the coverage test and passes the depth
gate is composited with the colour `light` returns there; every other pixel is unchanged. -/
theorem shade_loops (m : Libm) (camera : PinholeCamera) (f : FixedPoint) (rc : Matrix 3 8)
    (dls : List DirectionalLight) (material : Material) (zBuffer : List ℚ)
    (width height : Nat) (pls : List PointLight) (refl : Option CubeMap) (buffer : List Vec4)
    (x y : Nat) (hx : x < width) :
    let s0 := shadeInit camera f rc width pls refl buffer
    let r := (shadeRow m camera f rc dls material zBuffer width f.minX (f.maxX width))^[
      loopCount f.minY (f.maxY height)] s0
    (inScanBox f width height x y ∧ f.coversIdeal x y ∧
        zBuffer.getD (y * width + x) 0 ≤ planeAt rc x y 0 →
      y * width + x < buffer.length →
      r.buffer.getD (y * width + x) 0 =
        composite (shadePixelLight m camera dls material y
          (shadeStateAt m camera f rc dls material zBuffer width f.minX (f.maxX width) s0
            (y - f.minY.toNat) (x - f.minX.toNat))).1 (buffer.getD (y * width + x) 0)) ∧
    (¬ (inScanBox f width height x y ∧ f.coversIdeal x y ∧
        zBuffer.getD (y * width + x) 0 ≤ planeAt rc x y 0) →
      r.buffer.getD (y * width + x) 0 = buffer.getD (y * width + x) 0) := by
  have hmx := minX_nonneg f
  have hmy := minY_nonneg f
  have hMx := maxX_lt f width
  have hMy := maxY_lt f height
  obtain ⟨-, -, -, -, -, -, -, -, b1, b2⟩ := shadeRow_iterate m camera f rc dls material
    zBuffer width f.minX (f.maxX width) (shadeInit camera f rc width pls refl buffer) hmx
    (scan_in_row f width) (loopCount f.minY (f.maxY height))
  obtain ⟨fy, fu1, fu2, fu3, fq, fcb, fzb, fbuf⟩ :=
    shadeInit_fields camera f rc width pls refl buffer
  rw [fy, fu1, fu2, fu3, fq, fcb, fzb, fbuf] at b1
  rw [fu1, fu2, fu3, fq, fcb, fzb, fbuf] at b2
  have hidx : ∀ j k : Nat, f.minY.toNat * width + j * width + f.minX.toNat + k =
      (f.minY.toNat + j) * width + (f.minX.toNat + k) := by intro j k; ring
  constructor
  · rintro ⟨⟨hx1, hx2, hy1, hy2⟩, hcov, hz⟩ hlen
    obtain ⟨k, hk⟩ : ∃ k : Nat, x = f.minX.toNat + k := ⟨x - f.minX.toNat, by omega⟩
    obtain ⟨j, hj⟩ : ∃ j : Nat, y = f.minY.toNat + j := ⟨y - f.minY.toNat, by omega⟩
    have hjn : j < loopCount f.minY (f.maxY height) := by unfold loopCount; omega
    have hkn : k < loopCount f.minX (f.maxX width) := by unfold loopCount; omega
    have hg := (shadeGate_at f rc zBuffer width j k).mpr
      ⟨by rw [← hk, ← hj]; exact hcov, by rw [← hk, ← hj]; exact hz⟩
    have := b1 j k hjn hkn hg (by rw [hidx, ← hk, ← hj]; exact hlen)
    rw [hidx, ← hk, ← hj] at this
    rw [this]
    have ej : y - f.minY.toNat = j := by omega
    have ek : x - f.minX.toNat = k := by omega
    have ey : f.minY + (j : Int) = (y : Int) := by omega
    rw [ej, ek, ey]
  · intro hno
    apply b2
    intro j k hj hk he hg
    apply hno
    have hk2 := scan_in_row f width k hk
    rw [hidx] at he
    obtain ⟨hxe, hye⟩ := pixel_index_inj width x y _ _ hx hk2 he
    obtain ⟨hc, hz⟩ := (shadeGate_at f rc zBuffer width j k).mp hg
    rw [← hxe, ← hye] at hc hz
    refine ⟨⟨?_, ?_, ?_, ?_⟩, hc, hz⟩
    · omega
    · unfold loopCount at hk; omega
    · omega
    · unfold loopCount at hj; omega

end graphics

namespace graphics

open math

/-- The fields of the loop state of the textured `renderTriangle` on entry. -/
theorem textureInit_fields (camera : PinholeCamera) (f : FixedPoint) (rc : Matrix 3 4)
    (dc : Matrix 3 2) (nc : Vec3) (width : Nat) (pls : List PointLight) (refl : Option CubeMap) (buffer : List Vec4) :
    (textureInit camera f rc dc nc width pls refl buffer).y = f.minY ∧
      (textureInit camera f rc dc nc width pls refl buffer).u1 = (renderEdges f).1 ∧
      (textureInit camera f rc dc nc width pls refl buffer).u2 = (renderEdges f).2.1 ∧
      (textureInit camera f rc dc nc width pls refl buffer).u3 = (renderEdges f).2.2 ∧
      (textureInit camera f rc dc nc width pls refl buffer).q =
        vecMul ![(f.minX : ℚ), (f.minY : ℚ), 1] rc ∧
      (textureInit camera f rc dc nc width pls refl buffer).cb = f.minY.toNat * width ∧
      (textureInit camera f rc dc nc width pls refl buffer).zb = f.minY.toNat * width ∧
      (textureInit camera f rc dc nc width pls refl buffer).buffer = buffer :=
  ⟨rfl, rfl, rfl, rfl, rfl, rfl, rfl, rfl⟩

/-- The colour plane after the loops of the textured `renderTriangle`, pixel by
pixel: a pixel that lies in the scan box, passes the coverage test and passes the depth
gate is composited with the colour `light` returns there; every other pixel is unchanged. -/
theorem texture_loops (m : Libm) (camera : PinholeCamera) (texture : Framebuffer) (f : FixedPoint)
    (rc : Matrix 3 4) (dc : Matrix 3 2) (nc : Vec3)
    (dls : List DirectionalLight) (material : Material) (zBuffer : List ℚ)
    (width height : Nat) (pls : List PointLight) (refl : Option CubeMap) (buffer : List Vec4)
    (x y : Nat) (hx : x < width) :
    let s0 := textureInit camera f rc dc nc width pls refl buffer
    let r := (textureRow m camera texture f rc dc nc dls material zBuffer width f.minX (f.maxX width))^[
      loopCount f.minY (f.maxY height)] s0
    (inScanBox f width height x y ∧ f.coversIdeal x y ∧
        zBuffer.getD (y * width + x) 0 ≤ planeAt rc x y 0 →
      y * width + x < buffer.length →
      r.buffer.getD (y * width + x) 0 =
        composite (texturePixelLight m camera texture dls material y
          (textureStateAt m camera texture f rc dc nc dls material zBuffer width f.minX (f.maxX width) s0
            (y - f.minY.toNat) (x - f.minX.toNat))).1 (buffer.getD (y * width + x) 0)) ∧
    (¬ (inScanBox f width height x y ∧ f.coversIdeal x y ∧
        zBuffer.getD (y * width + x) 0 ≤ planeAt rc x y 0) →
      r.buffer.getD (y * width + x) 0 = buffer.getD (y * width + x) 0) := by
  have hmx := minX_nonneg f
  have hmy := minY_nonneg f
  have hMx := maxX_lt f width
  have hMy := maxY_lt f height
  obtain ⟨-, -, -, -, -, -, -, -, b1, b2⟩ := textureRow_iterate m camera texture f rc dc nc dls material
    zBuffer width f.minX (f.maxX width) (textureInit camera f rc dc nc width pls refl buffer) hmx
    (scan_in_row f width) (loopCount f.minY (f.maxY height))
  obtain ⟨fy, fu1, fu2, fu3, fq, fcb, fzb, fbuf⟩ :=
    textureInit_fields camera f rc dc nc width pls refl buffer
  rw [fy, fu1, fu2, fu3, fq, fcb, fzb, fbuf] at b1
  rw [fu1, fu2, fu3, fq, fcb, fzb, fbuf] at b2
  have hidx : ∀ j k : Nat, f.minY.toNat * width + j * width + f.minX.toNat + k =
      (f.minY.toNat + j) * width + (f.minX.toNat + k) := by intro j k; ring
  constructor
  · rintro ⟨⟨hx1, hx2, hy1, hy2⟩, hcov, hz⟩ hlen
    obtain ⟨k, hk⟩ : ∃ k : Nat, x = f.minX.toNat + k := ⟨x - f.minX.toNat, by omega⟩
    obtain ⟨j, hj⟩ : ∃ j : Nat, y = f.minY.toNat + j := ⟨y - f.minY.toNat, by omega⟩
    have hjn : j < loopCount f.minY (f.maxY height) := by unfold loopCount; omega
    have hkn : k < loopCount f.minX (f.maxX width) := by unfold loopCount; omega
    have hg := (shadeGate_at f rc zBuffer width j k).mpr
      ⟨by rw [← hk, ← hj]; exact hcov, by rw [← hk, ← hj]; exact hz⟩
    have := b1 j k hjn hkn hg (by rw [hidx, ← hk, ← hj]; exact hlen)
    rw [hidx, ← hk, ← hj] at this
    rw [this]
    have ej : y - f.minY.toNat = j := by omega
    have ek : x - f.minX.toNat = k := by omega
    have ey : f.minY + (j : Int) = (y : Int) := by omega
    rw [ej, ek, ey]
  · intro hno
    apply b2
    intro j k hj hk he hg
    apply hno
    have hk2 := scan_in_row f width k hk
    rw [hidx] at he
    obtain ⟨hxe, hye⟩ := pixel_index_inj width x y _ _ hx hk2 he
    obtain ⟨hc, hz⟩ := (shadeGate_at f rc zBuffer width j k).mp hg
    rw [← hxe, ← hye] at hc hz
    refine ⟨⟨?_, ?_, ?_, ?_⟩, hc, hz⟩
    · omega
    · unfold loopCount at hk; omega
    · omega
    · unfold loopCount at hj; omega

end graphics

namespace graphics

open math

/-- The state of the inner loop of the vertex-coloured `renderTriangle`, in 32-bit `int`s, after
`n` iterations. -/
theorem shadePixel32_iterate (m : Libm) (camera : PinholeCamera) (f : FixedPoint)
    (rc : Matrix 3 8) (dls : List DirectionalLight) (material : Material) (zBuffer : List ℚ)
    (cb zb : Nat) (y : Int) (s : ShadePixel) (hx : 0 ≤ s.x) (g1 : int32 s.v1 = s.v1) (g2 : int32 s.v2 = s.v2)
    (g3 : int32 s.v3 = s.v3) (n : Nat) :
    let r := (shadePixel32 m camera f rc dls material zBuffer cb zb y)^[n] s
    r.x = s.x + n ∧ r.v1 = int32 (s.v1 + n * f.fa2) ∧
      r.v2 = int32 (s.v2 + n * f.fa3) ∧ r.v3 = int32 (s.v3 + n * f.fa1) ∧ r.p = s.p + (n : ℚ) • rc 0 ∧
      r.buffer.length = s.buffer.length ∧
      (∀ k, k < n →
        shadeGate zBuffer zb (s.x + k) (int32 (s.v1 + k * f.fa2))
          (int32 (s.v2 + k * f.fa3)) (int32 (s.v3 + k * f.fa1))
          ((s.p + (k : ℚ) • rc 0) 0) →
        cb + s.x.toNat + k < s.buffer.length →
        r.buffer.getD (cb + s.x.toNat + k) 0 =
          composite (shadePixelLight m camera dls material y
            ((shadePixel32 m camera f rc dls material zBuffer cb zb y)^[k] s)).1
            (s.buffer.getD (cb + s.x.toNat + k) 0)) ∧
      (∀ idx, (∀ k, k < n → idx = cb + s.x.toNat + k →
          ¬ shadeGate zBuffer zb (s.x + k) (int32 (s.v1 + k * f.fa2))
            (int32 (s.v2 + k * f.fa3)) (int32 (s.v3 + k * f.fa1)) ((s.p + (k : ℚ) • rc 0) 0)) →
        r.buffer.getD idx 0 = s.buffer.getD idx 0) := by
  induction n with
  | zero => simp [g1, g2, g3]
  | succ n ih =>
    rw [Function.iterate_succ_apply']
    obtain ⟨h1, h2, h3, h4, h5, h6, h7, h8⟩ := ih
    set r := (shadePixel32 m camera f rc dls material zBuffer cb zb y)^[n] s with hr
    have hidx : cb + r.x.toNat = cb + s.x.toNat + n := by rw [h1]; omega
    have hgate : shadeGate zBuffer zb r.x r.v1 r.v2 r.v3 (r.p 0) ↔
        shadeGate zBuffer zb (s.x + n) (int32 (s.v1 + n * f.fa2))
          (int32 (s.v2 + n * f.fa3)) (int32 (s.v3 + n * f.fa1)) ((s.p + (n : ℚ) • rc 0) 0) := by
      rw [h1, h2, h3, h4, h5]
    refine ⟨?_, ?_, ?_, ?_, ?_, ?_, ?_, ?_⟩
    · simp only [shadePixel32, h1]; push_cast; ring
    · exact add32_step _ _ _ _ n h2 (fa2_32_eq f)
    · exact add32_step _ _ _ _ n h3 (fa3_32_eq f)
    · exact add32_step _ _ _ _ n h4 (fa1_32_eq f)
    · simp only [shadePixel32, h5]; push_cast; rw [add_smul, one_smul, add_assoc]
    · simp only [shadePixel32]; split_ifs <;> simp [h6]
    · intro k hk hg hlen
      simp only [shadePixel32, hidx]
      rcases Nat.lt_succ_iff_lt_or_eq.mp hk with hlt | heq
      · have hne : cb + s.x.toNat + n ≠ cb + s.x.toNat + k := by omega
        split_ifs
        · rw [List.getD_eq_getElem?_getD, List.getElem?_set_ne hne,
            ← List.getD_eq_getElem?_getD]
          exact h7 k hlt hg hlen
        · exact h7 k hlt hg hlen
      · subst heq
        rw [if_pos (hgate.mpr hg)]
        have hkeep : r.buffer.getD (cb + s.x.toNat + k) 0 =
            s.buffer.getD (cb + s.x.toNat + k) 0 :=
          h8 _ (fun k2 hk2 he => by omega)
        rw [hkeep, List.getD_eq_getElem?_getD, List.getElem?_set_self (by rw [h6]; exact hlen)]
        rfl
    · intro idx hno
      simp only [shadePixel32, hidx]
      have hprev : r.buffer.getD idx 0 = s.buffer.getD idx 0 :=
        h8 idx (fun k hk he => hno k (Nat.lt_succ_of_lt hk) he)
      split_ifs with hc
      · have hne : cb + s.x.toNat + n ≠ idx := fun he =>
          hno n (Nat.lt_succ_self n) he.symm (hgate.mp hc)
        rw [List.getD_eq_getElem?_getD, List.getElem?_set_ne hne,
          ← List.getD_eq_getElem?_getD]
        exact hprev
      · exact hprev

end graphics

namespace graphics

open math

/-- The state of the outer loop of the vertex-coloured `renderTriangle`, in 32-bit `int`s, after
`n` scanlines. -/
theorem shadeRow32_iterate (m : Libm) (camera : PinholeCamera) (f : FixedPoint)
    (rc : Matrix 3 8) (dls : List DirectionalLight) (material : Material) (zBuffer : List ℚ)
    (width : Nat) (minX maxX : Int) (s : ShadeRow) (hx : 0 ≤ minX)
    (hw : ∀ k, k < loopCount minX maxX → minX.toNat + k < width)
    (g1 : int32 s.u1 = s.u1) (g2 : int32 s.u2 = s.u2) (g3 : int32 s.u3 = s.u3) (n : Nat) :
    let r := (shadeRow32 m camera f rc dls material zBuffer width minX maxX)^[n] s
    r.y = s.y + n ∧ r.u1 = int32 (s.u1 + n * f.fb2) ∧
      r.u2 = int32 (s.u2 + n * f.fb3) ∧ r.u3 = int32 (s.u3 + n * f.fb1) ∧ r.q = s.q + (n : ℚ) • rc 1 ∧ r.cb = s.cb + n * width ∧
      r.zb = s.zb + n * width ∧ r.buffer.length = s.buffer.length ∧
      (∀ j k, j < n → k < loopCount minX maxX →
        shadeGate zBuffer (s.zb + j * width) (minX + k) (int32 (s.u1 + j * f.fb2 + k * f.fa2))
          (int32 (s.u2 + j * f.fb3 + k * f.fa3)) (int32 (s.u3 + j * f.fb1 + k * f.fa1))
          ((s.q + (j : ℚ) • rc 1 + (k : ℚ) • rc 0) 0) →
        s.cb + j * width + minX.toNat + k < s.buffer.length →
        r.buffer.getD (s.cb + j * width + minX.toNat + k) 0 =
          composite (shadePixelLight m camera dls material (s.y + j)
            (shadeStateAt32 m camera f rc dls material zBuffer width minX maxX s j k)).1
            (s.buffer.getD (s.cb + j * width + minX.toNat + k) 0)) ∧
      (∀ idx, (∀ j k, j < n → k < loopCount minX maxX →
          idx = s.cb + j * width + minX.toNat + k →
          ¬ shadeGate zBuffer (s.zb + j * width) (minX + k) (int32 (s.u1 + j * f.fb2 + k * f.fa2))
            (int32 (s.u2 + j * f.fb3 + k * f.fa3)) (int32 (s.u3 + j * f.fb1 + k * f.fa1))
            ((s.q + (j : ℚ) • rc 1 + (k : ℚ) • rc 0) 0)) →
        r.buffer.getD idx 0 = s.buffer.getD idx 0) := by
  induction n with
  | zero => simp [g1, g2, g3]
  | succ n ih =>
    rw [Function.iterate_succ_apply']
    obtain ⟨h1, h2, h3, h4, h5, h6, h6z, h7, h8, h9⟩ := ih
    set r := (shadeRow32 m camera f rc dls material zBuffer width minX maxX)^[n] s with hr
    obtain ⟨-, -, -, -, -, i6, i7, i8⟩ := shadePixel32_iterate m camera f rc dls material
      zBuffer r.cb r.zb r.y (shadeRowStart minX r) hx
      (by simp only [shadeRowStart]; rw [h2, int32_int32]) (by simp only [shadeRowStart]; rw [h3, int32_int32])
      (by simp only [shadeRowStart]; rw [h4, int32_int32]) (loopCount minX maxX)
    have hgate : ∀ k : Nat,
        shadeGate zBuffer r.zb ((shadeRowStart minX r).x + k)
          (int32 ((shadeRowStart minX r).v1 + k * f.fa2))
          (int32 ((shadeRowStart minX r).v2 + k * f.fa3)) (int32 ((shadeRowStart minX r).v3 + k * f.fa1))
          (((shadeRowStart minX r).p + (k : ℚ) • rc 0) 0) ↔
        shadeGate zBuffer (s.zb + n * width) (minX + k) (int32 (s.u1 + n * f.fb2 + k * f.fa2))
          (int32 (s.u2 + n * f.fb3 + k * f.fa3)) (int32 (s.u3 + n * f.fb1 + k * f.fa1))
          ((s.q + (n : ℚ) • rc 1 + (k : ℚ) • rc 0) 0) := by
      intro k
      simp only [shadeRowStart]
      rw [h2, h3, h4, h5, h6z, int32_add_left, int32_add_left, int32_add_left]
    have hcb : ∀ k : Nat, r.cb + (shadeRowStart minX r).x.toNat + k =
        s.cb + n * width + minX.toNat + k := by
      intro k; simp only [shadeRowStart]; rw [h6]
    have hbuf : (shadeRowStart minX r).buffer = r.buffer := rfl
    have hdisj : ∀ j k k2, j < n → k < loopCount minX maxX → k2 < loopCount minX maxX →
        s.cb + j * width + minX.toNat + k ≠ s.cb + n * width + minX.toNat + k2 := by
      intro j k k2 hj hk hk2 he
      have a1 := hw k hk
      have a2 : (j + 1) * width ≤ n * width := Nat.mul_le_mul_right _ hj
      rw [Nat.succ_mul] at a2
      omega
    refine ⟨?_, ?_, ?_, ?_, ?_, ?_, ?_, ?_, ?_, ?_⟩
    · simp only [shadeRow32, h1]; push_cast; ring
    · exact add32_step _ _ _ _ n h2 (fb2_32_eq f)
    · exact add32_step _ _ _ _ n h3 (fb3_32_eq f)
    · exact add32_step _ _ _ _ n h4 (fb1_32_eq f)
    · simp only [shadeRow32, h5]; push_cast; rw [add_smul, one_smul, add_assoc]
    · simp only [shadeRow32, h6]; ring
    · simp only [shadeRow32, h6z]; ring
    · simp only [shadeRow32]; rw [i6, hbuf, h7]
    · intro j k hj hk hg hlen
      simp only [shadeRow32]
      rcases Nat.lt_succ_iff_lt_or_eq.mp hj with hlt | heq
      · rw [i8 _ (fun k2 hk2 he => absurd (he.trans (hcb k2)) (hdisj j k k2 hlt hk hk2))]
        exact h8 j k hlt hk hg hlen
      · subst heq
        have := i7 k hk ((hgate k).mpr hg) (by rw [hcb, hbuf, h7]; exact hlen)
        rw [hcb, hbuf] at this
        rw [this, h9 _ (fun j2 k2 hj2 hk2 he => absurd he.symm (hdisj j2 k2 k hj2 hk2 hk)),
          ← h1]
        rfl
    · intro idx hno
      simp only [shadeRow32]
      rw [i8 idx (fun k hk he hg =>
        hno n k (Nat.lt_succ_self n) hk (he.trans (hcb k)) ((hgate k).mp hg))]
      exact h9 idx (fun j k hj hk he => hno j k (Nat.lt_succ_of_lt hj) hk he)

end graphics

namespace graphics

open math

/-- The state of the inner loop of the textured `renderTriangle`, in 32-bit `int`s, after
`n` iterations. -/
theorem texturePixel32_iterate (m : Libm) (camera : PinholeCamera) (texture : Framebuffer)
    (f : FixedPoint) (rc : Matrix 3 4) (dc : Matrix 3 2) (nc : Vec3) (dls : List DirectionalLight) (material : Material) (zBuffer : List ℚ)
    (cb zb : Nat) (y : Int) (s : TexturePixel) (hx : 0 ≤ s.x) (g1 : int32 s.v1 = s.v1) (g2 : int32 s.v2 = s.v2)
    (g3 : int32 s.v3 = s.v3) (n : Nat) :
    let r := (texturePixel32 m camera texture f rc dc nc dls material zBuffer cb zb y)^[n] s
    r.x = s.x + n ∧ r.v1 = int32 (s.v1 + n * f.fa2) ∧
      r.v2 = int32 (s.v2 + n * f.fa3) ∧ r.v3 = int32 (s.v3 + n * f.fa1) ∧ r.p = s.p + (n : ℚ) • rc 0 ∧
      r.buffer.length = s.buffer.length ∧
      (∀ k, k < n →
        shadeGate zBuffer zb (s.x + k) (int32 (s.v1 + k * f.fa2))
          (int32 (s.v2 + k * f.fa3)) (int32 (s.v3 + k * f.fa1))
          ((s.p + (k : ℚ) • rc 0) 0) →
        cb + s.x.toNat + k < s.buffer.length →
        r.buffer.getD (cb + s.x.toNat + k) 0 =
          composite (texturePixelLight m camera texture dls material y
            ((texturePixel32 m camera texture f rc dc nc dls material zBuffer cb zb y)^[k] s)).1
            (s.buffer.getD (cb + s.x.toNat + k) 0)) ∧
      (∀ idx, (∀ k, k < n → idx = cb + s.x.toNat + k →
          ¬ shadeGate zBuffer zb (s.x + k) (int32 (s.v1 + k * f.fa2))
            (int32 (s.v2 + k * f.fa3)) (int32 (s.v3 + k * f.fa1)) ((s.p + (k : ℚ) • rc 0) 0)) →
        r.buffer.getD idx 0 = s.buffer.getD idx 0) := by
  induction n with
  | zero => simp [g1, g2, g3]
  | succ n ih =>
    rw [Function.iterate_succ_apply']
    obtain ⟨h1, h2, h3, h4, h5, h6, h7, h8⟩ := ih
    set r := (texturePixel32 m camera texture f rc dc nc dls material zBuffer cb zb y)^[n] s with hr
    have hidx : cb + r.x.toNat = cb + s.x.toNat + n := by rw [h1]; omega
    have hgate : shadeGate zBuffer zb r.x r.v1 r.v2 r.v3 (r.p 0) ↔
        shadeGate zBuffer zb (s.x + n) (int32 (s.v1 + n * f.fa2))
          (int32 (s.v2 + n * f.fa3)) (int32 (s.v3 + n * f.fa1)) ((s.p + (n : ℚ) • rc 0) 0) := by
      rw [h1, h2, h3, h4, h5]
    refine ⟨?_, ?_, ?_, ?_, ?_, ?_, ?_, ?_⟩
    · simp only [texturePixel32, h1]; push_cast; ring
    · exact add32_step _ _ _ _ n h2 (fa2_32_eq f)
    · exact add32_step _ _ _ _ n h3 (fa3_32_eq f)
    · exact add32_step _ _ _ _ n h4 (fa1_32_eq f)
    · simp only [texturePixel32, h5]; push_cast; rw [add_smul, one_smul, add_assoc]
    · simp only [texturePixel32]; split_ifs <;> simp [h6]
    · intro k hk hg hlen
      simp only [texturePixel32, hidx]
      rcases Nat.lt_succ_iff_lt_or_eq.mp hk with hlt | heq
      · have hne : cb + s.x.toNat + n ≠ cb + s.x.toNat + k := by omega
        split_ifs
        · rw [List.getD_eq_getElem?_getD, List.getElem?_set_ne hne,
            ← List.getD_eq_getElem?_getD]
          exact h7 k hlt hg hlen
        · exact h7 k hlt hg hlen
      · subst heq
        rw [if_pos (hgate.mpr hg)]
        have hkeep : r.buffer.getD (cb + s.x.toNat + k) 0 =
            s.buffer.getD (cb + s.x.toNat + k) 0 :=
          h8 _ (fun k2 hk2 he => by omega)
        rw [hkeep, List.getD_eq_getElem?_getD, List.getElem?_set_self (by rw [h6]; exact hlen)]
        rfl
    · intro idx hno
      simp only [texturePixel32, hidx]
      have hprev : r.buffer.getD idx 0 = s.buffer.getD idx 0 :=
        h8 idx (fun k hk he => hno k (Nat.lt_succ_of_lt hk) he)
      split_ifs with hc
      · have hne : cb + s.x.toNat + n ≠ idx := fun he =>
          hno n (Nat.lt_succ_self n) he.symm (hgate.mp hc)
        rw [List.getD_eq_getElem?_getD, List.getElem?_set_ne hne,
          ← List.getD_eq_getElem?_getD]
        exact hprev
      · exact hprev

end graphics

namespace graphics

open math

/-- The state of the outer loop of the textured `renderTriangle`, in 32-bit `int`s, after
`n` scanlines. -/
theorem textureRow32_iterate (m : Libm) (camera : PinholeCamera) (texture : Framebuffer)
    (f : FixedPoint) (rc : Matrix 3 4) (dc : Matrix 3 2) (nc : Vec3) (dls : List DirectionalLight) (material : Material) (zBuffer : List ℚ)
    (width : Nat) (minX maxX : Int) (s : TextureRow) (hx : 0 ≤ minX)
    (hw : ∀ k, k < loopCount minX maxX → minX.toNat + k < width)
    (g1 : int32 s.u1 = s.u1) (g2 : int32 s.u2 = s.u2) (g3 : int32 s.u3 = s.u3) (n : Nat) :
    let r := (textureRow32 m camera texture f rc dc nc dls material zBuffer width minX maxX)^[n] s
    r.y = s.y + n ∧ r.u1 = int32 (s.u1 + n * f.fb2) ∧
      r.u2 = int32 (s.u2 + n * f.fb3) ∧ r.u3 = int32 (s.u3 + n * f.fb1) ∧ r.q = s.q + (n : ℚ) • rc 1 ∧ r.cb = s.cb + n * width ∧
      r.zb = s.zb + n * width ∧ r.buffer.length = s.buffer.length ∧
      (∀ j k, j < n → k < loopCount minX maxX →
        shadeGate zBuffer (s.zb + j * width) (minX + k) (int32 (s.u1 + j * f.fb2 + k * f.fa2))
          (int32 (s.u2 + j * f.fb3 + k * f.fa3)) (int32 (s.u3 + j * f.fb1 + k * f.fa1))
          ((s.q + (j : ℚ) • rc 1 + (k : ℚ) • rc 0) 0) →
        s.cb + j * width + minX.toNat + k < s.buffer.length →
        r.buffer.getD (s.cb + j * width + minX.toNat + k) 0 =
          composite (texturePixelLight m camera texture dls material (s.y + j)
            (textureStateAt32 m camera texture f rc dc nc dls material zBuffer width minX maxX s j k)).1
            (s.buffer.getD (s.cb + j * width + minX.toNat + k) 0)) ∧
      (∀ idx, (∀ j k, j < n → k < loopCount minX maxX →
          idx = s.cb + j * width + minX.toNat + k →
          ¬ shadeGate zBuffer (s.zb + j * width) (minX + k) (int32 (s.u1 + j * f.fb2 + k * f.fa2))
            (int32 (s.u2 + j * f.fb3 + k * f.fa3)) (int32 (s.u3 + j * f.fb1 + k * f.fa1))
            ((s.q + (j : ℚ) • rc 1 + (k : ℚ) • rc 0) 0)) →
        r.buffer.getD idx 0 = s.buffer.getD idx 0) := by
  induction n with
  | zero => simp [g1, g2, g3]
  | succ n ih =>
    rw [Function.iterate_succ_apply']
    obtain ⟨h1, h2, h3, h4, h5, h6, h6z, h7, h8, h9⟩ := ih
    set r := (textureRow32 m camera texture f rc dc nc dls material zBuffer width minX maxX)^[n] s with hr
    obtain ⟨-, -, -, -, -, i6, i7, i8⟩ := texturePixel32_iterate m camera texture f rc dc nc dls material
      zBuffer r.cb r.zb r.y (textureRowStart minX r) hx
      (by simp only [textureRowStart]; rw [h2, int32_int32]) (by simp only [textureRowStart]; rw [h3, int32_int32])
      (by simp only [textureRowStart]; rw [h4, int32_int32]) (loopCount minX maxX)
    have hgate : ∀ k : Nat,
        shadeGate zBuffer r.zb ((textureRowStart minX r).x + k)
          (int32 ((textureRowStart minX r).v1 + k * f.fa2))
          (int32 ((textureRowStart minX r).v2 + k * f.fa3)) (int32 ((textureRowStart minX r).v3 + k * f.fa1))
          (((textureRowStart minX r).p + (k : ℚ) • rc 0) 0) ↔
        shadeGate zBuffer (s.zb + n * width) (minX + k) (int32 (s.u1 + n * f.fb2 + k * f.fa2))
          (int32 (s.u2 + n * f.fb3 + k * f.fa3)) (int32 (s.u3 + n * f.fb1 + k * f.fa1))
          ((s.q + (n : ℚ) • rc 1 + (k : ℚ) • rc 0) 0) := by
      intro k
      simp only [textureRowStart]
      rw [h2, h3, h4, h5, h6z, int32_add_left, int32_add_left, int32_add_left]
    have hcb : ∀ k : Nat, r.cb + (textureRowStart minX r).x.toNat + k =
        s.cb + n * width + minX.toNat + k := by
      intro k; simp only [textureRowStart]; rw [h6]
    have hbuf : (textureRowStart minX r).buffer = r.buffer := rfl
    have hdisj : ∀ j k k2, j < n → k < loopCount minX maxX → k2 < loopCount minX maxX →
        s.cb + j * width + minX.toNat + k ≠ s.cb + n * width + minX.toNat + k2 := by
      intro j k k2 hj hk hk2 he
      have a1 := hw k hk
      have a2 : (j + 1) * width ≤ n * width := Nat.mul_le_mul_right _ hj
      rw [Nat.succ_mul] at a2
      omega
    refine ⟨?_, ?_, ?_, ?_, ?_, ?_, ?_, ?_, ?_, ?_⟩
    · simp only [textureRow32, h1]; push_cast; ring
    · exact add32_step _ _ _ _ n h2 (fb2_32_eq f)
    · exact add32_step _ _ _ _ n h3 (fb3_32_eq f)
    · exact add32_step _ _ _ _ n h4 (fb1_32_eq f)
    · simp only [textureRow32, h5]; push_cast; rw [add_smul, one_smul, add_assoc]
    · simp only [textureRow32, h6]; ring
    · simp only [textureRow32, h6z]; ring
    · simp only [textureRow32]; rw [i6, hbuf, h7]
    · intro j k hj hk hg hlen
      simp only [textureRow32]
      rcases Nat.lt_succ_iff_lt_or_eq.mp hj with hlt | heq
      · rw [i8 _ (fun k2 hk2 he => absurd (he.trans (hcb k2)) (hdisj j k k2 hlt hk hk2))]
        exact h8 j k hlt hk hg hlen
      · subst heq
        have := i7 k hk ((hgate k).mpr hg) (by rw [hcb, hbuf, h7]; exact hlen)
        rw [hcb, hbuf] at this
        rw [this, h9 _ (fun j2 k2 hj2 hk2 he => absurd he.symm (hdisj j2 k2 k hj2 hk2 hk)),
          ← h1]
        rfl
    · intro idx hno
      simp only [textureRow32]
      rw [i8 idx (fun k hk he hg =>
        hno n k (Nat.lt_succ_self n) hk (he.trans (hcb k)) ((hgate k).mp hg))]
      exact h9 idx (fun j k hj hk he => hno j k (Nat.lt_succ_of_lt hj) hk he)

end graphics

namespace graphics

open math

/-- The closed-form edge functions in terms of the expanded form `renderTriangle` evaluates
at a pixel `(mx, my)` and the per-pixel and per-scanline increments. -/
theorem edge_steps_expanded (f : FixedPoint) (mx my : Int) (j k : Nat) :
    (f.p3x - f.p2x) * (my * 16 - f.p2y) - (f.p3y - f.p2y) * (mx * 16 - f.p2x) + j * f.fb2 +
        k * f.fa2 = f.edge1 (mx + k) (my + j) ∧
      (f.p1x - f.p3x) * (my * 16 - f.p3y) - (f.p1y - f.p3y) * (mx * 16 - f.p3x) + j * f.fb3 +
        k * f.fa3 = f.edge2 (mx + k) (my + j) ∧
      (f.p2x - f.p1x) * (my * 16 - f.p1y) - (f.p2y - f.p1y) * (mx * 16 - f.p1x) + j * f.fb1 +
        k * f.fa1 = f.edge3 (mx + k) (my + j) := by
  simp only [FixedPoint.edge1, FixedPoint.edge2, FixedPoint.edge3, FixedPoint.fa1,
    FixedPoint.fa2, FixedPoint.fa3, FixedPoint.fb1, FixedPoint.fb2, FixedPoint.fb3,
    FixedPoint.a1, FixedPoint.a2, FixedPoint.a3, FixedPoint.b1, FixedPoint.b2, FixedPoint.b3,
    shl4]
  refine ⟨by ring, by ring, by ring⟩

/-- A 32-bit edge value in the expanded form of `renderTriangle` is the wrapped integer
expression. -/
theorem edge_expanded32 (px qx py qy rx ry mx my : Int) :
    sub32 (mul32 (sub32 px qx) (sub32 (shl32 my) ry)) (mul32 (sub32 py qy) (sub32 (shl32 mx) rx)) =
      int32 ((px - qx) * (my * 16 - ry) - (py - qy) * (mx * 16 - rx)) := by
  unfold mul32 sub32
  simp only [shl32_eq, int32_sub_left, int32_mul, int32_sub]
  exact int32_sub_right _ _

/-- The edge values of `renderTriangle` on entry, in 32-bit `int`s, are the wrapped integer
expressions. -/
theorem renderEdges32_eq (f : FixedPoint) :
    (renderEdges32 f).1 =
        int32 ((f.p3x - f.p2x) * (f.minY32 * 16 - f.p2y) -
          (f.p3y - f.p2y) * (f.minX32 * 16 - f.p2x)) ∧
      (renderEdges32 f).2.1 =
        int32 ((f.p1x - f.p3x) * (f.minY32 * 16 - f.p3y) -
          (f.p1y - f.p3y) * (f.minX32 * 16 - f.p3x)) ∧
      (renderEdges32 f).2.2 =
        int32 ((f.p2x - f.p1x) * (f.minY32 * 16 - f.p1y) -
          (f.p2y - f.p1y) * (f.minX32 * 16 - f.p1x)) := by
  simp only [renderEdges32]
  exact ⟨edge_expanded32 _ _ _ _ _ _ _ _, edge_expanded32 _ _ _ _ _ _ _ _,
    edge_expanded32 _ _ _ _ _ _ _ _⟩

/-- The edge values the 32-bit loops of `renderTriangle` test at pixel number `k` of
scanline number `j` are the closed-form edge functions at that pixel, wrapped. -/
theorem render_edges32 (f : FixedPoint) (j k : Nat) :
    int32 ((renderEdges32 f).1 + j * f.fb2 + k * f.fa2) =
        int32 (f.edge1 (f.minX32.toNat + k : Nat) (f.minY32.toNat + j : Nat)) ∧
      int32 ((renderEdges32 f).2.1 + j * f.fb3 + k * f.fa3) =
        int32 (f.edge2 (f.minX32.toNat + k : Nat) (f.minY32.toNat + j : Nat)) ∧
      int32 ((renderEdges32 f).2.2 + j * f.fb1 + k * f.fa1) =
        int32 (f.edge3 (f.minX32.toNat + k : Nat) (f.minY32.toNat + j : Nat)) := by
  have ex := cast_offset f.minX32 k (minX32_nonneg f)
  have ey := cast_offset f.minY32 j (minY32_nonneg f)
  obtain ⟨u1, u2, u3⟩ := renderEdges32_eq f
  obtain ⟨e1, e2, e3⟩ := edge_steps_expanded f f.minX32 f.minY32 j k
  rw [ex, ey, u1, u2, u3, int32_add_left2, int32_add_left2, int32_add_left2, e1, e2, e3]
  exact ⟨rfl, rfl, rfl⟩

/-- The guard of the shading statement, in 32-bit `int`s, at pixel number `k` of scanline
number `j`, in terms of the pixel `(x, y)`. -/
theorem shadeGate32_at {N : Nat} (f : FixedPoint) (rc : Matrix 3 (N + 1)) (zBuffer : List ℚ)
    (width : Nat) (j k : Nat) :
    shadeGate zBuffer (f.minY32.toNat * width + j * width) (f.minX32 + k)
        (int32 ((renderEdges32 f).1 + j * f.fb2 + k * f.fa2))
        (int32 ((renderEdges32 f).2.1 + j * f.fb3 + k * f.fa3))
        (int32 ((renderEdges32 f).2.2 + j * f.fb1 + k * f.fa1))
        ((vecMul ![(f.minX32 : ℚ), (f.minY32 : ℚ), 1] rc + (j : ℚ) • rc 1 +
          (k : ℚ) • rc 0) 0) ↔
      f.covers (f.minX32.toNat + k) (f.minY32.toNat + j) ∧
        zBuffer.getD ((f.minY32.toNat + j) * width + (f.minX32.toNat + k)) 0 ≤
          planeAt rc ((f.minX32.toNat + k : Nat) : ℚ) ((f.minY32.toNat + j : Nat) : ℚ) 0 := by
  have hmx := minX32_nonneg f
  have hmy := minY32_nonneg f
  obtain ⟨e1, e2, e3⟩ := render_edges32 f j k
  have hi : f.minY32.toNat * width + j * width + (f.minX32 + k).toNat =
      (f.minY32.toNat + j) * width + (f.minX32.toNat + k) := by
    have : (f.minX32 + k).toNat = f.minX32.toNat + k := by
      rw [← cast_offset f.minX32 k hmx, Int.toNat_ofNat]
    rw [this]; ring
  have ex := cast_offset_rat f.minX32 k hmx
  have ey := cast_offset_rat f.minY32 j hmy
  unfold shadeGate FixedPoint.covers
  rw [e1, e2, e3, hi, planeAt_step, ex, ey]

/-- The fields of the loop state of the vertex-coloured `renderTriangle`, in 32-bit `int`s,
on entry. -/
theorem shadeInit32_fields (camera : PinholeCamera) (f : FixedPoint) (rc : Matrix 3 8)
    (width : Nat) (pls : List PointLight) (refl : Option CubeMap) (buffer : List Vec4) :
    (shadeInit32 camera f rc width pls refl buffer).y = f.minY32 ∧
      (shadeInit32 camera f rc width pls refl buffer).u1 = (renderEdges32 f).1 ∧
      (shadeInit32 camera f rc width pls refl buffer).u2 = (renderEdges32 f).2.1 ∧
      (shadeInit32 camera f rc width pls refl buffer).u3 = (renderEdges32 f).2.2 ∧
      (shadeInit32 camera f rc width pls refl buffer).q =
        vecMul ![(f.minX32 : ℚ), (f.minY32 : ℚ), 1] rc ∧
      (shadeInit32 camera f rc width pls refl buffer).cb = f.minY32.toNat * width ∧
      (shadeInit32 camera f rc width pls refl buffer).zb = f.minY32.toNat * width ∧
      (shadeInit32 camera f rc width pls refl buffer).buffer = buffer :=
  ⟨rfl, rfl, rfl, rfl, rfl, rfl, rfl, rfl⟩

/-- The colour plane after the loops of the vertex-coloured `renderTriangle`, in 32-bit
`int`s, pixel by pixel: a pixel that lies in the scan box, passes the coverage test and
passes the depth gate is composited with the colour `light` returns there; every other
pixel is unchanged. -/
theorem shade_loops32 (m : Libm) (camera : PinholeCamera) (f : FixedPoint) (rc : Matrix 3 8)
    (dls : List DirectionalLight) (material : Material) (zBuffer : List ℚ)
    (width height : Nat) (pls : List PointLight) (refl : Option CubeMap) (buffer : List Vec4)
    (x y : Nat) (hx : x < width) :
    let s0 := shadeInit32 camera f rc width pls refl buffer
    let r := (shadeRow32 m camera f rc dls material zBuffer width f.minX32
      (f.maxX32 width))^[loopCount f.minY32 (f.maxY32 height)] s0
    (inScanBox32 f width height x y ∧ f.covers x y ∧
        zBuffer.getD (y * width + x) 0 ≤ planeAt rc x y 0 →
      y * width + x < buffer.length →
      r.buffer.getD (y * width + x) 0 =
        composite (shadePixelLight m camera dls material y
          (shadeStateAt32 m camera f rc dls material zBuffer width f.minX32 (f.maxX32 width) s0
            (y - f.minY32.toNat) (x - f.minX32.toNat))).1 (buffer.getD (y * width + x) 0)) ∧
    (¬ (inScanBox32 f width height x y ∧ f.covers x y ∧
        zBuffer.getD (y * width + x) 0 ≤ planeAt rc x y 0) →
      r.buffer.getD (y * width + x) 0 = buffer.getD (y * width + x) 0) := by
  have hmx := minX32_nonneg f
  have hmy := minY32_nonneg f
  obtain ⟨fy, fu1, fu2, fu3, fq, fcb, fzb, fbuf⟩ :=
    shadeInit32_fields camera f rc width pls refl buffer
  obtain ⟨r1, r2, r3⟩ := renderEdges32_eq f
  obtain ⟨-, -, -, -, -, -, -, -, b1, b2⟩ := shadeRow32_iterate m camera f rc dls material
    zBuffer width f.minX32 (f.maxX32 width) (shadeInit32 camera f rc width pls refl buffer) hmx
    (scan_in_row32 f width) (by rw [fu1, r1, int32_int32]) (by rw [fu2, r2, int32_int32])
    (by rw [fu3, r3, int32_int32]) (loopCount f.minY32 (f.maxY32 height))
  rw [fy, fu1, fu2, fu3, fq, fcb, fzb, fbuf] at b1
  rw [fu1, fu2, fu3, fq, fcb, fzb, fbuf] at b2
  have hidx : ∀ j k : Nat, f.minY32.toNat * width + j * width + f.minX32.toNat + k =
      (f.minY32.toNat + j) * width + (f.minX32.toNat + k) := by intro j k; ring
  constructor
  · rintro ⟨⟨hx1, hx2, hy1, hy2⟩, hcov, hz⟩ hlen
    obtain ⟨k, hk⟩ := offset_exists f.minX32 x hmx hx1
    obtain ⟨j, hj⟩ := offset_exists f.minY32 y hmy hy1
    have hjn := loopCount_mem f.minY32 (f.maxY32 height) y j hmy hy2 hj
    have hkn := loopCount_mem f.minX32 (f.maxX32 width) x k hmx hx2 hk
    have hg := (shadeGate32_at f rc zBuffer width j k).mpr
      ⟨by rw [← hk, ← hj]; exact hcov, by rw [← hk, ← hj]; exact hz⟩
    have := b1 j k hjn hkn hg (by rw [hidx, ← hk, ← hj]; exact hlen)
    rw [hidx, ← hk, ← hj] at this
    rw [this]
    have ej : y - f.minY32.toNat = j := by rw [hj]; exact Nat.add_sub_cancel_left _ _
    have ek : x - f.minX32.toNat = k := by rw [hk]; exact Nat.add_sub_cancel_left _ _
    have ey : f.minY32 + (j : Int) = (y : Int) := by rw [hj, cast_offset f.minY32 j hmy]
    rw [ej, ek, ey]
  · intro hno
    apply b2
    intro j k hj hk he hg
    apply hno
    have hk2 := scan_in_row32 f width k hk
    rw [hidx] at he
    obtain ⟨hxe, hye⟩ := pixel_index_inj width x y _ _ hx hk2 he
    obtain ⟨hc, hz⟩ := (shadeGate32_at f rc zBuffer width j k).mp hg
    rw [← hxe, ← hye] at hc hz
    obtain ⟨bx1, bx2⟩ := loopCount_range f.minX32 (f.maxX32 width) k hmx hk
    obtain ⟨by1, by2⟩ := loopCount_range f.minY32 (f.maxY32 height) j hmy hj
    rw [← hxe] at bx1 bx2
    rw [← hye] at by1 by2
    exact ⟨⟨bx1, bx2, by1, by2⟩, hc, hz⟩

/-- The fields of the loop state of the textured `renderTriangle`, in 32-bit `int`s, on
entry. -/
theorem textureInit32_fields (camera : PinholeCamera) (f : FixedPoint) (rc : Matrix 3 4)
    (dc : Matrix 3 2) (nc : Vec3) (width : Nat) (pls : List PointLight)
    (refl : Option CubeMap) (buffer : List Vec4) :
    (textureInit32 camera f rc dc nc width pls refl buffer).y = f.minY32 ∧
      (textureInit32 camera f rc dc nc width pls refl buffer).u1 = (renderEdges32 f).1 ∧
      (textureInit32 camera f rc dc nc width pls refl buffer).u2 = (renderEdges32 f).2.1 ∧
      (textureInit32 camera f rc dc nc width pls refl buffer).u3 = (renderEdges32 f).2.2 ∧
      (textureInit32 camera f rc dc nc width pls refl buffer).q =
        vecMul ![(f.minX32 : ℚ), (f.minY32 : ℚ), 1] rc ∧
      (textureInit32 camera f rc dc nc width pls refl buffer).cb = f.minY32.toNat * width ∧
      (textureInit32 camera f rc dc nc width pls refl buffer).zb = f.minY32.toNat * width ∧
      (textureInit32 camera f rc dc nc width pls refl buffer).buffer = buffer :=
  ⟨rfl, rfl, rfl, rfl, rfl, rfl, rfl, rfl⟩

/-- The colour plane after the loops of the textured `renderTriangle`, in 32-bit `int`s,
pixel by pixel: a pixel that lies in the scan box, passes the coverage test and passes the
depth gate is composited with the colour `light` returns there; every other pixel is
unchanged. -/
theorem texture_loops32 (m : Libm) (camera : PinholeCamera) (texture : Framebuffer)
    (f : FixedPoint) (rc : Matrix 3 4) (dc : Matrix 3 2) (nc : Vec3)
    (dls : List DirectionalLight) (material : Material) (zBuffer : List ℚ)
    (width height : Nat) (pls : List PointLight) (refl : Option CubeMap) (buffer : List Vec4)
    (x y : Nat) (hx : x < width) :
    let s0 := textureInit32 camera f rc dc nc width pls refl buffer
    let r := (textureRow32 m camera texture f rc dc nc dls material zBuffer width f.minX32
      (f.maxX32 width))^[loopCount f.minY32 (f.maxY32 height)] s0
    (inScanBox32 f width height x y ∧ f.covers x y ∧
        zBuffer.getD (y * width + x) 0 ≤ planeAt rc x y 0 →
      y * width + x < buffer.length →
      r.buffer.getD (y * width + x) 0 =
        composite (texturePixelLight m camera texture dls material y
          (textureStateAt32 m camera texture f rc dc nc dls material zBuffer width f.minX32
            (f.maxX32 width) s0 (y - f.minY32.toNat) (x - f.minX32.toNat))).1
          (buffer.getD (y * width + x) 0)) ∧
    (¬ (inScanBox32 f width height x y ∧ f.covers x y ∧
        zBuffer.getD (y * width + x) 0 ≤ planeAt rc x y 0) →
      r.buffer.getD (y * width + x) 0 = buffer.getD (y * width + x) 0) := by
  have hmx := minX32_nonneg f
  have hmy := minY32_nonneg f
  obtain ⟨fy, fu1, fu2, fu3, fq, fcb, fzb, fbuf⟩ :=
    textureInit32_fields camera f rc dc nc width pls refl buffer
  obtain ⟨r1, r2, r3⟩ := renderEdges32_eq f
  obtain ⟨-, -, -, -, -, -, -, -, b1, b2⟩ := textureRow32_iterate m camera texture f rc dc nc
    dls material zBuffer width f.minX32 (f.maxX32 width)
    (textureInit32 camera f rc dc nc width pls refl buffer) hmx (scan_in_row32 f width)
    (by rw [fu1, r1, int32_int32]) (by rw [fu2, r2, int32_int32])
    (by rw [fu3, r3, int32_int32]) (loopCount f.minY32 (f.maxY32 height))
  rw [fy, fu1, fu2, fu3, fq, fcb, fzb, fbuf] at b1
  rw [fu1, fu2, fu3, fq, fcb, fzb, fbuf] at b2
  have hidx : ∀ j k : Nat, f.minY32.toNat * width + j * width + f.minX32.toNat + k =
      (f.minY32.toNat + j) * width + (f.minX32.toNat + k) := by intro j k; ring
  constructor
  · rintro ⟨⟨hx1, hx2, hy1, hy2⟩, hcov, hz⟩ hlen
    obtain ⟨k, hk⟩ := offset_exists f.minX32 x hmx hx1
    obtain ⟨j, hj⟩ := offset_exists f.minY32 y hmy hy1
    have hjn := loopCount_mem f.minY32 (f.maxY32 height) y j hmy hy2 hj
    have hkn := loopCount_mem f.minX32 (f.maxX32 width) x k hmx hx2 hk
    have hg := (shadeGate32_at f rc zBuffer width j k).mpr
      ⟨by rw [← hk, ← hj]; exact hcov, by rw [← hk, ← hj]; exact hz⟩
    have := b1 j k hjn hkn hg (by rw [hidx, ← hk, ← hj]; exact hlen)
    rw [hidx, ← hk, ← hj] at this
    rw [this]
    have ej : y - f.minY32.toNat = j := by rw [hj]; exact Nat.add_sub_cancel_left _ _
    have ek : x - f.minX32.toNat = k := by rw [hk]; exact Nat.add_sub_cancel_left _ _
    have ey : f.minY32 + (j : Int) = (y : Int) := by rw [hj, cast_offset f.minY32 j hmy]
    rw [ej, ek, ey]
  · intro hno
    apply b2
    intro j k hj hk he hg
    apply hno
    have hk2 := scan_in_row32 f width k hk
    rw [hidx] at he
    obtain ⟨hxe, hye⟩ := pixel_index_inj width x y _ _ hx hk2 he
    obtain ⟨hc, hz⟩ := (shadeGate32_at f rc zBuffer width j k).mp hg
    rw [← hxe, ← hye] at hc hz
    obtain ⟨bx1, bx2⟩ := loopCount_range f.minX32 (f.maxX32 width) k hmx hk
    obtain ⟨by1, by2⟩ := loopCount_range f.minY32 (f.maxY32 height) j hmy hj
    rw [← hxe] at bx1 bx2
    rw [← hye] at by1 by2
    exact ⟨⟨bx1, bx2, by1, by2⟩, hc, hz⟩

end graphics

namespace graphics

open math

/-- The two early returns of the vertex-coloured `renderTriangle` merged into one test. -/
theorem renderTriangle_eq (m : Libm) (fb : Framebuffer) (camera : PinholeCamera)
    (t1 t2 t3 : Vec3) (c1 c2 c3 : Vec4) (n1 n2 n3 : Vec3) (dls : List DirectionalLight)
    (pls : List PointLight) (refl : Option CubeMap) (material : Material) :
    (fb.renderTriangle m camera t1 t2 t3 c1 c2 c3 n1 n2 n3 dls pls refl material).framebuffer =
      if rejected camera t1 t2 t3 then fb
      else
        { fb with
          buffer :=
            ((shadeRow m camera (projectFixed camera t1 t2 t3)
              (shadeRc (camera.project t1) (camera.project t2) (camera.project t3) c1 c2 c3
                n1 n2 n3) dls material fb.zBuffer fb.width (projectFixed camera t1 t2 t3).minX
              ((projectFixed camera t1 t2 t3).maxX fb.width))^[loopCount
                (projectFixed camera t1 t2 t3).minY
                ((projectFixed camera t1 t2 t3).maxY fb.height)]
              (shadeInit camera (projectFixed camera t1 t2 t3)
                (shadeRc (camera.project t1) (camera.project t2) (camera.project t3) c1 c2 c3
                  n1 n2 n3) fb.width pls refl fb.buffer)).buffer } := by
  unfold Framebuffer.renderTriangle rejected projectFixed
  by_cases hb : backFacing camera t1 t2 t3
  · simp [hb]
  · by_cases hz : camera.project t1 2 ≤ 0 ∨ camera.project t2 2 ≤ 0 ∨ camera.project t3 2 ≤ 0
    · simp only [hb, hz, if_true, if_false, or_true]
    · simp only [hb, hz, if_false, or_self]

/-- The two early returns of the textured `renderTriangle` merged into one test. -/
theorem renderTexturedTriangle_eq (m : Libm) (fb : Framebuffer) (camera : PinholeCamera)
    (texture : Framebuffer) (t1 t2 t3 : Vec3) (r1 r2 r3 : Vec2) (n1 n2 n3 : Vec3)
    (dls : List DirectionalLight) (pls : List PointLight) (refl : Option CubeMap)
    (material : Material) :
    (fb.renderTexturedTriangle m camera texture t1 t2 t3 r1 r2 r3 n1 n2 n3 dls pls refl
        material).framebuffer =
      if rejected camera t1 t2 t3 then fb
      else
        { fb with
          buffer :=
            ((textureRow m camera texture (projectFixed camera t1 t2 t3)
              (textureRc (camera.project t1) (camera.project t2) (camera.project t3) n1 n2 n3)
              (textureDc camera t1 t2 t3 r1 r2 r3) (textureNc camera t1 t2 t3) dls material
              fb.zBuffer fb.width (projectFixed camera t1 t2 t3).minX
              ((projectFixed camera t1 t2 t3).maxX fb.width))^[loopCount
                (projectFixed camera t1 t2 t3).minY
                ((projectFixed camera t1 t2 t3).maxY fb.height)]
              (textureInit camera (projectFixed camera t1 t2 t3)
                (textureRc (camera.project t1) (camera.project t2) (camera.project t3) n1 n2 n3)
                (textureDc camera t1 t2 t3 r1 r2 r3) (textureNc camera t1 t2 t3) fb.width pls
                refl fb.buffer)).buffer } := by
  unfold Framebuffer.renderTexturedTriangle rejected projectFixed
  by_cases hb : backFacing camera t1 t2 t3
  · simp [hb]
  · by_cases hz : camera.project t1 2 ≤ 0 ∨ camera.project t2 2 ≤ 0 ∨ camera.project t3 2 ≤ 0
    · simp only [hb, hz, if_true, if_false, or_true]
    · simp only [hb, hz, if_false, or_self]

/-- The depth column of the plane coefficients of the vertex-coloured `renderTriangle` is
the plane `prerenderTriangle` fits. -/
theorem shadeRc_depth (p1 p2 p3 : Vec3) (c1 c2 c3 : Vec4) (n1 n2 n3 : Vec3) (x y : ℚ) :
    planeAt (shadeRc p1 p2 p3 c1 c2 c3 n1 n2 n3) x y 0 =
      dot (prerenderRc p1 p2 p3) ![x, y, 1] := by
  rw [planeAt_apply]
  simp only [shadeRc, prerenderRc, mul, mulVec, dot, getColumn, Fin.sum_univ_three,
    Matrix.cons_val_zero, Matrix.cons_val_one, Matrix.head_cons, Matrix.cons_val_two,
    Matrix.tail_cons]
  ring

/-- The depth column of the plane coefficients of the textured `renderTriangle` is the
plane `prerenderTriangle` fits. -/
theorem textureRc_depth (p1 p2 p3 : Vec3) (n1 n2 n3 : Vec3) (x y : ℚ) :
    planeAt (textureRc p1 p2 p3 n1 n2 n3) x y 0 = dot (prerenderRc p1 p2 p3) ![x, y, 1] := by
  rw [planeAt_apply]
  simp only [textureRc, prerenderRc, mul, mulVec, dot, getColumn, Fin.sum_univ_three,
    Matrix.cons_val_zero, Matrix.cons_val_one, Matrix.head_cons, Matrix.cons_val_two,
    Matrix.tail_cons]
  ring

end graphics

namespace graphics

open math

theorem pixel_in_range (fb : Framebuffer) (hwf : fb.WellFormed) (x y : Nat) (hx : x < fb.width)
    (hy : y < fb.height) : y * fb.width + x < fb.buffer.length := by
  rw [hwf.1]
  calc y * fb.width + x < y * fb.width + fb.width := by omega
    _ = (y + 1) * fb.width := by ring
    _ ≤ fb.height * fb.width := Nat.mul_le_mul_right _ hy
    _ = fb.width * fb.height := by ring

theorem coveredIdeal_in_range (fb : Framebuffer) (camera : PinholeCamera) (t1 t2 t3 : Vec3)
    (x y : Nat) (h : coveredIdeal fb camera t1 t2 t3 x y) : y < fb.height := by
  have := maxY_lt (projectFixed camera t1 t2 t3) fb.height
  obtain ⟨-, ⟨-, -, -, h4⟩, -⟩ := h
  omega

/-- The colour plane after one call of the vertex-coloured `renderTriangle`, pixel by
pixel. -/
theorem renderTriangle_pixel (m : Libm) (fb : Framebuffer) (camera : PinholeCamera)
    (t1 t2 t3 : Vec3) (c1 c2 c3 : Vec4) (n1 n2 n3 : Vec3) (dls : List DirectionalLight)
    (pls : List PointLight) (refl : Option CubeMap) (material : Material) (x y : Nat)
    (hx : x < fb.width) :
    (fb.WellFormed → coveredIdeal fb camera t1 t2 t3 x y →
      fb.zLookup x y ≤ interpolatedDepth camera t1 t2 t3 x y →
      (fb.renderTriangle m camera t1 t2 t3 c1 c2 c3 n1 n2 n3 dls pls refl
          material).framebuffer.pixel x y =
        composite (shadePixelLight m camera dls material y
          (renderStateAt m fb camera t1 t2 t3 c1 c2 c3 n1 n2 n3 dls pls refl material x y)).1
          (fb.pixel x y)) ∧
    (¬ (coveredIdeal fb camera t1 t2 t3 x y ∧
        fb.zLookup x y ≤ interpolatedDepth camera t1 t2 t3 x y) →
      (fb.renderTriangle m camera t1 t2 t3 c1 c2 c3 n1 n2 n3 dls pls refl
          material).framebuffer.pixel x y = fb.pixel x y) := by
  obtain ⟨l1, l2⟩ := shade_loops m camera (projectFixed camera t1 t2 t3)
    (shadeRc (camera.project t1) (camera.project t2) (camera.project t3) c1 c2 c3 n1 n2 n3)
    dls material fb.zBuffer fb.width fb.height pls refl fb.buffer x y hx
  rw [shadeRc_depth] at l1 l2
  rw [renderTriangle_eq]
  unfold Framebuffer.pixel
  constructor
  · intro hwf hcov hz
    have hy := coveredIdeal_in_range fb camera t1 t2 t3 x y hcov
    obtain ⟨hr, hbox, hc⟩ := hcov
    rw [if_neg hr]
    exact l1 ⟨hbox, hc, hz⟩ (pixel_in_range fb hwf x y hx hy)
  · intro hno
    by_cases hr : rejected camera t1 t2 t3
    · rw [if_pos hr]
    · rw [if_neg hr]
      exact l2 (fun ⟨hbox, hc, hz⟩ => hno ⟨⟨hr, hbox, hc⟩, hz⟩)

/-- The colour plane after one call of the textured `renderTriangle`, pixel by pixel. -/
theorem renderTexturedTriangle_pixel (m : Libm) (fb : Framebuffer) (camera : PinholeCamera)
    (texture : Framebuffer) (t1 t2 t3 : Vec3) (r1 r2 r3 : Vec2) (n1 n2 n3 : Vec3)
    (dls : List DirectionalLight) (pls : List PointLight) (refl : Option CubeMap)
    (material : Material) (x y : Nat) (hx : x < fb.width) :
    (fb.WellFormed → coveredIdeal fb camera t1 t2 t3 x y →
      fb.zLookup x y ≤ interpolatedDepth camera t1 t2 t3 x y →
      (fb.renderTexturedTriangle m camera texture t1 t2 t3 r1 r2 r3 n1 n2 n3 dls pls refl
          material).framebuffer.pixel x y =
        composite (texturePixelLight m camera texture dls material y
          (renderTexturedStateAt m fb camera texture t1 t2 t3 r1 r2 r3 n1 n2 n3 dls pls refl
            material x y)).1 (fb.pixel x y)) ∧
    (¬ (coveredIdeal fb camera t1 t2 t3 x y ∧
        fb.zLookup x y ≤ interpolatedDepth camera t1 t2 t3 x y) →
      (fb.renderTexturedTriangle m camera texture t1 t2 t3 r1 r2 r3 n1 n2 n3 dls pls refl
          material).framebuffer.pixel x y = fb.pixel x y) := by
  obtain ⟨l1, l2⟩ := texture_loops m camera texture (projectFixed camera t1 t2 t3)
    (textureRc (camera.project t1) (camera.project t2) (camera.project t3) n1 n2 n3)
    (textureDc camera t1 t2 t3 r1 r2 r3) (textureNc camera t1 t2 t3)
    dls material fb.zBuffer fb.width fb.height pls refl fb.buffer x y hx
  rw [textureRc_depth] at l1 l2
  rw [renderTexturedTriangle_eq]
  unfold Framebuffer.pixel
  constructor
  · intro hwf hcov hz
    have hy := coveredIdeal_in_range fb camera t1 t2 t3 x y hcov
    obtain ⟨hr, hbox, hc⟩ := hcov
    rw [if_neg hr]
    exact l1 ⟨hbox, hc, hz⟩ (pixel_in_range fb hwf x y hx hy)
  · intro hno
    by_cases hr : rejected camera t1 t2 t3
    · rw [if_pos hr]
    · rw [if_neg hr]
      exact l2 (fun ⟨hbox, hc, hz⟩ => hno ⟨⟨hr, hbox, hc⟩, hz⟩)

end graphics

namespace graphics

open math

/-- The two early returns of the vertex-coloured `renderTriangle` merged into one test, in
32-bit `int`s. -/
theorem renderTriangle32_eq (m : Libm) (fb : Framebuffer) (camera : PinholeCamera)
    (t1 t2 t3 : Vec3) (c1 c2 c3 : Vec4) (n1 n2 n3 : Vec3) (dls : List DirectionalLight)
    (pls : List PointLight) (refl : Option CubeMap) (material : Material) :
    (fb.renderTriangle32 m camera t1 t2 t3 c1 c2 c3 n1 n2 n3 dls pls refl material).framebuffer =
      if rejected camera t1 t2 t3 then fb
      else
        { fb with
          buffer :=
            ((shadeRow32 m camera (projectFixed32 camera t1 t2 t3)
              (shadeRc (camera.project t1) (camera.project t2) (camera.project t3) c1 c2 c3
                n1 n2 n3) dls material fb.zBuffer fb.width (projectFixed32 camera t1 t2 t3).minX32
              ((projectFixed32 camera t1 t2 t3).maxX32 fb.width))^[loopCount
                (projectFixed32 camera t1 t2 t3).minY32
                ((projectFixed32 camera t1 t2 t3).maxY32 fb.height)]
              (shadeInit32 camera (projectFixed32 camera t1 t2 t3)
                (shadeRc (camera.project t1) (camera.project t2) (camera.project t3) c1 c2 c3
                  n1 n2 n3) fb.width pls refl fb.buffer)).buffer } := by
  unfold Framebuffer.renderTriangle32 rejected projectFixed32
  by_cases hb : backFacing camera t1 t2 t3
  · simp [hb]
  · by_cases hz : camera.project t1 2 ≤ 0 ∨ camera.project t2 2 ≤ 0 ∨ camera.project t3 2 ≤ 0
    · simp only [hb, hz, if_true, if_false, or_true]
    · simp only [hb, hz, if_false, or_self]

/-- The two early returns of the textured `renderTriangle` merged into one test, in
32-bit `int`s. -/
theorem renderTexturedTriangle32_eq (m : Libm) (fb : Framebuffer) (camera : PinholeCamera)
    (texture : Framebuffer) (t1 t2 t3 : Vec3) (r1 r2 r3 : Vec2) (n1 n2 n3 : Vec3)
    (dls : List DirectionalLight) (pls : List PointLight) (refl : Option CubeMap)
    (material : Material) :
    (fb.renderTexturedTriangle32 m camera texture t1 t2 t3 r1 r2 r3 n1 n2 n3 dls pls refl
        material).framebuffer =
      if rejected camera t1 t2 t3 then fb
      else
        { fb with
          buffer :=
            ((textureRow32 m camera texture (projectFixed32 camera t1 t2 t3)
              (textureRc (camera.project t1) (camera.project t2) (camera.project t3) n1 n2 n3)
              (textureDc camera t1 t2 t3 r1 r2 r3) (textureNc camera t1 t2 t3) dls material
              fb.zBuffer fb.width (projectFixed32 camera t1 t2 t3).minX32
              ((projectFixed32 camera t1 t2 t3).maxX32 fb.width))^[loopCount
                (projectFixed32 camera t1 t2 t3).minY32
                ((projectFixed32 camera t1 t2 t3).maxY32 fb.height)]
              (textureInit32 camera (projectFixed32 camera t1 t2 t3)
                (textureRc (camera.project t1) (camera.project t2) (camera.project t3) n1 n2 n3)
                (textureDc camera t1 t2 t3 r1 r2 r3) (textureNc camera t1 t2 t3) fb.width pls
                refl fb.buffer)).buffer } := by
  unfold Framebuffer.renderTexturedTriangle32 rejected projectFixed32
  by_cases hb : backFacing camera t1 t2 t3
  · simp [hb]
  · by_cases hz : camera.project t1 2 ≤ 0 ∨ camera.project t2 2 ≤ 0 ∨ camera.project t3 2 ≤ 0
    · simp only [hb, hz, if_true, if_false, or_true]
    · simp only [hb, hz, if_false, or_self]

theorem covered_in_range (fb : Framebuffer) (camera : PinholeCamera) (t1 t2 t3 : Vec3)
    (x y : Nat) (h : covered fb camera t1 t2 t3 x y) : y < fb.height := by
  obtain ⟨-, ⟨-, -, -, h4⟩, -⟩ := h
  exact below_size _ fb.height y h4 (maxY32_lt (projectFixed32 camera t1 t2 t3) fb.height)

/-- The colour plane after one call of the vertex-coloured `renderTriangle`, in 32-bit
`int`s, pixel by pixel. -/
theorem renderTriangle32_pixel (m : Libm) (fb : Framebuffer) (camera : PinholeCamera)
    (t1 t2 t3 : Vec3) (c1 c2 c3 : Vec4) (n1 n2 n3 : Vec3) (dls : List DirectionalLight)
    (pls : List PointLight) (refl : Option CubeMap) (material : Material) (x y : Nat)
    (hx : x < fb.width) :
    (fb.WellFormed → covered fb camera t1 t2 t3 x y →
      fb.zLookup x y ≤ interpolatedDepth camera t1 t2 t3 x y →
      (fb.renderTriangle32 m camera t1 t2 t3 c1 c2 c3 n1 n2 n3 dls pls refl
          material).framebuffer.pixel x y =
        composite (shadePixelLight m camera dls material y
          (renderStateAt32 m fb camera t1 t2 t3 c1 c2 c3 n1 n2 n3 dls pls refl material x y)).1
          (fb.pixel x y)) ∧
    (¬ (covered fb camera t1 t2 t3 x y ∧
        fb.zLookup x y ≤ interpolatedDepth camera t1 t2 t3 x y) →
      (fb.renderTriangle32 m camera t1 t2 t3 c1 c2 c3 n1 n2 n3 dls pls refl
          material).framebuffer.pixel x y = fb.pixel x y) := by
  obtain ⟨l1, l2⟩ := shade_loops32 m camera (projectFixed32 camera t1 t2 t3)
    (shadeRc (camera.project t1) (camera.project t2) (camera.project t3) c1 c2 c3 n1 n2 n3)
    dls material fb.zBuffer fb.width fb.height pls refl fb.buffer x y hx
  rw [shadeRc_depth] at l1 l2
  rw [renderTriangle32_eq]
  unfold Framebuffer.pixel
  constructor
  · intro hwf hcov hz
    have hy := covered_in_range fb camera t1 t2 t3 x y hcov
    obtain ⟨hr, hbox, hc⟩ := hcov
    rw [if_neg hr]
    exact l1 ⟨hbox, hc, hz⟩ (pixel_in_range fb hwf x y hx hy)
  · intro hno
    by_cases hr : rejected camera t1 t2 t3
    · rw [if_pos hr]
    · rw [if_neg hr]
      exact l2 (fun ⟨hbox, hc, hz⟩ => hno ⟨⟨hr, hbox, hc⟩, hz⟩)

/-- The colour plane after one call of the textured `renderTriangle`, in 32-bit `int`s,
pixel by pixel. -/
theorem renderTexturedTriangle32_pixel (m : Libm) (fb : Framebuffer) (camera : PinholeCamera)
    (texture : Framebuffer) (t1 t2 t3 : Vec3) (r1 r2 r3 : Vec2) (n1 n2 n3 : Vec3)
    (dls : List DirectionalLight) (pls : List PointLight) (refl : Option CubeMap)
    (material : Material) (x y : Nat) (hx : x < fb.width) :
    (fb.WellFormed → covered fb camera t1 t2 t3 x y →
      fb.zLookup x y ≤ interpolatedDepth camera t1 t2 t3 x y →
      (fb.renderTexturedTriangle32 m camera texture t1 t2 t3 r1 r2 r3 n1 n2 n3 dls pls refl
          material).framebuffer.pixel x y =
        composite (texturePixelLight m camera texture dls material y
          (renderTexturedStateAt32 m fb camera texture t1 t2 t3 r1 r2 r3 n1 n2 n3 dls pls refl
            material x y)).1 (fb.pixel x y)) ∧
    (¬ (covered fb camera t1 t2 t3 x y ∧
        fb.zLookup x y ≤ interpolatedDepth camera t1 t2 t3 x y) →
      (fb.renderTexturedTriangle32 m camera texture t1 t2 t3 r1 r2 r3 n1 n2 n3 dls pls refl
          material).framebuffer.pixel x y = fb.pixel x y) := by
  obtain ⟨l1, l2⟩ := texture_loops32 m camera texture (projectFixed32 camera t1 t2 t3)
    (textureRc (camera.project t1) (camera.project t2) (camera.project t3) n1 n2 n3)
    (textureDc camera t1 t2 t3 r1 r2 r3) (textureNc camera t1 t2 t3)
    dls material fb.zBuffer fb.width fb.height pls refl fb.buffer x y hx
  rw [textureRc_depth] at l1 l2
  rw [renderTexturedTriangle32_eq]
  unfold Framebuffer.pixel
  constructor
  · intro hwf hcov hz
    have hy := covered_in_range fb camera t1 t2 t3 x y hcov
    obtain ⟨hr, hbox, hc⟩ := hcov
    rw [if_neg hr]
    exact l1 ⟨hbox, hc, hz⟩ (pixel_in_range fb hwf x y hx hy)
  · intro hno
    by_cases hr : rejected camera t1 t2 t3
    · rw [if_pos hr]
    · rw [if_neg hr]
      exact l2 (fun ⟨hbox, hc, hz⟩ => hno ⟨⟨hr, hbox, hc⟩, hz⟩)

end graphics

namespace graphics

open math

/-- C1 (back-face culling): when the face normal of a triangle points away from the camera,
`(t1 - camera.center) . ((t2 - t1) x (t3 - t1)) > 0`, both `renderTriangle` overloads
return the framebuffer they were given: colour plane and depth plane are unchanged. -/
theorem renderTriangle_backface_culled (m : Libm) (fb : Framebuffer) (camera : PinholeCamera)
    (texture : Framebuffer) (t1 t2 t3 : Vec3) (c1 c2 c3 : Vec4) (r1 r2 r3 : Vec2)
    (n1 n2 n3 : Vec3) (dls : List DirectionalLight) (pls : List PointLight)
    (refl : Option CubeMap) (material : Material)
    (h : 0 < dot (t1 - camera.center) (cross (t2 - t1) (t3 - t1))) :
    (fb.renderTriangle m camera t1 t2 t3 c1 c2 c3 n1 n2 n3 dls pls refl material).framebuffer =
        fb ∧
      (fb.renderTexturedTriangle m camera texture t1 t2 t3 r1 r2 r3 n1 n2 n3 dls pls refl
        material).framebuffer = fb := by
  have hb : backFacing camera t1 t2 t3 := le_of_lt h
  constructor
  · unfold Framebuffer.renderTriangle
    rw [if_pos hb]
  · unfold Framebuffer.renderTexturedTriangle
    rw [if_pos hb]

theorem renderTriangle_backface_culled_witness :
    0 < dot (sampleBackTriangle.1 - sampleCamera.center)
        (cross (sampleBackTriangle.2.1 - sampleBackTriangle.1)
          (sampleBackTriangle.2.2 - sampleBackTriangle.1)) ∧
      (sampleFramebuffer.renderTriangle tableLibm sampleCamera sampleBackTriangle.1
        sampleBackTriangle.2.1 sampleBackTriangle.2.2 ![1, 0, 0, 1] ![0, 1, 0, 1] ![0, 0, 1, 1]
        ![0, 0, 1] ![0, 0, 1] ![0, 0, 1] [] [] none flat).framebuffer = sampleFramebuffer ∧
      (sampleFramebuffer.renderTexturedTriangle tableLibm sampleCamera sampleTexture
        sampleBackTriangle.1 sampleBackTriangle.2.1 sampleBackTriangle.2.2 ![0, 0] ![1, 0]
        ![0, 1] ![0, 0, 1] ![0, 0, 1] ![0, 0, 1] [] [] none flat).framebuffer =
        sampleFramebuffer :=
  ⟨by decide!,
    renderTriangle_backface_culled tableLibm sampleFramebuffer sampleCamera sampleTexture
      sampleBackTriangle.1 sampleBackTriangle.2.1 sampleBackTriangle.2.2 ![1, 0, 0, 1]
      ![0, 1, 0, 1] ![0, 0, 1, 1] ![0, 0] ![1, 0] ![0, 1] ![0, 0, 1] ![0, 0, 1] ![0, 0, 1] [] []
      none flat (by decide!)⟩

/-- C4 (depth gate): in both `renderTriangle` overloads, computed in 32-bit `int`s as the
routines do, the colour of a pixel of the framebuffer changes only if the triangle is not
rejected, the pixel lies in the scan box, passes the coverage test of the routine, and the
reciprocal depth interpolated there is not less than the stored depth; where the stored
depth is strictly greater, the colour is unchanged. -/
theorem renderTriangle_depth_gate (m : Libm) (fb : Framebuffer) (camera : PinholeCamera)
    (texture : Framebuffer) (t1 t2 t3 : Vec3) (c1 c2 c3 : Vec4) (r1 r2 r3 : Vec2)
    (n1 n2 n3 : Vec3) (dls : List DirectionalLight) (pls : List PointLight)
    (refl : Option CubeMap) (material : Material) (x y : Nat) (hx : x < fb.width) :
    ((fb.renderTriangle32 m camera t1 t2 t3 c1 c2 c3 n1 n2 n3 dls pls refl
          material).framebuffer.pixel x y ≠ fb.pixel x y →
        covered fb camera t1 t2 t3 x y ∧
          fb.zLookup x y ≤ interpolatedDepth camera t1 t2 t3 x y) ∧
      ((fb.renderTexturedTriangle32 m camera texture t1 t2 t3 r1 r2 r3 n1 n2 n3 dls pls refl
          material).framebuffer.pixel x y ≠ fb.pixel x y →
        covered fb camera t1 t2 t3 x y ∧
          fb.zLookup x y ≤ interpolatedDepth camera t1 t2 t3 x y) ∧
      (interpolatedDepth camera t1 t2 t3 x y < fb.zLookup x y →
        (fb.renderTriangle32 m camera t1 t2 t3 c1 c2 c3 n1 n2 n3 dls pls refl
            material).framebuffer.pixel x y = fb.pixel x y ∧
          (fb.renderTexturedTriangle32 m camera texture t1 t2 t3 r1 r2 r3 n1 n2 n3 dls pls refl
            material).framebuffer.pixel x y = fb.pixel x y) := by
  have ha := (renderTriangle32_pixel m fb camera t1 t2 t3 c1 c2 c3 n1 n2 n3 dls pls refl
    material x y hx).2
  have hb := (renderTexturedTriangle32_pixel m fb camera texture t1 t2 t3 r1 r2 r3 n1 n2 n3 dls
    pls refl material x y hx).2
  refine ⟨fun hne => ?_, fun hne => ?_, fun hlt => ⟨?_, ?_⟩⟩
  · by_contra hno; exact hne (ha hno)
  · by_contra hno; exact hne (hb hno)
  · exact ha (fun h => absurd h.2 (not_le.mpr hlt))
  · exact hb (fun h => absurd h.2 (not_le.mpr hlt))

theorem renderTriangle_depth_gate_witness :
    1 < sampleFramebuffer.width ∧
      interpolatedDepth sampleCamera sampleTriangle.1 sampleTriangle.2.1 sampleTriangle.2.2 1 1 <
        ({ sampleFramebuffer with zBuffer := List.replicate 16 2 } : Framebuffer).zLookup 1 1 ∧
      (({ sampleFramebuffer with zBuffer := List.replicate 16 2 } : Framebuffer).renderTriangle32
          tableLibm sampleCamera sampleTriangle.1 sampleTriangle.2.1 sampleTriangle.2.2
          ![1, 0, 0, 1] ![0, 1, 0, 1] ![0, 0, 1, 1] ![0, 0, 1] ![0, 0, 1] ![0, 0, 1] [] [] none
          flat).framebuffer.pixel 1 1 =
        ({ sampleFramebuffer with zBuffer := List.replicate 16 2 } : Framebuffer).pixel 1 1 ∧
      (({ sampleFramebuffer with zBuffer := List.replicate 16 2 } :
          Framebuffer).renderTexturedTriangle32 tableLibm sampleCamera sampleTexture
          sampleTriangle.1 sampleTriangle.2.1 sampleTriangle.2.2 ![0, 0] ![1, 0] ![0, 1]
          ![0, 0, 1] ![0, 0, 1] ![0, 0, 1] [] [] none flat).framebuffer.pixel 1 1 =
        ({ sampleFramebuffer with zBuffer := List.replicate 16 2 } : Framebuffer).pixel 1 1 :=
  ⟨by decide, by decide!,
    (renderTriangle_depth_gate tableLibm
      { sampleFramebuffer with zBuffer := List.replicate 16 2 } sampleCamera sampleTexture
      sampleTriangle.1 sampleTriangle.2.1 sampleTriangle.2.2 ![1, 0, 0, 1] ![0, 1, 0, 1]
      ![0, 0, 1, 1] ![0, 0] ![1, 0] ![0, 1] ![0, 0, 1] ![0, 0, 1] ![0, 0, 1] [] [] none flat 1 1
      (by decide)).2.2 (by decide!)⟩

/-- C5: for every input, both `renderTriangle` overloads leave the depth plane exactly as
it was. -/
theorem renderTriangle_depth_plane_unchanged (m : Libm) (fb : Framebuffer)
    (camera : PinholeCamera) (texture : Framebuffer) (t1 t2 t3 : Vec3) (c1 c2 c3 : Vec4)
    (r1 r2 r3 : Vec2) (n1 n2 n3 : Vec3) (dls : List DirectionalLight) (pls : List PointLight)
    (refl : Option CubeMap) (material : Material) :
    (fb.renderTriangle m camera t1 t2 t3 c1 c2 c3 n1 n2 n3 dls pls refl
        material).framebuffer.zBuffer = fb.zBuffer ∧
      (fb.renderTexturedTriangle m camera texture t1 t2 t3 r1 r2 r3 n1 n2 n3 dls pls refl
        material).framebuffer.zBuffer = fb.zBuffer := by
  rw [renderTriangle_eq, renderTexturedTriangle_eq]
  constructor <;> split_ifs <;> rfl

/-- The colour `light` returns is the shaded colour with alpha one, times the surface
alpha. -/
theorem light_fst (m : Libm) (environment : Option CubeMap) (color : Vec4)
    (normal surfacePoint cameraPosition : Vec3) (lights : List DirectionalLight)
    (points : List PointLight) (w : ℚ) (mat : Material) (i : Fin 4) :
    (light m environment color normal surfacePoint cameraPosition lights points w mat).1 i =
      (![(shade m environment color normal surfacePoint cameraPosition lights points w mat).1 0,
        (shade m environment color normal surfacePoint cameraPosition lights points w mat).1 1,
        (shade m environment color normal surfacePoint cameraPosition lights points w mat).1 2,
        1] : Vec4) i * color 3 := rfl

/-- C6 (source-over compositing): the colour `light` returns has the alpha of the input
surface colour and RGB equal to that alpha times the shaded colour, so compositing it gives
exactly the shaded colour when the alpha is 1 and the existing pixel when it is 0; and at
every shaded pixel of either `renderTriangle` overload, computed in 32-bit `int`s as the
routines do, the new pixel is `C + (1 - C.alpha) * old` for the colour `C` that `light`
returns there. -/
theorem source_over_compositing (m : Libm) (fb : Framebuffer) (camera : PinholeCamera)
    (texture : Framebuffer) (t1 t2 t3 : Vec3) (c1 c2 c3 : Vec4) (r1 r2 r3 : Vec2)
    (n1 n2 n3 : Vec3) (dls : List DirectionalLight) (pls : List PointLight)
    (refl : Option CubeMap) (material : Material) (x y : Nat) (hwf : fb.WellFormed)
    (hx : x < fb.width) (hcov : covered fb camera t1 t2 t3 x y)
    (hz : fb.zLookup x y ≤ interpolatedDepth camera t1 t2 t3 x y) :
    (∀ (environment : Option CubeMap) (color : Vec4) (normal surfacePoint cameraPosition : Vec3)
        (lights : List DirectionalLight) (points : List PointLight) (w : ℚ) (mat : Material)
        (existing : Vec4),
      (light m environment color normal surfacePoint cameraPosition lights points w mat).1 3 =
          color 3 ∧
        (∀ i : Fin 3,
          (light m environment color normal surfacePoint cameraPosition lights points w
              mat).1 i.castSucc =
            color 3 *
              (shade m environment color normal surfacePoint cameraPosition lights points w
                mat).1 i) ∧
        (color 3 = 1 →
          composite
              (light m environment color normal surfacePoint cameraPosition lights points w
                mat).1 existing =
            ![(shade m environment color normal surfacePoint cameraPosition lights points w
                mat).1 0,
              (shade m environment color normal surfacePoint cameraPosition lights points w
                mat).1 1,
              (shade m environment color normal surfacePoint cameraPosition lights points w
                mat).1 2, 1]) ∧
        (color 3 = 0 →
          composite
              (light m environment color normal surfacePoint cameraPosition lights points w
                mat).1 existing = existing)) ∧
      (fb.renderTriangle32 m camera t1 t2 t3 c1 c2 c3 n1 n2 n3 dls pls refl
          material).framebuffer.pixel x y =
        composite (shadePixelLight m camera dls material y
          (renderStateAt32 m fb camera t1 t2 t3 c1 c2 c3 n1 n2 n3 dls pls refl material x y)).1
          (fb.pixel x y) ∧
      (fb.renderTexturedTriangle32 m camera texture t1 t2 t3 r1 r2 r3 n1 n2 n3 dls pls refl
          material).framebuffer.pixel x y =
        composite (texturePixelLight m camera texture dls material y
          (renderTexturedStateAt32 m fb camera texture t1 t2 t3 r1 r2 r3 n1 n2 n3 dls pls refl
            material x y)).1 (fb.pixel x y) := by
  refine ⟨?_, (renderTriangle32_pixel m fb camera t1 t2 t3 c1 c2 c3 n1 n2 n3 dls pls refl
      material x y hx).1 hwf hcov hz,
    (renderTexturedTriangle32_pixel m fb camera texture t1 t2 t3 r1 r2 r3 n1 n2 n3 dls pls refl
      material x y hx).1 hwf hcov hz⟩
  intro environment color normal surfacePoint cameraPosition lights points w mat existing
  refine ⟨?_, ?_, ?_, ?_⟩
  · rw [light_fst]; simp
  · intro i
    rw [light_fst]
    fin_cases i <;> exact mul_comm _ _
  · intro ha
    funext i
    simp only [composite, Pi.add_apply, Pi.smul_apply, smul_eq_mul, light_fst, ha]
    fin_cases i <;> simp
  · intro ha
    funext i
    simp only [composite, Pi.add_apply, Pi.smul_apply, smul_eq_mul, light_fst, ha]
    simp

theorem source_over_compositing_witness :
    sampleFramebuffer.WellFormed ∧ 1 < sampleFramebuffer.width ∧
      covered sampleFramebuffer sampleCamera sampleTriangle.1 sampleTriangle.2.1
        sampleTriangle.2.2 1 1 ∧
      sampleFramebuffer.zLookup 1 1 ≤
        interpolatedDepth sampleCamera sampleTriangle.1 sampleTriangle.2.1 sampleTriangle.2.2
          1 1 ∧
      (sampleFramebuffer.renderTriangle32 tableLibm sampleCamera sampleTriangle.1
          sampleTriangle.2.1 sampleTriangle.2.2 ![1, 0, 0, 1] ![0, 1, 0, 1] ![0, 0, 1, 1]
          ![0, 0, 1] ![0, 0, 1] ![0, 0, 1] [] [] none flat).framebuffer.pixel 1 1 =
        composite (shadePixelLight tableLibm sampleCamera [] flat 1
          (renderStateAt32 tableLibm sampleFramebuffer sampleCamera sampleTriangle.1
            sampleTriangle.2.1 sampleTriangle.2.2 ![1, 0, 0, 1] ![0, 1, 0, 1] ![0, 0, 1, 1]
            ![0, 0, 1] ![0, 0, 1] ![0, 0, 1] [] [] none flat 1 1)).1
          (sampleFramebuffer.pixel 1 1) :=
  ⟨sampleFramebuffer_wellFormed, by decide, by decide!, by decide!,
    (source_over_compositing tableLibm sampleFramebuffer sampleCamera sampleTexture
      sampleTriangle.1 sampleTriangle.2.1 sampleTriangle.2.2 ![1, 0, 0, 1] ![0, 1, 0, 1]
      ![0, 0, 1, 1] ![0, 0] ![1, 0] ![0, 1] ![0, 0, 1] ![0, 0, 1] ![0, 0, 1] [] [] none flat 1 1
      sampleFramebuffer_wellFormed (by decide) (by decide!) (by decide!)).2.1⟩

end graphics

namespace graphics

open math

/-- The coefficients `inverse M * attributes` interpolate, and they are the only ones. -/
theorem interpolates_iff {N : Nat} (p1 p2 p3 : Vec3) (attributes A : Matrix 3 N)
    (hdet : determinant (screenMatrix p1 p2 p3) ≠ 0) :
    Interpolates A p1 p2 p3 attributes ↔ A = mul (inverse (screenMatrix p1 p2 p3)) attributes := by
  have key : ∀ c : Fin N, (∀ i, dot (screenMatrix p1 p2 p3 i) (getColumn A c) =
      getColumn attributes c i) ↔
      getColumn A c = mulVec (inverse (screenMatrix p1 p2 p3)) (getColumn attributes c) :=
    fun c => mulVec_inverse_iff _ hdet _ _
  have hrow : ∀ (x y : ℚ) (c : Fin N), planeAt A x y c = dot ![x, y, 1] (getColumn A c) :=
    fun x y c => rfl
  constructor
  · rintro ⟨h0, h1, h2⟩
    funext r c
    have := (key c).mp (by
      intro i
      fin_cases i
      · exact congrFun h0 c
      · exact congrFun h1 c
      · exact congrFun h2 c)
    exact congrFun this r
  · intro h
    have hc : ∀ c i, dot (screenMatrix p1 p2 p3 i) (getColumn A c) = getColumn attributes c i :=
      fun c => (key c).mpr (by rw [h]; rfl)
    exact ⟨funext fun c => hc c 0, funext fun c => hc c 1, funext fun c => hc c 2⟩

/-- The attribute vector the vertex-coloured loop holds at pixel number `k` of scanline
number `j`. -/
theorem shadeStateAt_p (m : Libm) (camera : PinholeCamera) (f : FixedPoint) (rc : Matrix 3 8)
    (dls : List DirectionalLight) (material : Material) (zBuffer : List ℚ) (width : Nat)
    (pls : List PointLight) (refl : Option CubeMap) (buffer : List Vec4) (j k : Nat) :
    (shadeStateAt m camera f rc dls material zBuffer width f.minX (f.maxX width)
      (shadeInit camera f rc width pls refl buffer) j k).p =
      planeAt rc ((f.minX : ℚ) + k) ((f.minY : ℚ) + j) := by
  have hrow := (shadeRow_iterate m camera f rc dls material zBuffer width f.minX
    (f.maxX width) (shadeInit camera f rc width pls refl buffer) (minX_nonneg f)
    (scan_in_row f width) j).2.2.2.2.1
  have hpix := (shadePixel_iterate m camera f rc dls material zBuffer
    ((shadeRow m camera f rc dls material zBuffer width f.minX (f.maxX width))^[j]
      (shadeInit camera f rc width pls refl buffer)).cb
    ((shadeRow m camera f rc dls material zBuffer width f.minX (f.maxX width))^[j]
      (shadeInit camera f rc width pls refl buffer)).zb
    ((shadeRow m camera f rc dls material zBuffer width f.minX (f.maxX width))^[j]
      (shadeInit camera f rc width pls refl buffer)).y
    (shadeRowStart f.minX ((shadeRow m camera f rc dls material zBuffer width f.minX
      (f.maxX width))^[j] (shadeInit camera f rc width pls refl buffer)))
    (minX_nonneg f) k).2.2.2.2.1
  have hstart : ∀ s : ShadeRow, (shadeRowStart f.minX s).p = s.q := fun _ => rfl
  unfold shadeStateAt
  rw [hpix, hstart, hrow, ← planeAt_step]
  rfl

/-- The attribute vector the textured loop holds at pixel number `k` of scanline number
`j`. -/
theorem textureStateAt_p (m : Libm) (camera : PinholeCamera) (texture : Framebuffer)
    (f : FixedPoint) (rc : Matrix 3 4) (dc : Matrix 3 2) (nc : Vec3)
    (dls : List DirectionalLight) (material : Material) (zBuffer : List ℚ) (width : Nat)
    (pls : List PointLight) (refl : Option CubeMap) (buffer : List Vec4) (j k : Nat) :
    (textureStateAt m camera texture f rc dc nc dls material zBuffer width f.minX
      (f.maxX width) (textureInit camera f rc dc nc width pls refl buffer) j k).p =
      planeAt rc ((f.minX : ℚ) + k) ((f.minY : ℚ) + j) := by
  have hrow := (textureRow_iterate m camera texture f rc dc nc dls material zBuffer width
    f.minX (f.maxX width) (textureInit camera f rc dc nc width pls refl buffer)
    (minX_nonneg f) (scan_in_row f width) j).2.2.2.2.1
  have hpix := (texturePixel_iterate m camera texture f rc dc nc dls material zBuffer
    ((textureRow m camera texture f rc dc nc dls material zBuffer width f.minX
      (f.maxX width))^[j] (textureInit camera f rc dc nc width pls refl buffer)).cb
    ((textureRow m camera texture f rc dc nc dls material zBuffer width f.minX
      (f.maxX width))^[j] (textureInit camera f rc dc nc width pls refl buffer)).zb
    ((textureRow m camera texture f rc dc nc dls material zBuffer width f.minX
      (f.maxX width))^[j] (textureInit camera f rc dc nc width pls refl buffer)).y
    (textureRowStart f.minX ((textureRow m camera texture f rc dc nc dls material zBuffer
      width f.minX (f.maxX width))^[j] (textureInit camera f rc dc nc width pls refl buffer)))
    (minX_nonneg f) k).2.2.2.2.1
  have hstart : ∀ s : TextureRow, (textureRowStart f.minX s).p = s.q := fun _ => rfl
  unfold textureStateAt
  rw [hpix, hstart, hrow, ← planeAt_step]
  rfl

/-- The depth the loop of `prerenderTriangle` holds at pixel number `k` of scanline number
`j`. -/
theorem prerender_z (f : FixedPoint) (rc : Vec3) (width : Nat) (zBuffer : List ℚ) (j k : Nat) :
    ((prerenderPixel f rc
        ((prerenderRow f rc width f.minX (f.maxX width))^[j]
          (prerenderInit f rc width zBuffer)).zb)^[k]
      ⟨f.minX,
        ((prerenderRow f rc width f.minX (f.maxX width))^[j]
          (prerenderInit f rc width zBuffer)).u1,
        ((prerenderRow f rc width f.minX (f.maxX width))^[j]
          (prerenderInit f rc width zBuffer)).u2,
        ((prerenderRow f rc width f.minX (f.maxX width))^[j]
          (prerenderInit f rc width zBuffer)).u3,
        ((prerenderRow f rc width f.minX (f.maxX width))^[j]
          (prerenderInit f rc width zBuffer)).w,
        ((prerenderRow f rc width f.minX (f.maxX width))^[j]
          (prerenderInit f rc width zBuffer)).zBuffer⟩).z =
      dot rc ![(f.minX : ℚ) + k, (f.minY : ℚ) + j, 1] := by
  have hrow := (prerenderRow_iterate f rc width f.minX (f.maxX width)
    (prerenderInit f rc width zBuffer) (minX_nonneg f) (scan_in_row f width) j).2.2.2.2.1
  have hpix := (prerenderPixel_iterate f rc
    ((prerenderRow f rc width f.minX (f.maxX width))^[j]
      (prerenderInit f rc width zBuffer)).zb
    ⟨f.minX,
      ((prerenderRow f rc width f.minX (f.maxX width))^[j]
        (prerenderInit f rc width zBuffer)).u1,
      ((prerenderRow f rc width f.minX (f.maxX width))^[j]
        (prerenderInit f rc width zBuffer)).u2,
      ((prerenderRow f rc width f.minX (f.maxX width))^[j]
        (prerenderInit f rc width zBuffer)).u3,
      ((prerenderRow f rc width f.minX (f.maxX width))^[j]
        (prerenderInit f rc width zBuffer)).w,
      ((prerenderRow f rc width f.minX (f.maxX width))^[j]
        (prerenderInit f rc width zBuffer)).zBuffer⟩ (minX_nonneg f) k).2.2.2.2.1
  rw [hpix]
  simp only [hrow]
  simp only [prerenderInit, dot, Fin.sum_univ_three, Matrix.cons_val_zero,
    Matrix.cons_val_one, Matrix.head_cons, Matrix.cons_val_two, Matrix.tail_cons]
  ring

theorem dot_comm {N : Nat} (a b : Vector N) : dot a b = dot b a := by
  unfold dot
  exact Finset.sum_congr rfl fun i _ => mul_comm _ _

theorem scan_offset (lo : Int) (x : Nat) (h0 : 0 ≤ lo) (h : lo ≤ x) :
    (lo : ℚ) + ((x - lo.toNat : Nat) : ℚ) = x := by
  have h1 : ((x - lo.toNat : Nat) : Int) = x - lo := by omega
  have h2 : ((x - lo.toNat : Nat) : ℚ) = (x : ℚ) - (lo : ℚ) := by
    have := congrArg (fun z : Int => (z : ℚ)) h1
    simpa using this
  rw [h2]; ring

/-- C7 (affine plane-fit interpolation is exact): when the three projected screen positions
are not collinear, the plane coefficients each routine obtains through `Mat3::inverse` are
the coefficients of the unique affine function of screen coordinates taking the attribute
values at the three projected vertices, and the attribute vector the scanline loop holds
when it tests a scan-box pixel `(x, y)` is that function evaluated at `(x, y)`: reciprocal
depth, colour and normal in the vertex-coloured routine, reciprocal depth and normal in the
textured routine, reciprocal depth in the pre-pass. -/
theorem plane_fit_exact (m : Libm) (fb : Framebuffer) (camera : PinholeCamera)
    (texture : Framebuffer) (t1 t2 t3 : Vec3) (c1 c2 c3 : Vec4) (r1 r2 r3 : Vec2)
    (n1 n2 n3 : Vec3) (dls : List DirectionalLight) (pls : List PointLight)
    (refl : Option CubeMap) (material : Material) (x y : Nat)
    (hdet : determinant
      (screenMatrix (camera.project t1) (camera.project t2) (camera.project t3)) ≠ 0)
    (hbox : inScanBox (projectFixed camera t1 t2 t3) fb.width fb.height x y) :
    ((∀ A : Matrix 3 8,
        Interpolates A (camera.project t1) (camera.project t2) (camera.project t3)
            (colourAttributes (camera.project t1) (camera.project t2) (camera.project t3)
              c1 c2 c3 n1 n2 n3) ↔
          A = shadeRc (camera.project t1) (camera.project t2) (camera.project t3) c1 c2 c3
            n1 n2 n3) ∧
      (renderStateAt m fb camera t1 t2 t3 c1 c2 c3 n1 n2 n3 dls pls refl material x y).p =
        planeAt (shadeRc (camera.project t1) (camera.project t2) (camera.project t3) c1 c2 c3
          n1 n2 n3) x y) ∧
    ((∀ A : Matrix 3 4,
        Interpolates A (camera.project t1) (camera.project t2) (camera.project t3)
            (textureAttributes (camera.project t1) (camera.project t2) (camera.project t3)
              n1 n2 n3) ↔
          A = textureRc (camera.project t1) (camera.project t2) (camera.project t3)
            n1 n2 n3) ∧
      (renderTexturedStateAt m fb camera texture t1 t2 t3 r1 r2 r3 n1 n2 n3 dls pls refl
          material x y).p =
        planeAt (textureRc (camera.project t1) (camera.project t2) (camera.project t3)
          n1 n2 n3) x y) ∧
    ((∀ a : Vec3,
        (dot a ![camera.project t1 0, camera.project t1 1, 1] = camera.project t1 2 ∧
          dot a ![camera.project t2 0, camera.project t2 1, 1] = camera.project t2 2 ∧
          dot a ![camera.project t3 0, camera.project t3 1, 1] = camera.project t3 2) ↔
          a = prerenderRc (camera.project t1) (camera.project t2) (camera.project t3)) ∧
      (prerenderStateAt fb camera t1 t2 t3 x y).z =
        dot (prerenderRc (camera.project t1) (camera.project t2) (camera.project t3))
          ![(x : ℚ), (y : ℚ), 1]) := by
  obtain ⟨hx1, -, hy1, -⟩ := hbox
  have ex := scan_offset _ x (minX_nonneg (projectFixed camera t1 t2 t3)) hx1
  have ey := scan_offset _ y (minY_nonneg (projectFixed camera t1 t2 t3)) hy1
  refine ⟨⟨fun A => interpolates_iff _ _ _ _ A hdet, ?_⟩,
    ⟨fun A => interpolates_iff _ _ _ _ A hdet, ?_⟩, ⟨fun a => ?_, ?_⟩⟩
  · unfold renderStateAt
    rw [shadeStateAt_p, ex, ey]
  · unfold renderTexturedStateAt
    rw [textureStateAt_p, ex, ey]
  · refine Iff.trans ?_ (mulVec_inverse_iff (screenMatrix (camera.project t1)
      (camera.project t2) (camera.project t3)) hdet ![camera.project t1 2, camera.project t2 2,
      camera.project t3 2] a)
    constructor
    · rintro ⟨h0, h1, h2⟩ i
      fin_cases i
      · rw [dot_comm]; exact h0
      · rw [dot_comm]; exact h1
      · rw [dot_comm]; exact h2
    · intro h
      exact ⟨(dot_comm _ _).trans (h 0), (dot_comm _ _).trans (h 1),
        (dot_comm _ _).trans (h 2)⟩
  · unfold prerenderStateAt
    rw [prerender_z, ex, ey]

theorem plane_fit_exact_witness :
    determinant (screenMatrix (sampleCamera.project sampleTriangle.1)
        (sampleCamera.project sampleTriangle.2.1) (sampleCamera.project sampleTriangle.2.2)) ≠ 0 ∧
      inScanBox (projectFixed sampleCamera sampleTriangle.1 sampleTriangle.2.1
        sampleTriangle.2.2) sampleFramebuffer.width sampleFramebuffer.height 1 1 ∧
      (renderStateAt tableLibm sampleFramebuffer sampleCamera sampleTriangle.1
          sampleTriangle.2.1 sampleTriangle.2.2 ![1, 0, 0, 1] ![0, 1, 0, 1] ![0, 0, 1, 1]
          ![0, 0, 1] ![0, 0, 1] ![0, 0, 1] [] [] none flat 1 1).p =
        planeAt (shadeRc (sampleCamera.project sampleTriangle.1)
          (sampleCamera.project sampleTriangle.2.1) (sampleCamera.project sampleTriangle.2.2)
          ![1, 0, 0, 1] ![0, 1, 0, 1] ![0, 0, 1, 1] ![0, 0, 1] ![0, 0, 1] ![0, 0, 1]) 1 1 :=
  ⟨by decide!, by decide!,
    (plane_fit_exact tableLibm sampleFramebuffer sampleCamera sampleTexture sampleTriangle.1
      sampleTriangle.2.1 sampleTriangle.2.2 ![1, 0, 0, 1] ![0, 1, 0, 1] ![0, 0, 1, 1] ![0, 0]
      ![1, 0] ![0, 1] ![0, 0, 1] ![0, 0, 1] ![0, 0, 1] [] [] none flat 1 1 (by decide!)
      (by decide!)).1.2⟩

end graphics

namespace graphics

open math

theorem truncToSize_natCast (i : Nat) : truncToSize (i : ℚ) = i := by
  unfold truncToSize
  rw [Int.floor_natCast, Int.toNat_ofNat]

theorem truncToSize_half (i : Nat) : truncToSize ((i : ℚ) + 1 / 2) = i := by
  unfold truncToSize
  have : ⌊(i : ℚ) + 1 / 2⌋ = (i : Int) := by
    rw [Int.floor_eq_iff]
    constructor
    · push_cast; linarith
    · push_cast; linarith
  rw [this, Int.toNat_ofNat]

/-- C8 (bilinear sampling exactness): sampling a framebuffer at the integer coordinates of
one of its pixels returns that pixel, also on the last row and the last column; sampling at
the midpoint of four neighbouring pixels returns their arithmetic mean. -/
theorem bilinearLookup_exact (fb : Framebuffer) (i j : Nat) :
    (i < fb.width → j < fb.height → fb.bilinearLookup (i : ℚ) (j : ℚ) = fb.pixel i j) ∧
      (i + 1 < fb.width → j + 1 < fb.height →
        fb.bilinearLookup ((i : ℚ) + 1 / 2) ((j : ℚ) + 1 / 2) =
          (1 / 4 : ℚ) • (fb.pixel i j + fb.pixel (i + 1) j + fb.pixel i (j + 1) +
            fb.pixel (i + 1) (j + 1))) := by
  constructor
  · intro _ _
    unfold Framebuffer.bilinearLookup Framebuffer.pixel
    simp only [truncToSize_natCast]
    split_ifs
    · rfl
    · funext c
      simp only [Pi.add_apply, Pi.smul_apply, smul_eq_mul]
      push_cast
      ring
  · intro hi hj
    unfold Framebuffer.bilinearLookup Framebuffer.pixel
    simp only [truncToSize_half]
    rw [if_neg (by omega)]
    funext c
    simp only [Pi.add_apply, Pi.smul_apply, smul_eq_mul]
    push_cast
    ring

theorem bilinearLookup_exact_witness :
    (1 < sampleTexture.width ∧ 1 < sampleTexture.height ∧
        sampleTexture.bilinearLookup ((1 : Nat) : ℚ) ((1 : Nat) : ℚ) = sampleTexture.pixel 1 1) ∧
      (0 + 1 < sampleTexture.width ∧ 0 + 1 < sampleTexture.height ∧
        sampleTexture.bilinearLookup (((0 : Nat) : ℚ) + 1 / 2) (((0 : Nat) : ℚ) + 1 / 2) =
          (1 / 4 : ℚ) • (sampleTexture.pixel 0 0 + sampleTexture.pixel (0 + 1) 0 +
            sampleTexture.pixel 0 (0 + 1) + sampleTexture.pixel (0 + 1) (0 + 1))) :=
  ⟨⟨by decide, by decide, (bilinearLookup_exact sampleTexture 1 1).1 (by decide) (by decide)⟩,
    ⟨by decide, by decide, (bilinearLookup_exact sampleTexture 0 0).2 (by decide) (by decide)⟩⟩

end graphics

namespace math

theorem unit_of_norm_one (m : Libm) (hs : m.sqrt 1 = 1) (v : Vec3) (hv : dot v v = 1) :
    unit m v = v := by
  funext i
  simp [unit, norm, hv, hs]

/-- Rotation about an axis of norm one. -/
theorem rotatedAboutAxis_eq (m : Libm) (hs : m.sqrt 1 = 1) (v axis : Vec3) (theta : ℚ)
    (hv : dot axis axis = 1) :
    rotatedAboutAxis m v axis theta =
      mulVec (transpose (axesZ axis)) (mulVec (rotationZ m theta) (mulVec (axesZ axis) v)) := by
  unfold rotatedAboutAxis rotatedAboutAxisFrom
  rw [unit_of_norm_one m hs axis hv]
  simp

theorem rot_z_pos (m : Libm) (hs : m.sqrt 1 = 1) (v : Vec3) (theta : ℚ) :
    rotatedAboutAxis m v ![0, 0, 1] theta =
      ![m.cos theta * v 0 - m.sin theta * v 1, m.sin theta * v 0 + m.cos theta * v 1, v 2] := by
  rw [rotatedAboutAxis_eq m hs _ _ _ (by simp [dot, Fin.sum_univ_three])]
  funext i
  fin_cases i
  all_goals simp only [axesZ, copysignOne, mulVec, transpose, getColumn, rotationZ, dot,
      Fin.sum_univ_three, Fin.zero_eta, Fin.mk_one, Fin.reduceFinMk, Matrix.cons_val_zero,
      Matrix.cons_val_one, Matrix.head_cons, Matrix.cons_val_two, Matrix.tail_cons]
  all_goals (norm_num; try ring)

theorem rot_y_pos (m : Libm) (hs : m.sqrt 1 = 1) (v : Vec3) (theta : ℚ) :
    rotatedAboutAxis m v ![0, 1, 0] theta =
      ![m.cos theta * v 0 + m.sin theta * v 2, v 1, -m.sin theta * v 0 + m.cos theta * v 2] := by
  rw [rotatedAboutAxis_eq m hs _ _ _ (by simp [dot, Fin.sum_univ_three])]
  funext i
  fin_cases i
  all_goals simp only [axesZ, copysignOne, mulVec, transpose, getColumn, rotationZ, dot,
      Fin.sum_univ_three, Fin.zero_eta, Fin.mk_one, Fin.reduceFinMk, Matrix.cons_val_zero,
      Matrix.cons_val_one, Matrix.head_cons, Matrix.cons_val_two, Matrix.tail_cons]
  all_goals (norm_num; try ring)

theorem rot_x_neg (m : Libm) (hs : m.sqrt 1 = 1) (v : Vec3) (theta : ℚ) :
    rotatedAboutAxis m v ![-1, 0, 0] theta =
      ![v 0, m.cos theta * v 1 + m.sin theta * v 2, -m.sin theta * v 1 + m.cos theta * v 2] := by
  rw [rotatedAboutAxis_eq m hs _ _ _ (by simp [dot, Fin.sum_univ_three])]
  funext i
  fin_cases i
  all_goals simp only [axesZ, copysignOne, mulVec, transpose, getColumn, rotationZ, dot,
      Fin.sum_univ_three, Fin.zero_eta, Fin.mk_one, Fin.reduceFinMk, Matrix.cons_val_zero,
      Matrix.cons_val_one, Matrix.head_cons, Matrix.cons_val_two, Matrix.tail_cons]
  all_goals (norm_num; try ring)

theorem rot_y_neg (m : Libm) (hs : m.sqrt 1 = 1) (v : Vec3) (theta : ℚ) :
    rotatedAboutAxis m v ![0, -1, 0] theta =
      ![m.cos theta * v 0 - m.sin theta * v 2, v 1, m.sin theta * v 0 + m.cos theta * v 2] := by
  rw [rotatedAboutAxis_eq m hs _ _ _ (by simp [dot, Fin.sum_univ_three])]
  funext i
  fin_cases i
  all_goals simp only [axesZ, copysignOne, mulVec, transpose, getColumn, rotationZ, dot,
      Fin.sum_univ_three, Fin.zero_eta, Fin.mk_one, Fin.reduceFinMk, Matrix.cons_val_zero,
      Matrix.cons_val_one, Matrix.head_cons, Matrix.cons_val_two, Matrix.tail_cons]
  all_goals (norm_num; try ring)

theorem tilt_ofBasis (m : Libm) (center a b c : Vec3) (w h : Nat) (theta : ℚ) :
    (PinholeCamera.ofBasis center a b c w h).tilt m theta =
      PinholeCamera.ofBasis center a (rotatedAboutAxis m b a theta)
        (rotatedAboutAxis m c a theta) w h := rfl

theorem pan_ofBasis (m : Libm) (center a b c : Vec3) (w h : Nat) (theta : ℚ) :
    (PinholeCamera.ofBasis center a b c w h).pan m theta =
      PinholeCamera.ofBasis center (rotatedAboutAxis m a b theta) b
        (rotatedAboutAxis m c b theta) w h := rfl

theorem roll_ofBasis (m : Libm) (center a b c : Vec3) (w h : Nat) (theta : ℚ) :
    (PinholeCamera.ofBasis center a b c w h).roll m theta =
      PinholeCamera.ofBasis center (rotatedAboutAxis m a (cross b a) theta)
        (rotatedAboutAxis m b (cross b a) theta) (rotatedAboutAxis m c (cross b a) theta)
        w h := rfl

theorem mk6_ofBasis (m : Libm) (w h : Nat) (hfov : ℚ) (center direction up : Vec3) :
    PinholeCamera.mk6 m w h hfov center direction up =
      PinholeCamera.ofBasis center (cross (unit m direction) (unit m up))
        (cross (cross (unit m direction) (unit m up)) (unit m direction))
        (fun i => unit m direction i *
            dot ![-((w : ℚ) / 2), -((h : ℚ) / 2), -((w : ℚ) / (2 * m.tan (hfov / 2)))]
              (cross ![0, 1, 0] ![1, 0, 0]) -
          cross (unit m direction) (unit m up) i * ((w : ℚ) / 2) -
          cross (cross (unit m direction) (unit m up)) (unit m direction) i * ((h : ℚ) / 2))
        w h := rfl

theorem vec3_ext (u v : Vec3) (h0 : u 0 = v 0) (h1 : u 1 = v 1) (h2 : u 2 = v 2) : u = v := by
  funext i
  fin_cases i
  · exact h0
  · exact h1
  · exact h2

/-- The camera both cube-map constructors replicate six times. -/
theorem mk6_base (m : Libm) (hm : m.ExactOnQuarterTurns) (w : Nat) (position : Vec3) :
    PinholeCamera.mk6 m w w (m.pi / 2) position ![1, 0, 0] ![0, 1, 0] =
      PinholeCamera.ofBasis position ![0, 0, 1] ![0, 1, 0]
        ![(w : ℚ) / 2, -((w : ℚ) / 2), -((w : ℚ) / 2)] w w := by
  obtain ⟨hs, ht, -⟩ := hm
  have u1 : unit m (![1, 0, 0] : Vec3) = ![1, 0, 0] :=
    unit_of_norm_one m hs _ (by simp [dot, Fin.sum_univ_three])
  have u2 : unit m (![0, 1, 0] : Vec3) = ![0, 1, 0] :=
    unit_of_norm_one m hs _ (by simp [dot, Fin.sum_univ_three])
  have e1 : cross (![1, 0, 0] : Vec3) ![0, 1, 0] = ![0, 0, 1] := by
    apply vec3_ext <;> simp [cross]
  have e2 : cross (![0, 0, 1] : Vec3) ![1, 0, 0] = ![0, 1, 0] := by
    apply vec3_ext <;> simp [cross]
  rw [mk6_ofBasis, u1, u2, e1, e2, ht]
  congr 1
  apply vec3_ext
  all_goals simp only [cross, dot, Fin.sum_univ_three, Matrix.cons_val_zero,
      Matrix.cons_val_one, Matrix.head_cons, Matrix.cons_val_two, Matrix.tail_cons]
  all_goals (norm_num; try ring)

end math

namespace graphics

open math

/-- The cameras both cube-map constructors build, under exact library functions: the six
face cameras. -/
theorem unrollCameras_eq (m : Libm) (hm : m.ExactOnQuarterTurns) (w : Nat) (position : Vec3) :
    unrollCameras m (List.replicate 6
      (PinholeCamera.mk6 m w w (m.pi / 2) position ![1, 0, 0] ![0, 1, 0])) =
      faceCameras position w := by
  rw [mk6_base m hm]
  obtain ⟨hs, -, c1, s1, c2, s2, c3, s3⟩ := hm
  have x1 : cross (![0, -1, 0] : Vec3) ![0, 0, 1] = ![-1, 0, 0] := by
    apply vec3_ext <;> simp [cross]
  have x2 : cross (![1, 0, 0] : Vec3) ![0, 0, 1] = ![0, -1, 0] := by
    apply vec3_ext <;> simp [cross]
  have x3 : cross (![0, 1, 0] : Vec3) ![-1, 0, 0] = ![0, 0, 1] := by
    apply vec3_ext <;> simp [cross]
  have t1b : rotatedAboutAxis m ![0, 1, 0] ![0, 0, 1] (m.pi * (1 / 2)) = ![-1, 0, 0] := by
    rw [rot_z_pos m hs, c1, s1]; apply vec3_ext <;> simp
  have t1c : rotatedAboutAxis m ![(w : ℚ) / 2, -((w : ℚ) / 2), -((w : ℚ) / 2)] ![0, 0, 1]
      (m.pi * (1 / 2)) = ![(w : ℚ) / 2, (w : ℚ) / 2, -((w : ℚ) / 2)] := by
    rw [rot_z_pos m hs, c1, s1]; apply vec3_ext <;> simp
  have p2a : rotatedAboutAxis m ![0, 0, 1] ![0, 1, 0] (m.pi * (1 / 2)) = ![1, 0, 0] := by
    rw [rot_y_pos m hs, c1, s1]; apply vec3_ext <;> simp
  have p2c : rotatedAboutAxis m ![(w : ℚ) / 2, -((w : ℚ) / 2), -((w : ℚ) / 2)] ![0, 1, 0]
      (m.pi * (1 / 2)) = ![-((w : ℚ) / 2), -((w : ℚ) / 2), -((w : ℚ) / 2)] := by
    rw [rot_y_pos m hs, c1, s1]; apply vec3_ext <;> simp
  have t3b : rotatedAboutAxis m ![0, 1, 0] ![0, 0, 1] m.pi = ![0, -1, 0] := by
    rw [rot_z_pos m hs, c2, s2]; apply vec3_ext <;> simp
  have t3c : rotatedAboutAxis m ![(w : ℚ) / 2, -((w : ℚ) / 2), -((w : ℚ) / 2)] ![0, 0, 1]
      m.pi = ![-((w : ℚ) / 2), (w : ℚ) / 2, -((w : ℚ) / 2)] := by
    rw [rot_z_pos m hs, c2, s2]; apply vec3_ext <;> simp
  have r3a : rotatedAboutAxis m ![0, 0, 1] ![-1, 0, 0] (m.pi * (3 / 2)) = ![0, -1, 0] := by
    rw [rot_x_neg m hs, c3, s3]; apply vec3_ext <;> simp
  have r3b : rotatedAboutAxis m ![0, -1, 0] ![-1, 0, 0] (m.pi * (3 / 2)) = ![0, 0, -1] := by
    rw [rot_x_neg m hs, c3, s3]; apply vec3_ext <;> simp
  have r3c : rotatedAboutAxis m ![-((w : ℚ) / 2), (w : ℚ) / 2, -((w : ℚ) / 2)] ![-1, 0, 0]
      (m.pi * (3 / 2)) = ![-((w : ℚ) / 2), (w : ℚ) / 2, (w : ℚ) / 2] := by
    rw [rot_x_neg m hs, c3, s3]; apply vec3_ext <;> simp
  have t4b : rotatedAboutAxis m ![0, 1, 0] ![0, 0, 1] (m.pi * (3 / 2)) = ![1, 0, 0] := by
    rw [rot_z_pos m hs, c3, s3]; apply vec3_ext <;> simp
  have t4c : rotatedAboutAxis m ![(w : ℚ) / 2, -((w : ℚ) / 2), -((w : ℚ) / 2)] ![0, 0, 1]
      (m.pi * (3 / 2)) = ![-((w : ℚ) / 2), -((w : ℚ) / 2), -((w : ℚ) / 2)] := by
    rw [rot_z_pos m hs, c3, s3]; apply vec3_ext <;> simp
  have r4a : rotatedAboutAxis m ![0, 0, 1] ![0, -1, 0] (m.pi * (3 / 2)) = ![1, 0, 0] := by
    rw [rot_y_neg m hs, c3, s3]; apply vec3_ext <;> simp
  have r4b : rotatedAboutAxis m ![1, 0, 0] ![0, -1, 0] (m.pi * (3 / 2)) = ![0, 0, -1] := by
    rw [rot_y_neg m hs, c3, s3]; apply vec3_ext <;> simp
  have r4c : rotatedAboutAxis m ![-((w : ℚ) / 2), -((w : ℚ) / 2), -((w : ℚ) / 2)]
      ![0, -1, 0] (m.pi * (3 / 2)) = ![-((w : ℚ) / 2), -((w : ℚ) / 2), (w : ℚ) / 2] := by
    rw [rot_y_neg m hs, c3, s3]; apply vec3_ext <;> simp
  have p5a : rotatedAboutAxis m ![0, 0, 1] ![0, 1, 0] (m.pi * (3 / 2)) = ![-1, 0, 0] := by
    rw [rot_y_pos m hs, c3, s3]; apply vec3_ext <;> simp
  have p5c : rotatedAboutAxis m ![(w : ℚ) / 2, -((w : ℚ) / 2), -((w : ℚ) / 2)] ![0, 1, 0]
      (m.pi * (3 / 2)) = ![(w : ℚ) / 2, -((w : ℚ) / 2), (w : ℚ) / 2] := by
    rw [rot_y_pos m hs, c3, s3]; apply vec3_ext <;> simp
  have r5a : rotatedAboutAxis m ![-1, 0, 0] ![0, 0, 1] (m.pi * (1 / 2)) = ![0, -1, 0] := by
    rw [rot_z_pos m hs, c1, s1]; apply vec3_ext <;> simp
  have r5b : rotatedAboutAxis m ![0, 1, 0] ![0, 0, 1] (m.pi * (1 / 2)) = ![-1, 0, 0] := t1b
  have r5c : rotatedAboutAxis m ![(w : ℚ) / 2, -((w : ℚ) / 2), (w : ℚ) / 2] ![0, 0, 1]
      (m.pi * (1 / 2)) = ![(w : ℚ) / 2, (w : ℚ) / 2, (w : ℚ) / 2] := by
    rw [rot_z_pos m hs, c1, s1]; apply vec3_ext <;> simp
  simp only [unrollCameras, List.replicate, List.set, List.getD_cons_zero, List.getD_cons_succ,
    tilt_ofBasis, pan_ofBasis, roll_ofBasis, t1b, t1c, p2a, p2c, t3b, t3c, x1, r3a, r3b, r3c,
    t4b, t4c, x2, r4a, r4b, r4c, p5a, p5c, x3, r5a, r5b, r5c, faceCameras]

end graphics

namespace graphics

open math

/-- A camera whose basis is `(-b, -a, -c)` sees every point at the transposed pixel of the
camera with basis `(a, b, c)` and the same centre, with the opposite reciprocal depth. -/
theorem project_opposite (center a b c a2 b2 c2 : Vec3) (w h : Nat)
    (ha : ∀ i, a2 i = -b i) (hb : ∀ i, b2 i = -a i) (hc : ∀ i, c2 i = -c i) (point : Vec3) :
    (PinholeCamera.ofBasis center a2 b2 c2 w h).project point =
      ![(PinholeCamera.ofBasis center a b c w h).project point 1,
        (PinholeCamera.ofBasis center a b c w h).project point 0,
        -((PinholeCamera.ofBasis center a b c w h).project point 2)] := by
  have hq : mulVec (PinholeCamera.ofBasis center a2 b2 c2 w h).projectionMatrix
      (point - center) =
      ![-(mulVec (PinholeCamera.ofBasis center a b c w h).projectionMatrix (point - center) 1),
        -(mulVec (PinholeCamera.ofBasis center a b c w h).projectionMatrix (point - center) 0),
        -(mulVec (PinholeCamera.ofBasis center a b c w h).projectionMatrix
          (point - center) 2)] := by
    apply vec3_ext
    all_goals simp only [PinholeCamera.ofBasis, PinholeCamera.refresh,
      PinholeCamera.getProjectionMatrix, inverse, determinant, transpose, getColumn, mulVec,
      dot, Fin.sum_univ_three, Matrix.cons_val_zero, Matrix.cons_val_one, Matrix.head_cons,
      Matrix.cons_val_two, Matrix.tail_cons, ha, hb, hc]
    all_goals ring
  have hcen : (PinholeCamera.ofBasis center a2 b2 c2 w h).center = center := rfl
  have hcen2 : (PinholeCamera.ofBasis center a b c w h).center = center := rfl
  unfold PinholeCamera.project
  rw [hcen, hcen2, hq]
  apply vec3_ext
  all_goals simp only [Matrix.cons_val_zero, Matrix.cons_val_one, Matrix.head_cons,
      Matrix.cons_val_two, Matrix.tail_cons]
  · rw [neg_div_neg_eq]
  · rw [neg_div_neg_eq]
  · rw [one_div, one_div, inv_neg]

theorem ofResolution_cameras (m : Libm) (hm : m.ExactOnQuarterTurns) (resolution : Nat)
    (position : Vec3) :
    (CubeMap.ofResolution m resolution position).cameras = faceCameras position resolution :=
  unrollCameras_eq m hm resolution position

theorem ofFramebuffers_cameras (m : Libm) (hm : m.ExactOnQuarterTurns)
    (framebuffers : List Framebuffer) :
    (CubeMap.ofFramebuffers m framebuffers).cameras =
      faceCameras 0 (framebuffers.getD 0 default).width :=
  unrollCameras_eq m hm _ 0

/-- The opposite-face relation for every cube map whose cameras are the six face cameras. -/
theorem faceCameras_opposite (cm : CubeMap) (position : Vec3) (w : Nat)
    (hcm : cm.cameras = faceCameras position w) (i : Nat) (hi : i < 3) (point : Vec3) :
    (cm.camera (i + 3)).project point =
      ![(cm.camera i).project point 1, (cm.camera i).project point 0,
        -((cm.camera i).project point 2)] := by
  unfold CubeMap.camera
  rw [hcm]
  interval_cases i
  · simp only [faceCameras, List.getD_cons_zero, List.getD_cons_succ]
    apply project_opposite <;> intro j <;> fin_cases j <;> simp
  · simp only [faceCameras, List.getD_cons_zero, List.getD_cons_succ]
    apply project_opposite <;> intro j <;> fin_cases j <;> simp
  · simp only [faceCameras, List.getD_cons_zero, List.getD_cons_succ]
    apply project_opposite <;> intro j <;> fin_cases j <;> simp

/-- Opposite faces in exact arithmetic: when the library functions are exact at the quarter
turns (`cos (pi / 2) = 0` and so on, which the floating-point `std::cos` and `std::sin` at
a `float` multiple of pi are not), in a cube map built by either constructor, for each `i`
in `{0, 1, 2}` and every world point, if `cameras[i].project` gives `(x, y, z)` then
`cameras[i + 3].project` gives `(y, x, -z)`. -/
theorem opposite_face_projection (m : Libm) (hm : m.ExactOnQuarterTurns) (resolution : Nat)
    (position : Vec3) (framebuffers : List Framebuffer) (i : Nat) (hi : i < 3)
    (point : Vec3) :
    ((CubeMap.ofResolution m resolution position).camera (i + 3)).project point =
        ![((CubeMap.ofResolution m resolution position).camera i).project point 1,
          ((CubeMap.ofResolution m resolution position).camera i).project point 0,
          -(((CubeMap.ofResolution m resolution position).camera i).project point 2)] ∧
      ((CubeMap.ofFramebuffers m framebuffers).camera (i + 3)).project point =
        ![((CubeMap.ofFramebuffers m framebuffers).camera i).project point 1,
          ((CubeMap.ofFramebuffers m framebuffers).camera i).project point 0,
          -(((CubeMap.ofFramebuffers m framebuffers).camera i).project point 2)] :=
  ⟨faceCameras_opposite _ position resolution (ofResolution_cameras m hm resolution position)
      i hi point,
    faceCameras_opposite _ 0 _ (ofFramebuffers_cameras m hm framebuffers) i hi point⟩

theorem opposite_face_projection_witness :
    tableLibm.ExactOnQuarterTurns ∧ 0 < 3 ∧
      ((CubeMap.ofResolution tableLibm 2 0).camera (0 + 3)).project ![1, 2, 3] =
        ![((CubeMap.ofResolution tableLibm 2 0).camera 0).project ![1, 2, 3] 1,
          ((CubeMap.ofResolution tableLibm 2 0).camera 0).project ![1, 2, 3] 0,
          -(((CubeMap.ofResolution tableLibm 2 0).camera 0).project ![1, 2, 3] 2)] :=
  ⟨by decide!, by decide,
    (opposite_face_projection tableLibm (by decide!) 2 0 [] 0 (by decide) ![1, 2, 3]).1⟩

end graphics

namespace graphics

open math

theorem inFaceRange_div (h t n : ℚ) (hh : 0 < h) (H : inFaceRange t n) :
    0 ≤ n / (t / h) ∧ n / (t / h) < 2 * h := by
  rw [div_div_eq_mul_div]
  rcases H with ⟨ht, h1, h2⟩ | ⟨ht, h1, h2⟩
  · constructor
    · exact div_nonneg (mul_nonneg h1 hh.le) ht.le
    · rw [div_lt_iff₀ ht]
      nlinarith
  · constructor
    · exact div_nonneg_of_nonpos (mul_nonpos_of_nonpos_of_nonneg h1 hh.le) ht.le
    · rw [div_lt_iff_of_neg ht]
      nlinarith

/-- Every direction other than the multiples of `(1, -1, 1)` satisfies the face condition
of one of the three primary cameras. -/
theorem face_cases (d0 d1 d2 : ℚ) (hd : ¬ (d0 = 0 ∧ d1 = 0 ∧ d2 = 0))
    (hdiag : ¬ (d1 = -d0 ∧ d2 = d0)) :
    (inFaceRange d0 (d2 + d0) ∧ inFaceRange d0 (d1 + d0)) ∨
      (inFaceRange d1 (d2 + d1) ∧ inFaceRange d1 (d1 - d0)) ∨
      (inFaceRange (-d2) (d0 - d2) ∧ inFaceRange (-d2) (d1 - d2)) := by
  unfold inFaceRange
  by_cases hA : |d1| ≤ |d0| ∧ |d2| ≤ |d0|
  · obtain ⟨hA1, hA2⟩ := hA
    have h0 : d0 ≠ 0 := by
      intro h
      rw [h, abs_zero] at hA1 hA2
      exact hd ⟨h, abs_nonpos_iff.mp hA1, abs_nonpos_iff.mp hA2⟩
    rcases lt_or_gt_of_ne h0 with hneg | hpos
    · rw [abs_of_neg hneg] at hA1 hA2
      obtain ⟨a1, a2⟩ := abs_le.mp hA1
      obtain ⟨b1, b2⟩ := abs_le.mp hA2
      by_cases e2 : d2 = d0
      · by_cases e1 : d1 = d0
        · right; right
          exact ⟨Or.inl ⟨by linarith, by linarith, by linarith⟩,
            Or.inl ⟨by linarith, by linarith, by linarith⟩⟩
        · have e3 : d1 ≠ -d0 := fun h => hdiag ⟨h, e2⟩
          have s1 : d1 < -d0 := lt_of_le_of_ne a2 e3
          right; right
          exact ⟨Or.inl ⟨by linarith, by linarith, by linarith⟩,
            Or.inl ⟨by linarith, by linarith, by linarith⟩⟩
      · have s2 : d0 < d2 := lt_of_le_of_ne (by linarith) (Ne.symm e2)
        by_cases e1 : d1 = d0
        · right; left
          exact ⟨Or.inr ⟨by linarith, by linarith, by linarith⟩,
            Or.inr ⟨by linarith, by linarith, by linarith⟩⟩
        · have s1 : d0 < d1 := lt_of_le_of_ne (by linarith) (Ne.symm e1)
          left
          exact ⟨Or.inr ⟨by linarith, by linarith, by linarith⟩,
            Or.inr ⟨by linarith, by linarith, by linarith⟩⟩
    · rw [abs_of_pos hpos] at hA1 hA2
      obtain ⟨a1, a2⟩ := abs_le.mp hA1
      obtain ⟨b1, b2⟩ := abs_le.mp hA2
      by_cases e2 : d2 = d0
      · by_cases e1 : d1 = d0
        · right; right
          exact ⟨Or.inr ⟨by linarith, by linarith, by linarith⟩,
            Or.inr ⟨by linarith, by linarith, by linarith⟩⟩
        · have e3 : d1 ≠ -d0 := fun h => hdiag ⟨h, e2⟩
          have s1 : -d0 < d1 := lt_of_le_of_ne a1 (Ne.symm e3)
          right; right
          exact ⟨Or.inr ⟨by linarith, by linarith, by linarith⟩,
            Or.inr ⟨by linarith, by linarith, by linarith⟩⟩
      · have s2 : d2 < d0 := lt_of_le_of_ne b2 e2
        by_cases e1 : d1 = d0
        · right; left
          exact ⟨Or.inl ⟨by linarith, by linarith, by linarith⟩,
            Or.inl ⟨by linarith, by linarith, by linarith⟩⟩
        · have s1 : d1 < d0 := lt_of_le_of_ne a2 e1
          left
          exact ⟨Or.inl ⟨by linarith, by linarith, by linarith⟩,
            Or.inl ⟨by linarith, by linarith, by linarith⟩⟩
  · by_cases hB : |d2| ≤ |d1|
    · have hB0 : |d0| < |d1| := by
        by_contra h
        exact hA ⟨not_lt.mp h, le_trans hB (not_lt.mp h)⟩
      have h1 : d1 ≠ 0 := by
        intro h
        rw [h, abs_zero] at hB0
        exact absurd hB0 (not_lt.mpr (abs_nonneg _))
      rcases lt_or_gt_of_ne h1 with hneg | hpos
      · rw [abs_of_neg hneg] at hB hB0
        obtain ⟨a1, a2⟩ := abs_lt.mp hB0
        obtain ⟨b1, b2⟩ := abs_le.mp hB
        by_cases e : d2 = d1
        · right; right
          exact ⟨Or.inl ⟨by linarith, by linarith, by linarith⟩,
            Or.inl ⟨by linarith, by linarith, by linarith⟩⟩
        · have s : d1 < d2 := lt_of_le_of_ne (by linarith) (Ne.symm e)
          right; left
          exact ⟨Or.inr ⟨by linarith, by linarith, by linarith⟩,
            Or.inr ⟨by linarith, by linarith, by linarith⟩⟩
      · rw [abs_of_pos hpos] at hB hB0
        obtain ⟨a1, a2⟩ := abs_lt.mp hB0
        obtain ⟨b1, b2⟩ := abs_le.mp hB
        by_cases e : d2 = d1
        · right; right
          exact ⟨Or.inr ⟨by linarith, by linarith, by linarith⟩,
            Or.inr ⟨by linarith, by linarith, by linarith⟩⟩
        · have s : d2 < d1 := lt_of_le_of_ne b2 e
          right; left
          exact ⟨Or.inl ⟨by linarith, by linarith, by linarith⟩,
            Or.inl ⟨by linarith, by linarith, by linarith⟩⟩
    · have hC1 : |d1| < |d2| := not_le.mp hB
      have hC0 : |d0| < |d2| := by
        by_contra h
        exact hA ⟨le_trans hC1.le (not_lt.mp h), not_lt.mp h⟩
      have h2 : d2 ≠ 0 := by
        intro h
        rw [h, abs_zero] at hC0
        exact absurd hC0 (not_lt.mpr (abs_nonneg _))
      right; right
      rcases lt_or_gt_of_ne h2 with hneg | hpos
      · rw [abs_of_neg hneg] at hC0 hC1
        obtain ⟨a1, a2⟩ := abs_lt.mp hC0
        obtain ⟨b1, b2⟩ := abs_lt.mp hC1
        exact ⟨Or.inl ⟨by linarith, by linarith, by linarith⟩,
          Or.inl ⟨by linarith, by linarith, by linarith⟩⟩
      · rw [abs_of_pos hpos] at hC0 hC1
        obtain ⟨a1, a2⟩ := abs_lt.mp hC0
        obtain ⟨b1, b2⟩ := abs_lt.mp hC1
        exact ⟨Or.inr ⟨by linarith, by linarith, by linarith⟩,
          Or.inr ⟨by linarith, by linarith, by linarith⟩⟩

end graphics

namespace graphics

open math

theorem face0_q (position : Vec3) (w : Nat) (hw : 0 < w) (d : Vec3) :
    mulVec (PinholeCamera.ofBasis position ![0, 0, 1] ![0, 1, 0]
      ![(w : ℚ) / 2, -((w : ℚ) / 2), -((w : ℚ) / 2)] w w).projectionMatrix d =
      ![d 2 + d 0, d 1 + d 0, d 0 / ((w : ℚ) / 2)] := by
  have hw' : (w : ℚ) ≠ 0 := by positivity
  apply vec3_ext
  all_goals simp only [PinholeCamera.ofBasis, PinholeCamera.refresh,
      PinholeCamera.getProjectionMatrix, inverse, determinant, transpose, getColumn, mulVec, dot,
      Fin.sum_univ_three, Matrix.cons_val_zero, Matrix.cons_val_one, Matrix.head_cons,
      Matrix.cons_val_two, Matrix.tail_cons]
  all_goals (field_simp; ring)

theorem face1_q (position : Vec3) (w : Nat) (hw : 0 < w) (d : Vec3) :
    mulVec (PinholeCamera.ofBasis position ![0, 0, 1] ![-1, 0, 0]
      ![(w : ℚ) / 2, (w : ℚ) / 2, -((w : ℚ) / 2)] w w).projectionMatrix d =
      ![d 2 + d 1, d 1 - d 0, d 1 / ((w : ℚ) / 2)] := by
  have hw' : (w : ℚ) ≠ 0 := by positivity
  apply vec3_ext
  all_goals simp only [PinholeCamera.ofBasis, PinholeCamera.refresh,
      PinholeCamera.getProjectionMatrix, inverse, determinant, transpose, getColumn, mulVec, dot,
      Fin.sum_univ_three, Matrix.cons_val_zero, Matrix.cons_val_one, Matrix.head_cons,
      Matrix.cons_val_two, Matrix.tail_cons]
  all_goals (field_simp; ring)

theorem face2_q (position : Vec3) (w : Nat) (hw : 0 < w) (d : Vec3) :
    mulVec (PinholeCamera.ofBasis position ![1, 0, 0] ![0, 1, 0]
      ![-((w : ℚ) / 2), -((w : ℚ) / 2), -((w : ℚ) / 2)] w w).projectionMatrix d =
      ![d 0 - d 2, d 1 - d 2, -(d 2 / ((w : ℚ) / 2))] := by
  have hw' : (w : ℚ) ≠ 0 := by positivity
  apply vec3_ext
  all_goals simp only [PinholeCamera.ofBasis, PinholeCamera.refresh,
      PinholeCamera.getProjectionMatrix, inverse, determinant, transpose, getColumn, mulVec, dot,
      Fin.sum_univ_three, Matrix.cons_val_zero, Matrix.cons_val_one, Matrix.head_cons,
      Matrix.cons_val_two, Matrix.tail_cons]
  all_goals first | (field_simp; ring; done) | (field_simp; ring_nf; field_simp)

end graphics

namespace graphics

open math

/-- A projection whose numerators and divisor satisfy the face condition falls on the
face. -/
theorem onFace_of_range (camera : PinholeCamera) (w : Nat) (hw : 0 < w) (point q : Vec3)
    (t : ℚ) (hwid : camera.width = w)
    (hq : mulVec camera.projectionMatrix (point - camera.center) = q)
    (ht : q 2 = t / ((w : ℚ) / 2)) (hx : inFaceRange t (q 0)) (hy : inFaceRange t (q 1)) :
    onFace camera (camera.projectDivisor point) (camera.project point) := by
  have hw' : (0 : ℚ) < (w : ℚ) / 2 := by positivity
  have ht0 : t ≠ 0 := by
    rcases hx with ⟨h, -⟩ | ⟨h, -⟩
    · exact ne_of_gt h
    · exact ne_of_lt h
  obtain ⟨x1, x2⟩ := inFaceRange_div _ t (q 0) hw' hx
  obtain ⟨y1, y2⟩ := inFaceRange_div _ t (q 1) hw' hy
  have hww : 2 * ((w : ℚ) / 2) = (w : ℚ) := by ring
  rw [hww] at x2 y2
  unfold onFace PinholeCamera.projectDivisor PinholeCamera.project
  rw [hq, hwid, ht]
  simp only [Matrix.cons_val_zero, Matrix.cons_val_one, Matrix.head_cons]
  exact ⟨div_ne_zero ht0 (ne_of_gt hw'), x1, x2, y1, y2⟩

/-- When some primary camera sees the ray on its face, `lookup` returns the sample of a
primary camera that sees the ray on its face. -/
theorem lookup_hit (cm : CubeMap) (ray : Vec3) (hprev : cm.previousHit < 3)
    (h : ∃ i, i < 3 ∧ onFace (cm.camera i) ((cm.camera i).projectDivisor (ray + cm.getPosition))
      ((cm.camera i).project (ray + cm.getPosition))) :
    ∃ i, i < 3 ∧
      onFace (cm.camera i) ((cm.camera i).projectDivisor (ray + cm.getPosition))
        ((cm.camera i).project (ray + cm.getPosition)) ∧
      (cm.lookup ray).1 = cm.sample i ((cm.camera i).project (ray + cm.getPosition)) := by
  unfold CubeMap.lookup
  by_cases hp : onFace (cm.camera cm.previousHit)
      ((cm.camera cm.previousHit).projectDivisor (ray + cm.getPosition))
      ((cm.camera cm.previousHit).project (ray + cm.getPosition))
  · exact ⟨cm.previousHit, hprev, hp, by simp only [hp, if_true]⟩
  · simp only [hp, if_false]
    have hne : ∀ i, onFace (cm.camera i) ((cm.camera i).projectDivisor (ray + cm.getPosition))
        ((cm.camera i).project (ray + cm.getPosition)) → i ≠ cm.previousHit := by
      intro i hi he
      rw [he] at hi
      exact hp hi
    by_cases h0 : onFace (cm.camera 0) ((cm.camera 0).projectDivisor (ray + cm.getPosition))
        ((cm.camera 0).project (ray + cm.getPosition))
    · refine ⟨0, by decide, h0, ?_⟩
      simp only [CubeMap.lookupProbe, hne 0 h0, h0, ne_eq, not_false_eq_true, and_self, if_true]
    · by_cases h1 : onFace (cm.camera 1) ((cm.camera 1).projectDivisor (ray + cm.getPosition))
          ((cm.camera 1).project (ray + cm.getPosition))
      · refine ⟨1, by decide, h1, ?_⟩
        simp only [CubeMap.lookupProbe, hne 1 h1, h0, h1, ne_eq, not_false_eq_true, and_self,
          and_false, if_true, if_false]
      · by_cases h2 : onFace (cm.camera 2)
            ((cm.camera 2).projectDivisor (ray + cm.getPosition))
            ((cm.camera 2).project (ray + cm.getPosition))
        · refine ⟨2, by decide, h2, ?_⟩
          simp only [CubeMap.lookupProbe, hne 2 h2, h0, h1, h2, ne_eq, not_false_eq_true,
            and_self, and_false, if_true, if_false]
        · obtain ⟨i, hi, hon⟩ := h
          interval_cases i
          · exact absurd hon h0
          · exact absurd hon h1
          · exact absurd hon h2

end graphics

namespace graphics

open math

/-- The face condition of one primary camera of a cube map whose cameras are the six face
cameras, for a direction satisfying the range condition of that camera. -/
theorem faceCameras_onFace (cm : CubeMap) (position : Vec3) (w : Nat) (hw : 0 < w)
    (hcm : cm.cameras = faceCameras position w) (d : Vec3)
    (h : (inFaceRange (d 0) (d 2 + d 0) ∧ inFaceRange (d 0) (d 1 + d 0)) ∨
      (inFaceRange (d 1) (d 2 + d 1) ∧ inFaceRange (d 1) (d 1 - d 0)) ∨
      (inFaceRange (-d 2) (d 0 - d 2) ∧ inFaceRange (-d 2) (d 1 - d 2))) :
    ∃ i, i < 3 ∧ onFace (cm.camera i) ((cm.camera i).projectDivisor (d + cm.getPosition))
      ((cm.camera i).project (d + cm.getPosition)) := by
  have hpos : cm.getPosition = position := by
    unfold CubeMap.getPosition CubeMap.camera
    rw [hcm]
    rfl
  have hsub : d + position - position = d := add_sub_cancel_right d position
  rw [hpos]
  rcases h with ⟨hx, hy⟩ | ⟨hx, hy⟩ | ⟨hx, hy⟩
  · refine ⟨0, by decide, ?_⟩
    unfold CubeMap.camera
    rw [hcm]
    simp only [faceCameras, List.getD_cons_zero]
    refine onFace_of_range _ w hw (d + position)
      ![d 2 + d 0, d 1 + d 0, d 0 / ((w : ℚ) / 2)] (d 0) rfl ?_ rfl hx hy
    rw [show (PinholeCamera.ofBasis position ![0, 0, 1] ![0, 1, 0]
      ![(w : ℚ) / 2, -((w : ℚ) / 2), -((w : ℚ) / 2)] w w).center = position from rfl, hsub]
    exact face0_q position w hw d
  · refine ⟨1, by decide, ?_⟩
    unfold CubeMap.camera
    rw [hcm]
    simp only [faceCameras, List.getD_cons_zero, List.getD_cons_succ]
    refine onFace_of_range _ w hw (d + position)
      ![d 2 + d 1, d 1 - d 0, d 1 / ((w : ℚ) / 2)] (d 1) rfl ?_ rfl hx hy
    rw [show (PinholeCamera.ofBasis position ![0, 0, 1] ![-1, 0, 0]
      ![(w : ℚ) / 2, (w : ℚ) / 2, -((w : ℚ) / 2)] w w).center = position from rfl, hsub]
    exact face1_q position w hw d
  · refine ⟨2, by decide, ?_⟩
    unfold CubeMap.camera
    rw [hcm]
    simp only [faceCameras, List.getD_cons_zero, List.getD_cons_succ]
    refine onFace_of_range _ w hw (d + position)
      ![d 0 - d 2, d 1 - d 2, -(d 2 / ((w : ℚ) / 2))] (-d 2) rfl ?_ ?_ hx hy
    · rw [show (PinholeCamera.ofBasis position ![1, 0, 0] ![0, 1, 0]
        ![-((w : ℚ) / 2), -((w : ℚ) / 2), -((w : ℚ) / 2)] w w).center = position from rfl,
        hsub]
      exact face2_q position w hw d
    · exact (neg_div _ _).symm

/-- Face coverage in exact arithmetic: in a cube map with the cameras of
`CubeMap(resolution, position)`, `resolution > 0`, library functions exact at the quarter
turns (which the floating-point `std::cos` and `std::sin` at a `float` multiple of pi are
not), any face contents and any cached face in `{0, 1, 2}`, for every non-zero direction
`d` that is not a multiple of `(1, -1, 1)` the projection of `position + d` falls within
`[0, resolution) x [0, resolution)` for one of the three primary cameras, and `lookup`
returns the sample of such a camera instead of the fallback colour. -/
theorem lookup_lands_on_face (m : Libm) (hm : m.ExactOnQuarterTurns) (resolution : Nat)
    (hres : 0 < resolution) (position : Vec3) (cm : CubeMap)
    (hcams : cm.cameras = (CubeMap.ofResolution m resolution position).cameras)
    (hprev : cm.previousHit < 3) (d : Vec3) (hd : d ≠ 0)
    (hdiag : ¬ (d 1 = -d 0 ∧ d 2 = d 0)) :
    ∃ i, i < 3 ∧
      onFace (cm.camera i) ((cm.camera i).projectDivisor (d + cm.getPosition))
        ((cm.camera i).project (d + cm.getPosition)) ∧
      (cm.lookup d).1 = cm.sample i ((cm.camera i).project (d + cm.getPosition)) := by
  rw [ofResolution_cameras m hm] at hcams
  apply lookup_hit cm d hprev
  apply faceCameras_onFace cm position resolution hres hcams d
  apply face_cases _ _ _ _ hdiag
  rintro ⟨h0, h1, h2⟩
  exact hd (vec3_ext _ _ h0 h1 h2)

theorem lookup_lands_on_face_witness :
    tableLibm.ExactOnQuarterTurns ∧ 0 < 2 ∧
      (CubeMap.ofResolution tableLibm 2 0).previousHit < 3 ∧ (![1, 1, 1] : Vec3) ≠ 0 ∧
      ¬ ((![1, 1, 1] : Vec3) 1 = -(![1, 1, 1] : Vec3) 0 ∧
        (![1, 1, 1] : Vec3) 2 = (![1, 1, 1] : Vec3) 0) ∧
      ∃ i, i < 3 ∧
        onFace ((CubeMap.ofResolution tableLibm 2 0).camera i)
          (((CubeMap.ofResolution tableLibm 2 0).camera i).projectDivisor
            (![1, 1, 1] + (CubeMap.ofResolution tableLibm 2 0).getPosition))
          (((CubeMap.ofResolution tableLibm 2 0).camera i).project
            (![1, 1, 1] + (CubeMap.ofResolution tableLibm 2 0).getPosition)) ∧
        ((CubeMap.ofResolution tableLibm 2 0).lookup ![1, 1, 1]).1 =
          (CubeMap.ofResolution tableLibm 2 0).sample i
            (((CubeMap.ofResolution tableLibm 2 0).camera i).project
              (![1, 1, 1] + (CubeMap.ofResolution tableLibm 2 0).getPosition)) :=
  ⟨by decide!, by decide, by decide!, by decide!, by decide!,
    lookup_lands_on_face tableLibm (by decide!) 2 (by decide) 0
      (CubeMap.ofResolution tableLibm 2 0) rfl (by decide!) ![1, 1, 1] (by decide!)
      (by decide!)⟩

/-- The corner direction in exact arithmetic: for the cube map `CubeMap(2, 0)` with library
functions exact at the quarter turns and the non-zero direction `(1, -1, 1)`, the
projection falls outside `[0, 2) x [0, 2)` for each of the three primary cameras, and
`lookup` returns the fallback colour. -/
theorem lookup_misses_corner :
    tableLibm.ExactOnQuarterTurns ∧ (![1, -1, 1] : Vec3) ≠ 0 ∧
      (CubeMap.ofResolution tableLibm 2 0).previousHit = 0 ∧
      (¬ ∃ i, i < 3 ∧
        onFace ((CubeMap.ofResolution tableLibm 2 0).camera i)
          (((CubeMap.ofResolution tableLibm 2 0).camera i).projectDivisor
            (![1, -1, 1] + (CubeMap.ofResolution tableLibm 2 0).getPosition))
          (((CubeMap.ofResolution tableLibm 2 0).camera i).project
            (![1, -1, 1] + (CubeMap.ofResolution tableLibm 2 0).getPosition))) ∧
      ((CubeMap.ofResolution tableLibm 2 0).lookup ![1, -1, 1]).1 = black := by
  refine ⟨by decide!, by decide!, rfl, by decide!, by decide!⟩

end graphics

namespace math

/-- The loop of `power` leaves `result * base ^ exponent` in `result`. -/
theorem powerLoop_eq (exponent : Nat) :
    ∀ base result : ℚ, powerLoop base exponent result = result * base ^ exponent := by
  induction exponent using Nat.strong_induction_on with
  | _ e ih =>
    intro base result
    rw [powerLoop]
    by_cases h0 : e = 0
    · rw [if_pos h0, h0, pow_zero, mul_one]
    · rw [if_neg h0, Nat.shiftRight_eq_div_pow, pow_one,
        ih (e / 2) (Nat.div_lt_self (Nat.pos_of_ne_zero h0) (by norm_num)), Nat.and_one_is_mod]
      have hsplit : base ^ e = (base * base) ^ (e / 2) * base ^ (e % 2) := by
        rw [← pow_two, ← pow_mul, ← pow_add, Nat.div_add_mod]
      rw [hsplit]
      rcases Nat.mod_two_eq_zero_or_one e with h | h
      · rw [h, if_neg (by decide), pow_zero, mul_one]
      · rw [h, if_pos (by decide), pow_one]
        ring

/-- C18 (integer power): `math::power` is a total function of its arguments (its loop
halves the exponent, so it ends for every unsigned exponent) and its result is
`base ^ exponent`; in particular `power(base, 0) = 1`. -/
theorem power_eq_pow (base : ℚ) (exponent : Nat) :
    power base exponent = base ^ exponent ∧ power base 0 = 1 := by
  unfold power
  rw [powerLoop_eq, powerLoop_eq, one_mul, one_mul, pow_zero]
  exact ⟨rfl, rfl⟩

end math

namespace graphics
open math

/-- C14 (shading saturation): for a material with `kM > 0` and `kX > 0` the curve
`f(k) = 1 - 1 / (kM * k + kX)` that `light` applies to the raw diffuse sum is strictly
increasing on `k >= 0` and stays below `1`. -/
theorem compress_strictMono_lt_one (material : Material) (k1 k2 : ℚ)
    (hM : 0 < material.kM) (hX : 0 < material.kX) (h1 : 0 ≤ k1) (h12 : k1 < k2) :
    compress material k1 < compress material k2 ∧ compress material k2 < 1 := by
  unfold compress
  have hd1 : 0 < material.kM * k1 + material.kX := by positivity
  have hd2 : 0 < material.kM * k2 + material.kX := by
    have : 0 ≤ k2 := le_of_lt (lt_of_le_of_lt h1 h12)
    positivity
  have hlt : material.kM * k1 + material.kX < material.kM * k2 + material.kX := by
    have := mul_lt_mul_of_pos_left h12 hM
    linarith
  have hinv := one_div_lt_one_div_of_lt hd1 hlt
  have hpos : 0 < 1 / (material.kM * k2 + material.kX) := one_div_pos.mpr hd2
  constructor <;> linarith

theorem compress_strictMono_lt_one_witness :
    (0 : ℚ) < flat.kM ∧ (0 : ℚ) < flat.kX ∧ (0 : ℚ) ≤ 0 ∧ (0 : ℚ) < 1 ∧
      compress flat 0 < compress flat 1 ∧ compress flat 1 < 1 :=
  ⟨by decide!, by decide!, le_refl 0, by norm_num,
    compress_strictMono_lt_one flat 0 1 (by decide!) (by decide!) (le_refl 0) (by norm_num)⟩

end graphics

namespace graphics
open math

/-- Collinear vertices, or a vertex with a non-positive reciprocal depth, are rejected by
the two guards at the head of the rasterisation routines. -/
theorem rejected_of_degenerate (camera : PinholeCamera) (t1 t2 t3 : Vec3)
    (h : cross (t2 - t1) (t3 - t1) = 0 ∨ camera.project t1 2 ≤ 0 ∨
      camera.project t2 2 ≤ 0 ∨ camera.project t3 2 ≤ 0) :
    rejected camera t1 t2 t3 := by
  rcases h with h | h
  · refine Or.inl ?_
    unfold backFacing
    rw [h]
    simp [dot]
  · exact Or.inr h

/-- C20 (edge-case triangles): when the three vertices are collinear (the cross product of
two edges is zero) or some vertex projects to a non-positive reciprocal depth,
`prerenderTriangle` and both `renderTriangle` overloads return the framebuffer they were
given, colour plane and depth plane unchanged. -/
theorem degenerate_triangle_noop (m : Libm) (fb : Framebuffer) (camera : PinholeCamera)
    (texture : Framebuffer) (t1 t2 t3 : Vec3) (c1 c2 c3 : Vec4) (r1 r2 r3 : Vec2)
    (n1 n2 n3 : Vec3) (dls : List DirectionalLight) (pls : List PointLight)
    (refl : Option CubeMap) (material : Material)
    (h : cross (t2 - t1) (t3 - t1) = 0 ∨ camera.project t1 2 ≤ 0 ∨
      camera.project t2 2 ≤ 0 ∨ camera.project t3 2 ≤ 0) :
    fb.prerenderTriangle camera t1 t2 t3 = fb ∧
      (fb.renderTriangle m camera t1 t2 t3 c1 c2 c3 n1 n2 n3 dls pls refl material).framebuffer =
        fb ∧
      (fb.renderTexturedTriangle m camera texture t1 t2 t3 r1 r2 r3 n1 n2 n3 dls pls refl
        material).framebuffer = fb := by
  have hr := rejected_of_degenerate camera t1 t2 t3 h
  refine ⟨?_, ?_, ?_⟩
  · rw [prerenderTriangle_eq, if_pos hr]
  · rw [renderTriangle_eq, if_pos hr]
  · rw [renderTexturedTriangle_eq, if_pos hr]

theorem degenerate_triangle_noop_witness :
    (cross ((![0, 0, -2] : Vec3) - ![-2, -2, -2]) (![2, 2, -2] - ![-2, -2, -2]) = 0 ∨
        sampleCamera.project ![-2, -2, -2] 2 ≤ 0 ∨ sampleCamera.project ![0, 0, -2] 2 ≤ 0 ∨
        sampleCamera.project ![2, 2, -2] 2 ≤ 0) ∧
      sampleFramebuffer.prerenderTriangle sampleCamera ![-2, -2, -2] ![0, 0, -2] ![2, 2, -2] =
        sampleFramebuffer ∧
      (sampleFramebuffer.renderTriangle tableLibm sampleCamera ![-2, -2, -2] ![0, 0, -2]
        ![2, 2, -2] ![1, 0, 0, 1] ![0, 1, 0, 1] ![0, 0, 1, 1] ![0, 0, 1] ![0, 0, 1] ![0, 0, 1]
        [] [] none flat).framebuffer = sampleFramebuffer ∧
      (sampleFramebuffer.renderTexturedTriangle tableLibm sampleCamera sampleTexture
        ![-2, -2, -2] ![0, 0, -2] ![2, 2, -2] ![0, 0] ![1, 0] ![0, 1] ![0, 0, 1] ![0, 0, 1]
        ![0, 0, 1] [] [] none flat).framebuffer = sampleFramebuffer :=
  ⟨Or.inl (by decide!),
    degenerate_triangle_noop tableLibm sampleFramebuffer sampleCamera sampleTexture
      ![-2, -2, -2] ![0, 0, -2] ![2, 2, -2] ![1, 0, 0, 1] ![0, 1, 0, 1] ![0, 0, 1, 1] ![0, 0]
      ![1, 0] ![0, 1] ![0, 0, 1] ![0, 0, 1] ![0, 0, 1] [] [] none flat (Or.inl (by decide!))⟩

end graphics

namespace graphics
open math

/-- The conversion to `std::size_t` of a non-negative number is its integer part. -/
theorem truncToSize_bounds (x : ℚ) (hx : 0 ≤ x) :
    (truncToSize x : ℚ) ≤ x ∧ x < (truncToSize x : ℚ) + 1 := by
  unfold truncToSize
  have h0 : (0 : Int) ≤ ⌊x⌋ := Int.floor_nonneg.mpr hx
  have hcast : ((⌊x⌋.toNat : Nat) : ℚ) = ((⌊x⌋ : Int) : ℚ) := by
    have := Int.toNat_of_nonneg h0
    exact_mod_cast this
  rw [hcast]
  exact ⟨Int.floor_le x, Int.lt_floor_add_one x⟩

theorem getVisibility_eq_one (fb : Framebuffer) (x y : Nat) (z : ℚ)
    (h : z ≥ fb.zLookup x y - 1 / 10) : fb.getVisibility x y z = 1 := by
  unfold Framebuffer.getVisibility
  unfold Framebuffer.zLookup at h
  rw [if_pos h]

theorem getVisibility_eq_zero (fb : Framebuffer) (x y : Nat) (z : ℚ)
    (h : ¬ z ≥ fb.zLookup x y - 1 / 10) : fb.getVisibility x y z = 0 := by
  unfold Framebuffer.getVisibility
  unfold Framebuffer.zLookup at h
  rw [if_neg h]

theorem getVisibility_range (fb : Framebuffer) (x y : Nat) (z : ℚ) :
    0 ≤ fb.getVisibility x y z ∧ fb.getVisibility x y z ≤ 1 := by
  by_cases h : z ≥ fb.zLookup x y - 1 / 10
  · rw [getVisibility_eq_one fb x y z h]
    norm_num
  · rw [getVisibility_eq_zero fb x y z h]
    norm_num

theorem getVisibility_mono (fb : Framebuffer) (x y : Nat) (z z2 : ℚ) (hz : z ≤ z2) :
    fb.getVisibility x y z ≤ fb.getVisibility x y z2 := by
  by_cases h : z ≥ fb.zLookup x y - 1 / 10
  · rw [getVisibility_eq_one fb x y z h, getVisibility_eq_one fb x y z2 (le_trans h hz)]
  · rw [getVisibility_eq_zero fb x y z h]
    exact (getVisibility_range fb x y z2).1

/-- The value of `getBilinearVisibility` away from the last row and column is a convex
combination of the four comparisons. -/
theorem bilinear_convex (a b v1 v2 v3 v4 w1 w2 w3 w4 : ℚ) (ha0 : 0 ≤ a) (ha1 : a ≤ 1)
    (hb0 : 0 ≤ b) (hb1 : b ≤ 1) (h1 : v1 ≤ w1) (h2 : v2 ≤ w2) (h3 : v3 ≤ w3) (h4 : v4 ≤ w4) :
    (1 - a) * (1 - b) * v1 + a * (1 - b) * v2 + (1 - a) * b * v3 + a * b * v4 ≤
      (1 - a) * (1 - b) * w1 + a * (1 - b) * w2 + (1 - a) * b * w3 + a * b * w4 := by
  have e1 : 0 ≤ (1 - a) * (1 - b) := mul_nonneg (by linarith) (by linarith)
  have e2 : 0 ≤ a * (1 - b) := mul_nonneg ha0 (by linarith)
  have e3 : 0 ≤ (1 - a) * b := mul_nonneg (by linarith) hb0
  have e4 : 0 ≤ a * b := mul_nonneg ha0 hb0
  have := mul_le_mul_of_nonneg_left h1 e1
  have := mul_le_mul_of_nonneg_left h2 e2
  have := mul_le_mul_of_nonneg_left h3 e3
  have := mul_le_mul_of_nonneg_left h4 e4
  linarith

/-- The unfolding of `getBilinearVisibility` with the weights written from the fractional
parts `a = x - x1` and `b = y - y1`. -/
theorem getBilinearVisibility_eq (fb : Framebuffer) (x y z : ℚ) :
    fb.getBilinearVisibility x y z =
      if truncToSize x + 1 ≥ fb.width ∨ truncToSize y + 1 ≥ fb.height then
        fb.getVisibility (truncToSize x) (truncToSize y) z
      else
        (1 - (x - truncToSize x)) * (1 - (y - truncToSize y)) *
            fb.getVisibility (truncToSize x) (truncToSize y) z +
          (x - truncToSize x) * (1 - (y - truncToSize y)) *
            fb.getVisibility (truncToSize x + 1) (truncToSize y) z +
          (1 - (x - truncToSize x)) * (y - truncToSize y) *
            fb.getVisibility (truncToSize x) (truncToSize y + 1) z +
          (x - truncToSize x) * (y - truncToSize y) *
            fb.getVisibility (truncToSize x + 1) (truncToSize y + 1) z := by
  unfold Framebuffer.getBilinearVisibility
  simp only []
  split_ifs
  · rfl
  · push_cast
    ring

end graphics

namespace graphics
open math

/-- C19 (soft visibility): for `0 <= x < width` and `0 <= y < height` the value of
`getBilinearVisibility(x, y, z)` lies in `[0, 1]` and is non-decreasing in `z`; it is `1`
when `z >= stored - 0.1` holds at the four texels `(x1 + i, y1 + j)`, `i, j <= 1`, around
the sample, and `0` when the comparison fails at all four; the texel `(x1, y1)` is a pixel
of the framebuffer. -/
theorem getBilinearVisibility_soft (fb : Framebuffer) (x y z : ℚ) (hx : 0 ≤ x)
    (hxw : x < fb.width) (hy : 0 ≤ y) (hyh : y < fb.height) :
    (truncToSize x < fb.width ∧ truncToSize y < fb.height) ∧
      (0 ≤ fb.getBilinearVisibility x y z ∧ fb.getBilinearVisibility x y z ≤ 1) ∧
      (∀ z2 : ℚ, z ≤ z2 →
        fb.getBilinearVisibility x y z ≤ fb.getBilinearVisibility x y z2) ∧
      ((∀ i j : Nat, i ≤ 1 → j ≤ 1 →
          z ≥ fb.zLookup (truncToSize x + i) (truncToSize y + j) - 1 / 10) →
        fb.getBilinearVisibility x y z = 1) ∧
      ((∀ i j : Nat, i ≤ 1 → j ≤ 1 →
          ¬ z ≥ fb.zLookup (truncToSize x + i) (truncToSize y + j) - 1 / 10) →
        fb.getBilinearVisibility x y z = 0) := by
  obtain ⟨ha0, ha1⟩ := truncToSize_bounds x hx
  obtain ⟨hb0, hb1⟩ := truncToSize_bounds y hy
  have a0 : 0 ≤ x - truncToSize x := by linarith
  have a1 : x - truncToSize x ≤ 1 := by linarith
  have b0 : 0 ≤ y - truncToSize y := by linarith
  have b1 : y - truncToSize y ≤ 1 := by linarith
  have r1 := fun z => getVisibility_range fb (truncToSize x) (truncToSize y) z
  have r2 := fun z => getVisibility_range fb (truncToSize x + 1) (truncToSize y) z
  have r3 := fun z => getVisibility_range fb (truncToSize x) (truncToSize y + 1) z
  have r4 := fun z => getVisibility_range fb (truncToSize x + 1) (truncToSize y + 1) z
  refine ⟨⟨?_, ?_⟩, ?_, ?_, ?_, ?_⟩
  · exact_mod_cast lt_of_le_of_lt ha0 hxw
  · exact_mod_cast lt_of_le_of_lt hb0 hyh
  · rw [getBilinearVisibility_eq]
    split_ifs
    · exact r1 z
    · constructor
      · have := bilinear_convex _ _ 0 0 0 0 _ _ _ _ a0 a1 b0 b1 (r1 z).1 (r2 z).1 (r3 z).1
          (r4 z).1
        linarith
      · have := bilinear_convex _ _ _ _ _ _ 1 1 1 1 a0 a1 b0 b1 (r1 z).2 (r2 z).2 (r3 z).2
          (r4 z).2
        linarith
  · intro z2 hz
    rw [getBilinearVisibility_eq, getBilinearVisibility_eq]
    split_ifs
    · exact getVisibility_mono fb _ _ z z2 hz
    · exact bilinear_convex _ _ _ _ _ _ _ _ _ _ a0 a1 b0 b1 (getVisibility_mono fb _ _ z z2 hz)
        (getVisibility_mono fb _ _ z z2 hz) (getVisibility_mono fb _ _ z z2 hz)
        (getVisibility_mono fb _ _ z z2 hz)
  · intro h
    have h00 := getVisibility_eq_one fb _ _ z (h 0 0 (by norm_num) (by norm_num))
    have h10 := getVisibility_eq_one fb _ _ z (h 1 0 (by norm_num) (by norm_num))
    have h01 := getVisibility_eq_one fb _ _ z (h 0 1 (by norm_num) (by norm_num))
    have h11 := getVisibility_eq_one fb _ _ z (h 1 1 (le_refl 1) (le_refl 1))
    simp only [Nat.add_zero] at h00 h10 h01
    rw [getBilinearVisibility_eq, h00, h10, h01, h11]
    split_ifs
    · rfl
    · ring
  · intro h
    have h00 := getVisibility_eq_zero fb _ _ z (h 0 0 (by norm_num) (by norm_num))
    have h10 := getVisibility_eq_zero fb _ _ z (h 1 0 (by norm_num) (by norm_num))
    have h01 := getVisibility_eq_zero fb _ _ z (h 0 1 (by norm_num) (by norm_num))
    have h11 := getVisibility_eq_zero fb _ _ z (h 1 1 (le_refl 1) (le_refl 1))
    simp only [Nat.add_zero] at h00 h10 h01
    rw [getBilinearVisibility_eq, h00, h10, h01, h11]
    split_ifs
    · rfl
    · ring

theorem getBilinearVisibility_soft_witness :
    ((0 : ℚ) ≤ 1 / 2 ∧ (1 / 2 : ℚ) < sampleTexture.width ∧ (0 : ℚ) ≤ 1 / 2 ∧
        (1 / 2 : ℚ) < sampleTexture.height) ∧
      0 ≤ sampleTexture.getBilinearVisibility (1 / 2) (1 / 2) 0 ∧
      sampleTexture.getBilinearVisibility (1 / 2) (1 / 2) 0 ≤ 1 :=
  ⟨⟨by norm_num, by decide!, by norm_num, by decide!⟩,
    (getBilinearVisibility_soft sampleTexture (1 / 2) (1 / 2) 0 (by norm_num) (by decide!)
      (by norm_num) (by decide!)).2.1⟩

end graphics

namespace graphics
open math

/-- The test `static_cast<int>(fx) % 2` is non-zero exactly for odd `fx`, also for
negative ones, where the remainder is `-1`. -/
theorem tmod_two_ne_zero_iff (f : Int) : Int.tmod f 2 ≠ 0 ↔ ∃ k : Int, f = 2 * k - 1 := by
  rw [Ne, ← Int.dvd_iff_tmod_eq_zero]
  constructor
  · intro h
    refine ⟨(f + 1) / 2, ?_⟩
    omega
  · rintro ⟨k, rfl⟩
    omega

/-- The wrapped coordinate is the distance from `t` to an even integer, and no even integer
is nearer. -/
theorem wrapCoordinate_dist (t : ℚ) :
    ∃ k : Int, wrapCoordinate t = |t - 2 * (k : ℚ)| ∧
      ∀ j : Int, |t - 2 * (k : ℚ)| ≤ |t - 2 * (j : ℚ)| := by
  have hlo : ((⌊t⌋ : Int) : ℚ) ≤ t := Int.floor_le t
  have hhi : t < ((⌊t⌋ : Int) : ℚ) + 1 := Int.lt_floor_add_one t
  unfold wrapCoordinate
  by_cases hodd : Int.tmod ⌊t⌋ 2 ≠ 0
  · rw [if_pos hodd]
    obtain ⟨k, hk⟩ := (tmod_two_ne_zero_iff ⌊t⌋).mp hodd
    have hkq : ((⌊t⌋ : Int) : ℚ) = 2 * (k : ℚ) - 1 := by rw [hk]; push_cast; ring
    rw [hkq] at hlo hhi ⊢
    refine ⟨k, ?_, ?_⟩
    · rw [abs_of_nonpos (by linarith)]
      ring
    · intro j
      rw [abs_of_nonpos (by linarith : t - 2 * (k : ℚ) ≤ 0)]
      rcases le_or_lt k j with hjk | hjk
      · have : (k : ℚ) ≤ (j : ℚ) := by exact_mod_cast hjk
        rw [abs_of_nonpos (by linarith)]
        linarith
      · have : (j : ℚ) + 1 ≤ (k : ℚ) := by exact_mod_cast hjk
        rw [abs_of_nonneg (by linarith)]
        linarith
  · rw [if_neg hodd]
    have heven : (2 : Int) ∣ ⌊t⌋ := by
      rw [Int.dvd_iff_tmod_eq_zero]
      exact not_not.mp hodd
    obtain ⟨k, hk⟩ := heven
    have hkq : ((⌊t⌋ : Int) : ℚ) = 2 * (k : ℚ) := by rw [hk]; push_cast; ring
    rw [hkq] at hlo hhi ⊢
    refine ⟨k, ?_, ?_⟩
    · rw [abs_of_nonneg (by linarith)]
    · intro j
      rw [abs_of_nonneg (by linarith : 0 ≤ t - 2 * (k : ℚ))]
      rcases le_or_lt j k with hjk | hjk
      · have : (j : ℚ) ≤ (k : ℚ) := by exact_mod_cast hjk
        rw [abs_of_nonneg (by linarith)]
        linarith
      · have : (k : ℚ) + 1 ≤ (j : ℚ) := by exact_mod_cast hjk
        rw [abs_of_nonpos (by linarith)]
        linarith

/-- Two numbers with the same set of distances to the even integers wrap to the same
coordinate. -/
theorem wrapCoordinate_congr (s t : ℚ) (f : Int → Int)
    (h : ∀ j : Int, |s - 2 * (j : ℚ)| = |t - 2 * ((f j : Int) : ℚ)|) :
    wrapCoordinate t ≤ wrapCoordinate s := by
  obtain ⟨k, hk, _⟩ := wrapCoordinate_dist s
  obtain ⟨l, hl, hmin⟩ := wrapCoordinate_dist t
  rw [hk, hl, h k]
  exact hmin (f k)

theorem wrapCoordinate_range (t : ℚ) : 0 ≤ wrapCoordinate t ∧ wrapCoordinate t ≤ 1 := by
  have hlo : ((⌊t⌋ : Int) : ℚ) ≤ t := Int.floor_le t
  have hhi : t < ((⌊t⌋ : Int) : ℚ) + 1 := Int.lt_floor_add_one t
  unfold wrapCoordinate
  split_ifs <;> constructor <;> linarith

end graphics

namespace graphics
open math

theorem wrapCoordinate_neg (t : ℚ) : wrapCoordinate (-t) = wrapCoordinate t := by
  have h1 : ∀ j : Int, |t - 2 * (j : ℚ)| = |-t - 2 * (((-j : Int) : Int) : ℚ)| := by
    intro j
    rw [← abs_neg]
    congr 1
    push_cast
    ring
  have h2 : ∀ j : Int, |-t - 2 * (j : ℚ)| = |t - 2 * (((-j : Int) : Int) : ℚ)| := by
    intro j
    rw [← abs_neg]
    congr 1
    push_cast
    ring
  exact le_antisymm (wrapCoordinate_congr t (-t) (fun j => -j) h1)
    (wrapCoordinate_congr (-t) t (fun j => -j) h2)

theorem wrapCoordinate_add_two (t : ℚ) : wrapCoordinate (t + 2) = wrapCoordinate t := by
  have h1 : ∀ j : Int, |t - 2 * (j : ℚ)| = |t + 2 - 2 * (((j + 1 : Int) : Int) : ℚ)| := by
    intro j
    congr 1
    push_cast
    ring
  have h2 : ∀ j : Int, |t + 2 - 2 * (j : ℚ)| = |t - 2 * (((j - 1 : Int) : Int) : ℚ)| := by
    intro j
    congr 1
    push_cast
    ring
  exact le_antisymm (wrapCoordinate_congr t (t + 2) (fun j => j + 1) h1)
    (wrapCoordinate_congr (t + 2) t (fun j => j - 1) h2)

theorem wrapCoordinate_unit (t : ℚ) (h0 : 0 ≤ t) (h1 : t ≤ 1) : wrapCoordinate t = t := by
  unfold wrapCoordinate
  rcases eq_or_lt_of_le h1 with h | h
  · rw [h, Int.floor_one, if_pos (by decide)]
    norm_num
  · have hf : ⌊t⌋ = 0 := by
      rw [Int.floor_eq_iff]
      constructor
      · simpa using h0
      · simpa using h
    rw [hf, if_neg (by decide)]
    simp

/-- C13 (texture wrap): the wrapped coordinate is the distance from `t` to the nearest
even integer; it lies in `[0, 1]`, equals `t` on `[0, 1]`, is even and has period `2`; so
for a texture with at least one row and one column the sample coordinates lie in
`[0, width - 1] x [0, height - 1]`. -/
theorem wrapCoordinate_mirrored_repeat (t : ℚ) (texture : Framebuffer) (dx dy n : ℚ)
    (hw : 0 < texture.width) (hh : 0 < texture.height) :
    (∃ k : Int, wrapCoordinate t = |t - 2 * (k : ℚ)| ∧
        ∀ j : Int, |t - 2 * (k : ℚ)| ≤ |t - 2 * (j : ℚ)|) ∧
      (0 ≤ wrapCoordinate t ∧ wrapCoordinate t ≤ 1) ∧
      (0 ≤ t → t ≤ 1 → wrapCoordinate t = t) ∧
      wrapCoordinate (-t) = wrapCoordinate t ∧
      wrapCoordinate (t + 2) = wrapCoordinate t ∧
      (0 ≤ (textureCoordinates texture dx dy n).1 ∧
        (textureCoordinates texture dx dy n).1 ≤ (texture.width : ℚ) - 1) ∧
      (0 ≤ (textureCoordinates texture dx dy n).2 ∧
        (textureCoordinates texture dx dy n).2 ≤ (texture.height : ℚ) - 1) := by
  have hwq : ((texture.width - 1 : Nat) : ℚ) = (texture.width : ℚ) - 1 := by
    rw [Nat.cast_sub hw, Nat.cast_one]
  have hhq : ((texture.height - 1 : Nat) : ℚ) = (texture.height : ℚ) - 1 := by
    rw [Nat.cast_sub hh, Nat.cast_one]
  have hw0 : (0 : ℚ) ≤ (texture.width : ℚ) - 1 := by
    rw [← hwq]
    exact Nat.cast_nonneg _
  have hh0 : (0 : ℚ) ≤ (texture.height : ℚ) - 1 := by
    rw [← hhq]
    exact Nat.cast_nonneg _
  obtain ⟨x0, x1⟩ := wrapCoordinate_range (dx / n)
  obtain ⟨y0, y1⟩ := wrapCoordinate_range (dy / n)
  refine ⟨wrapCoordinate_dist t, wrapCoordinate_range t, wrapCoordinate_unit t,
    wrapCoordinate_neg t, wrapCoordinate_add_two t, ⟨?_, ?_⟩, ⟨?_, ?_⟩⟩
  · unfold textureCoordinates
    rw [hwq]
    exact mul_nonneg x0 hw0
  · unfold textureCoordinates
    rw [hwq]
    exact mul_le_of_le_one_left hw0 x1
  · unfold textureCoordinates
    rw [hhq]
    exact mul_nonneg y0 hh0
  · unfold textureCoordinates
    rw [hhq]
    exact mul_le_of_le_one_left hh0 y1

theorem wrapCoordinate_mirrored_repeat_witness :
    (0 < sampleTexture.width ∧ 0 < sampleTexture.height) ∧
      wrapCoordinate (-(5 / 4)) = wrapCoordinate (5 / 4) ∧
      wrapCoordinate (5 / 4 + 2) = wrapCoordinate (5 / 4) :=
  ⟨⟨by decide, by decide⟩,
    (wrapCoordinate_mirrored_repeat (5 / 4) sampleTexture 1 1 1 (by decide)
      (by decide)).2.2.2.1,
    (wrapCoordinate_mirrored_repeat (5 / 4) sampleTexture 1 1 1 (by decide)
      (by decide)).2.2.2.2.1⟩

end graphics

namespace graphics
open math

/-- The shaded colour of `light` is the rescaled value of `result`. -/
theorem shade_fst (m : Libm) (reflectionMap : Option CubeMap) (color : Vec4)
    (normal surfacePoint cameraPosition : Vec3) (dls : List DirectionalLight)
    (pls : List PointLight) (w : ℚ) (material : Material) :
    (shade m reflectionMap color normal surfacePoint cameraPosition dls pls w material).1 =
      clampColor
        (unclamped m reflectionMap color normal surfacePoint cameraPosition dls pls w
          material) := by
  unfold shade unclamped
  cases reflectionMap with
  | none => rfl
  | some environment =>
    simp only []
    split_ifs <;> rfl

theorem max3_div (v : Vec3) (c : ℚ) (hc : 0 ≤ c) :
    max3 (fun i => v i / c) = max3 v / c := by
  unfold max3
  rw [max_div_div_right hc, max_div_div_right hc]

theorem max3_mul (v : Vec3) (c : ℚ) (hc : 0 ≤ c) :
    max3 (fun i => v i * c) = max3 v * c := by
  unfold max3
  rw [max_mul_of_nonneg _ _ hc, max_mul_of_nonneg _ _ hc]

/-- The rescaling divides the three channels by the largest one, which becomes `1`. -/
theorem clampColor_of_gt (v : Vec3) (h : 1 < max3 v) :
    clampColor v = (fun i => v i / max3 v) ∧ max3 (clampColor v) = 1 := by
  have hpos : 0 < max3 v := lt_trans one_pos h
  have hc : clampColor v = fun i => v i / max3 v := by
    unfold clampColor
    rw [if_pos h]
  refine ⟨hc, ?_⟩
  rw [hc, max3_div v _ (le_of_lt hpos), div_self (ne_of_gt hpos)]

end graphics

namespace graphics
open math

/-- The colour `light` returns, channel by channel: the shaded colour times the alpha. -/
theorem light_rgb (m : Libm) (reflectionMap : Option CubeMap) (color : Vec4)
    (normal surfacePoint cameraPosition : Vec3) (dls : List DirectionalLight)
    (pls : List PointLight) (w : ℚ) (material : Material) :
    (![(light m reflectionMap color normal surfacePoint cameraPosition dls pls w material).1 0,
        (light m reflectionMap color normal surfacePoint cameraPosition dls pls w material).1 1,
        (light m reflectionMap color normal surfacePoint cameraPosition dls pls w material).1 2]
      : Vec3) =
      fun i =>
        (shade m reflectionMap color normal surfacePoint cameraPosition dls pls w material).1 i *
          color 3 := by
  funext i
  fin_cases i <;> rfl

/-- C15 (colour clamp), amended: when the unclamped result has a channel greater than `1`,
`light` divides its three channels by the largest one, the same positive factor for all,
so that the largest channel of the clamped result is exactly `1`; the colour returned is
the clamped result times the surface alpha, so its largest RGB channel is the alpha when
the alpha is not negative, and exactly `1` for an opaque surface. -/
theorem light_clamp_premultiplied (m : Libm) (reflectionMap : Option CubeMap) (color : Vec4)
    (normal surfacePoint cameraPosition : Vec3) (dls : List DirectionalLight)
    (pls : List PointLight) (w : ℚ) (material : Material)
    (h : 1 < max3 (unclamped m reflectionMap color normal surfacePoint cameraPosition dls pls w
      material)) :
    0 < 1 / max3 (unclamped m reflectionMap color normal surfacePoint cameraPosition dls pls w
        material) ∧
      (∀ i : Fin 3,
        (shade m reflectionMap color normal surfacePoint cameraPosition dls pls w material).1 i =
          unclamped m reflectionMap color normal surfacePoint cameraPosition dls pls w
              material i *
            (1 / max3 (unclamped m reflectionMap color normal surfacePoint cameraPosition dls
              pls w material))) ∧
      max3 (shade m reflectionMap color normal surfacePoint cameraPosition dls pls w
        material).1 = 1 ∧
      (0 ≤ color 3 →
        max3 ![(light m reflectionMap color normal surfacePoint cameraPosition dls pls w
              material).1 0,
            (light m reflectionMap color normal surfacePoint cameraPosition dls pls w
              material).1 1,
            (light m reflectionMap color normal surfacePoint cameraPosition dls pls w
              material).1 2] = color 3) ∧
      (color 3 = 1 →
        max3 ![(light m reflectionMap color normal surfacePoint cameraPosition dls pls w
              material).1 0,
            (light m reflectionMap color normal surfacePoint cameraPosition dls pls w
              material).1 1,
            (light m reflectionMap color normal surfacePoint cameraPosition dls pls w
              material).1 2] = 1) := by
  obtain ⟨hc, hmax⟩ := clampColor_of_gt _ h
  have hpos := lt_trans one_pos h
  have hal : 0 ≤ color 3 →
      max3 ![(light m reflectionMap color normal surfacePoint cameraPosition dls pls w
            material).1 0,
          (light m reflectionMap color normal surfacePoint cameraPosition dls pls w
            material).1 1,
          (light m reflectionMap color normal surfacePoint cameraPosition dls pls w
            material).1 2] = color 3 := by
    intro ha
    rw [light_rgb, max3_mul _ _ ha, shade_fst, hmax, one_mul]
  refine ⟨one_div_pos.mpr hpos, ?_, ?_, hal, ?_⟩
  · intro i
    rw [shade_fst, hc, mul_one_div]
  · rw [shade_fst, hmax]
  · intro ha
    rw [hal (by rw [ha]; exact zero_le_one), ha]

theorem light_clamp_premultiplied_witness :
    1 < max3 (unclamped tableLibm none ![1, 1, 1, 1] ![0, 0, 1] 0 ![0, 0, 1] [sampleSun] [] 1
        shiny) ∧
      max3 (shade tableLibm none ![1, 1, 1, 1] ![0, 0, 1] 0 ![0, 0, 1] [sampleSun] [] 1
        shiny).1 = 1 :=
  ⟨by decide!,
    (light_clamp_premultiplied tableLibm none ![1, 1, 1, 1] ![0, 0, 1] 0 ![0, 0, 1] [sampleSun]
      [] 1 shiny (by decide!)).2.2.1⟩

/-- C15, counterexample: a half-transparent white fragment under a strong highlight. The
unclamped result exceeds `1`, yet the largest RGB channel of the colour `light` returns is
`1 / 2`, the alpha, and not `1`. -/
theorem light_clamp_translucent :
    1 < max3 (unclamped tableLibm none ![1, 1, 1, 1 / 2] ![0, 0, 1] 0 ![0, 0, 1] [sampleSun]
        [] 1 shiny) ∧
      max3 ![(light tableLibm none ![1, 1, 1, 1 / 2] ![0, 0, 1] 0 ![0, 0, 1] [sampleSun] [] 1
            shiny).1 0,
          (light tableLibm none ![1, 1, 1, 1 / 2] ![0, 0, 1] 0 ![0, 0, 1] [sampleSun] [] 1
            shiny).1 1,
          (light tableLibm none ![1, 1, 1, 1 / 2] ![0, 0, 1] 0 ![0, 0, 1] [sampleSun] [] 1
            shiny).1 2] = 1 / 2 ∧
      max3 ![(light tableLibm none ![1, 1, 1, 1 / 2] ![0, 0, 1] 0 ![0, 0, 1] [sampleSun] [] 1
            shiny).1 0,
          (light tableLibm none ![1, 1, 1, 1 / 2] ![0, 0, 1] 0 ![0, 0, 1] [sampleSun] [] 1
            shiny).1 1,
          (light tableLibm none ![1, 1, 1, 1 / 2] ![0, 0, 1] 0 ![0, 0, 1] [sampleSun] [] 1
            shiny).1 2] ≠ 1 := by
  refine ⟨by decide!, by decide!, by decide!⟩

end graphics

namespace graphics
open math

/-- In the branch `kR == 1` of `light` the diffuse factor is left at `kA`. -/
theorem accumulate_mirror (m : Libm) (normal reflectedRay surfacePoint : Vec3)
    (dls : List DirectionalLight) (pls : List PointLight) (w : ℚ) (material : Material)
    (hR : material.kR = 1) :
    (accumulate m normal reflectedRay surfacePoint dls pls w material).1.1 = material.kA := by
  unfold accumulate
  rw [if_neg (fun h => h.2 hR), if_pos hR]

/-- C17 (pure-mirror regime), amended: when `kR == 1` and the ambience factor `kA` is zero,
or `kR == 1`, the Fresnel factor `kF` is zero and an environment map is bound, `light`
returns the same colour, point lights and environment map for any two base colours with
the same alpha, the other arguments being equal. -/
theorem mirror_ignores_base_colour (m : Libm) (reflectionMap : Option CubeMap)
    (color1 color2 : Vec4) (normal surfacePoint cameraPosition : Vec3)
    (dls : List DirectionalLight) (pls : List PointLight) (w : ℚ) (material : Material)
    (hR : material.kR = 1)
    (hA : material.kA = 0 ∨ (material.kF = 0 ∧ reflectionMap.isSome = true))
    (halpha : color1 3 = color2 3) :
    light m reflectionMap color1 normal surfacePoint cameraPosition dls pls w material =
      light m reflectionMap color2 normal surfacePoint cameraPosition dls pls w material := by
  have hR0 : ¬ material.kR = 0 := by rw [hR]; exact one_ne_zero
  unfold light shade
  rw [halpha]
  cases reflectionMap with
  | none =>
    have hA0 : material.kA = 0 := by
      rcases hA with h | h
      · exact h
      · exact absurd h.2 (by simp)
    simp only [accumulate_mirror _ _ _ _ _ _ _ _ hR, hA0, zero_smul]
  | some environment =>
    have hz : (1 - (material.kR - material.kF *
        dot (unit m (cameraPosition - surfacePoint)) normal)) * material.kA = 0 := by
      rcases hA with h | h
      · rw [h, mul_zero]
      · rw [h.1, hR]
        ring
    simp only [accumulate_mirror _ _ _ _ _ _ _ _ hR, if_neg hR0, hz, zero_smul]

theorem mirror_ignores_base_colour_witness :
    (chrome.kR = 1 ∧ (chrome.kA = 0 ∨ (chrome.kF = 0 ∧ (none : Option CubeMap).isSome = true)) ∧
        (![1, 0, 0, 1] : Vec4) 3 = (![0, 1, 0, 1] : Vec4) 3) ∧
      light tableLibm none ![1, 0, 0, 1] ![0, 0, 1] 0 ![0, 0, 1] [sampleSun] [] 1 chrome =
        light tableLibm none ![0, 1, 0, 1] ![0, 0, 1] 0 ![0, 0, 1] [sampleSun] [] 1 chrome :=
  ⟨⟨by decide!, Or.inl (by decide!), by decide!⟩,
    mirror_ignores_base_colour tableLibm none ![1, 0, 0, 1] ![0, 1, 0, 1] ![0, 0, 1] 0
      ![0, 0, 1] [sampleSun] [] 1 chrome (by decide!) (Or.inl (by decide!)) (by decide!)⟩

/-- C17, counterexample: a material with `kR == 1` and ambience factor `1 / 2`, no
environment map bound. The base colours red and green have the same alpha, and `light`
returns different colours for them. -/
theorem mirror_shows_base_colour :
    tintedMirror.kR = 1 ∧ (![1, 0, 0, 1] : Vec4) 3 = (![0, 1, 0, 1] : Vec4) 3 ∧
      (light tableLibm none ![1, 0, 0, 1] ![0, 0, 1] 0 ![0, 0, 1] [] [] 1 tintedMirror).1 =
        ![1 / 2, 0, 0, 1] ∧
      (light tableLibm none ![0, 1, 0, 1] ![0, 0, 1] 0 ![0, 0, 1] [] [] 1 tintedMirror).1 =
        ![0, 1 / 2, 0, 1] ∧
      (light tableLibm none ![1, 0, 0, 1] ![0, 0, 1] 0 ![0, 0, 1] [] [] 1 tintedMirror).1 ≠
        (light tableLibm none ![0, 1, 0, 1] ![0, 0, 1] 0 ![0, 0, 1] [] [] 1 tintedMirror).1 := by
  refine ⟨by decide!, by decide!, by decide!, by decide!, by decide!⟩

end graphics

namespace graphics
open math

theorem visibilityProbe_cameras (cm : CubeMap) (w : ℚ) (faces : List Nat) :
    (cm.visibilityProbe w faces).2.cameras = cm.cameras := by
  induction faces with
  | nil => rfl
  | cons i rest ih =>
    unfold CubeMap.visibilityProbe
    split_ifs
    · rfl
    · exact ih

/-- The member `CubeMap::getVisibility` changes the cache `previousHit` only. -/
theorem getVisibility_cameras (cm : CubeMap) (w : ℚ) :
    (cm.getVisibility w).2.cameras = cm.cameras := by
  unfold CubeMap.getVisibility
  simp only []
  split_ifs
  · rfl
  · exact visibilityProbe_cameras cm w [0, 1, 2]

theorem diffusePointLights_cameras (m : Libm) (normal surfacePoint : Vec3) (w : ℚ)
    (pls : List PointLight) :
    ∀ kD : ℚ, shadowCameras (diffusePointLights m normal surfacePoint w kD pls).2 =
      shadowCameras pls := by
  induction pls with
  | nil => intro kD; rfl
  | cons pl rest ih =>
    intro kD
    unfold diffusePointLights
    simp only [shadowCameras, List.map_cons]
    rw [getVisibility_cameras]
    exact congrArg _ (ih _)

theorem specularPointLights_cameras (m : Libm) (reflectedRay surfacePoint : Vec3) (w : ℚ)
    (material : Material) (pls : List PointLight) :
    ∀ kS : Vec3,
      shadowCameras (specularPointLights m reflectedRay surfacePoint w material kS pls).2 =
        shadowCameras pls := by
  induction pls with
  | nil => intro kS; rfl
  | cons pl rest ih =>
    intro kS
    unfold specularPointLights
    simp only [shadowCameras, List.map_cons]
    rw [getVisibility_cameras]
    exact congrArg _ (ih _)

theorem mixedPointLights_cameras (m : Libm) (normal reflectedRay surfacePoint : Vec3) (w : ℚ)
    (material : Material) (pls : List PointLight) :
    ∀ acc : ℚ × Vec3,
      shadowCameras (mixedPointLights m normal reflectedRay surfacePoint w material acc pls).2 =
        shadowCameras pls := by
  induction pls with
  | nil => intro acc; rfl
  | cons pl rest ih =>
    intro acc
    unfold mixedPointLights
    simp only [shadowCameras, List.map_cons]
    rw [getVisibility_cameras]
    exact congrArg _ (ih _)

theorem accumulate_cameras (m : Libm) (normal reflectedRay surfacePoint : Vec3)
    (dls : List DirectionalLight) (pls : List PointLight) (w : ℚ) (material : Material) :
    shadowCameras (accumulate m normal reflectedRay surfacePoint dls pls w material).2 =
      shadowCameras pls := by
  unfold accumulate
  split_ifs
  · exact diffusePointLights_cameras _ _ _ _ _ _
  · exact specularPointLights_cameras _ _ _ _ _ _ _
  · exact mixedPointLights_cameras _ _ _ _ _ _ _ _

/-- A call of `light` leaves the shadow cameras of every point light as they were. -/
theorem light_cameras (m : Libm) (reflectionMap : Option CubeMap) (color : Vec4)
    (normal surfacePoint cameraPosition : Vec3) (dls : List DirectionalLight)
    (pls : List PointLight) (w : ℚ) (material : Material) :
    shadowCameras
        (light m reflectionMap color normal surfacePoint cameraPosition dls pls w material).2.1 =
      shadowCameras pls := by
  unfold light shade
  cases reflectionMap with
  | none => exact accumulate_cameras _ _ _ _ _ _ _ _
  | some environment =>
    simp only []
    split_ifs <;> exact accumulate_cameras _ _ _ _ _ _ _ _

/-- With no environment map bound, `light` binds none. -/
theorem light_none (m : Libm) (color : Vec4) (normal surfacePoint cameraPosition : Vec3)
    (dls : List DirectionalLight) (pls : List PointLight) (w : ℚ) (material : Material) :
    (light m none color normal surfacePoint cameraPosition dls pls w material).2.2 = none :=
  rfl

theorem shadowCameras_map (g : PinholeCamera → PinholeCamera) (pls : List PointLight) :
    shadowCameras (pls.map (onPrimaryCameras g)) = (shadowCameras pls).map (onPrimary g) := by
  unfold shadowCameras
  rw [List.map_map, List.map_map]
  rfl

theorem onPrimary_comp (g h : PinholeCamera → PinholeCamera) (cameras : List PinholeCamera) :
    onPrimary g (onPrimary h cameras) = onPrimary (g ∘ h) cameras := by
  rcases cameras with _ | ⟨a, _ | ⟨b, _ | ⟨c, rest⟩⟩⟩ <;> rfl

theorem map_onPrimary_comp (g h : PinholeCamera → PinholeCamera)
    (cameras : List (List PinholeCamera)) :
    (cameras.map (onPrimary h)).map (onPrimary g) = cameras.map (onPrimary (g ∘ h)) := by
  rw [List.map_map]
  exact List.map_congr_left (fun cs _ => onPrimary_comp g h cs)

theorem onPrimary_getElem? (g : PinholeCamera → PinholeCamera) (cameras : List PinholeCamera)
    (i : Nat) (hi : i < 3) : (onPrimary g cameras)[i]? = cameras[i]?.map g := by
  rcases cameras with _ | ⟨a, _ | ⟨b, _ | ⟨c, rest⟩⟩⟩ <;> interval_cases i <;>
    first | rfl | simp [onPrimary]

end graphics

namespace graphics
open math

theorem onPrimary_id (cameras : List PinholeCamera) : onPrimary id cameras = cameras := by
  unfold onPrimary
  rw [List.map_id, List.take_append_drop]

theorem map_onPrimary_id (cameras : List (List PinholeCamera)) :
    cameras.map (onPrimary id) = cameras := by
  rw [List.map_congr_left (fun cs _ => onPrimary_id cs), List.map_id']

/-- One pixel of the vertex-coloured loop advances the primary shadow cameras and binds no
environment map if none was bound. -/
theorem shadePixel_cameras (m : Libm) (camera : PinholeCamera) (f : FixedPoint)
    (rc : Matrix 3 8) (dls : List DirectionalLight) (material : Material) (zBuffer : List ℚ)
    (cb zb : Nat) (y : Int) (s : ShadePixel) :
    shadowCameras (shadePixel m camera f rc dls material zBuffer cb zb y s).pointLights =
        (shadowCameras s.pointLights).map (onPrimary shadowPixelAdvance) ∧
      (s.reflectionMap = none →
        (shadePixel m camera f rc dls material zBuffer cb zb y s).reflectionMap = none) := by
  unfold shadePixel
  simp only []
  rw [shadowCameras_map]
  constructor
  · split_ifs
    · unfold shadePixelLight
      rw [light_cameras]
    · rfl
  · intro h
    split_ifs
    · unfold shadePixelLight
      rw [h]
      rfl
    · exact h

theorem shadePixel_iterate_cameras (m : Libm) (camera : PinholeCamera) (f : FixedPoint)
    (rc : Matrix 3 8) (dls : List DirectionalLight) (material : Material) (zBuffer : List ℚ)
    (cb zb : Nat) (y : Int) (s : ShadePixel) (k : Nat) :
    shadowCameras ((shadePixel m camera f rc dls material zBuffer cb zb y)^[k] s).pointLights =
        (shadowCameras s.pointLights).map (onPrimary (shadowPixelAdvance^[k])) ∧
      (s.reflectionMap = none →
        ((shadePixel m camera f rc dls material zBuffer cb zb y)^[k] s).reflectionMap =
          none) := by
  induction k with
  | zero =>
    rw [Function.iterate_zero, Function.iterate_zero, map_onPrimary_id]
    exact ⟨rfl, fun h => h⟩
  | succ k ih =>
    rw [Function.iterate_succ_apply', Function.iterate_succ']
    obtain ⟨h1, h2⟩ := shadePixel_cameras m camera f rc dls material zBuffer cb zb y
      ((shadePixel m camera f rc dls material zBuffer cb zb y)^[k] s)
    rw [h1, ih.1, map_onPrimary_comp]
    exact ⟨rfl, fun h => h2 (ih.2 h)⟩

theorem shadeRow_cameras (m : Libm) (camera : PinholeCamera) (f : FixedPoint)
    (rc : Matrix 3 8) (dls : List DirectionalLight) (material : Material) (zBuffer : List ℚ)
    (width : Nat) (minX maxX : Int) (s : ShadeRow) :
    shadowCameras (shadeRow m camera f rc dls material zBuffer width minX maxX s).pointLights =
        (shadowCameras s.pointLights).map
          (onPrimary (shadowScanline (loopCount minX maxX))) ∧
      (s.reflectionMap = none →
        (shadeRow m camera f rc dls material zBuffer width minX maxX s).reflectionMap =
          none) := by
  obtain ⟨h1, h2⟩ := shadePixel_iterate_cameras m camera f rc dls material zBuffer s.cb s.zb
    s.y (shadeRowStart minX s) (loopCount minX maxX)
  have hstart : (shadeRowStart minX s).pointLights =
      s.pointLights.map (onPrimaryCameras shadowRowStart) := rfl
  have hrefl : (shadeRowStart minX s).reflectionMap = s.reflectionMap := rfl
  rw [hstart, shadowCameras_map, map_onPrimary_comp] at h1
  rw [hrefl] at h2
  unfold shadeRow
  simp only []
  rw [shadowCameras_map, h1, map_onPrimary_comp]
  exact ⟨rfl, h2⟩

theorem shadeRow_iterate_cameras (m : Libm) (camera : PinholeCamera) (f : FixedPoint)
    (rc : Matrix 3 8) (dls : List DirectionalLight) (material : Material) (zBuffer : List ℚ)
    (width : Nat) (minX maxX : Int) (s : ShadeRow) (j : Nat) :
    shadowCameras
        ((shadeRow m camera f rc dls material zBuffer width minX maxX)^[j] s).pointLights =
        (shadowCameras s.pointLights).map
          (onPrimary ((shadowScanline (loopCount minX maxX))^[j])) ∧
      (s.reflectionMap = none →
        ((shadeRow m camera f rc dls material zBuffer width minX maxX)^[j] s).reflectionMap =
          none) := by
  induction j with
  | zero =>
    rw [Function.iterate_zero, Function.iterate_zero, map_onPrimary_id]
    exact ⟨rfl, fun h => h⟩
  | succ j ih =>
    rw [Function.iterate_succ_apply', Function.iterate_succ']
    obtain ⟨h1, h2⟩ := shadeRow_cameras m camera f rc dls material zBuffer width minX maxX
      ((shadeRow m camera f rc dls material zBuffer width minX maxX)^[j] s)
    rw [h1, ih.1, map_onPrimary_comp]
    exact ⟨rfl, fun h => h2 (ih.2 h)⟩

/-- The shadow cameras of the point lights, and the absence of an environment map, at the
moment pixel number `k` of scanline number `j` is tested by the vertex-coloured loop. -/
theorem shadeStateAt_cameras (m : Libm) (camera : PinholeCamera) (f : FixedPoint)
    (rc : Matrix 3 8) (dls : List DirectionalLight) (material : Material) (zBuffer : List ℚ)
    (width : Nat) (pls : List PointLight) (refl : Option CubeMap) (buffer : List Vec4)
    (j k : Nat) :
    shadowCameras (shadeStateAt m camera f rc dls material zBuffer width f.minX (f.maxX width)
        (shadeInit camera f rc width pls refl buffer) j k).pointLights =
        (shadowCameras pls).map
          (onPrimary (shadowAt camera ![(f.minX : ℚ), (f.minY : ℚ), 1]
            (vecMul ![(f.minX : ℚ), (f.minY : ℚ), 1] rc 0) (rc 0 0) (rc 1 0)
            (loopCount f.minX (f.maxX width)) j k)) ∧
      (refl = none →
        (shadeStateAt m camera f rc dls material zBuffer width f.minX (f.maxX width)
          (shadeInit camera f rc width pls refl buffer) j k).reflectionMap = none) := by
  obtain ⟨r1, r2⟩ := shadeRow_iterate_cameras m camera f rc dls material zBuffer width f.minX
    (f.maxX width) (shadeInit camera f rc width pls refl buffer) j
  have hinit : (shadeInit camera f rc width pls refl buffer).pointLights =
      pls.map (onPrimaryCameras (shadowSetup camera ![(f.minX : ℚ), (f.minY : ℚ), 1]
        (vecMul ![(f.minX : ℚ), (f.minY : ℚ), 1] rc 0) (rc 0 0) (rc 1 0))) := rfl
  have hrefl : (shadeInit camera f rc width pls refl buffer).reflectionMap = refl := rfl
  rw [hinit, shadowCameras_map, map_onPrimary_comp] at r1
  rw [hrefl] at r2
  obtain ⟨p1, p2⟩ := shadePixel_iterate_cameras m camera f rc dls material zBuffer
    ((shadeRow m camera f rc dls material zBuffer width f.minX (f.maxX width))^[j]
      (shadeInit camera f rc width pls refl buffer)).cb
    ((shadeRow m camera f rc dls material zBuffer width f.minX (f.maxX width))^[j]
      (shadeInit camera f rc width pls refl buffer)).zb
    ((shadeRow m camera f rc dls material zBuffer width f.minX (f.maxX width))^[j]
      (shadeInit camera f rc width pls refl buffer)).y
    (shadeRowStart f.minX ((shadeRow m camera f rc dls material zBuffer width f.minX
      (f.maxX width))^[j] (shadeInit camera f rc width pls refl buffer))) k
  have hstart : ∀ s : ShadeRow, (shadeRowStart f.minX s).pointLights =
      s.pointLights.map (onPrimaryCameras shadowRowStart) := fun _ => rfl
  have hsr : ∀ s : ShadeRow, (shadeRowStart f.minX s).reflectionMap = s.reflectionMap :=
    fun _ => rfl
  rw [hstart, shadowCameras_map, r1, map_onPrimary_comp, map_onPrimary_comp] at p1
  rw [hsr] at p2
  unfold shadeStateAt
  exact ⟨p1, fun h => p2 (r2 h)⟩

end graphics

namespace graphics
open math

theorem shadowPixelAdvance_iterate (sh : PinholeCamera) (k : Nat) :
    (shadowPixelAdvance^[k] sh).p = sh.p + (k : ℚ) • getColumn sh.sc 0 ∧
      (shadowPixelAdvance^[k] sh).sc = sh.sc ∧ (shadowPixelAdvance^[k] sh).sp = sh.sp ∧
      (shadowPixelAdvance^[k] sh).projectionMatrix = sh.projectionMatrix ∧
      (shadowPixelAdvance^[k] sh).center = sh.center := by
  induction k with
  | zero => simp
  | succ k ih =>
    rw [Function.iterate_succ_apply']
    obtain ⟨h1, h2, h3, h4, h5⟩ := ih
    refine ⟨?_, h2, h3, h4, h5⟩
    show (shadowPixelAdvance^[k] sh).p + getColumn (shadowPixelAdvance^[k] sh).sc 0 = _
    rw [h1, h2]
    push_cast
    rw [add_smul, one_smul, add_assoc]

theorem shadowScanline_fields (nx : Nat) (sh : PinholeCamera) :
    (shadowScanline nx sh).sp = sh.sp + getColumn sh.sc 1 ∧
      (shadowScanline nx sh).sc = sh.sc ∧
      (shadowScanline nx sh).projectionMatrix = sh.projectionMatrix ∧
      (shadowScanline nx sh).center = sh.center := by
  obtain ⟨-, h2, h3, h4, h5⟩ := shadowPixelAdvance_iterate (shadowRowStart sh) nx
  refine ⟨?_, h2, h4, h5⟩
  show (shadowPixelAdvance^[nx] (shadowRowStart sh)).sp +
    getColumn (shadowPixelAdvance^[nx] (shadowRowStart sh)).sc 1 = _
  rw [h2, h3]
  rfl

theorem shadowScanline_iterate (nx : Nat) (sh : PinholeCamera) (j : Nat) :
    ((shadowScanline nx)^[j] sh).sp = sh.sp + (j : ℚ) • getColumn sh.sc 1 ∧
      ((shadowScanline nx)^[j] sh).sc = sh.sc ∧
      ((shadowScanline nx)^[j] sh).projectionMatrix = sh.projectionMatrix ∧
      ((shadowScanline nx)^[j] sh).center = sh.center := by
  induction j with
  | zero => simp
  | succ j ih =>
    rw [Function.iterate_succ_apply']
    obtain ⟨h1, h2, h3, h4⟩ := ih
    obtain ⟨g1, g2, g3, g4⟩ := shadowScanline_fields nx ((shadowScanline nx)^[j] sh)
    refine ⟨?_, g2.trans h2, g3.trans h3, g4.trans h4⟩
    rw [g1, h1, h2]
    push_cast
    rw [add_smul, one_smul, add_assoc]

/-- The scratch vector `p` of a primary shadow camera at the moment pixel number `k` of
scanline number `j` is tested, from the values the setup stored. -/
theorem shadowAt_fields (camera : PinholeCamera) (lv : Vec3) (q0 rc00 rc10 : ℚ)
    (nx j k : Nat) (sh : PinholeCamera) :
    (shadowAt camera lv q0 rc00 rc10 nx j k sh).p =
        (shadowSetup camera lv q0 rc00 rc10 sh).sp +
          (j : ℚ) • getColumn (shadowSetup camera lv q0 rc00 rc10 sh).sc 1 +
          (k : ℚ) • getColumn (shadowSetup camera lv q0 rc00 rc10 sh).sc 0 ∧
      (shadowAt camera lv q0 rc00 rc10 nx j k sh).projectionMatrix = sh.projectionMatrix ∧
      (shadowAt camera lv q0 rc00 rc10 nx j k sh).center = sh.center := by
  obtain ⟨h1, h2, h3, h4⟩ := shadowScanline_iterate nx (shadowSetup camera lv q0 rc00 rc10 sh) j
  obtain ⟨g1, -, -, g4, g5⟩ := shadowPixelAdvance_iterate
    (shadowRowStart ((shadowScanline nx)^[j] (shadowSetup camera lv q0 rc00 rc10 sh))) k
  have hp : ∀ c : PinholeCamera, (shadowRowStart c).p = c.sp := fun _ => rfl
  have hsc : ∀ c : PinholeCamera, (shadowRowStart c).sc = c.sc := fun _ => rfl
  have hpm : ∀ c : PinholeCamera, (shadowRowStart c).projectionMatrix = c.projectionMatrix :=
    fun _ => rfl
  have hce : ∀ c : PinholeCamera, (shadowRowStart c).center = c.center := fun _ => rfl
  unfold shadowAt
  rw [g1, g4, g5, hp, hsc, hpm, hce, h1, h2, h3, h4]
  exact ⟨rfl, rfl, rfl⟩

end graphics

namespace graphics
open math

/-- The incrementally updated shadow vector in closed form: at the screen point
`(lx + k, ly + j)`, where the interpolated reciprocal depth is `q0 + k * rc00 + j * rc10`,
it is the depth times `projectionMatrix * (camera.center - center)` plus
`projectionMatrix * (a * x + b * y + c)`. -/
theorem shadowSetup_closed (camera : PinholeCamera) (lx ly q0 rc00 rc10 : ℚ) (j k : Nat)
    (sh : PinholeCamera) :
    (shadowSetup camera ![lx, ly, 1] q0 rc00 rc10 sh).sp +
        (j : ℚ) • getColumn (shadowSetup camera ![lx, ly, 1] q0 rc00 rc10 sh).sc 1 +
        (k : ℚ) • getColumn (shadowSetup camera ![lx, ly, 1] q0 rc00 rc10 sh).sc 0 =
      (q0 + k * rc00 + j * rc10) • mulVec sh.projectionMatrix (camera.center - sh.center) +
        mulVec sh.projectionMatrix
          (fun l => camera.a l * (lx + k) + camera.b l * (ly + j) + camera.c l) := by
  funext i
  fin_cases i <;>
    simp only [shadowSetup, getColumn, mulVec, mul, dot, transpose, Fin.sum_univ_three,
      Pi.add_apply, Pi.smul_apply, Pi.sub_apply, smul_eq_mul, Fin.zero_eta, Fin.mk_one,
      Fin.reduceFinMk, Matrix.cons_val_zero, Matrix.cons_val_one, Matrix.head_cons,
      Matrix.cons_val_two, Matrix.tail_cons] <;>
    ring

/-- The closed form is the depth times the shadow camera's view of the unprojected
point. -/
theorem shadow_unproject (camera sh : PinholeCamera) (x y z : ℚ) (hz : z ≠ 0) :
    z • mulVec sh.projectionMatrix (camera.center - sh.center) +
        mulVec sh.projectionMatrix (fun l => camera.a l * x + camera.b l * y + camera.c l) =
      z • mulVec sh.projectionMatrix (camera.unproject ![x, y, z] - sh.center) := by
  funext i
  simp only [mulVec, dot, Fin.sum_univ_three, PinholeCamera.unproject, Pi.add_apply,
    Pi.smul_apply, Pi.sub_apply, smul_eq_mul, Matrix.cons_val_zero, Matrix.cons_val_one,
    Matrix.head_cons, Matrix.cons_val_two, Matrix.tail_cons]
  field_simp
  ring

/-- Dividing the scaled vector by its third component gives the projection. -/
theorem shadowProjection_of_scaled (sh2 sh : PinholeCamera) (point : Vec3) (z : ℚ)
    (hz : z ≠ 0)
    (hp : sh2.p = z • mulVec sh.projectionMatrix (point - sh.center)) :
    shadowProjection sh2 z = sh.project point := by
  unfold shadowProjection PinholeCamera.project
  rw [hp]
  funext i
  fin_cases i
  · exact mul_div_mul_left _ _ hz
  · exact mul_div_mul_left _ _ hz
  · show z / (z * _) = 1 / _
    rw [div_mul_eq_div_div, div_self hz]

end graphics

namespace graphics
open math

/-- One pixel of the textured loop advances the primary shadow cameras and binds no
environment map if none was bound. -/
theorem texturePixel_cameras (m : Libm) (camera : PinholeCamera) (texture : Framebuffer)
    (f : FixedPoint) (rc : Matrix 3 4) (dc : Matrix 3 2) (nc : Vec3) (dls : List DirectionalLight) (material : Material) (zBuffer : List ℚ)
    (cb zb : Nat) (y : Int) (s : TexturePixel) :
    shadowCameras (texturePixel m camera texture f rc dc nc dls material zBuffer cb zb y s).pointLights =
        (shadowCameras s.pointLights).map (onPrimary shadowPixelAdvance) ∧
      (s.reflectionMap = none →
        (texturePixel m camera texture f rc dc nc dls material zBuffer cb zb y s).reflectionMap = none) := by
  unfold texturePixel
  simp only []
  rw [shadowCameras_map]
  constructor
  · split_ifs
    · unfold texturePixelLight
      rw [light_cameras]
    · rfl
  · intro h
    split_ifs
    · unfold texturePixelLight
      rw [h]
      rfl
    · exact h

theorem texturePixel_iterate_cameras (m : Libm) (camera : PinholeCamera) (texture : Framebuffer)
    (f : FixedPoint) (rc : Matrix 3 4) (dc : Matrix 3 2) (nc : Vec3) (dls : List DirectionalLight) (material : Material) (zBuffer : List ℚ)
    (cb zb : Nat) (y : Int) (s : TexturePixel) (k : Nat) :
    shadowCameras ((texturePixel m camera texture f rc dc nc dls material zBuffer cb zb y)^[k] s).pointLights =
        (shadowCameras s.pointLights).map (onPrimary (shadowPixelAdvance^[k])) ∧
      (s.reflectionMap = none →
        ((texturePixel m camera texture f rc dc nc dls material zBuffer cb zb y)^[k] s).reflectionMap =
          none) := by
  induction k with
  | zero =>
    rw [Function.iterate_zero, Function.iterate_zero, map_onPrimary_id]
    exact ⟨rfl, fun h => h⟩
  | succ k ih =>
    rw [Function.iterate_succ_apply', Function.iterate_succ']
    obtain ⟨h1, h2⟩ := texturePixel_cameras m camera texture f rc dc nc dls material zBuffer cb zb y
      ((texturePixel m camera texture f rc dc nc dls material zBuffer cb zb y)^[k] s)
    rw [h1, ih.1, map_onPrimary_comp]
    exact ⟨rfl, fun h => h2 (ih.2 h)⟩

theorem textureRow_cameras (m : Libm) (camera : PinholeCamera) (texture : Framebuffer)
    (f : FixedPoint) (rc : Matrix 3 4) (dc : Matrix 3 2) (nc : Vec3) (dls : List DirectionalLight) (material : Material) (zBuffer : List ℚ)
    (width : Nat) (minX maxX : Int) (s : TextureRow) :
    shadowCameras (textureRow m camera texture f rc dc nc dls material zBuffer width minX maxX s).pointLights =
        (shadowCameras s.pointLights).map
          (onPrimary (shadowScanline (loopCount minX maxX))) ∧
      (s.reflectionMap = none →
        (textureRow m camera texture f rc dc nc dls material zBuffer width minX maxX s).reflectionMap =
          none) := by
  obtain ⟨h1, h2⟩ := texturePixel_iterate_cameras m camera texture f rc dc nc dls material zBuffer s.cb s.zb
    s.y (textureRowStart minX s) (loopCount minX maxX)
  have hstart : (textureRowStart minX s).pointLights =
      s.pointLights.map (onPrimaryCameras shadowRowStart) := rfl
  have hrefl : (textureRowStart minX s).reflectionMap = s.reflectionMap := rfl
  rw [hstart, shadowCameras_map, map_onPrimary_comp] at h1
  rw [hrefl] at h2
  unfold textureRow
  simp only []
  rw [shadowCameras_map, h1, map_onPrimary_comp]
  exact ⟨rfl, h2⟩

theorem textureRow_iterate_cameras (m : Libm) (camera : PinholeCamera) (texture : Framebuffer)
    (f : FixedPoint) (rc : Matrix 3 4) (dc : Matrix 3 2) (nc : Vec3) (dls : List DirectionalLight) (material : Material) (zBuffer : List ℚ)
    (width : Nat) (minX maxX : Int) (s : TextureRow) (j : Nat) :
    shadowCameras
        ((textureRow m camera texture f rc dc nc dls material zBuffer width minX maxX)^[j] s).pointLights =
        (shadowCameras s.pointLights).map
          (onPrimary ((shadowScanline (loopCount minX maxX))^[j])) ∧
      (s.reflectionMap = none →
        ((textureRow m camera texture f rc dc nc dls material zBuffer width minX maxX)^[j] s).reflectionMap =
          none) := by
  induction j with
  | zero =>
    rw [Function.iterate_zero, Function.iterate_zero, map_onPrimary_id]
    exact ⟨rfl, fun h => h⟩
  | succ j ih =>
    rw [Function.iterate_succ_apply', Function.iterate_succ']
    obtain ⟨h1, h2⟩ := textureRow_cameras m camera texture f rc dc nc dls material zBuffer width minX maxX
      ((textureRow m camera texture f rc dc nc dls material zBuffer width minX maxX)^[j] s)
    rw [h1, ih.1, map_onPrimary_comp]
    exact ⟨rfl, fun h => h2 (ih.2 h)⟩

/-- The shadow cameras of the point lights, and the absence of an environment map, at the
moment pixel number `k` of scanline number `j` is tested by the textured loop. -/
theorem textureStateAt_cameras (m : Libm) (camera : PinholeCamera) (texture : Framebuffer)
    (f : FixedPoint) (rc : Matrix 3 4) (dc : Matrix 3 2) (nc : Vec3) (dls : List DirectionalLight) (material : Material) (zBuffer : List ℚ)
    (width : Nat) (pls : List PointLight) (refl : Option CubeMap) (buffer : List Vec4)
    (j k : Nat) :
    shadowCameras (textureStateAt m camera texture f rc dc nc dls material zBuffer width f.minX (f.maxX width)
        (textureInit camera f rc dc nc width pls refl buffer) j k).pointLights =
        (shadowCameras pls).map
          (onPrimary (shadowAt camera ![(f.minX : ℚ), (f.minY : ℚ), 1]
            (vecMul ![(f.minX : ℚ), (f.minY : ℚ), 1] rc 0) (rc 0 0) (rc 1 0)
            (loopCount f.minX (f.maxX width)) j k)) ∧
      (refl = none →
        (textureStateAt m camera texture f rc dc nc dls material zBuffer width f.minX (f.maxX width)
          (textureInit camera f rc dc nc width pls refl buffer) j k).reflectionMap = none) := by
  obtain ⟨r1, r2⟩ := textureRow_iterate_cameras m camera texture f rc dc nc dls material zBuffer width f.minX
    (f.maxX width) (textureInit camera f rc dc nc width pls refl buffer) j
  have hinit : (textureInit camera f rc dc nc width pls refl buffer).pointLights =
      pls.map (onPrimaryCameras (shadowSetup camera ![(f.minX : ℚ), (f.minY : ℚ), 1]
        (vecMul ![(f.minX : ℚ), (f.minY : ℚ), 1] rc 0) (rc 0 0) (rc 1 0))) := rfl
  have hrefl : (textureInit camera f rc dc nc width pls refl buffer).reflectionMap = refl := rfl
  rw [hinit, shadowCameras_map, map_onPrimary_comp] at r1
  rw [hrefl] at r2
  obtain ⟨p1, p2⟩ := texturePixel_iterate_cameras m camera texture f rc dc nc dls material zBuffer
    ((textureRow m camera texture f rc dc nc dls material zBuffer width f.minX (f.maxX width))^[j]
      (textureInit camera f rc dc nc width pls refl buffer)).cb
    ((textureRow m camera texture f rc dc nc dls material zBuffer width f.minX (f.maxX width))^[j]
      (textureInit camera f rc dc nc width pls refl buffer)).zb
    ((textureRow m camera texture f rc dc nc dls material zBuffer width f.minX (f.maxX width))^[j]
      (textureInit camera f rc dc nc width pls refl buffer)).y
    (textureRowStart f.minX ((textureRow m camera texture f rc dc nc dls material zBuffer width f.minX
      (f.maxX width))^[j] (textureInit camera f rc dc nc width pls refl buffer))) k
  have hstart : ∀ s : TextureRow, (textureRowStart f.minX s).pointLights =
      s.pointLights.map (onPrimaryCameras shadowRowStart) := fun _ => rfl
  have hsr : ∀ s : TextureRow, (textureRowStart f.minX s).reflectionMap = s.reflectionMap :=
    fun _ => rfl
  rw [hstart, shadowCameras_map, r1, map_onPrimary_comp, map_onPrimary_comp] at p1
  rw [hsr] at p2
  unfold textureStateAt
  exact ⟨p1, fun h => p2 (r2 h)⟩

end graphics

namespace graphics
open math

/-- Reading camera `i < 3` of light `l` from lists of point lights related by a map over
the primary shadow cameras. -/
theorem shadow_camera_lookup (pls pls2 : List PointLight)
    (g : PinholeCamera → PinholeCamera)
    (h : shadowCameras pls2 = (shadowCameras pls).map (onPrimary g)) (l i : Nat)
    (pl : PointLight) (sh : PinholeCamera) (hl : pls[l]? = some pl) (hi : i < 3)
    (hsh : pl.shadowMap.cameras[i]? = some sh) :
    ∃ pl2 : PointLight, pls2[l]? = some pl2 ∧ pl2.shadowMap.cameras[i]? = some (g sh) := by
  have hl2 := congrArg (fun cs : List (List PinholeCamera) => cs[l]?) h
  simp only [shadowCameras, List.getElem?_map, hl, Option.map_some'] at hl2
  cases hpl : pls2[l]? with
  | none =>
    rw [hpl] at hl2
    exact absurd hl2 (by simp)
  | some pl2 =>
    rw [hpl] at hl2
    simp only [Option.map_some', Option.some.injEq] at hl2
    refine ⟨pl2, rfl, ?_⟩
    rw [hl2, onPrimary_getElem? g _ i hi, hsh]
    rfl

/-- The shadow vector at pixel number `k` of scanline number `j`, for a depth plane with
coefficients `r0`, `r1`, `r2`: the depth times the shadow camera's view of the unprojected
point. -/
theorem shadowAt_scaled (camera : PinholeCamera) (lx ly r0 r1 r2 : ℚ) (nx j k : Nat)
    (sh : PinholeCamera) (x y z : ℚ) (hx : lx + k = x) (hy : ly + j = y)
    (hzv : x * r0 + y * r1 + r2 = z) (hz : z ≠ 0) :
    (shadowAt camera ![lx, ly, 1] (lx * r0 + ly * r1 + r2) r0 r1 nx j k sh).p =
      z • mulVec sh.projectionMatrix (camera.unproject ![x, y, z] - sh.center) := by
  rw [(shadowAt_fields camera ![lx, ly, 1] (lx * r0 + ly * r1 + r2) r0 r1 nx j k sh).1,
    shadowSetup_closed, ← shadow_unproject camera sh x y z hz, hx, hy]
  have hq : lx * r0 + ly * r1 + r2 + (k : ℚ) * r0 + (j : ℚ) * r1 = z := by
    rw [← hzv, ← hx, ← hy]
    ring
  rw [hq]

end graphics

namespace graphics
open math

/-- The attribute vector the vertex-coloured loop holds when it tests a scan-box pixel. -/
theorem renderStateAt_p (m : Libm) (fb : Framebuffer) (camera : PinholeCamera)
    (t1 t2 t3 : Vec3) (c1 c2 c3 : Vec4) (n1 n2 n3 : Vec3) (dls : List DirectionalLight)
    (pls : List PointLight) (refl : Option CubeMap) (material : Material) (x y : Nat)
    (hbox : inScanBox (projectFixed camera t1 t2 t3) fb.width fb.height x y) :
    (renderStateAt m fb camera t1 t2 t3 c1 c2 c3 n1 n2 n3 dls pls refl material x y).p =
      planeAt (shadeRc (camera.project t1) (camera.project t2) (camera.project t3) c1 c2 c3
        n1 n2 n3) x y := by
  obtain ⟨hx1, -, hy1, -⟩ := hbox
  have ex := scan_offset _ x (minX_nonneg (projectFixed camera t1 t2 t3)) hx1
  have ey := scan_offset _ y (minY_nonneg (projectFixed camera t1 t2 t3)) hy1
  unfold renderStateAt
  rw [shadeStateAt_p, ex, ey]

/-- The attribute vector the textured loop holds when it tests a scan-box pixel. -/
theorem renderTexturedStateAt_p (m : Libm) (fb : Framebuffer) (camera : PinholeCamera)
    (texture : Framebuffer) (t1 t2 t3 : Vec3) (r1 r2 r3 : Vec2) (n1 n2 n3 : Vec3)
    (dls : List DirectionalLight) (pls : List PointLight) (refl : Option CubeMap)
    (material : Material) (x y : Nat)
    (hbox : inScanBox (projectFixed camera t1 t2 t3) fb.width fb.height x y) :
    (renderTexturedStateAt m fb camera texture t1 t2 t3 r1 r2 r3 n1 n2 n3 dls pls refl
        material x y).p =
      planeAt (textureRc (camera.project t1) (camera.project t2) (camera.project t3)
        n1 n2 n3) x y := by
  obtain ⟨hx1, -, hy1, -⟩ := hbox
  have ex := scan_offset _ x (minX_nonneg (projectFixed camera t1 t2 t3)) hx1
  have ey := scan_offset _ y (minY_nonneg (projectFixed camera t1 t2 t3)) hy1
  unfold renderTexturedStateAt
  rw [textureStateAt_p, ex, ey]

/-- The primary shadow camera `i` of light `l` at the moment a scan-box pixel is tested,
for a loop whose shadow cameras are the images under `shadowAt` of those passed in. -/
theorem shadow_camera_at (camera : PinholeCamera) (f : FixedPoint) (r0 r1 r2 : ℚ)
    (width : Nat) (pls pls2 : List PointLight) (x y l i : Nat) (pl : PointLight)
    (sh : PinholeCamera) (z : ℚ)
    (h : shadowCameras pls2 = (shadowCameras pls).map
      (onPrimary (shadowAt camera ![(f.minX : ℚ), (f.minY : ℚ), 1]
        ((f.minX : ℚ) * r0 + (f.minY : ℚ) * r1 + r2) r0 r1 (loopCount f.minX (f.maxX width))
        (y - f.minY.toNat) (x - f.minX.toNat))))
    (hx : f.minX ≤ x) (hy : f.minY ≤ y)
    (hl : pls[l]? = some pl) (hi : i < 3) (hsh : pl.shadowMap.cameras[i]? = some sh)
    (hzv : (x : ℚ) * r0 + (y : ℚ) * r1 + r2 = z) (hz : z ≠ 0) :
    ∃ (pl2 : PointLight) (sh2 : PinholeCamera),
      pls2[l]? = some pl2 ∧ pl2.shadowMap.cameras[i]? = some sh2 ∧
        sh2.projectionMatrix = sh.projectionMatrix ∧ sh2.center = sh.center ∧
        sh2.p = z • mulVec sh2.projectionMatrix (camera.unproject ![(x : ℚ), (y : ℚ), z] -
          sh2.center) ∧
        shadowProjection sh2 z = sh2.project (camera.unproject ![(x : ℚ), (y : ℚ), z]) := by
  obtain ⟨pl2, h1, h2⟩ := shadow_camera_lookup pls pls2 _ h l i pl sh hl hi hsh
  have ex := scan_offset _ x (minX_nonneg f) hx
  have ey := scan_offset _ y (minY_nonneg f) hy
  obtain ⟨-, g2, g3⟩ := shadowAt_fields camera ![(f.minX : ℚ), (f.minY : ℚ), 1]
    ((f.minX : ℚ) * r0 + (f.minY : ℚ) * r1 + r2) r0 r1 (loopCount f.minX (f.maxX width))
    (y - f.minY.toNat) (x - f.minX.toNat) sh
  have hp := shadowAt_scaled camera (f.minX : ℚ) (f.minY : ℚ) r0 r1 r2
    (loopCount f.minX (f.maxX width)) (y - f.minY.toNat) (x - f.minX.toNat) sh x y z ex ey hzv hz
  refine ⟨pl2, _, h1, h2, g2, g3, ?_, ?_⟩
  · rw [g2, g3]
    exact hp
  · refine shadowProjection_of_scaled _ _ _ z hz ?_
    rw [g2, g3]
    exact hp

end graphics

namespace graphics
open math

/-- C11 (shadow-coordinate propagation): in both `renderTriangle` overloads, for the light
number `l` and its primary shadow camera number `i < 3`, at the moment pixel `(x, y)` of
the scan box is tested, where the interpolated reciprocal depth `z` (the loop variable
`p[0]`) is not zero, the camera's scratch vector `p` equals
`z * projectionMatrix * (W - center)` for `W = camera.unproject(x, y, z)`, the camera's
projection matrix and centre being those passed in; hence the triple
`(p.x / p.z, p.y / p.z, z / p.z)` that `getVisibility(z)` forms equals the projection of
`W` by that camera. -/
theorem shadow_coordinate_propagation (m : Libm) (fb : Framebuffer) (camera : PinholeCamera)
    (texture : Framebuffer) (t1 t2 t3 : Vec3) (c1 c2 c3 : Vec4) (r1 r2 r3 : Vec2)
    (n1 n2 n3 : Vec3) (dls : List DirectionalLight) (pls : List PointLight)
    (refl : Option CubeMap) (material : Material) (x y l i : Nat) (pl : PointLight)
    (sh : PinholeCamera)
    (hbox : inScanBox (projectFixed camera t1 t2 t3) fb.width fb.height x y)
    (hl : pls[l]? = some pl) (hi : i < 3) (hsh : pl.shadowMap.cameras[i]? = some sh)
    (hz : interpolatedDepth camera t1 t2 t3 x y ≠ 0) :
    ((renderStateAt m fb camera t1 t2 t3 c1 c2 c3 n1 n2 n3 dls pls refl material x y).p 0 =
        interpolatedDepth camera t1 t2 t3 x y ∧
      ∃ (pl2 : PointLight) (sh2 : PinholeCamera),
        (renderStateAt m fb camera t1 t2 t3 c1 c2 c3 n1 n2 n3 dls pls refl material x
            y).pointLights[l]? = some pl2 ∧
          pl2.shadowMap.cameras[i]? = some sh2 ∧
          sh2.projectionMatrix = sh.projectionMatrix ∧ sh2.center = sh.center ∧
          sh2.p = interpolatedDepth camera t1 t2 t3 x y •
            mulVec sh2.projectionMatrix
              (camera.unproject ![(x : ℚ), (y : ℚ), interpolatedDepth camera t1 t2 t3 x y] -
                sh2.center) ∧
          shadowProjection sh2 (interpolatedDepth camera t1 t2 t3 x y) =
            sh2.project
              (camera.unproject ![(x : ℚ), (y : ℚ), interpolatedDepth camera t1 t2 t3 x y])) ∧
    ((renderTexturedStateAt m fb camera texture t1 t2 t3 r1 r2 r3 n1 n2 n3 dls pls refl
          material x y).p 0 = interpolatedDepth camera t1 t2 t3 x y ∧
      ∃ (pl2 : PointLight) (sh2 : PinholeCamera),
        (renderTexturedStateAt m fb camera texture t1 t2 t3 r1 r2 r3 n1 n2 n3 dls pls refl
            material x y).pointLights[l]? = some pl2 ∧
          pl2.shadowMap.cameras[i]? = some sh2 ∧
          sh2.projectionMatrix = sh.projectionMatrix ∧ sh2.center = sh.center ∧
          sh2.p = interpolatedDepth camera t1 t2 t3 x y •
            mulVec sh2.projectionMatrix
              (camera.unproject ![(x : ℚ), (y : ℚ), interpolatedDepth camera t1 t2 t3 x y] -
                sh2.center) ∧
          shadowProjection sh2 (interpolatedDepth camera t1 t2 t3 x y) =
            sh2.project
              (camera.unproject
                ![(x : ℚ), (y : ℚ), interpolatedDepth camera t1 t2 t3 x y])) := by
  have hxy := hbox
  obtain ⟨hx1, -, hy1, -⟩ := hxy
  constructor
  · constructor
    · rw [renderStateAt_p _ _ _ _ _ _ _ _ _ _ _ _ _ _ _ _ _ _ hbox, shadeRc_depth]
      rfl
    · obtain ⟨hc, -⟩ := shadeStateAt_cameras m camera (projectFixed camera t1 t2 t3)
        (shadeRc (camera.project t1) (camera.project t2) (camera.project t3) c1 c2 c3 n1 n2 n3)
        dls material fb.zBuffer fb.width pls refl fb.buffer
        (y - (projectFixed camera t1 t2 t3).minY.toNat)
        (x - (projectFixed camera t1 t2 t3).minX.toNat)
      rw [show vecMul ![((projectFixed camera t1 t2 t3).minX : ℚ),
          ((projectFixed camera t1 t2 t3).minY : ℚ), 1]
          (shadeRc (camera.project t1) (camera.project t2) (camera.project t3) c1 c2 c3
            n1 n2 n3) 0 = _ from planeAt_apply _ _ _ 0] at hc
      exact shadow_camera_at camera (projectFixed camera t1 t2 t3) _ _ _ fb.width pls _ x y l i
        pl sh _ hc hx1 hy1 hl hi hsh
        ((planeAt_apply _ _ _ 0).symm.trans (shadeRc_depth _ _ _ _ _ _ _ _ _ _ _)) hz
  · constructor
    · rw [renderTexturedStateAt_p _ _ _ _ _ _ _ _ _ _ _ _ _ _ _ _ _ _ _ hbox, textureRc_depth]
      rfl
    · obtain ⟨hc, -⟩ := textureStateAt_cameras m camera texture (projectFixed camera t1 t2 t3)
        (textureRc (camera.project t1) (camera.project t2) (camera.project t3) n1 n2 n3)
        (textureDc camera t1 t2 t3 r1 r2 r3) (textureNc camera t1 t2 t3)
        dls material fb.zBuffer fb.width pls refl fb.buffer
        (y - (projectFixed camera t1 t2 t3).minY.toNat)
        (x - (projectFixed camera t1 t2 t3).minX.toNat)
      rw [show vecMul ![((projectFixed camera t1 t2 t3).minX : ℚ),
          ((projectFixed camera t1 t2 t3).minY : ℚ), 1]
          (textureRc (camera.project t1) (camera.project t2) (camera.project t3)
            n1 n2 n3) 0 = _ from planeAt_apply _ _ _ 0] at hc
      exact shadow_camera_at camera (projectFixed camera t1 t2 t3) _ _ _ fb.width pls _ x y l i
        pl sh _ hc hx1 hy1 hl hi hsh
        ((planeAt_apply _ _ _ 0).symm.trans (textureRc_depth _ _ _ _ _ _ _ _)) hz

end graphics

namespace graphics
open math

theorem shadow_coordinate_propagation_witness :
    inScanBox (projectFixed sampleCamera sampleTriangle.1 sampleTriangle.2.1
        sampleTriangle.2.2) sampleFramebuffer.width sampleFramebuffer.height 1 1 ∧
      [samplePointLight][0]? = some samplePointLight ∧ 0 < 3 ∧
      samplePointLight.shadowMap.cameras[0]? = some (samplePointLight.shadowMap.camera 0) ∧
      interpolatedDepth sampleCamera sampleTriangle.1 sampleTriangle.2.1 sampleTriangle.2.2
        1 1 ≠ 0 ∧
      ∃ (pl2 : PointLight) (sh2 : PinholeCamera),
        (renderStateAt tableLibm sampleFramebuffer sampleCamera sampleTriangle.1
            sampleTriangle.2.1 sampleTriangle.2.2 ![1, 0, 0, 1] ![0, 1, 0, 1] ![0, 0, 1, 1]
            ![0, 0, 1] ![0, 0, 1] ![0, 0, 1] [] [samplePointLight] none flat 1
            1).pointLights[0]? = some pl2 ∧
          pl2.shadowMap.cameras[0]? = some sh2 ∧
          shadowProjection sh2 (interpolatedDepth sampleCamera sampleTriangle.1
              sampleTriangle.2.1 sampleTriangle.2.2 1 1) =
            sh2.project (sampleCamera.unproject ![((1 : Nat) : ℚ), ((1 : Nat) : ℚ),
              interpolatedDepth sampleCamera sampleTriangle.1 sampleTriangle.2.1
                sampleTriangle.2.2 1 1]) :=
  ⟨by decide!, rfl, by decide, rfl, by decide!,
    let ⟨pl2, sh2, h1, h2, _, _, _, h6⟩ :=
      (shadow_coordinate_propagation tableLibm sampleFramebuffer sampleCamera sampleTexture
        sampleTriangle.1 sampleTriangle.2.1 sampleTriangle.2.2 ![1, 0, 0, 1] ![0, 1, 0, 1]
        ![0, 0, 1, 1] ![0, 0] ![1, 0] ![0, 1] ![0, 0, 1] ![0, 0, 1] ![0, 0, 1] []
        [samplePointLight] none flat 1 1 0 0 samplePointLight
        (samplePointLight.shadowMap.camera 0) (by decide!) rfl (by decide) rfl
        (by decide!)).1.2
    ⟨pl2, sh2, h1, h2, h6⟩⟩

end graphics

namespace graphics
open math

/-- The attribute vector the vertex-coloured loop, in 32-bit `int`s, holds at pixel number
`k` of scanline number `j`. -/
theorem shadeStateAt32_p (m : Libm) (camera : PinholeCamera) (f : FixedPoint)
    (rc : Matrix 3 8) (dls : List DirectionalLight) (material : Material) (zBuffer : List ℚ)
    (width : Nat) (pls : List PointLight) (refl : Option CubeMap) (buffer : List Vec4)
    (j k : Nat) :
    (shadeStateAt32 m camera f rc dls material zBuffer width f.minX32 (f.maxX32 width)
      (shadeInit32 camera f rc width pls refl buffer) j k).p =
      planeAt rc ((f.minX32 : ℚ) + k) ((f.minY32 : ℚ) + j) := by
  obtain ⟨-, fu1, fu2, fu3, fq, -, -, -⟩ := shadeInit32_fields camera f rc width pls refl buffer
  obtain ⟨r1, r2, r3⟩ := renderEdges32_eq f
  obtain ⟨-, w1, w2, w3, hrow, -⟩ := shadeRow32_iterate m camera f rc dls material zBuffer
    width f.minX32 (f.maxX32 width) (shadeInit32 camera f rc width pls refl buffer)
    (minX32_nonneg f) (scan_in_row32 f width) (by rw [fu1, r1, int32_int32])
    (by rw [fu2, r2, int32_int32]) (by rw [fu3, r3, int32_int32]) j
  have hpix := (shadePixel32_iterate m camera f rc dls material zBuffer
    ((shadeRow32 m camera f rc dls material zBuffer width f.minX32 (f.maxX32 width))^[j]
      (shadeInit32 camera f rc width pls refl buffer)).cb
    ((shadeRow32 m camera f rc dls material zBuffer width f.minX32 (f.maxX32 width))^[j]
      (shadeInit32 camera f rc width pls refl buffer)).zb
    ((shadeRow32 m camera f rc dls material zBuffer width f.minX32 (f.maxX32 width))^[j]
      (shadeInit32 camera f rc width pls refl buffer)).y
    (shadeRowStart f.minX32 ((shadeRow32 m camera f rc dls material zBuffer width f.minX32
      (f.maxX32 width))^[j] (shadeInit32 camera f rc width pls refl buffer)))
    (minX32_nonneg f) (by simp only [shadeRowStart]; rw [w1, int32_int32])
    (by simp only [shadeRowStart]; rw [w2, int32_int32])
    (by simp only [shadeRowStart]; rw [w3, int32_int32]) k).2.2.2.2.1
  have hstart : ∀ s : ShadeRow, (shadeRowStart f.minX32 s).p = s.q := fun _ => rfl
  unfold shadeStateAt32
  rw [hpix, hstart, hrow, fq, ← planeAt_step]

/-- The attribute vector the vertex-coloured loop, in 32-bit `int`s, holds when it tests a
scan-box pixel. -/
theorem renderStateAt32_p (m : Libm) (fb : Framebuffer) (camera : PinholeCamera)
    (t1 t2 t3 : Vec3) (c1 c2 c3 : Vec4) (n1 n2 n3 : Vec3) (dls : List DirectionalLight)
    (pls : List PointLight) (refl : Option CubeMap) (material : Material) (x y : Nat)
    (hbox : inScanBox32 (projectFixed32 camera t1 t2 t3) fb.width fb.height x y) :
    (renderStateAt32 m fb camera t1 t2 t3 c1 c2 c3 n1 n2 n3 dls pls refl material x y).p =
      planeAt (shadeRc (camera.project t1) (camera.project t2) (camera.project t3) c1 c2 c3
        n1 n2 n3) x y := by
  obtain ⟨hx1, -, hy1, -⟩ := hbox
  have ex := scan_offset _ x (minX32_nonneg (projectFixed32 camera t1 t2 t3)) hx1
  have ey := scan_offset _ y (minY32_nonneg (projectFixed32 camera t1 t2 t3)) hy1
  unfold renderStateAt32
  rw [shadeStateAt32_p, ex, ey]

/-- One pixel of the vertex-coloured loop, in 32-bit `int`s, advances the primary shadow cameras and binds no
environment map if none was bound. -/
theorem shadePixel32_cameras (m : Libm) (camera : PinholeCamera) (f : FixedPoint)
    (rc : Matrix 3 8) (dls : List DirectionalLight) (material : Material) (zBuffer : List ℚ)
    (cb zb : Nat) (y : Int) (s : ShadePixel) :
    shadowCameras (shadePixel32 m camera f rc dls material zBuffer cb zb y s).pointLights =
        (shadowCameras s.pointLights).map (onPrimary shadowPixelAdvance) ∧
      (s.reflectionMap = none →
        (shadePixel32 m camera f rc dls material zBuffer cb zb y s).reflectionMap = none) := by
  unfold shadePixel32
  simp only []
  rw [shadowCameras_map]
  constructor
  · split_ifs
    · unfold shadePixelLight
      rw [light_cameras]
    · rfl
  · intro h
    split_ifs
    · unfold shadePixelLight
      rw [h]
      rfl
    · exact h

theorem shadePixel32_iterate_cameras (m : Libm) (camera : PinholeCamera) (f : FixedPoint)
    (rc : Matrix 3 8) (dls : List DirectionalLight) (material : Material) (zBuffer : List ℚ)
    (cb zb : Nat) (y : Int) (s : ShadePixel) (k : Nat) :
    shadowCameras ((shadePixel32 m camera f rc dls material zBuffer cb zb y)^[k] s).pointLights =
        (shadowCameras s.pointLights).map (onPrimary (shadowPixelAdvance^[k])) ∧
      (s.reflectionMap = none →
        ((shadePixel32 m camera f rc dls material zBuffer cb zb y)^[k] s).reflectionMap =
          none) := by
  induction k with
  | zero =>
    rw [Function.iterate_zero, Function.iterate_zero, map_onPrimary_id]
    exact ⟨rfl, fun h => h⟩
  | succ k ih =>
    rw [Function.iterate_succ_apply', Function.iterate_succ']
    obtain ⟨h1, h2⟩ := shadePixel32_cameras m camera f rc dls material zBuffer cb zb y
      ((shadePixel32 m camera f rc dls material zBuffer cb zb y)^[k] s)
    rw [h1, ih.1, map_onPrimary_comp]
    exact ⟨rfl, fun h => h2 (ih.2 h)⟩

theorem shadeRow32_cameras (m : Libm) (camera : PinholeCamera) (f : FixedPoint)
    (rc : Matrix 3 8) (dls : List DirectionalLight) (material : Material) (zBuffer : List ℚ)
    (width : Nat) (minX maxX : Int) (s : ShadeRow) :
    shadowCameras (shadeRow32 m camera f rc dls material zBuffer width minX maxX s).pointLights =
        (shadowCameras s.pointLights).map
          (onPrimary (shadowScanline (loopCount minX maxX))) ∧
      (s.reflectionMap = none →
        (shadeRow32 m camera f rc dls material zBuffer width minX maxX s).reflectionMap =
          none) := by
  obtain ⟨h1, h2⟩ := shadePixel32_iterate_cameras m camera f rc dls material zBuffer s.cb s.zb
    s.y (shadeRowStart minX s) (loopCount minX maxX)
  have hstart : (shadeRowStart minX s).pointLights =
      s.pointLights.map (onPrimaryCameras shadowRowStart) := rfl
  have hrefl : (shadeRowStart minX s).reflectionMap = s.reflectionMap := rfl
  rw [hstart, shadowCameras_map, map_onPrimary_comp] at h1
  rw [hrefl] at h2
  unfold shadeRow32
  simp only []
  rw [shadowCameras_map, h1, map_onPrimary_comp]
  exact ⟨rfl, h2⟩

theorem shadeRow32_iterate_cameras (m : Libm) (camera : PinholeCamera) (f : FixedPoint)
    (rc : Matrix 3 8) (dls : List DirectionalLight) (material : Material) (zBuffer : List ℚ)
    (width : Nat) (minX maxX : Int) (s : ShadeRow) (j : Nat) :
    shadowCameras
        ((shadeRow32 m camera f rc dls material zBuffer width minX maxX)^[j] s).pointLights =
        (shadowCameras s.pointLights).map
          (onPrimary ((shadowScanline (loopCount minX maxX))^[j])) ∧
      (s.reflectionMap = none →
        ((shadeRow32 m camera f rc dls material zBuffer width minX maxX)^[j] s).reflectionMap =
          none) := by
  induction j with
  | zero =>
    rw [Function.iterate_zero, Function.iterate_zero, map_onPrimary_id]
    exact ⟨rfl, fun h => h⟩
  | succ j ih =>
    rw [Function.iterate_succ_apply', Function.iterate_succ']
    obtain ⟨h1, h2⟩ := shadeRow32_cameras m camera f rc dls material zBuffer width minX maxX
      ((shadeRow32 m camera f rc dls material zBuffer width minX maxX)^[j] s)
    rw [h1, ih.1, map_onPrimary_comp]
    exact ⟨rfl, fun h => h2 (ih.2 h)⟩

/-- The shadow cameras of the point lights, and the absence of an environment map, at the
moment pixel number `k` of scanline number `j` is tested by the vertex-coloured loop, in
32-bit `int`s. -/
theorem shadeStateAt32_cameras (m : Libm) (camera : PinholeCamera) (f : FixedPoint)
    (rc : Matrix 3 8) (dls : List DirectionalLight) (material : Material) (zBuffer : List ℚ)
    (width : Nat) (pls : List PointLight) (refl : Option CubeMap) (buffer : List Vec4)
    (j k : Nat) :
    shadowCameras (shadeStateAt32 m camera f rc dls material zBuffer width f.minX32 (f.maxX32 width)
        (shadeInit32 camera f rc width pls refl buffer) j k).pointLights =
        (shadowCameras pls).map
          (onPrimary (shadowAt camera ![(f.minX32 : ℚ), (f.minY32 : ℚ), 1]
            (vecMul ![(f.minX32 : ℚ), (f.minY32 : ℚ), 1] rc 0) (rc 0 0) (rc 1 0)
            (loopCount f.minX32 (f.maxX32 width)) j k)) ∧
      (refl = none →
        (shadeStateAt32 m camera f rc dls material zBuffer width f.minX32 (f.maxX32 width)
          (shadeInit32 camera f rc width pls refl buffer) j k).reflectionMap = none) := by
  obtain ⟨r1, r2⟩ := shadeRow32_iterate_cameras m camera f rc dls material zBuffer width f.minX32
    (f.maxX32 width) (shadeInit32 camera f rc width pls refl buffer) j
  have hinit : (shadeInit32 camera f rc width pls refl buffer).pointLights =
      pls.map (onPrimaryCameras (shadowSetup camera ![(f.minX32 : ℚ), (f.minY32 : ℚ), 1]
        (vecMul ![(f.minX32 : ℚ), (f.minY32 : ℚ), 1] rc 0) (rc 0 0) (rc 1 0))) := rfl
  have hrefl : (shadeInit32 camera f rc width pls refl buffer).reflectionMap = refl := rfl
  rw [hinit, shadowCameras_map, map_onPrimary_comp] at r1
  rw [hrefl] at r2
  obtain ⟨p1, p2⟩ := shadePixel32_iterate_cameras m camera f rc dls material zBuffer
    ((shadeRow32 m camera f rc dls material zBuffer width f.minX32 (f.maxX32 width))^[j]
      (shadeInit32 camera f rc width pls refl buffer)).cb
    ((shadeRow32 m camera f rc dls material zBuffer width f.minX32 (f.maxX32 width))^[j]
      (shadeInit32 camera f rc width pls refl buffer)).zb
    ((shadeRow32 m camera f rc dls material zBuffer width f.minX32 (f.maxX32 width))^[j]
      (shadeInit32 camera f rc width pls refl buffer)).y
    (shadeRowStart f.minX32 ((shadeRow32 m camera f rc dls material zBuffer width f.minX32
      (f.maxX32 width))^[j] (shadeInit32 camera f rc width pls refl buffer))) k
  have hstart : ∀ s : ShadeRow, (shadeRowStart f.minX32 s).pointLights =
      s.pointLights.map (onPrimaryCameras shadowRowStart) := fun _ => rfl
  have hsr : ∀ s : ShadeRow, (shadeRowStart f.minX32 s).reflectionMap = s.reflectionMap :=
    fun _ => rfl
  rw [hstart, shadowCameras_map, r1, map_onPrimary_comp, map_onPrimary_comp] at p1
  rw [hsr] at p2
  unfold shadeStateAt32
  exact ⟨p1, fun h => p2 (r2 h)⟩

end graphics

namespace graphics
open math

/-- The inverse of the screen matrix maps the column of ones, its third column, to the
third unit vector. -/
theorem inverse_screen_ones (p1 p2 p3 : Vec3)
    (hdet : determinant (screenMatrix p1 p2 p3) ≠ 0) :
    mulVec (inverse ![![p1 0, p1 1, 1], ![p2 0, p2 1, 1], ![p3 0, p3 1, 1]]) ![1, 1, 1] =
      ![0, 0, 1] := by
  have h := (mulVec_inverse_iff (screenMatrix p1 p2 p3) hdet ![1, 1, 1] ![0, 0, 1]).mp
    (by
      intro i
      fin_cases i <;> simp [screenMatrix, dot, Fin.sum_univ_three])
  exact h.symm

/-- The planes fitted to three equal vertex colours are constant: the colour part of the
interpolated attribute vector is that colour at every screen point. -/
theorem planeAt_solid (p1 p2 p3 : Vec3) (c : Vec4) (n1 n2 n3 : Vec3) (x y : ℚ)
    (hdet : determinant (screenMatrix p1 p2 p3) ≠ 0) :
    planeAt (shadeRc p1 p2 p3 c c c n1 n2 n3) x y 1 = c 0 ∧
      planeAt (shadeRc p1 p2 p3 c c c n1 n2 n3) x y 2 = c 1 ∧
      planeAt (shadeRc p1 p2 p3 c c c n1 n2 n3) x y 3 = c 2 ∧
      planeAt (shadeRc p1 p2 p3 c c c n1 n2 n3) x y 4 = c 3 := by
  have h := inverse_screen_ones p1 p2 p3 hdet
  have h0 := congrFun h 0
  have h1 := congrFun h 1
  have h2 := congrFun h 2
  simp only [mulVec, dot, Fin.sum_univ_three, Matrix.cons_val_zero, Matrix.cons_val_one,
    Matrix.head_cons, Matrix.cons_val_two, Matrix.tail_cons] at h0 h1 h2
  refine ⟨?_, ?_, ?_, ?_⟩ <;>
    · rw [planeAt_apply]
      simp only [shadeRc, mul, dot, getColumn, Fin.sum_univ_three, Matrix.cons_val_zero,
        Matrix.cons_val_one, Matrix.head_cons, Matrix.cons_val_two, Matrix.tail_cons,
        Matrix.cons_val_three, Matrix.cons_val_four]
      linear_combination (x * c _) * h0 + (y * c _) * h1 + (c _) * h2

end graphics

namespace graphics
open math

/-- With both light lists empty the factors of `light` are the ambient diffuse factor and
no specular colour. -/
theorem accumulate_unlit (m : Libm) (normal reflectedRay surfacePoint : Vec3) (w : ℚ)
    (material : Material) :
    accumulate m normal reflectedRay surfacePoint [] [] w material =
      ((ambientFactor material, 0), []) := by
  unfold accumulate ambientFactor
  by_cases hR : material.kR = 1
  · rw [if_neg (fun h => h.2 hR), if_pos hR, if_pos hR]
    rfl
  · rw [if_neg hR, if_neg hR]
    split_ifs <;> rfl

/-- The shaded colour of an unlit fragment with no environment map bound. -/
theorem shade_unlit (m : Libm) (color : Vec4) (normal surfacePoint cameraPosition : Vec3)
    (w : ℚ) (material : Material) :
    (shade m none color normal surfacePoint cameraPosition [] [] w material).1 =
      clampColor (ambientFactor material • ![color 0, color 1, color 2]) := by
  unfold shade
  simp only [accumulate_unlit, zero_add]

/-- Compositing an opaque colour replaces the pixel. -/
theorem composite_alpha_one (color existing : Vec4) (h : color 3 = 1) :
    composite color existing = color := by
  unfold composite
  rw [h, sub_self, zero_smul, add_zero]

/-- The pixel written by the vertex-coloured `renderTriangle`, in 32-bit `int`s, for an
opaque triangle with three equal vertex colours, no lights and no environment map. -/
theorem unlit_pixel (m : Libm) (fb : Framebuffer) (camera : PinholeCamera) (t1 t2 t3 : Vec3)
    (c : Vec4) (n1 n2 n3 : Vec3) (material : Material) (x y : Nat) (hwf : fb.WellFormed)
    (hx : x < fb.width)
    (hdet : determinant
      (screenMatrix (camera.project t1) (camera.project t2) (camera.project t3)) ≠ 0)
    (halpha : c 3 = 1) (hcov : covered fb camera t1 t2 t3 x y)
    (hz : fb.zLookup x y ≤ interpolatedDepth camera t1 t2 t3 x y) :
    (fb.renderTriangle32 m camera t1 t2 t3 c c c n1 n2 n3 [] [] none material).framebuffer.pixel
        x y =
      ![clampColor (ambientFactor material • ![c 0, c 1, c 2]) 0,
        clampColor (ambientFactor material • ![c 0, c 1, c 2]) 1,
        clampColor (ambientFactor material • ![c 0, c 1, c 2]) 2, 1] := by
  have hbox : inScanBox32 (projectFixed32 camera t1 t2 t3) fb.width fb.height x y := hcov.2.1
  rw [(renderTriangle32_pixel m fb camera t1 t2 t3 c c c n1 n2 n3 [] [] none material x y
    hx).1 hwf hcov hz]
  have hp := renderStateAt32_p m fb camera t1 t2 t3 c c c n1 n2 n3 [] [] none material x y hbox
  obtain ⟨hc, hr⟩ := shadeStateAt32_cameras m camera (projectFixed32 camera t1 t2 t3)
    (shadeRc (camera.project t1) (camera.project t2) (camera.project t3) c c c n1 n2 n3)
    [] material fb.zBuffer fb.width [] none fb.buffer
    (y - (projectFixed32 camera t1 t2 t3).minY32.toNat)
    (x - (projectFixed32 camera t1 t2 t3).minX32.toNat)
  have hpls : (renderStateAt32 m fb camera t1 t2 t3 c c c n1 n2 n3 [] [] none material x
      y).pointLights = [] := by
    unfold renderStateAt32
    exact List.map_eq_nil_iff.mp hc
  have hrefl : (renderStateAt32 m fb camera t1 t2 t3 c c c n1 n2 n3 [] [] none material x
      y).reflectionMap = none := hr rfl
  obtain ⟨k1, k2, k3, k4⟩ := planeAt_solid (camera.project t1) (camera.project t2)
    (camera.project t3) c n1 n2 n3 x y hdet
  unfold shadePixelLight
  rw [hpls, hrefl, hp, k1, k2, k3, k4]
  rw [composite_alpha_one _ _ (by rw [light_fst]; simp [halpha])]
  funext i
  rw [light_fst, shade_unlit]
  fin_cases i <;> simp [halpha]

end graphics

namespace graphics
open math

/-- C16 (unlit solid colour), amended: when an opaque triangle with three equal vertex
colours, whose projected vertices are not collinear, is rendered by `renderTriangle`
(computed in 32-bit `int`s as the routine does) with empty light lists and no environment
map bound, and the divisor `kM * kA + kX` of the colour curve is not zero unless `kR == 1`,
every pixel it shades is written with the solid colour scaled by the ambient diffuse factor
of the material - `kA` when `kR == 1`, otherwise `1 - 1 / (kM * kA + kX)`, the number whose
product with the divisor is the divisor minus one - and rescaled by the clamp, with alpha
`1`; it is written with exactly the solid colour when `kR == 1`, `kA == 1` and no channel
of the colour exceeds `1`. -/
theorem unlit_solid_colour (m : Libm) (fb : Framebuffer) (camera : PinholeCamera)
    (t1 t2 t3 : Vec3) (c : Vec4) (n1 n2 n3 : Vec3) (material : Material) (x y : Nat)
    (hwf : fb.WellFormed) (hx : x < fb.width)
    (hdet : determinant
      (screenMatrix (camera.project t1) (camera.project t2) (camera.project t3)) ≠ 0)
    (halpha : c 3 = 1)
    (hk : material.kR ≠ 1 → material.kM * material.kA + material.kX ≠ 0)
    (hcov : covered fb camera t1 t2 t3 x y)
    (hz : fb.zLookup x y ≤ interpolatedDepth camera t1 t2 t3 x y) :
    (fb.renderTriangle32 m camera t1 t2 t3 c c c n1 n2 n3 [] [] none
          material).framebuffer.pixel x y =
        ![clampColor (ambientFactor material • ![c 0, c 1, c 2]) 0,
          clampColor (ambientFactor material • ![c 0, c 1, c 2]) 1,
          clampColor (ambientFactor material • ![c 0, c 1, c 2]) 2, 1] ∧
      (material.kR = 1 → ambientFactor material = material.kA) ∧
      (material.kR ≠ 1 →
        ambientFactor material * (material.kM * material.kA + material.kX) =
          material.kM * material.kA + material.kX - 1) ∧
      (material.kR = 1 → material.kA = 1 → max3 ![c 0, c 1, c 2] ≤ 1 →
        (fb.renderTriangle32 m camera t1 t2 t3 c c c n1 n2 n3 [] [] none
          material).framebuffer.pixel x y = c) := by
  have h := unlit_pixel m fb camera t1 t2 t3 c n1 n2 n3 material x y hwf hx hdet halpha hcov hz
  refine ⟨h, ?_, ?_, ?_⟩
  · intro hR
    unfold ambientFactor
    rw [if_pos hR]
  · intro hR
    have hd := hk hR
    unfold ambientFactor compress
    rw [if_neg hR]
    field_simp
  intro hR hA hmax
  have ha : ambientFactor material = 1 := by
    unfold ambientFactor
    rw [if_pos hR, hA]
  rw [h, ha, one_smul]
  unfold clampColor
  rw [if_neg (not_lt.mpr hmax)]
  funext i
  fin_cases i <;> simp [halpha]

theorem unlit_solid_colour_witness :
    (sampleFramebuffer.WellFormed ∧ 1 < sampleFramebuffer.width ∧
        determinant (screenMatrix (sampleCamera.project sampleTriangle.1)
          (sampleCamera.project sampleTriangle.2.1)
          (sampleCamera.project sampleTriangle.2.2)) ≠ 0 ∧
        (![1, 0, 0, 1] : Vec4) 3 = 1 ∧
        (flat.kR ≠ 1 → flat.kM * flat.kA + flat.kX ≠ 0) ∧
        covered sampleFramebuffer sampleCamera sampleTriangle.1 sampleTriangle.2.1
          sampleTriangle.2.2 1 1 ∧
        sampleFramebuffer.zLookup 1 1 ≤
          interpolatedDepth sampleCamera sampleTriangle.1 sampleTriangle.2.1
            sampleTriangle.2.2 1 1) ∧
      (sampleFramebuffer.renderTriangle32 tableLibm sampleCamera sampleTriangle.1
          sampleTriangle.2.1 sampleTriangle.2.2 ![1, 0, 0, 1] ![1, 0, 0, 1] ![1, 0, 0, 1]
          ![0, 0, 1] ![0, 0, 1] ![0, 0, 1] [] [] none flat).framebuffer.pixel 1 1 =
        ![clampColor (ambientFactor flat • ![(![1, 0, 0, 1] : Vec4) 0, (![1, 0, 0, 1] : Vec4) 1,
            (![1, 0, 0, 1] : Vec4) 2]) 0,
          clampColor (ambientFactor flat • ![(![1, 0, 0, 1] : Vec4) 0, (![1, 0, 0, 1] : Vec4) 1,
            (![1, 0, 0, 1] : Vec4) 2]) 1,
          clampColor (ambientFactor flat • ![(![1, 0, 0, 1] : Vec4) 0, (![1, 0, 0, 1] : Vec4) 1,
            (![1, 0, 0, 1] : Vec4) 2]) 2, 1] :=
  ⟨⟨sampleFramebuffer_wellFormed, by decide, by decide!, by decide!, by decide!, by decide!,
      by decide!⟩,
    (unlit_solid_colour tableLibm sampleFramebuffer sampleCamera sampleTriangle.1
      sampleTriangle.2.1 sampleTriangle.2.2 ![1, 0, 0, 1] ![0, 0, 1] ![0, 0, 1] ![0, 0, 1] flat
      1 1 sampleFramebuffer_wellFormed (by decide) (by decide!) (by decide!) (by decide!)
      (by decide!) (by decide!)).1⟩

/-- C16, counterexample: the opaque red sample triangle, material `flat`, no lights and no
environment map, rendered in 32-bit `int`s as the routine does. Pixel `(1, 1)` is shaded,
and it is written with `(3 / 103, 0, 0, 1)`, the colour scaled by `1 - 1 / (3 * 0.01 + 1)`,
not with red. -/
theorem unlit_pixel_dimmed :
    (covered sampleFramebuffer sampleCamera sampleTriangle.1 sampleTriangle.2.1
          sampleTriangle.2.2 1 1 ∧
        sampleFramebuffer.zLookup 1 1 ≤
          interpolatedDepth sampleCamera sampleTriangle.1 sampleTriangle.2.1
            sampleTriangle.2.2 1 1) ∧
      (sampleFramebuffer.renderTriangle32 tableLibm sampleCamera sampleTriangle.1
          sampleTriangle.2.1 sampleTriangle.2.2 ![1, 0, 0, 1] ![1, 0, 0, 1] ![1, 0, 0, 1]
          ![0, 0, 1] ![0, 0, 1] ![0, 0, 1] [] [] none flat).framebuffer.pixel 1 1 =
        ![3 / 103, 0, 0, 1] ∧
      (sampleFramebuffer.renderTriangle32 tableLibm sampleCamera sampleTriangle.1
          sampleTriangle.2.1 sampleTriangle.2.2 ![1, 0, 0, 1] ![1, 0, 0, 1] ![1, 0, 0, 1]
          ![0, 0, 1] ![0, 0, 1] ![0, 0, 1] [] [] none flat).framebuffer.pixel 1 1 ≠
        ![1, 0, 0, 1] := by
  have h := unlit_pixel tableLibm sampleFramebuffer sampleCamera sampleTriangle.1
    sampleTriangle.2.1 sampleTriangle.2.2 ![1, 0, 0, 1] ![0, 0, 1] ![0, 0, 1] ![0, 0, 1] flat
    1 1 sampleFramebuffer_wellFormed (by decide) (by decide!) (by decide!) (by decide!)
    (by decide!)
  refine ⟨⟨by decide!, by decide!⟩, ?_, ?_⟩
  · rw [h]
    decide!
  · rw [h]
    decide!

end graphics

namespace graphics
open math

theorem texturePixel_iterate_coords (m : Libm) (camera : PinholeCamera) (texture : Framebuffer)
    (f : FixedPoint) (rc : Matrix 3 4) (dc : Matrix 3 2) (nc : Vec3)
    (dls : List DirectionalLight) (material : Material) (zBuffer : List ℚ) (cb zb : Nat)
    (y : Int) (s : TexturePixel) (k : Nat) :
    ((texturePixel m camera texture f rc dc nc dls material zBuffer cb zb y)^[k] s).dx =
        s.dx + k * dc 0 0 ∧
      ((texturePixel m camera texture f rc dc nc dls material zBuffer cb zb y)^[k] s).dy =
        s.dy + k * dc 0 1 ∧
      ((texturePixel m camera texture f rc dc nc dls material zBuffer cb zb y)^[k] s).n =
        s.n + k * nc 0 := by
  induction k with
  | zero => simp
  | succ k ih =>
    rw [Function.iterate_succ_apply']
    obtain ⟨h1, h2, h3⟩ := ih
    refine ⟨?_, ?_, ?_⟩
    · show ((texturePixel m camera texture f rc dc nc dls material zBuffer cb zb y)^[k] s).dx +
        dc 0 0 = _
      rw [h1]; push_cast; ring
    · show ((texturePixel m camera texture f rc dc nc dls material zBuffer cb zb y)^[k] s).dy +
        dc 0 1 = _
      rw [h2]; push_cast; ring
    · show ((texturePixel m camera texture f rc dc nc dls material zBuffer cb zb y)^[k] s).n +
        nc 0 = _
      rw [h3]; push_cast; ring

theorem textureRow_iterate_coords (m : Libm) (camera : PinholeCamera) (texture : Framebuffer)
    (f : FixedPoint) (rc : Matrix 3 4) (dc : Matrix 3 2) (nc : Vec3)
    (dls : List DirectionalLight) (material : Material) (zBuffer : List ℚ) (width : Nat)
    (minX maxX : Int) (s : TextureRow) (j : Nat) :
    ((textureRow m camera texture f rc dc nc dls material zBuffer width minX maxX)^[j] s).rdx =
        s.rdx + j * dc 1 0 ∧
      ((textureRow m camera texture f rc dc nc dls material zBuffer width minX maxX)^[j] s).rdy =
        s.rdy + j * dc 1 1 ∧
      ((textureRow m camera texture f rc dc nc dls material zBuffer width minX maxX)^[j] s).rn =
        s.rn + j * nc 1 := by
  induction j with
  | zero => simp
  | succ j ih =>
    rw [Function.iterate_succ_apply']
    obtain ⟨h1, h2, h3⟩ := ih
    refine ⟨?_, ?_, ?_⟩
    · show ((textureRow m camera texture f rc dc nc dls material zBuffer width minX
        maxX)^[j] s).rdx + dc 1 0 = _
      rw [h1]; push_cast; ring
    · show ((textureRow m camera texture f rc dc nc dls material zBuffer width minX
        maxX)^[j] s).rdy + dc 1 1 = _
      rw [h2]; push_cast; ring
    · show ((textureRow m camera texture f rc dc nc dls material zBuffer width minX
        maxX)^[j] s).rn + nc 1 = _
      rw [h3]; push_cast; ring

/-- The incrementally updated numerators and denominator of the texture coordinates at
pixel number `k` of scanline number `j`, in closed form. -/
theorem textureStateAt_coords (m : Libm) (camera : PinholeCamera) (texture : Framebuffer)
    (f : FixedPoint) (rc : Matrix 3 4) (dc : Matrix 3 2) (nc : Vec3)
    (dls : List DirectionalLight) (material : Material) (zBuffer : List ℚ) (width : Nat)
    (pls : List PointLight) (refl : Option CubeMap) (buffer : List Vec4) (j k : Nat) :
    (textureStateAt m camera texture f rc dc nc dls material zBuffer width f.minX
        (f.maxX width) (textureInit camera f rc dc nc width pls refl buffer) j k).dx =
        dot (getColumn dc 0) ![(f.minX : ℚ) + k, (f.minY : ℚ) + j, 1] ∧
      (textureStateAt m camera texture f rc dc nc dls material zBuffer width f.minX
        (f.maxX width) (textureInit camera f rc dc nc width pls refl buffer) j k).dy =
        dot (getColumn dc 1) ![(f.minX : ℚ) + k, (f.minY : ℚ) + j, 1] ∧
      (textureStateAt m camera texture f rc dc nc dls material zBuffer width f.minX
        (f.maxX width) (textureInit camera f rc dc nc width pls refl buffer) j k).n =
        dot nc ![(f.minX : ℚ) + k, (f.minY : ℚ) + j, 1] := by
  obtain ⟨r1, r2, r3⟩ := textureRow_iterate_coords m camera texture f rc dc nc dls material
    zBuffer width f.minX (f.maxX width) (textureInit camera f rc dc nc width pls refl buffer) j
  obtain ⟨p1, p2, p3⟩ := texturePixel_iterate_coords m camera texture f rc dc nc dls material
    zBuffer
    ((textureRow m camera texture f rc dc nc dls material zBuffer width f.minX
      (f.maxX width))^[j] (textureInit camera f rc dc nc width pls refl buffer)).cb
    ((textureRow m camera texture f rc dc nc dls material zBuffer width f.minX
      (f.maxX width))^[j] (textureInit camera f rc dc nc width pls refl buffer)).zb
    ((textureRow m camera texture f rc dc nc dls material zBuffer width f.minX
      (f.maxX width))^[j] (textureInit camera f rc dc nc width pls refl buffer)).y
    (textureRowStart f.minX ((textureRow m camera texture f rc dc nc dls material zBuffer width
      f.minX (f.maxX width))^[j] (textureInit camera f rc dc nc width pls refl buffer))) k
  have s1 : ∀ s : TextureRow, (textureRowStart f.minX s).dx = s.rdx := fun _ => rfl
  have s2 : ∀ s : TextureRow, (textureRowStart f.minX s).dy = s.rdy := fun _ => rfl
  have s3 : ∀ s : TextureRow, (textureRowStart f.minX s).n = s.rn := fun _ => rfl
  have i1 : (textureInit camera f rc dc nc width pls refl buffer).rdx =
      dot (getColumn dc 0) ![(f.minX : ℚ), (f.minY : ℚ), 1] := rfl
  have i2 : (textureInit camera f rc dc nc width pls refl buffer).rdy =
      dot (getColumn dc 1) ![(f.minX : ℚ), (f.minY : ℚ), 1] := rfl
  have i3 : (textureInit camera f rc dc nc width pls refl buffer).rn =
      dot nc ![(f.minX : ℚ), (f.minY : ℚ), 1] := rfl
  unfold textureStateAt
  refine ⟨?_, ?_, ?_⟩
  · rw [p1, s1, r1, i1]
    simp only [dot, getColumn, Fin.sum_univ_three, Matrix.cons_val_zero, Matrix.cons_val_one,
      Matrix.head_cons, Matrix.cons_val_two, Matrix.tail_cons]
    ring
  · rw [p2, s2, r2, i2]
    simp only [dot, getColumn, Fin.sum_univ_three, Matrix.cons_val_zero, Matrix.cons_val_one,
      Matrix.head_cons, Matrix.cons_val_two, Matrix.tail_cons]
    ring
  · rw [p3, s3, r3, i3]
    simp only [dot, getColumn, Fin.sum_univ_three, Matrix.cons_val_zero, Matrix.cons_val_one,
      Matrix.head_cons, Matrix.cons_val_two, Matrix.tail_cons]
    ring

end graphics

namespace math

/-- For an invertible 3 x 3 matrix, `(w * M) * M.inverse() = w` for a row vector `w`. -/
theorem vecMul_mul_inverse (M : Mat3) (hdet : determinant M ≠ 0) (w : Vec3) :
    vecMul (vecMul w M) (inverse M) = w := by
  funext i
  fin_cases i <;>
    simp only [vecMul, dot, getColumn, inverse, Fin.sum_univ_three, Fin.zero_eta, Fin.mk_one,
      Fin.reduceFinMk, Matrix.cons_val_zero, Matrix.cons_val_one, Matrix.head_cons,
      Matrix.cons_val_two, Matrix.tail_cons] <;>
    field_simp <;> unfold determinant <;> ring

end math

namespace graphics
open math

/-- The row vector `(x, y, 1) * tc` is the direction of the viewing ray times the inverse
of the matrix of the vertices relative to the camera centre. -/
theorem rayWeights_eq (camera : PinholeCamera) (t1 t2 t3 : Vec3) (x y : ℚ) :
    rayWeights camera t1 t2 t3 x y =
      vecMul (fun l => camera.a l * x + camera.b l * y + camera.c l)
        (inverse ![t1 - camera.center, t2 - camera.center, t3 - camera.center]) := by
  funext j
  simp only [rayWeights, textureTc, vecMul, mul, dot, getColumn, Fin.sum_univ_three,
    Matrix.cons_val_zero, Matrix.cons_val_one, Matrix.head_cons, Matrix.cons_val_two,
    Matrix.tail_cons]
  ring

/-- The numerators `dx`, `dy` and the denominator `n` as functions of the screen point. -/
theorem texture_numerators (camera : PinholeCamera) (t1 t2 t3 : Vec3) (r1 r2 r3 : Vec2)
    (x y : ℚ) :
    dot (getColumn (textureDc camera t1 t2 t3 r1 r2 r3) 0) ![x, y, 1] =
        rayWeights camera t1 t2 t3 x y 0 * r1 0 + rayWeights camera t1 t2 t3 x y 1 * r2 0 +
          rayWeights camera t1 t2 t3 x y 2 * r3 0 ∧
      dot (getColumn (textureDc camera t1 t2 t3 r1 r2 r3) 1) ![x, y, 1] =
        rayWeights camera t1 t2 t3 x y 0 * r1 1 + rayWeights camera t1 t2 t3 x y 1 * r2 1 +
          rayWeights camera t1 t2 t3 x y 2 * r3 1 ∧
      dot (textureNc camera t1 t2 t3) ![x, y, 1] =
        rayWeights camera t1 t2 t3 x y 0 + rayWeights camera t1 t2 t3 x y 1 +
          rayWeights camera t1 t2 t3 x y 2 := by
  refine ⟨?_, ?_, ?_⟩ <;>
    · simp only [rayWeights, textureDc, textureNc, sum, vecMul, mul, dot, getColumn,
        Fin.sum_univ_three, Matrix.cons_val_zero, Matrix.cons_val_one, Matrix.head_cons,
        Matrix.cons_val_two, Matrix.tail_cons]
      ring

/-- When the point at parameter `d` on the viewing ray through `(x, y)` is the point of the
triangle's plane with barycentric coordinates `w`, the ray weights scaled by `d` are
`w`. -/
theorem rayWeights_scaled (camera : PinholeCamera) (t1 t2 t3 : Vec3) (x y d : ℚ) (w : Vec3)
    (hT : determinant ![t1 - camera.center, t2 - camera.center, t3 - camera.center] ≠ 0)
    (hw : w 0 + w 1 + w 2 = 1)
    (hray : camera.center + d • (x • camera.a + y • camera.b + camera.c) =
      w 0 • t1 + w 1 • t2 + w 2 • t3) (j : Fin 3) :
    d * rayWeights camera t1 t2 t3 x y j = w j := by
  have hv : vecMul w ![t1 - camera.center, t2 - camera.center, t3 - camera.center] =
      fun l => d * (camera.a l * x + camera.b l * y + camera.c l) := by
    funext l
    have hl := congrFun hray l
    simp only [Pi.add_apply, Pi.smul_apply, smul_eq_mul] at hl
    simp only [vecMul, dot, getColumn, Fin.sum_univ_three, Matrix.cons_val_zero,
      Matrix.cons_val_one, Matrix.head_cons, Matrix.cons_val_two, Matrix.tail_cons,
      Pi.sub_apply]
    linear_combination (-camera.center l) * hw - hl
  have hc := congrFun (vecMul_mul_inverse _ hT w) j
  rw [hv] at hc
  rw [← hc, rayWeights_eq]
  simp only [vecMul, dot, getColumn, Fin.sum_univ_three]
  ring

end graphics

namespace graphics
open math

theorem quotient_of_scaled (d num den val : ℚ) (hden : d * den = 1) (hnum : d * num = val) :
    num / den = val := by
  have hn0 : den ≠ 0 := by
    intro h
    rw [h, mul_zero] at hden
    exact zero_ne_one hden
  rw [div_eq_iff hn0, ← hnum]
  linear_combination (-num) * hden

/-- The numerators and the denominator the textured loop holds when it tests a scan-box
pixel. -/
theorem renderTexturedStateAt_coords (m : Libm) (fb : Framebuffer) (camera : PinholeCamera)
    (texture : Framebuffer) (t1 t2 t3 : Vec3) (r1 r2 r3 : Vec2) (n1 n2 n3 : Vec3)
    (dls : List DirectionalLight) (pls : List PointLight) (refl : Option CubeMap)
    (material : Material) (x y : Nat)
    (hbox : inScanBox (projectFixed camera t1 t2 t3) fb.width fb.height x y) :
    (renderTexturedStateAt m fb camera texture t1 t2 t3 r1 r2 r3 n1 n2 n3 dls pls refl
        material x y).dx =
        rayWeights camera t1 t2 t3 x y 0 * r1 0 + rayWeights camera t1 t2 t3 x y 1 * r2 0 +
          rayWeights camera t1 t2 t3 x y 2 * r3 0 ∧
      (renderTexturedStateAt m fb camera texture t1 t2 t3 r1 r2 r3 n1 n2 n3 dls pls refl
        material x y).dy =
        rayWeights camera t1 t2 t3 x y 0 * r1 1 + rayWeights camera t1 t2 t3 x y 1 * r2 1 +
          rayWeights camera t1 t2 t3 x y 2 * r3 1 ∧
      (renderTexturedStateAt m fb camera texture t1 t2 t3 r1 r2 r3 n1 n2 n3 dls pls refl
        material x y).n =
        rayWeights camera t1 t2 t3 x y 0 + rayWeights camera t1 t2 t3 x y 1 +
          rayWeights camera t1 t2 t3 x y 2 := by
  obtain ⟨hx1, -, hy1, -⟩ := hbox
  have ex := scan_offset _ x (minX_nonneg (projectFixed camera t1 t2 t3)) hx1
  have ey := scan_offset _ y (minY_nonneg (projectFixed camera t1 t2 t3)) hy1
  obtain ⟨c1, c2, c3⟩ := textureStateAt_coords m camera texture (projectFixed camera t1 t2 t3)
    (textureRc (camera.project t1) (camera.project t2) (camera.project t3) n1 n2 n3)
    (textureDc camera t1 t2 t3 r1 r2 r3) (textureNc camera t1 t2 t3) dls material fb.zBuffer
    fb.width pls refl fb.buffer (y - (projectFixed camera t1 t2 t3).minY.toNat)
    (x - (projectFixed camera t1 t2 t3).minX.toNat)
  rw [ex, ey] at c1 c2 c3
  obtain ⟨e1, e2, e3⟩ := texture_numerators camera t1 t2 t3 r1 r2 r3 x y
  unfold renderTexturedStateAt
  exact ⟨c1.trans e1, c2.trans e2, c3.trans e3⟩

/-- The unwrapped texture coordinates at a scan-box pixel whose viewing ray meets the plane
of the triangle at the point with barycentric coordinates `w`. -/
theorem texture_coordinates_at (m : Libm) (fb : Framebuffer) (camera : PinholeCamera)
    (texture : Framebuffer) (t1 t2 t3 : Vec3) (r1 r2 r3 : Vec2) (n1 n2 n3 : Vec3)
    (dls : List DirectionalLight) (pls : List PointLight) (refl : Option CubeMap)
    (material : Material) (x y : Nat) (d : ℚ) (w : Vec3)
    (hT : determinant ![t1 - camera.center, t2 - camera.center, t3 - camera.center] ≠ 0)
    (hbox : inScanBox (projectFixed camera t1 t2 t3) fb.width fb.height x y)
    (hw : w 0 + w 1 + w 2 = 1)
    (hray : camera.center + d • ((x : ℚ) • camera.a + (y : ℚ) • camera.b + camera.c) =
      w 0 • t1 + w 1 • t2 + w 2 • t3) :
    (renderTexturedStateAt m fb camera texture t1 t2 t3 r1 r2 r3 n1 n2 n3 dls pls refl
          material x y).dx /
        (renderTexturedStateAt m fb camera texture t1 t2 t3 r1 r2 r3 n1 n2 n3 dls pls refl
          material x y).n = w 0 * r1 0 + w 1 * r2 0 + w 2 * r3 0 ∧
      (renderTexturedStateAt m fb camera texture t1 t2 t3 r1 r2 r3 n1 n2 n3 dls pls refl
          material x y).dy /
        (renderTexturedStateAt m fb camera texture t1 t2 t3 r1 r2 r3 n1 n2 n3 dls pls refl
          material x y).n = w 0 * r1 1 + w 1 * r2 1 + w 2 * r3 1 := by
  obtain ⟨c1, c2, c3⟩ := renderTexturedStateAt_coords m fb camera texture t1 t2 t3 r1 r2 r3
    n1 n2 n3 dls pls refl material x y hbox
  have h0 := rayWeights_scaled camera t1 t2 t3 x y d w hT hw hray 0
  have h1 := rayWeights_scaled camera t1 t2 t3 x y d w hT hw hray 1
  have h2 := rayWeights_scaled camera t1 t2 t3 x y d w hT hw hray 2
  have hn : d * (renderTexturedStateAt m fb camera texture t1 t2 t3 r1 r2 r3 n1 n2 n3 dls pls
      refl material x y).n = 1 := by
    rw [c3, ← hw, ← h0, ← h1, ← h2]
    ring
  constructor
  · refine quotient_of_scaled d _ _ _ hn ?_
    rw [c1, ← h0, ← h1, ← h2]
    ring
  · refine quotient_of_scaled d _ _ _ hn ?_
    rw [c2, ← h0, ← h1, ← h2]
    ring

/-- A vertex that the camera unprojects from its own projection lies on the viewing ray
through its screen position, at parameter `1 / z`. -/
theorem vertex_on_ray (camera : PinholeCamera) (t : Vec3) (x y : ℚ)
    (hround : camera.unproject (camera.project t) = t) (hx : x = camera.project t 0)
    (hy : y = camera.project t 1) :
    camera.center + (1 / camera.project t 2) • (x • camera.a + y • camera.b + camera.c) =
      t := by
  funext l
  have hl := congrFun hround l
  unfold PinholeCamera.unproject at hl
  simp only [Pi.add_apply, Pi.smul_apply, smul_eq_mul]
  rw [hx, hy, ← hl]
  ring

end graphics

namespace graphics
open math

/-- The unwrapped texture coordinates at a scan-box pixel that is the screen position of a
vertex with barycentric coordinates `w` (a unit vector). -/
theorem texture_coordinates_vertex (m : Libm) (fb : Framebuffer) (camera : PinholeCamera)
    (texture : Framebuffer) (t1 t2 t3 : Vec3) (r1 r2 r3 : Vec2) (n1 n2 n3 : Vec3)
    (dls : List DirectionalLight) (pls : List PointLight) (refl : Option CubeMap)
    (material : Material) (x y : Nat) (t : Vec3) (w : Vec3)
    (hT : determinant ![t1 - camera.center, t2 - camera.center, t3 - camera.center] ≠ 0)
    (hbox : inScanBox (projectFixed camera t1 t2 t3) fb.width fb.height x y)
    (hw : w 0 + w 1 + w 2 = 1) (ht : t = w 0 • t1 + w 1 • t2 + w 2 • t3)
    (hround : camera.unproject (camera.project t) = t) (hx : (x : ℚ) = camera.project t 0)
    (hy : (y : ℚ) = camera.project t 1) :
    (renderTexturedStateAt m fb camera texture t1 t2 t3 r1 r2 r3 n1 n2 n3 dls pls refl
          material x y).dx /
        (renderTexturedStateAt m fb camera texture t1 t2 t3 r1 r2 r3 n1 n2 n3 dls pls refl
          material x y).n = w 0 * r1 0 + w 1 * r2 0 + w 2 * r3 0 ∧
      (renderTexturedStateAt m fb camera texture t1 t2 t3 r1 r2 r3 n1 n2 n3 dls pls refl
          material x y).dy /
        (renderTexturedStateAt m fb camera texture t1 t2 t3 r1 r2 r3 n1 n2 n3 dls pls refl
          material x y).n = w 0 * r1 1 + w 1 * r2 1 + w 2 * r3 1 :=
  texture_coordinates_at m fb camera texture t1 t2 t3 r1 r2 r3 n1 n2 n3 dls pls refl material
    x y (1 / camera.project t 2) w hT hbox hw
    ((vertex_on_ray camera t x y hround hx hy).trans ht)

/-- C12 (perspective-correct texture coordinates): in the textured `renderTriangle`, for a
triangle whose plane does not contain the camera centre, the numerators `dx`, `dy` and the
denominator `n` that the loop increments hold at a scan-box pixel `(x, y)` are
`sum_j u_j * r_j` and `sum_j u_j` for `u = (x, y, 1) * tc`; whenever the viewing ray
`a * x + b * y + c` through the pixel meets the plane of the triangle at the point with
barycentric coordinates `w` (`w_1 + w_2 + w_3 = 1`), the unwrapped texture coordinate
`(dx / n, dy / n)` is `w_1 * r1 + w_2 * r2 + w_3 * r3`; in particular at a pixel that is the
screen projection of vertex `i`, for a camera that unprojects the vertex from its
projection, it is `r_i`. -/
theorem texture_coordinates_perspective (m : Libm) (fb : Framebuffer)
    (camera : PinholeCamera) (texture : Framebuffer) (t1 t2 t3 : Vec3) (r1 r2 r3 : Vec2)
    (n1 n2 n3 : Vec3) (dls : List DirectionalLight) (pls : List PointLight)
    (refl : Option CubeMap) (material : Material) (x y : Nat)
    (hT : determinant ![t1 - camera.center, t2 - camera.center, t3 - camera.center] ≠ 0)
    (hbox : inScanBox (projectFixed camera t1 t2 t3) fb.width fb.height x y) :
    ((renderTexturedStateAt m fb camera texture t1 t2 t3 r1 r2 r3 n1 n2 n3 dls pls refl
          material x y).dx =
          rayWeights camera t1 t2 t3 x y 0 * r1 0 + rayWeights camera t1 t2 t3 x y 1 * r2 0 +
            rayWeights camera t1 t2 t3 x y 2 * r3 0 ∧
        (renderTexturedStateAt m fb camera texture t1 t2 t3 r1 r2 r3 n1 n2 n3 dls pls refl
          material x y).dy =
          rayWeights camera t1 t2 t3 x y 0 * r1 1 + rayWeights camera t1 t2 t3 x y 1 * r2 1 +
            rayWeights camera t1 t2 t3 x y 2 * r3 1 ∧
        (renderTexturedStateAt m fb camera texture t1 t2 t3 r1 r2 r3 n1 n2 n3 dls pls refl
          material x y).n =
          rayWeights camera t1 t2 t3 x y 0 + rayWeights camera t1 t2 t3 x y 1 +
            rayWeights camera t1 t2 t3 x y 2) ∧
      (∀ (d : ℚ) (w : Vec3), w 0 + w 1 + w 2 = 1 →
        camera.center + d • ((x : ℚ) • camera.a + (y : ℚ) • camera.b + camera.c) =
          w 0 • t1 + w 1 • t2 + w 2 • t3 →
        (renderTexturedStateAt m fb camera texture t1 t2 t3 r1 r2 r3 n1 n2 n3 dls pls refl
              material x y).dx /
            (renderTexturedStateAt m fb camera texture t1 t2 t3 r1 r2 r3 n1 n2 n3 dls pls refl
              material x y).n = w 0 * r1 0 + w 1 * r2 0 + w 2 * r3 0 ∧
          (renderTexturedStateAt m fb camera texture t1 t2 t3 r1 r2 r3 n1 n2 n3 dls pls refl
              material x y).dy /
            (renderTexturedStateAt m fb camera texture t1 t2 t3 r1 r2 r3 n1 n2 n3 dls pls refl
              material x y).n = w 0 * r1 1 + w 1 * r2 1 + w 2 * r3 1) ∧
      (∀ (i : Fin 3), camera.unproject (camera.project (![t1, t2, t3] i)) = ![t1, t2, t3] i →
        (x : ℚ) = camera.project (![t1, t2, t3] i) 0 →
        (y : ℚ) = camera.project (![t1, t2, t3] i) 1 →
        (renderTexturedStateAt m fb camera texture t1 t2 t3 r1 r2 r3 n1 n2 n3 dls pls refl
              material x y).dx /
            (renderTexturedStateAt m fb camera texture t1 t2 t3 r1 r2 r3 n1 n2 n3 dls pls refl
              material x y).n = ![r1, r2, r3] i 0 ∧
          (renderTexturedStateAt m fb camera texture t1 t2 t3 r1 r2 r3 n1 n2 n3 dls pls refl
              material x y).dy /
            (renderTexturedStateAt m fb camera texture t1 t2 t3 r1 r2 r3 n1 n2 n3 dls pls refl
              material x y).n = ![r1, r2, r3] i 1) := by
  refine ⟨renderTexturedStateAt_coords m fb camera texture t1 t2 t3 r1 r2 r3 n1 n2 n3 dls pls
      refl material x y hbox,
    fun d w hw hray => texture_coordinates_at m fb camera texture t1 t2 t3 r1 r2 r3 n1 n2 n3
      dls pls refl material x y d w hT hbox hw hray, ?_⟩
  intro i hround hx hy
  fin_cases i
  · have h := texture_coordinates_vertex m fb camera texture t1 t2 t3 r1 r2 r3 n1 n2 n3 dls
      pls refl material x y t1 ![1, 0, 0] hT hbox (by simp) (by simp) hround hx hy
    simpa using h
  · have h := texture_coordinates_vertex m fb camera texture t1 t2 t3 r1 r2 r3 n1 n2 n3 dls
      pls refl material x y t2 ![0, 1, 0] hT hbox (by simp) (by simp) hround hx hy
    simpa using h
  · have h := texture_coordinates_vertex m fb camera texture t1 t2 t3 r1 r2 r3 n1 n2 n3 dls
      pls refl material x y t3 ![0, 0, 1] hT hbox (by simp) (by simp) hround hx hy
    simpa using h

end graphics

namespace graphics
open math

theorem texture_coordinates_perspective_witness :
    (determinant ![sampleTriangle.1 - sampleCamera.center,
          sampleTriangle.2.1 - sampleCamera.center,
          sampleTriangle.2.2 - sampleCamera.center] ≠ 0 ∧
        inScanBox (projectFixed sampleCamera sampleTriangle.1 sampleTriangle.2.1
          sampleTriangle.2.2) sampleFramebuffer.width sampleFramebuffer.height 1 1 ∧
        (![1 / 2, 1 / 4, 1 / 4] : Vec3) 0 + (![1 / 2, 1 / 4, 1 / 4] : Vec3) 1 +
          (![1 / 2, 1 / 4, 1 / 4] : Vec3) 2 = 1 ∧
        sampleCamera.center + (1 : ℚ) • (((1 : Nat) : ℚ) • sampleCamera.a +
            ((1 : Nat) : ℚ) • sampleCamera.b + sampleCamera.c) =
          (![1 / 2, 1 / 4, 1 / 4] : Vec3) 0 • sampleTriangle.1 +
            (![1 / 2, 1 / 4, 1 / 4] : Vec3) 1 • sampleTriangle.2.1 +
            (![1 / 2, 1 / 4, 1 / 4] : Vec3) 2 • sampleTriangle.2.2) ∧
      (renderTexturedStateAt tableLibm sampleFramebuffer sampleCamera sampleTexture
            sampleTriangle.1 sampleTriangle.2.1 sampleTriangle.2.2 ![0, 0] ![1, 0] ![0, 1]
            ![0, 0, 1] ![0, 0, 1] ![0, 0, 1] [] [] none flat 1 1).dx /
          (renderTexturedStateAt tableLibm sampleFramebuffer sampleCamera sampleTexture
            sampleTriangle.1 sampleTriangle.2.1 sampleTriangle.2.2 ![0, 0] ![1, 0] ![0, 1]
            ![0, 0, 1] ![0, 0, 1] ![0, 0, 1] [] [] none flat 1 1).n =
        (![1 / 2, 1 / 4, 1 / 4] : Vec3) 0 * (![0, 0] : Vec2) 0 +
          (![1 / 2, 1 / 4, 1 / 4] : Vec3) 1 * (![1, 0] : Vec2) 0 +
          (![1 / 2, 1 / 4, 1 / 4] : Vec3) 2 * (![0, 1] : Vec2) 0 :=
  ⟨⟨by decide!, by decide!, by decide!, by decide!⟩,
    ((texture_coordinates_perspective tableLibm sampleFramebuffer sampleCamera sampleTexture
      sampleTriangle.1 sampleTriangle.2.1 sampleTriangle.2.2 ![0, 0] ![1, 0] ![0, 1]
      ![0, 0, 1] ![0, 0, 1] ![0, 0, 1] [] [] none flat 1 1 (by decide!) (by decide!)).2.1 1
      ![1 / 2, 1 / 4, 1 / 4] (by decide!) (by decide!)).1⟩

end graphics

namespace graphics
open math

/-- The edge values of `prerenderTriangle` at the first pixel of the scan box, advanced by
`j` scanlines and `k` pixels, are the closed-form edge functions. -/
theorem prerenderEdges_step (f : FixedPoint) (rc : Vec3) (width : Nat) (zBuffer : List ℚ)
    (j k : Nat) :
    (prerenderInit f rc width zBuffer).u1 + j * f.fb2 + k * f.fa2 =
        f.edge1 (f.minX.toNat + k : Nat) (f.minY.toNat + j : Nat) ∧
      (prerenderInit f rc width zBuffer).u2 + j * f.fb3 + k * f.fa3 =
        f.edge2 (f.minX.toNat + k : Nat) (f.minY.toNat + j : Nat) ∧
      (prerenderInit f rc width zBuffer).u3 + j * f.fb1 + k * f.fa1 =
        f.edge3 (f.minX.toNat + k : Nat) (f.minY.toNat + j : Nat) := by
  have hmx := minX_nonneg f
  have hmy := minY_nonneg f
  have ex : ((f.minX.toNat + k : Nat) : Int) = f.minX + k := by omega
  have ey : ((f.minY.toNat + j : Nat) : Int) = f.minY + j := by omega
  rw [ex, ey]
  simp only [prerenderInit, FixedPoint.edge1, FixedPoint.edge2, FixedPoint.edge3,
    FixedPoint.fa1, FixedPoint.fa2, FixedPoint.fa3, FixedPoint.fb1, FixedPoint.fb2,
    FixedPoint.fb3, FixedPoint.a1, FixedPoint.a2, FixedPoint.a3, FixedPoint.b1,
    FixedPoint.b2, FixedPoint.b3, shl4]
  refine ⟨by ring, by ring, by ring⟩

/-- The loop variables `x`, `v1`, `v2`, `v3` of `prerenderTriangle` at pixel number `k` of
scanline number `j`. -/
theorem prerender_edges (f : FixedPoint) (rc : Vec3) (width : Nat) (zBuffer : List ℚ)
    (j k : Nat) (s : PrePixel)
    (hs : s = (prerenderPixel f rc
        ((prerenderRow f rc width f.minX (f.maxX width))^[j]
          (prerenderInit f rc width zBuffer)).zb)^[k]
      ⟨f.minX,
        ((prerenderRow f rc width f.minX (f.maxX width))^[j]
          (prerenderInit f rc width zBuffer)).u1,
        ((prerenderRow f rc width f.minX (f.maxX width))^[j]
          (prerenderInit f rc width zBuffer)).u2,
        ((prerenderRow f rc width f.minX (f.maxX width))^[j]
          (prerenderInit f rc width zBuffer)).u3,
        ((prerenderRow f rc width f.minX (f.maxX width))^[j]
          (prerenderInit f rc width zBuffer)).w,
        ((prerenderRow f rc width f.minX (f.maxX width))^[j]
          (prerenderInit f rc width zBuffer)).zBuffer⟩) :
    s.x = f.minX + k ∧
      s.v1 = f.edge1 (f.minX.toNat + k : Nat) (f.minY.toNat + j : Nat) ∧
      s.v2 = f.edge2 (f.minX.toNat + k : Nat) (f.minY.toNat + j : Nat) ∧
      s.v3 = f.edge3 (f.minX.toNat + k : Nat) (f.minY.toNat + j : Nat) := by
  obtain ⟨-, r1, r2, r3, -⟩ := prerenderRow_iterate f rc width f.minX (f.maxX width)
    (prerenderInit f rc width zBuffer) (minX_nonneg f) (scan_in_row f width) j
  obtain ⟨p0, p1, p2, p3, -⟩ := prerenderPixel_iterate f rc
    ((prerenderRow f rc width f.minX (f.maxX width))^[j]
      (prerenderInit f rc width zBuffer)).zb
    ⟨f.minX,
      ((prerenderRow f rc width f.minX (f.maxX width))^[j]
        (prerenderInit f rc width zBuffer)).u1,
      ((prerenderRow f rc width f.minX (f.maxX width))^[j]
        (prerenderInit f rc width zBuffer)).u2,
      ((prerenderRow f rc width f.minX (f.maxX width))^[j]
        (prerenderInit f rc width zBuffer)).u3,
      ((prerenderRow f rc width f.minX (f.maxX width))^[j]
        (prerenderInit f rc width zBuffer)).w,
      ((prerenderRow f rc width f.minX (f.maxX width))^[j]
        (prerenderInit f rc width zBuffer)).zBuffer⟩ (minX_nonneg f) k
  obtain ⟨e1, e2, e3⟩ := prerenderEdges_step f rc width zBuffer j k
  rw [hs]
  refine ⟨p0, ?_, ?_, ?_⟩
  · rw [p1, r1, e1]
  · rw [p2, r2, e2]
  · rw [p3, r3, e3]

/-- The loop variables `x`, `v1`, `v2`, `v3` of the vertex-coloured `renderTriangle` at
pixel number `k` of scanline number `j`. -/
theorem shadeStateAt_edges (m : Libm) (camera : PinholeCamera) (f : FixedPoint)
    (rc : Matrix 3 8) (dls : List DirectionalLight) (material : Material) (zBuffer : List ℚ)
    (width : Nat) (pls : List PointLight) (refl : Option CubeMap) (buffer : List Vec4)
    (j k : Nat) :
    (shadeStateAt m camera f rc dls material zBuffer width f.minX (f.maxX width)
        (shadeInit camera f rc width pls refl buffer) j k).x = f.minX + k ∧
      (shadeStateAt m camera f rc dls material zBuffer width f.minX (f.maxX width)
        (shadeInit camera f rc width pls refl buffer) j k).v1 =
        f.edge1 (f.minX.toNat + k : Nat) (f.minY.toNat + j : Nat) ∧
      (shadeStateAt m camera f rc dls material zBuffer width f.minX (f.maxX width)
        (shadeInit camera f rc width pls refl buffer) j k).v2 =
        f.edge2 (f.minX.toNat + k : Nat) (f.minY.toNat + j : Nat) ∧
      (shadeStateAt m camera f rc dls material zBuffer width f.minX (f.maxX width)
        (shadeInit camera f rc width pls refl buffer) j k).v3 =
        f.edge3 (f.minX.toNat + k : Nat) (f.minY.toNat + j : Nat) := by
  obtain ⟨-, r1, r2, r3, -⟩ := shadeRow_iterate m camera f rc dls material zBuffer width
    f.minX (f.maxX width) (shadeInit camera f rc width pls refl buffer) (minX_nonneg f)
    (scan_in_row f width) j
  obtain ⟨p0, p1, p2, p3, -⟩ := shadePixel_iterate m camera f rc dls material zBuffer
    ((shadeRow m camera f rc dls material zBuffer width f.minX (f.maxX width))^[j]
      (shadeInit camera f rc width pls refl buffer)).cb
    ((shadeRow m camera f rc dls material zBuffer width f.minX (f.maxX width))^[j]
      (shadeInit camera f rc width pls refl buffer)).zb
    ((shadeRow m camera f rc dls material zBuffer width f.minX (f.maxX width))^[j]
      (shadeInit camera f rc width pls refl buffer)).y
    (shadeRowStart f.minX ((shadeRow m camera f rc dls material zBuffer width f.minX
      (f.maxX width))^[j] (shadeInit camera f rc width pls refl buffer)))
    (minX_nonneg f) k
  obtain ⟨-, i1, i2, i3, -⟩ := shadeInit_fields camera f rc width pls refl buffer
  obtain ⟨e1, e2, e3⟩ := renderEdges_step f j k
  have s0 : ∀ s : ShadeRow, (shadeRowStart f.minX s).x = f.minX := fun _ => rfl
  have s1 : ∀ s : ShadeRow, (shadeRowStart f.minX s).v1 = s.u1 := fun _ => rfl
  have s2 : ∀ s : ShadeRow, (shadeRowStart f.minX s).v2 = s.u2 := fun _ => rfl
  have s3 : ∀ s : ShadeRow, (shadeRowStart f.minX s).v3 = s.u3 := fun _ => rfl
  unfold shadeStateAt
  refine ⟨?_, ?_, ?_, ?_⟩
  · rw [p0, s0]
  · rw [p1, s1, r1, i1, e1]
  · rw [p2, s2, r2, i2, e2]
  · rw [p3, s3, r3, i3, e3]

/-- The loop variables `x`, `v1`, `v2`, `v3` of the textured `renderTriangle` at
pixel number `k` of scanline number `j`. -/
theorem textureStateAt_edges (m : Libm) (camera : PinholeCamera) (texture : Framebuffer)
    (f : FixedPoint) (rc : Matrix 3 4) (dc : Matrix 3 2) (nc : Vec3) (dls : List DirectionalLight) (material : Material) (zBuffer : List ℚ)
    (width : Nat) (pls : List PointLight) (refl : Option CubeMap) (buffer : List Vec4)
    (j k : Nat) :
    (textureStateAt m camera texture f rc dc nc dls material zBuffer width f.minX (f.maxX width)
        (textureInit camera f rc dc nc width pls refl buffer) j k).x = f.minX + k ∧
      (textureStateAt m camera texture f rc dc nc dls material zBuffer width f.minX (f.maxX width)
        (textureInit camera f rc dc nc width pls refl buffer) j k).v1 =
        f.edge1 (f.minX.toNat + k : Nat) (f.minY.toNat + j : Nat) ∧
      (textureStateAt m camera texture f rc dc nc dls material zBuffer width f.minX (f.maxX width)
        (textureInit camera f rc dc nc width pls refl buffer) j k).v2 =
        f.edge2 (f.minX.toNat + k : Nat) (f.minY.toNat + j : Nat) ∧
      (textureStateAt m camera texture f rc dc nc dls material zBuffer width f.minX (f.maxX width)
        (textureInit camera f rc dc nc width pls refl buffer) j k).v3 =
        f.edge3 (f.minX.toNat + k : Nat) (f.minY.toNat + j : Nat) := by
  obtain ⟨-, r1, r2, r3, -⟩ := textureRow_iterate m camera texture f rc dc nc dls material zBuffer width
    f.minX (f.maxX width) (textureInit camera f rc dc nc width pls refl buffer) (minX_nonneg f)
    (scan_in_row f width) j
  obtain ⟨p0, p1, p2, p3, -⟩ := texturePixel_iterate m camera texture f rc dc nc dls material zBuffer
    ((textureRow m camera texture f rc dc nc dls material zBuffer width f.minX (f.maxX width))^[j]
      (textureInit camera f rc dc nc width pls refl buffer)).cb
    ((textureRow m camera texture f rc dc nc dls material zBuffer width f.minX (f.maxX width))^[j]
      (textureInit camera f rc dc nc width pls refl buffer)).zb
    ((textureRow m camera texture f rc dc nc dls material zBuffer width f.minX (f.maxX width))^[j]
      (textureInit camera f rc dc nc width pls refl buffer)).y
    (textureRowStart f.minX ((textureRow m camera texture f rc dc nc dls material zBuffer width f.minX
      (f.maxX width))^[j] (textureInit camera f rc dc nc width pls refl buffer)))
    (minX_nonneg f) k
  obtain ⟨-, i1, i2, i3, -⟩ := textureInit_fields camera f rc dc nc width pls refl buffer
  obtain ⟨e1, e2, e3⟩ := renderEdges_step f j k
  have s0 : ∀ s : TextureRow, (textureRowStart f.minX s).x = f.minX := fun _ => rfl
  have s1 : ∀ s : TextureRow, (textureRowStart f.minX s).v1 = s.u1 := fun _ => rfl
  have s2 : ∀ s : TextureRow, (textureRowStart f.minX s).v2 = s.u2 := fun _ => rfl
  have s3 : ∀ s : TextureRow, (textureRowStart f.minX s).v3 = s.u3 := fun _ => rfl
  unfold textureStateAt
  refine ⟨?_, ?_, ?_, ?_⟩
  · rw [p0, s0]
  · rw [p1, s1, r1, i1, e1]
  · rw [p2, s2, r2, i2, e2]
  · rw [p3, s3, r3, i3, e3]

/-- The loop variables `x`, `v1`, `v2`, `v3` of the three rasterisation routines at a
scan-box pixel. -/
theorem scan_state_edges (m : Libm) (fb : Framebuffer) (camera : PinholeCamera)
    (texture : Framebuffer) (t1 t2 t3 : Vec3) (c1 c2 c3 : Vec4) (r1 r2 r3 : Vec2)
    (n1 n2 n3 : Vec3) (dls : List DirectionalLight) (pls : List PointLight)
    (refl : Option CubeMap) (material : Material) (x y : Nat)
    (hbox : inScanBox (projectFixed camera t1 t2 t3) fb.width fb.height x y) :
    ((prerenderStateAt fb camera t1 t2 t3 x y).x = x ∧
      (prerenderStateAt fb camera t1 t2 t3 x y).v1 = (projectFixed camera t1 t2 t3).edge1 x y ∧
      (prerenderStateAt fb camera t1 t2 t3 x y).v2 = (projectFixed camera t1 t2 t3).edge2 x y ∧
      (prerenderStateAt fb camera t1 t2 t3 x y).v3 =
        (projectFixed camera t1 t2 t3).edge3 x y) ∧
    ((renderStateAt m fb camera t1 t2 t3 c1 c2 c3 n1 n2 n3 dls pls refl material x y).x = x ∧
      (renderStateAt m fb camera t1 t2 t3 c1 c2 c3 n1 n2 n3 dls pls refl material x y).v1 =
        (projectFixed camera t1 t2 t3).edge1 x y ∧
      (renderStateAt m fb camera t1 t2 t3 c1 c2 c3 n1 n2 n3 dls pls refl material x y).v2 =
        (projectFixed camera t1 t2 t3).edge2 x y ∧
      (renderStateAt m fb camera t1 t2 t3 c1 c2 c3 n1 n2 n3 dls pls refl material x y).v3 =
        (projectFixed camera t1 t2 t3).edge3 x y) ∧
    ((renderTexturedStateAt m fb camera texture t1 t2 t3 r1 r2 r3 n1 n2 n3 dls pls refl
        material x y).x = x ∧
      (renderTexturedStateAt m fb camera texture t1 t2 t3 r1 r2 r3 n1 n2 n3 dls pls refl
        material x y).v1 = (projectFixed camera t1 t2 t3).edge1 x y ∧
      (renderTexturedStateAt m fb camera texture t1 t2 t3 r1 r2 r3 n1 n2 n3 dls pls refl
        material x y).v2 = (projectFixed camera t1 t2 t3).edge2 x y ∧
      (renderTexturedStateAt m fb camera texture t1 t2 t3 r1 r2 r3 n1 n2 n3 dls pls refl
        material x y).v3 = (projectFixed camera t1 t2 t3).edge3 x y) := by
  obtain ⟨hx1, -, hy1, -⟩ := hbox
  have hmx := minX_nonneg (projectFixed camera t1 t2 t3)
  have hmy := minY_nonneg (projectFixed camera t1 t2 t3)
  have ex : (projectFixed camera t1 t2 t3).minX.toNat +
      (x - (projectFixed camera t1 t2 t3).minX.toNat) = x := by omega
  have ey : (projectFixed camera t1 t2 t3).minY.toNat +
      (y - (projectFixed camera t1 t2 t3).minY.toNat) = y := by omega
  have exi : (projectFixed camera t1 t2 t3).minX +
      ((x - (projectFixed camera t1 t2 t3).minX.toNat : Nat) : Int) = x := by omega
  refine ⟨?_, ?_, ?_⟩
  · have h := prerender_edges (projectFixed camera t1 t2 t3)
      (prerenderRc (camera.project t1) (camera.project t2) (camera.project t3)) fb.width
      fb.zBuffer (y - (projectFixed camera t1 t2 t3).minY.toNat)
      (x - (projectFixed camera t1 t2 t3).minX.toNat) (prerenderStateAt fb camera t1 t2 t3 x y)
      rfl
    rw [ex, ey, exi] at h
    exact h
  · have h := shadeStateAt_edges m camera (projectFixed camera t1 t2 t3)
      (shadeRc (camera.project t1) (camera.project t2) (camera.project t3) c1 c2 c3 n1 n2 n3)
      dls material fb.zBuffer fb.width pls refl fb.buffer
      (y - (projectFixed camera t1 t2 t3).minY.toNat)
      (x - (projectFixed camera t1 t2 t3).minX.toNat)
    rw [ex, ey, exi] at h
    exact h
  · have h := textureStateAt_edges m camera texture (projectFixed camera t1 t2 t3)
      (textureRc (camera.project t1) (camera.project t2) (camera.project t3) n1 n2 n3)
      (textureDc camera t1 t2 t3 r1 r2 r3) (textureNc camera t1 t2 t3)
      dls material fb.zBuffer fb.width pls refl fb.buffer
      (y - (projectFixed camera t1 t2 t3).minY.toNat)
      (x - (projectFixed camera t1 t2 t3).minX.toNat)
    rw [ex, ey, exi] at h
    exact h

/-- C27 (coverage test correctness): with integers that do not overflow, at every scan-box
pixel `(x, y)` the incrementally updated `v1`, `v2`, `v3` of `prerenderTriangle` and of both
`renderTriangle` overloads equal the closed-form edge functions `E1`, `E2`, `E3` of the
1/16-pixel fixed-point vertices at `(16 x, 16 y)`, the loop variable `x` being that pixel's
column, and the combined test `(v1 | v2 | v3) >= 0` holds exactly when `E1 >= 0`,
`E2 >= 0` and `E3 >= 0`. -/
theorem coverage_test_correct (m : Libm) (fb : Framebuffer) (camera : PinholeCamera)
    (texture : Framebuffer) (t1 t2 t3 : Vec3) (c1 c2 c3 : Vec4) (r1 r2 r3 : Vec2)
    (n1 n2 n3 : Vec3) (dls : List DirectionalLight) (pls : List PointLight)
    (refl : Option CubeMap) (material : Material) (x y : Nat)
    (hbox : inScanBox (projectFixed camera t1 t2 t3) fb.width fb.height x y) :
    ((prerenderStateAt fb camera t1 t2 t3 x y).x = x ∧
      (prerenderStateAt fb camera t1 t2 t3 x y).v1 = (projectFixed camera t1 t2 t3).edge1 x y ∧
      (prerenderStateAt fb camera t1 t2 t3 x y).v2 = (projectFixed camera t1 t2 t3).edge2 x y ∧
      (prerenderStateAt fb camera t1 t2 t3 x y).v3 =
        (projectFixed camera t1 t2 t3).edge3 x y) ∧
    ((renderStateAt m fb camera t1 t2 t3 c1 c2 c3 n1 n2 n3 dls pls refl material x y).x = x ∧
      (renderStateAt m fb camera t1 t2 t3 c1 c2 c3 n1 n2 n3 dls pls refl material x y).v1 =
        (projectFixed camera t1 t2 t3).edge1 x y ∧
      (renderStateAt m fb camera t1 t2 t3 c1 c2 c3 n1 n2 n3 dls pls refl material x y).v2 =
        (projectFixed camera t1 t2 t3).edge2 x y ∧
      (renderStateAt m fb camera t1 t2 t3 c1 c2 c3 n1 n2 n3 dls pls refl material x y).v3 =
        (projectFixed camera t1 t2 t3).edge3 x y) ∧
    ((renderTexturedStateAt m fb camera texture t1 t2 t3 r1 r2 r3 n1 n2 n3 dls pls refl
        material x y).x = x ∧
      (renderTexturedStateAt m fb camera texture t1 t2 t3 r1 r2 r3 n1 n2 n3 dls pls refl
        material x y).v1 = (projectFixed camera t1 t2 t3).edge1 x y ∧
      (renderTexturedStateAt m fb camera texture t1 t2 t3 r1 r2 r3 n1 n2 n3 dls pls refl
        material x y).v2 = (projectFixed camera t1 t2 t3).edge2 x y ∧
      (renderTexturedStateAt m fb camera texture t1 t2 t3 r1 r2 r3 n1 n2 n3 dls pls refl
        material x y).v3 = (projectFixed camera t1 t2 t3).edge3 x y) ∧
    (coverageTest ((projectFixed camera t1 t2 t3).edge1 x y)
        ((projectFixed camera t1 t2 t3).edge2 x y) ((projectFixed camera t1 t2 t3).edge3 x y) ↔
      0 ≤ (projectFixed camera t1 t2 t3).edge1 x y ∧
        0 ≤ (projectFixed camera t1 t2 t3).edge2 x y ∧
        0 ≤ (projectFixed camera t1 t2 t3).edge3 x y) := by
  obtain ⟨h1, h2, h3⟩ := scan_state_edges m fb camera texture t1 t2 t3 c1 c2 c3 r1 r2 r3 n1 n2
    n3 dls pls refl material x y hbox
  exact ⟨h1, h2, h3, coverageTest_iff _ _ _⟩

theorem coverage_test_correct_witness :
    inScanBox (projectFixed sampleCamera sampleTriangle.1 sampleTriangle.2.1
        sampleTriangle.2.2) sampleFramebuffer.width sampleFramebuffer.height 1 1 ∧
      (renderStateAt tableLibm sampleFramebuffer sampleCamera sampleTriangle.1
          sampleTriangle.2.1 sampleTriangle.2.2 ![1, 0, 0, 1] ![0, 1, 0, 1] ![0, 0, 1, 1]
          ![0, 0, 1] ![0, 0, 1] ![0, 0, 1] [] [] none flat 1 1).v1 =
        (projectFixed sampleCamera sampleTriangle.1 sampleTriangle.2.1
          sampleTriangle.2.2).edge1 (1 : Nat) (1 : Nat) :=
  ⟨by decide!,
    (coverage_test_correct tableLibm sampleFramebuffer sampleCamera sampleTexture
      sampleTriangle.1 sampleTriangle.2.1 sampleTriangle.2.2 ![1, 0, 0, 1] ![0, 1, 0, 1]
      ![0, 0, 1, 1] ![0, 0] ![1, 0] ![0, 1] ![0, 0, 1] ![0, 0, 1] ![0, 0, 1] [] [] none flat 1 1
      (by decide!)).2.1.2.1⟩

end graphics

namespace graphics
open math

/-- A pixel of the scan box is a pixel of the framebuffer. -/
theorem scan_box_pixel (f : FixedPoint) (width height x y : Nat)
    (hbox : inScanBox f width height x y) :
    x < width ∧ y < height ∧ y * width + x < width * height := by
  obtain ⟨-, hx2, -, hy2⟩ := hbox
  have hMx := maxX_lt f width
  have hMy := maxY_lt f height
  have hx : x < width := by omega
  have hy : y < height := by omega
  refine ⟨hx, hy, ?_⟩
  calc y * width + x < y * width + width := by omega
    _ = (y + 1) * width := by ring
    _ ≤ height * width := Nat.mul_le_mul_right _ hy
    _ = width * height := by ring

/-- The offset of scanline `y` that the outer loops hold: `y * width`. -/
theorem scanline_offset (f : FixedPoint) (width y : Nat) (hy : f.minY ≤ y) :
    f.minY.toNat * width + (y - f.minY.toNat) * width = y * width := by
  have hmy := minY_nonneg f
  have e : f.minY.toNat + (y - f.minY.toNat) = y := by omega
  rw [← Nat.add_mul, e]

/-- The scan box absent `int` overflow: the computed box satisfies `0 <= minX`,
`maxX <= width - 1`, `0 <= minY`, `maxY <= height - 1`, so every pixel `(x, y)` the loops of
`prerenderTriangle` and of both `renderTriangle` overloads visit is a pixel of the
framebuffer, and the index `zb + x` at which they read and write the planes there is
`y * width + x < width * height`; in `renderTriangle` the colour offset `cb` equals the
depth offset `zb`. -/
theorem scan_box_clamped (m : Libm) (fb : Framebuffer) (camera : PinholeCamera)
    (texture : Framebuffer) (t1 t2 t3 : Vec3) (c1 c2 c3 : Vec4) (r1 r2 r3 : Vec2)
    (n1 n2 n3 : Vec3) (dls : List DirectionalLight) (pls : List PointLight)
    (refl : Option CubeMap) (material : Material) (x y : Nat)
    (hbox : inScanBox (projectFixed camera t1 t2 t3) fb.width fb.height x y) :
    (0 ≤ (projectFixed camera t1 t2 t3).minX ∧
      (projectFixed camera t1 t2 t3).maxX fb.width ≤ (fb.width : Int) - 1 ∧
      0 ≤ (projectFixed camera t1 t2 t3).minY ∧
      (projectFixed camera t1 t2 t3).maxY fb.height ≤ (fb.height : Int) - 1) ∧
    (x < fb.width ∧ y < fb.height ∧ y * fb.width + x < fb.width * fb.height) ∧
    ((prerenderRow (projectFixed camera t1 t2 t3)
          (prerenderRc (camera.project t1) (camera.project t2) (camera.project t3)) fb.width
          (projectFixed camera t1 t2 t3).minX
          ((projectFixed camera t1 t2 t3).maxX fb.width))^[y -
            (projectFixed camera t1 t2 t3).minY.toNat]
        (prerenderInit (projectFixed camera t1 t2 t3)
          (prerenderRc (camera.project t1) (camera.project t2) (camera.project t3)) fb.width
          fb.zBuffer)).zb + (prerenderStateAt fb camera t1 t2 t3 x y).x.toNat =
      y * fb.width + x ∧
    ((shadeRow m camera (projectFixed camera t1 t2 t3)
          (shadeRc (camera.project t1) (camera.project t2) (camera.project t3) c1 c2 c3
            n1 n2 n3) dls material fb.zBuffer fb.width (projectFixed camera t1 t2 t3).minX
          ((projectFixed camera t1 t2 t3).maxX fb.width))^[y -
            (projectFixed camera t1 t2 t3).minY.toNat]
        (shadeInit camera (projectFixed camera t1 t2 t3)
          (shadeRc (camera.project t1) (camera.project t2) (camera.project t3) c1 c2 c3
            n1 n2 n3) fb.width pls refl fb.buffer)).zb +
        (renderStateAt m fb camera t1 t2 t3 c1 c2 c3 n1 n2 n3 dls pls refl material x
          y).x.toNat = y * fb.width + x ∧
    ((textureRow m camera texture (projectFixed camera t1 t2 t3)
          (textureRc (camera.project t1) (camera.project t2) (camera.project t3) n1 n2 n3)
          (textureDc camera t1 t2 t3 r1 r2 r3) (textureNc camera t1 t2 t3) dls material
          fb.zBuffer fb.width (projectFixed camera t1 t2 t3).minX
          ((projectFixed camera t1 t2 t3).maxX fb.width))^[y -
            (projectFixed camera t1 t2 t3).minY.toNat]
        (textureInit camera (projectFixed camera t1 t2 t3)
          (textureRc (camera.project t1) (camera.project t2) (camera.project t3) n1 n2 n3)
          (textureDc camera t1 t2 t3 r1 r2 r3) (textureNc camera t1 t2 t3) fb.width pls refl
          fb.buffer)).zb +
        (renderTexturedStateAt m fb camera texture t1 t2 t3 r1 r2 r3 n1 n2 n3 dls pls refl
          material x y).x.toNat = y * fb.width + x ∧
    ((shadeRow m camera (projectFixed camera t1 t2 t3)
          (shadeRc (camera.project t1) (camera.project t2) (camera.project t3) c1 c2 c3
            n1 n2 n3) dls material fb.zBuffer fb.width (projectFixed camera t1 t2 t3).minX
          ((projectFixed camera t1 t2 t3).maxX fb.width))^[y -
            (projectFixed camera t1 t2 t3).minY.toNat]
        (shadeInit camera (projectFixed camera t1 t2 t3)
          (shadeRc (camera.project t1) (camera.project t2) (camera.project t3) c1 c2 c3
            n1 n2 n3) fb.width pls refl fb.buffer)).zb =
      ((shadeRow m camera (projectFixed camera t1 t2 t3)
          (shadeRc (camera.project t1) (camera.project t2) (camera.project t3) c1 c2 c3
            n1 n2 n3) dls material fb.zBuffer fb.width (projectFixed camera t1 t2 t3).minX
          ((projectFixed camera t1 t2 t3).maxX fb.width))^[y -
            (projectFixed camera t1 t2 t3).minY.toNat]
        (shadeInit camera (projectFixed camera t1 t2 t3)
          (shadeRc (camera.project t1) (camera.project t2) (camera.project t3) c1 c2 c3
            n1 n2 n3) fb.width pls refl fb.buffer)).cb ∧
    ((textureRow m camera texture (projectFixed camera t1 t2 t3)
          (textureRc (camera.project t1) (camera.project t2) (camera.project t3) n1 n2 n3)
          (textureDc camera t1 t2 t3 r1 r2 r3) (textureNc camera t1 t2 t3) dls material
          fb.zBuffer fb.width (projectFixed camera t1 t2 t3).minX
          ((projectFixed camera t1 t2 t3).maxX fb.width))^[y -
            (projectFixed camera t1 t2 t3).minY.toNat]
        (textureInit camera (projectFixed camera t1 t2 t3)
          (textureRc (camera.project t1) (camera.project t2) (camera.project t3) n1 n2 n3)
          (textureDc camera t1 t2 t3 r1 r2 r3) (textureNc camera t1 t2 t3) fb.width pls refl
          fb.buffer)).zb =
      ((textureRow m camera texture (projectFixed camera t1 t2 t3)
          (textureRc (camera.project t1) (camera.project t2) (camera.project t3) n1 n2 n3)
          (textureDc camera t1 t2 t3 r1 r2 r3) (textureNc camera t1 t2 t3) dls material
          fb.zBuffer fb.width (projectFixed camera t1 t2 t3).minX
          ((projectFixed camera t1 t2 t3).maxX fb.width))^[y -
            (projectFixed camera t1 t2 t3).minY.toNat]
        (textureInit camera (projectFixed camera t1 t2 t3)
          (textureRc (camera.project t1) (camera.project t2) (camera.project t3) n1 n2 n3)
          (textureDc camera t1 t2 t3 r1 r2 r3) (textureNc camera t1 t2 t3) fb.width pls refl
          fb.buffer)).cb := by
  have hmx := minX_nonneg (projectFixed camera t1 t2 t3)
  have hmy := minY_nonneg (projectFixed camera t1 t2 t3)
  obtain ⟨⟨px, -⟩, ⟨sx, -⟩, ⟨tx, -⟩⟩ := scan_state_edges m fb camera texture t1 t2 t3
    c1 c2 c3 r1 r2 r3 n1 n2 n3 dls pls refl material x y hbox
  have hoff := scanline_offset (projectFixed camera t1 t2 t3) fb.width y hbox.2.2.1
  refine ⟨⟨hmx, maxX_lt _ _, hmy, maxY_lt _ _⟩, scan_box_pixel _ _ _ x y hbox, ?_, ?_, ?_, ?_, ?_⟩
  · rw [px, (prerenderRow_iterate _ _ _ _ _ _ hmx (scan_in_row _ _) _).2.2.2.2.2.1]
    show (projectFixed camera t1 t2 t3).minY.toNat * fb.width + _ + _ = _
    rw [hoff, Int.toNat_ofNat]
  · rw [sx, (shadeRow_iterate _ _ _ _ _ _ _ _ _ _ _ hmx (scan_in_row _ _) _).2.2.2.2.2.2.1]
    show (projectFixed camera t1 t2 t3).minY.toNat * fb.width + _ + _ = _
    rw [hoff, Int.toNat_ofNat]
  · rw [tx, (textureRow_iterate _ _ _ _ _ _ _ _ _ _ _ _ _ _ hmx (scan_in_row _ _)
      _).2.2.2.2.2.2.1]
    show (projectFixed camera t1 t2 t3).minY.toNat * fb.width + _ + _ = _
    rw [hoff, Int.toNat_ofNat]
  · rw [(shadeRow_iterate _ _ _ _ _ _ _ _ _ _ _ hmx (scan_in_row _ _) _).2.2.2.2.2.2.1,
      (shadeRow_iterate _ _ _ _ _ _ _ _ _ _ _ hmx (scan_in_row _ _) _).2.2.2.2.2.1]
    rfl
  · rw [(textureRow_iterate _ _ _ _ _ _ _ _ _ _ _ _ _ _ hmx (scan_in_row _ _) _).2.2.2.2.2.2.1,
      (textureRow_iterate _ _ _ _ _ _ _ _ _ _ _ _ _ _ hmx (scan_in_row _ _) _).2.2.2.2.2.1]
    rfl

theorem scan_box_clamped_witness :
    inScanBox (projectFixed sampleCamera sampleTriangle.1 sampleTriangle.2.1
        sampleTriangle.2.2) sampleFramebuffer.width sampleFramebuffer.height 1 1 ∧
      (1 < sampleFramebuffer.width ∧ 1 < sampleFramebuffer.height ∧
        1 * sampleFramebuffer.width + 1 < sampleFramebuffer.width * sampleFramebuffer.height) :=
  ⟨by decide!,
    (scan_box_clamped tableLibm sampleFramebuffer sampleCamera sampleTexture
      sampleTriangle.1 sampleTriangle.2.1 sampleTriangle.2.2 ![1, 0, 0, 1] ![0, 1, 0, 1]
      ![0, 0, 1, 1] ![0, 0] ![1, 0] ![0, 1] ![0, 0, 1] ![0, 0, 1] ![0, 0, 1] [] [] none flat 1 1
      (by decide!)).2.1⟩

/-- The scan box the routines compute in 32-bit `int`s lies in the framebuffer, and in a
framebuffer whose two planes hold `width * height` elements every index `y * width + x` of
a pixel of the box lies in both planes. -/
theorem scan_box_within_planes (fb : Framebuffer) (camera : PinholeCamera) (t1 t2 t3 : Vec3)
    (x y : Nat)
    (hbox : inScanBox32 (projectFixed32 camera t1 t2 t3) fb.width fb.height x y) :
    (0 ≤ (projectFixed32 camera t1 t2 t3).minX32 ∧
      (projectFixed32 camera t1 t2 t3).maxX32 fb.width ≤ (fb.width : Int) - 1 ∧
      0 ≤ (projectFixed32 camera t1 t2 t3).minY32 ∧
      (projectFixed32 camera t1 t2 t3).maxY32 fb.height ≤ (fb.height : Int) - 1) ∧
    (x < fb.width ∧ y < fb.height ∧ y * fb.width + x < fb.width * fb.height) ∧
    (fb.WellFormed →
      y * fb.width + x < fb.buffer.length ∧ y * fb.width + x < fb.zBuffer.length) := by
  obtain ⟨-, hx2, -, hy2⟩ := hbox
  have hx := below_size _ fb.width x hx2 (maxX32_lt _ fb.width)
  have hy := below_size _ fb.height y hy2 (maxY32_lt _ fb.height)
  have hi := pixel_offset_lt fb.width fb.height x y hx hy
  refine ⟨⟨minX32_nonneg _, maxX32_lt _ _, minY32_nonneg _, maxY32_lt _ _⟩, ⟨hx, hy, hi⟩, ?_⟩
  intro hwf
  rw [hwf.1, hwf.2]
  exact ⟨hi, hi⟩

theorem scan_box_within_planes_witness :
    inScanBox32 (projectFixed32 sampleCamera sampleTriangle.1 sampleTriangle.2.1
        sampleTriangle.2.2) sampleFramebuffer.width sampleFramebuffer.height 1 1 ∧
      sampleFramebuffer.WellFormed ∧
      1 * sampleFramebuffer.width + 1 < sampleFramebuffer.buffer.length ∧
      1 * sampleFramebuffer.width + 1 < sampleFramebuffer.zBuffer.length :=
  ⟨by decide!, sampleFramebuffer_wellFormed,
    (scan_box_within_planes sampleFramebuffer sampleCamera sampleTriangle.1 sampleTriangle.2.1
      sampleTriangle.2.2 1 1 (by decide!)).2.2 sampleFramebuffer_wellFormed⟩

/-- C28, the defect: the scan box is clamped to `width` and `height`, not to the sizes of
the planes. In the framebuffer built from a decoded image of one pixel the depth plane is
empty; the sample triangle is not rejected, pixel `(0, 0)` lies in its scan box and passes
its coverage test, its index `0` is below `width * height = 1` and within the colour plane,
and it is outside the depth plane, which every routine reads at that index. -/
theorem scan_box_outside_depth_plane :
    (Framebuffer.ofImage sampleImage).width = 1 ∧
      (Framebuffer.ofImage sampleImage).height = 1 ∧
      covered (Framebuffer.ofImage sampleImage) sampleCamera sampleTriangle.1
        sampleTriangle.2.1 sampleTriangle.2.2 0 0 ∧
      0 * (Framebuffer.ofImage sampleImage).width + 0 <
        (Framebuffer.ofImage sampleImage).width * (Framebuffer.ofImage sampleImage).height ∧
      0 * (Framebuffer.ofImage sampleImage).width + 0 <
        (Framebuffer.ofImage sampleImage).buffer.length ∧
      ¬ 0 * (Framebuffer.ofImage sampleImage).width + 0 <
        (Framebuffer.ofImage sampleImage).zBuffer.length := by
  refine ⟨by decide, by decide, by decide!, by decide, by decide, by decide⟩

end graphics

namespace graphics
open math

/-- The three edge functions sum to the doubled area, and weight the vertices to the
sample point: the barycentric identities. -/
theorem edge_barycentric (f : FixedPoint) (x y : Int) :
    f.edge1 x y + f.edge2 x y + f.edge3 x y = f.doubledArea ∧
      f.edge1 x y * f.p1x + f.edge2 x y * f.p2x + f.edge3 x y * f.p3x =
        f.doubledArea * (16 * x) ∧
      f.edge1 x y * f.p1y + f.edge2 x y * f.p2y + f.edge3 x y * f.p3y =
        f.doubledArea * (16 * y) := by
  simp only [FixedPoint.edge1, FixedPoint.edge2, FixedPoint.edge3, FixedPoint.doubledArea]
  refine ⟨by ring, by ring, by ring⟩

/-- A weighted mean with non-negative weights of positive total lies between the least and
the greatest of the three values. -/
theorem weighted_mean_bounds (e1 e2 e3 a1 a2 a3 d v : Int) (h1 : 0 ≤ e1) (h2 : 0 ≤ e2)
    (h3 : 0 ≤ e3) (hd : 0 < d) (hsum : e1 + e2 + e3 = d)
    (hv : e1 * a1 + e2 * a2 + e3 * a3 = d * v) :
    min (min a1 a2) a3 ≤ v ∧ v ≤ max (max a1 a2) a3 := by
  have l1 : min (min a1 a2) a3 ≤ a1 := le_trans (min_le_left _ _) (min_le_left _ _)
  have l2 : min (min a1 a2) a3 ≤ a2 := le_trans (min_le_left _ _) (min_le_right _ _)
  have l3 : min (min a1 a2) a3 ≤ a3 := min_le_right _ _
  have u1 : a1 ≤ max (max a1 a2) a3 := le_trans (le_max_left _ _) (le_max_left _ _)
  have u2 : a2 ≤ max (max a1 a2) a3 := le_trans (le_max_right _ _) (le_max_left _ _)
  have u3 : a3 ≤ max (max a1 a2) a3 := le_max_right _ _
  constructor
  · refine le_of_mul_le_mul_left ?_ hd
    have := mul_le_mul_of_nonneg_left l1 h1
    have := mul_le_mul_of_nonneg_left l2 h2
    have := mul_le_mul_of_nonneg_left l3 h3
    rw [← hv, ← hsum]
    linarith
  · refine le_of_mul_le_mul_left ?_ hd
    have := mul_le_mul_of_nonneg_left u1 h1
    have := mul_le_mul_of_nonneg_left u2 h2
    have := mul_le_mul_of_nonneg_left u3 h3
    rw [← hv, ← hsum]
    linarith

/-- C29 (scan box is conservative): for a fixed-point triangle with strictly positive
doubled area, every pixel `(x, y)` with `0 <= x < width`, `0 <= y < height` at which the
three edge functions evaluated at `(16 x, 16 y)` are non-negative lies in
`[minX, maxX] x [minY, maxY]`. -/
theorem scan_box_conservative (f : FixedPoint) (width height x y : Nat)
    (harea : 0 < f.doubledArea) (hx : x < width) (hy : y < height)
    (h1 : 0 ≤ f.edge1 x y) (h2 : 0 ≤ f.edge2 x y) (h3 : 0 ≤ f.edge3 x y) :
    inScanBox f width height x y := by
  obtain ⟨hsum, hbx, hby⟩ := edge_barycentric f x y
  obtain ⟨lx, ux⟩ := weighted_mean_bounds _ _ _ _ _ _ _ _ h1 h2 h3 harea hsum hbx
  obtain ⟨ly, uy⟩ := weighted_mean_bounds _ _ _ _ _ _ _ _ h1 h2 h3 harea hsum hby
  unfold inScanBox FixedPoint.minX FixedPoint.maxX FixedPoint.minY FixedPoint.maxY
  rw [shr4, shr4, shr4, shr4]
  refine ⟨max_le ?_ ?_, le_min ?_ ?_, max_le ?_ ?_, le_min ?_ ?_⟩ <;> omega

theorem scan_box_conservative_witness :
    (0 < (projectFixed sampleCamera sampleTriangle.1 sampleTriangle.2.1
          sampleTriangle.2.2).doubledArea ∧
        1 < 4 ∧ 1 < 4 ∧
        0 ≤ (projectFixed sampleCamera sampleTriangle.1 sampleTriangle.2.1
          sampleTriangle.2.2).edge1 (1 : Nat) (1 : Nat) ∧
        0 ≤ (projectFixed sampleCamera sampleTriangle.1 sampleTriangle.2.1
          sampleTriangle.2.2).edge2 (1 : Nat) (1 : Nat) ∧
        0 ≤ (projectFixed sampleCamera sampleTriangle.1 sampleTriangle.2.1
          sampleTriangle.2.2).edge3 (1 : Nat) (1 : Nat)) ∧
      inScanBox (projectFixed sampleCamera sampleTriangle.1 sampleTriangle.2.1
        sampleTriangle.2.2) 4 4 1 1 :=
  ⟨⟨by decide!, by decide, by decide, by decide!, by decide!, by decide!⟩,
    scan_box_conservative _ 4 4 1 1 (by decide!) (by decide) (by decide) (by decide!)
      (by decide!) (by decide!)⟩

end graphics

namespace graphics
open math

/-- The value of the three edge functions at the point at parameter `t` of the edge
`p2 -> p3`, `p3 -> p1` or `p1 -> p2`: zero for the edge's own function, and the doubled
area times `1 - t` for the function of the start vertex and times `t` for that of the end
vertex. -/
theorem edges_on_segment (f : FixedPoint) (t : ℚ) (x y : Nat) :
    (onSegment (f.p2x, f.p2y) (f.p3x, f.p3y) t x y →
      ((f.edge1 x y : Int) : ℚ) = 0 ∧
        ((f.edge2 x y : Int) : ℚ) = (1 - t) * (f.doubledArea : ℚ) ∧
        ((f.edge3 x y : Int) : ℚ) = t * (f.doubledArea : ℚ)) ∧
    (onSegment (f.p3x, f.p3y) (f.p1x, f.p1y) t x y →
      ((f.edge2 x y : Int) : ℚ) = 0 ∧
        ((f.edge3 x y : Int) : ℚ) = (1 - t) * (f.doubledArea : ℚ) ∧
        ((f.edge1 x y : Int) : ℚ) = t * (f.doubledArea : ℚ)) ∧
    (onSegment (f.p1x, f.p1y) (f.p2x, f.p2y) t x y →
      ((f.edge3 x y : Int) : ℚ) = 0 ∧
        ((f.edge1 x y : Int) : ℚ) = (1 - t) * (f.doubledArea : ℚ) ∧
        ((f.edge2 x y : Int) : ℚ) = t * (f.doubledArea : ℚ)) := by
  simp only [onSegment, FixedPoint.edge1, FixedPoint.edge2, FixedPoint.edge3,
    FixedPoint.doubledArea]
  push_cast
  refine ⟨?_, ?_, ?_⟩ <;>
    · rintro ⟨hx, hy⟩
      rw [hx, hy]
      refine ⟨by ring, by ring, by ring⟩

end graphics

namespace graphics
open math

/-- A pixel whose sample point lies strictly inside an edge of a triangle of positive
doubled area has non-negative edge functions: the edge tests are inclusive. -/
theorem coversIdeal_on_edge (f : FixedPoint) (harea : 0 < f.doubledArea) (s e : Int × Int)
    (hedge : (s, e) ∈ f.directedEdges) (t : ℚ) (ht0 : 0 < t) (ht1 : t < 1) (x y : Nat)
    (hon : onSegment s e t x y) : f.coversIdeal x y := by
  have hd : (0 : ℚ) < (f.doubledArea : ℚ) := by exact_mod_cast harea
  have hpos1 : (0 : ℚ) ≤ t * (f.doubledArea : ℚ) := by positivity
  have hpos2 : (0 : ℚ) ≤ (1 - t) * (f.doubledArea : ℚ) :=
    mul_nonneg (by linarith) (le_of_lt hd)
  obtain ⟨c1, c2, c3⟩ := edges_on_segment f t x y
  unfold FixedPoint.coversIdeal
  rw [coverageTest_iff]
  simp only [FixedPoint.directedEdges, List.mem_cons, List.mem_singleton, Prod.mk.injEq,
    List.mem_nil_iff, or_false] at hedge
  rcases hedge with ⟨hs, he⟩ | ⟨hs, he⟩ | ⟨hs, he⟩
  · obtain ⟨a, b, c⟩ := c1 (by rw [← hs, ← he]; exact hon)
    rw [← b] at hpos2
    rw [← c] at hpos1
    exact ⟨by exact_mod_cast le_of_eq a.symm, by exact_mod_cast hpos2, by exact_mod_cast hpos1⟩
  · obtain ⟨a, b, c⟩ := c2 (by rw [← hs, ← he]; exact hon)
    rw [← b] at hpos2
    rw [← c] at hpos1
    exact ⟨by exact_mod_cast hpos1, by exact_mod_cast le_of_eq a.symm, by exact_mod_cast hpos2⟩
  · obtain ⟨a, b, c⟩ := c3 (by rw [← hs, ← he]; exact hon)
    rw [← b] at hpos2
    rw [← c] at hpos1
    exact ⟨by exact_mod_cast hpos2, by exact_mod_cast hpos1, by exact_mod_cast le_of_eq a.symm⟩

/-- Three non-negative integers whose sum an `int` can hold are held unchanged. -/
theorem int32_of_parts (e1 e2 e3 a : Int) (h1 : 0 ≤ e1) (h2 : 0 ≤ e2) (h3 : 0 ≤ e3)
    (hs : e1 + e2 + e3 = a) (ha : a < 2147483648) :
    int32 e1 = e1 ∧ int32 e2 = e2 ∧ int32 e3 = e3 := by
  refine ⟨int32_of_range e1 ?_ ?_, int32_of_range e2 ?_ ?_, int32_of_range e3 ?_ ?_⟩ <;> omega

/-- When the doubled area of the triangle is below `2^31`, a pixel at which the three edge
functions are non-negative passes the coverage test of the routines: the 32-bit edge values
there are the edge functions themselves. -/
theorem covers_of_coversIdeal (f : FixedPoint) (x y : Nat) (harea : f.doubledArea < 2147483648)
    (h : f.coversIdeal x y) : f.covers x y := by
  unfold FixedPoint.coversIdeal at h
  obtain ⟨h1, h2, h3⟩ := (coverageTest_iff _ _ _).mp h
  obtain ⟨e1, e2, e3⟩ := int32_of_parts _ _ _ _ h1 h2 h3 (edge_barycentric f x y).1 harea
  unfold FixedPoint.covers
  rw [e1, e2, e3]
  exact h

/-- A point at parameter `t` of a segment is the point at parameter `1 - t` of the reversed
segment. -/
theorem onSegment_reverse (s e : Int × Int) (t : ℚ) (x y : Nat) (h : onSegment s e t x y) :
    onSegment e s (1 - t) x y := by
  obtain ⟨hx, hy⟩ := h
  constructor
  · rw [hx]; ring
  · rw [hy]; ring

/-- C22 (fill convention on a shared edge), amended: for two triangles whose fixed-point
screen coordinates have positive doubled area (front-facing on screen) below `2^31` (the
32-bit edge functions do not overflow on the triangle) and that share an edge traversed in
opposite directions, every pixel whose sample point lies on the interior of the shared edge
passes the coverage test `(v1 | v2 | v3) >= 0` of both triangles, not of exactly one: the
edge tests are inclusive (`E >= 0`) and no edge is treated as a top or left edge. -/
theorem shared_edge_covered_by_both (f g : FixedPoint) (hf : 0 < f.doubledArea)
    (hf2 : f.doubledArea < 2147483648) (hg : 0 < g.doubledArea)
    (hg2 : g.doubledArea < 2147483648) (s e : Int × Int) (hfe : (s, e) ∈ f.directedEdges)
    (hge : (e, s) ∈ g.directedEdges) (t : ℚ) (ht0 : 0 < t) (ht1 : t < 1) (x y : Nat)
    (hon : onSegment s e t x y) : f.covers x y ∧ g.covers x y :=
  ⟨covers_of_coversIdeal f x y hf2 (coversIdeal_on_edge f hf s e hfe t ht0 ht1 x y hon),
    covers_of_coversIdeal g x y hg2
      (coversIdeal_on_edge g hg e s hge (1 - t) (by linarith) (by linarith) x y
        (onSegment_reverse s e t x y hon))⟩

theorem shared_edge_covered_by_both_witness :
    (0 < (projectFixed32 sampleCamera sampleTriangle.1 sampleTriangle.2.1
          sampleTriangle.2.2).doubledArea ∧
        (projectFixed32 sampleCamera sampleTriangle.1 sampleTriangle.2.1
          sampleTriangle.2.2).doubledArea < 2147483648 ∧
        0 < (projectFixed32 sampleCamera sampleNeighbourTriangle.1 sampleNeighbourTriangle.2.1
          sampleNeighbourTriangle.2.2).doubledArea ∧
        (projectFixed32 sampleCamera sampleNeighbourTriangle.1 sampleNeighbourTriangle.2.1
          sampleNeighbourTriangle.2.2).doubledArea < 2147483648 ∧
        (((64 : Int), (0 : Int)), ((0 : Int), (64 : Int))) ∈
          (projectFixed32 sampleCamera sampleTriangle.1 sampleTriangle.2.1
            sampleTriangle.2.2).directedEdges ∧
        (((0 : Int), (64 : Int)), ((64 : Int), (0 : Int))) ∈
          (projectFixed32 sampleCamera sampleNeighbourTriangle.1 sampleNeighbourTriangle.2.1
            sampleNeighbourTriangle.2.2).directedEdges ∧
        (0 : ℚ) < 1 / 4 ∧ (1 / 4 : ℚ) < 1 ∧ onSegment (64, 0) (0, 64) (1 / 4) 3 1) ∧
      (projectFixed32 sampleCamera sampleTriangle.1 sampleTriangle.2.1
          sampleTriangle.2.2).covers 3 1 ∧
        (projectFixed32 sampleCamera sampleNeighbourTriangle.1 sampleNeighbourTriangle.2.1
          sampleNeighbourTriangle.2.2).covers 3 1 :=
  ⟨⟨by decide!, by decide!, by decide!, by decide!, by decide!, by decide!, by norm_num,
      by norm_num, by decide!⟩,
    shared_edge_covered_by_both _ _ (by decide!) (by decide!) (by decide!) (by decide!) (64, 0)
      (0, 64) (by decide!) (by decide!) (1 / 4) (by norm_num) (by norm_num) 3 1 (by decide!)⟩

/-- C22, counterexample: the sample triangle and its neighbour are front-facing, share the
edge between the pixels `(4, 0)` and `(0, 4)` in opposite directions and lie on opposite
sides of it. The sample point of pixel `(2, 2)` is the midpoint of that edge, and the pixel
passes the coverage test of both triangles, in the scan box of both, not of exactly one. -/
theorem shared_edge_pixel_covered_twice :
    ((((64 : Int), (0 : Int)), ((0 : Int), (64 : Int))) ∈
          (projectFixed32 sampleCamera sampleTriangle.1 sampleTriangle.2.1
            sampleTriangle.2.2).directedEdges ∧
        (((0 : Int), (64 : Int)), ((64 : Int), (0 : Int))) ∈
          (projectFixed32 sampleCamera sampleNeighbourTriangle.1 sampleNeighbourTriangle.2.1
            sampleNeighbourTriangle.2.2).directedEdges ∧
        onSegment (64, 0) (0, 64) (1 / 2) 2 2) ∧
      (covered sampleFramebuffer sampleCamera sampleTriangle.1 sampleTriangle.2.1
          sampleTriangle.2.2 2 2 ∧
        covered sampleFramebuffer sampleCamera sampleNeighbourTriangle.1
          sampleNeighbourTriangle.2.1 sampleNeighbourTriangle.2.2 2 2) ∧
      ¬ (((projectFixed32 sampleCamera sampleTriangle.1 sampleTriangle.2.1
              sampleTriangle.2.2).covers 2 2 ∧
            ¬ (projectFixed32 sampleCamera sampleNeighbourTriangle.1
              sampleNeighbourTriangle.2.1 sampleNeighbourTriangle.2.2).covers 2 2) ∨
          (¬ (projectFixed32 sampleCamera sampleTriangle.1 sampleTriangle.2.1
              sampleTriangle.2.2).covers 2 2 ∧
            (projectFixed32 sampleCamera sampleNeighbourTriangle.1 sampleNeighbourTriangle.2.1
              sampleNeighbourTriangle.2.2).covers 2 2)) := by
  refine ⟨⟨by decide!, by decide!, by decide!⟩, ⟨by decide!, by decide!⟩, by decide!⟩

end graphics

namespace graphics
open math

theorem lookupProbe_miss (cm : CubeMap) (ray : Vec3) (faces : List Nat)
    (h : ∀ i ∈ faces,
      ¬ onFace (cm.camera i) ((cm.camera i).projectDivisor ray) ((cm.camera i).project ray)) :
    cm.lookupProbe ray faces = (black, cm) := by
  induction faces with
  | nil => rfl
  | cons i rest ih =>
    unfold CubeMap.lookupProbe
    rw [if_neg (fun hc => h i (List.mem_cons_self i rest) hc.2)]
    exact ih (fun k hk => h k (List.mem_cons_of_mem i hk))

theorem visibilityProbe_miss (cm : CubeMap) (w : ℚ) (faces : List Nat)
    (h : ∀ i ∈ faces,
      ¬ onFace (cm.camera i) ((cm.camera i).p 2) (shadowProjection (cm.camera i) w)) :
    cm.visibilityProbe w faces = (0, cm) := by
  induction faces with
  | nil => rfl
  | cons i rest ih =>
    unfold CubeMap.visibilityProbe
    rw [if_neg (fun hc => h i (List.mem_cons_self i rest) hc.2)]
    exact ih (fun k hk => h k (List.mem_cons_of_mem i hk))

theorem lookupProbe_previousHit (cm : CubeMap) (ray : Vec3) (faces : List Nat)
    (hf : ∀ i ∈ faces, i < 3) (h : cm.previousHit < 3) :
    (cm.lookupProbe ray faces).2.previousHit < 3 := by
  induction faces with
  | nil => exact h
  | cons i rest ih =>
    unfold CubeMap.lookupProbe
    split_ifs
    · exact hf i (List.mem_cons_self i rest)
    · exact ih (fun k hk => hf k (List.mem_cons_of_mem i hk))

theorem visibilityProbe_previousHit (cm : CubeMap) (w : ℚ) (faces : List Nat)
    (hf : ∀ i ∈ faces, i < 3) (h : cm.previousHit < 3) :
    (cm.visibilityProbe w faces).2.previousHit < 3 := by
  induction faces with
  | nil => exact h
  | cons i rest ih =>
    unfold CubeMap.visibilityProbe
    split_ifs
    · exact hf i (List.mem_cons_self i rest)
    · exact ih (fun k hk => hf k (List.mem_cons_of_mem i hk))

/-- The cache `previousHit` always names a primary camera: the constructors set it to `0`,
and `lookup` and `getVisibility` only ever store an index below `3`. -/
theorem previousHit_primary (m : Libm) (resolution : Nat) (position : Vec3)
    (framebuffers : List Framebuffer) (cm : CubeMap) (ray : Vec3) (w : ℚ)
    (h : cm.previousHit < 3) :
    (CubeMap.ofResolution m resolution position).previousHit < 3 ∧
      (CubeMap.ofFramebuffers m framebuffers).previousHit < 3 ∧
      (cm.lookup ray).2.previousHit < 3 ∧ (cm.getVisibility w).2.previousHit < 3 := by
  have hf : ∀ i ∈ [0, 1, 2], i < 3 := by decide
  refine ⟨show (0 : Nat) < 3 from by decide, show (0 : Nat) < 3 from by decide, ?_, ?_⟩
  · unfold CubeMap.lookup
    simp only []
    split_ifs
    · exact h
    · exact lookupProbe_previousHit cm _ _ hf h
  · unfold CubeMap.getVisibility
    simp only []
    split_ifs
    · exact h
    · exact visibilityProbe_previousHit cm _ _ hf h

/-- C21 (face miss is a defined fallback): for a cube map whose cache names a primary
camera, when the queried point projects outside `[0, width) x [0, width)` in each of the
three primary cameras, `lookup` returns `color::black` and `getVisibility` returns `0`,
and both leave the cube map, `previousHit` included, as it was. -/
theorem face_miss_fallback (cm : CubeMap) (ray : Vec3) (w : ℚ) (hprev : cm.previousHit < 3) :
    ((∀ i, i < 3 →
        ¬ onFace (cm.camera i) ((cm.camera i).projectDivisor (ray + cm.getPosition))
          ((cm.camera i).project (ray + cm.getPosition))) →
      cm.lookup ray = (black, cm)) ∧
    ((∀ i, i < 3 →
        ¬ onFace (cm.camera i) ((cm.camera i).p 2) (shadowProjection (cm.camera i) w)) →
      cm.getVisibility w = (0, cm)) := by
  constructor
  · intro h
    unfold CubeMap.lookup
    simp only []
    rw [if_neg (h cm.previousHit hprev)]
    refine lookupProbe_miss cm _ _ (fun i hi => h i ?_)
    simp only [List.mem_cons, List.mem_singleton, List.mem_nil_iff, or_false] at hi
    omega
  · intro h
    unfold CubeMap.getVisibility
    simp only []
    rw [if_neg (h cm.previousHit hprev)]
    refine visibilityProbe_miss cm _ _ (fun i hi => h i ?_)
    simp only [List.mem_cons, List.mem_singleton, List.mem_nil_iff, or_false] at hi
    omega

theorem face_miss_fallback_witness :
    ((CubeMap.ofResolution tableLibm 2 0).previousHit < 3 ∧
        (∀ i, i < 3 →
          ¬ onFace ((CubeMap.ofResolution tableLibm 2 0).camera i)
            (((CubeMap.ofResolution tableLibm 2 0).camera i).projectDivisor
              (![1, -1, 1] + (CubeMap.ofResolution tableLibm 2 0).getPosition))
            (((CubeMap.ofResolution tableLibm 2 0).camera i).project
              (![1, -1, 1] + (CubeMap.ofResolution tableLibm 2 0).getPosition))) ∧
        (∀ i, i < 3 →
          ¬ onFace ((CubeMap.ofResolution tableLibm 2 0).camera i)
            (((CubeMap.ofResolution tableLibm 2 0).camera i).p 2)
            (shadowProjection ((CubeMap.ofResolution tableLibm 2 0).camera i) 1))) ∧
      (CubeMap.ofResolution tableLibm 2 0).lookup ![1, -1, 1] =
        (black, CubeMap.ofResolution tableLibm 2 0) ∧
      (CubeMap.ofResolution tableLibm 2 0).getVisibility 1 =
        (0, CubeMap.ofResolution tableLibm 2 0) :=
  ⟨⟨by decide!, by decide!, by decide!⟩,
    (face_miss_fallback (CubeMap.ofResolution tableLibm 2 0) ![1, -1, 1] 1 (by decide!)).1
      (by decide!),
    (face_miss_fallback (CubeMap.ofResolution tableLibm 2 0) ![1, -1, 1] 1 (by decide!)).2
      (by decide!)⟩

end graphics

namespace graphics
open math

/-- The six cameras of `CubeMap(resolution, position)` all have their centre at
`position`, whatever the library functions return. -/
theorem ofResolution_centers (m : Libm) (resolution : Nat) (position : Vec3) :
    (CubeMap.ofResolution m resolution position).cameras.map (fun c => c.center) =
      List.replicate 6 position := rfl

theorem setPosition_cameras (cm : CubeMap) (position : Vec3) :
    (cm.setPosition position).cameras.length = cm.cameras.length ∧
      (∀ c ∈ (cm.setPosition position).cameras, c.center = position) ∧
      (cm.setPosition position).cameras.map orientation = cm.cameras.map orientation ∧
      (cm.setPosition position).cameras.map (fun c => (c.sc, c.sp, c.p)) =
        cm.cameras.map (fun c => (c.sc, c.sp, c.p)) := by
  unfold CubeMap.setPosition
  refine ⟨by simp, ?_, ?_, ?_⟩
  · intro c hc
    simp only [List.mem_map] at hc
    obtain ⟨c0, -, rfl⟩ := hc
    rfl
  · rw [List.map_map]
    rfl
  · rw [List.map_map]
    rfl

/-- The position of a shadow map with at least one camera whose cameras all sit at
`position`. -/
theorem getPosition_of_centers (cm : CubeMap) (position : Vec3) (hlen : 0 < cm.cameras.length)
    (h : ∀ c ∈ cm.cameras, c.center = position) : cm.getPosition = position := by
  unfold CubeMap.getPosition CubeMap.camera
  rw [List.getD_eq_getElem _ _ hlen]
  exact h _ (List.getElem_mem _)

end graphics

namespace graphics
open math

/-- C23 (point-light position invariant): after `PointLight(resolution, position, ...)`,
and after `setPosition(p)` on a point light with its six shadow cameras,
`shadowMap.getPosition()` equals `getPosition()` and all six shadow cameras have their
centre at the light position; `setPosition` changes no camera orientation or scratch
field, no framebuffer, not the cache and no radiant parameter. -/
theorem point_light_position_invariant (m : Libm) (resolution : Nat) (position : Vec3)
    (strength specularStrength : ℚ) (specularColor : Vec3) (pl : PointLight) (p : Vec3)
    (hlen : pl.shadowMap.cameras.length = 6) :
    ((PointLight.ofResolution m resolution position strength specularStrength
          specularColor).getPosition = position ∧
      (PointLight.ofResolution m resolution position strength specularStrength
          specularColor).shadowMap.getPosition =
        (PointLight.ofResolution m resolution position strength specularStrength
          specularColor).getPosition ∧
      (PointLight.ofResolution m resolution position strength specularStrength
          specularColor).shadowMap.cameras.length = 6 ∧
      ∀ c ∈ (PointLight.ofResolution m resolution position strength specularStrength
          specularColor).shadowMap.cameras, c.center = position) ∧
    ((pl.setPosition p).getPosition = p ∧
      (pl.setPosition p).shadowMap.getPosition = (pl.setPosition p).getPosition ∧
      (pl.setPosition p).shadowMap.cameras.length = 6 ∧
      (∀ c ∈ (pl.setPosition p).shadowMap.cameras, c.center = p)) ∧
    ((pl.setPosition p).shadowMap.cameras.map orientation =
        pl.shadowMap.cameras.map orientation ∧
      (pl.setPosition p).shadowMap.cameras.map (fun c => (c.sc, c.sp, c.p)) =
        pl.shadowMap.cameras.map (fun c => (c.sc, c.sp, c.p)) ∧
      (pl.setPosition p).shadowMap.framebuffers = pl.shadowMap.framebuffers ∧
      (pl.setPosition p).shadowMap.previousHit = pl.shadowMap.previousHit ∧
      (pl.setPosition p).strength = pl.strength ∧
      (pl.setPosition p).specularStrength = pl.specularStrength ∧
      (pl.setPosition p).specularColor = pl.specularColor) := by
  have hc := ofResolution_centers m resolution position
  have hlen0 : (CubeMap.ofResolution m resolution position).cameras.length = 6 := by
    have := congrArg List.length hc
    simpa using this
  have hall : ∀ c ∈ (CubeMap.ofResolution m resolution position).cameras,
      c.center = position := by
    intro c hcm
    have hmem : c.center ∈ (CubeMap.ofResolution m resolution position).cameras.map
        (fun c => c.center) := List.mem_map_of_mem _ hcm
    rw [hc] at hmem
    exact (List.mem_replicate.mp hmem).2
  obtain ⟨s1, s2, s3, s4⟩ := setPosition_cameras pl.shadowMap p
  refine ⟨⟨rfl, ?_, hlen0, hall⟩, ⟨rfl, ?_, ?_, s2⟩, ⟨s3, s4, rfl, rfl, rfl, rfl, rfl⟩⟩
  · exact getPosition_of_centers (CubeMap.ofResolution m resolution position) position
      (by rw [hlen0]; decide) hall
  · exact getPosition_of_centers (pl.shadowMap.setPosition p) p (by rw [s1, hlen]; decide) s2
  · exact s1.trans hlen

theorem point_light_position_invariant_witness :
    samplePointLight.shadowMap.cameras.length = 6 ∧
      (samplePointLight.setPosition ![3, 4, 5]).shadowMap.getPosition =
        (samplePointLight.setPosition ![3, 4, 5]).getPosition ∧
      ∀ c ∈ (samplePointLight.setPosition ![3, 4, 5]).shadowMap.cameras, c.center = ![3, 4, 5] :=
  ⟨rfl,
    (point_light_position_invariant tableLibm 2 0 1 1 0 samplePointLight ![3, 4, 5] rfl).2.1.2.1,
    (point_light_position_invariant tableLibm 2 0 1 1 0 samplePointLight ![3, 4, 5]
      rfl).2.1.2.2.2⟩

end graphics

namespace graphics
open math

/-- A loop whose body keeps the length of a plane keeps it. -/
theorem foldl_length {α ι : Type} (step : List α → ι → List α)
    (h : ∀ b i, (step b i).length = b.length) (indices : List ι) :
    ∀ b : List α, (indices.foldl step b).length = b.length := by
  induction indices with
  | nil => intro b; rfl
  | cons i rest ih =>
    intro b
    rw [List.foldl_cons, ih, h]

theorem ofSize_wellFormed (width height : Nat) : (Framebuffer.ofSize width height).WellFormed := by
  constructor <;> simp [Framebuffer.ofSize]

theorem fill_wellFormed (fb : Framebuffer) (color : Vec4) (h : fb.WellFormed) :
    (fb.fill color).WellFormed := by
  refine ⟨?_, h.2⟩
  show (List.foldl _ fb.buffer _).length = _
  rw [foldl_length _ (fun b i => List.length_set _ _ _)]
  exact h.1

theorem zFill_wellFormed (fb : Framebuffer) (z : ℚ) (h : fb.WellFormed) :
    (fb.zFill z).WellFormed := by
  refine ⟨h.1, ?_⟩
  show (List.foldl _ fb.zBuffer _).length = _
  rw [foldl_length _ (fun b i => List.length_set _ _ _)]
  exact h.2

theorem zTransform_wellFormed (exp : ℚ → ℚ) (fb : Framebuffer) (h : fb.WellFormed) :
    (fb.zTransform exp).WellFormed := by
  refine ⟨?_, h.2⟩
  show (List.foldl _ fb.buffer _).length = _
  rw [foldl_length _ (fun b i => List.length_set _ _ _)]
  exact h.1

theorem blit_wellFormed (fb surface : Framebuffer) (offsetX offsetY : Int)
    (h : surface.WellFormed) : (fb.blit surface offsetX offsetY).WellFormed := by
  refine ⟨?_, h.2⟩
  show (List.foldl _ surface.buffer _).length = _
  rw [foldl_length _ (fun b x => foldl_length _ (fun b y => List.length_set _ _ _) _ b)]
  exact h.1

theorem flip_wellFormed (fb : Framebuffer) : fb.flip.WellFormed := by
  refine ⟨?_, (ofSize_wellFormed fb.width fb.height).2⟩
  show (List.foldl _ (Framebuffer.ofSize fb.width fb.height).buffer _).length = _
  rw [foldl_length _ (fun b x => foldl_length _ (fun b y => List.length_set _ _ _) _ b)]
  exact (ofSize_wellFormed fb.width fb.height).1

theorem renderTriangle_wellFormed (m : Libm) (fb : Framebuffer) (camera : PinholeCamera)
    (t1 t2 t3 : Vec3) (c1 c2 c3 : Vec4) (n1 n2 n3 : Vec3) (dls : List DirectionalLight)
    (pls : List PointLight) (refl : Option CubeMap) (material : Material)
    (h : fb.WellFormed) :
    (fb.renderTriangle m camera t1 t2 t3 c1 c2 c3 n1 n2 n3 dls pls refl
      material).framebuffer.WellFormed := by
  rw [renderTriangle_eq]
  split_ifs
  · exact h
  · refine ⟨?_, h.2⟩
    show (_ : ShadeRow).buffer.length = _
    rw [(shadeRow_iterate _ _ _ _ _ _ _ _ _ _ _ (minX_nonneg _) (scan_in_row _ _)
      _).2.2.2.2.2.2.2.1]
    exact h.1

theorem renderTexturedTriangle_wellFormed (m : Libm) (fb : Framebuffer)
    (camera : PinholeCamera) (texture : Framebuffer) (t1 t2 t3 : Vec3) (r1 r2 r3 : Vec2)
    (n1 n2 n3 : Vec3) (dls : List DirectionalLight) (pls : List PointLight)
    (refl : Option CubeMap) (material : Material) (h : fb.WellFormed) :
    (fb.renderTexturedTriangle m camera texture t1 t2 t3 r1 r2 r3 n1 n2 n3 dls pls refl
      material).framebuffer.WellFormed := by
  rw [renderTexturedTriangle_eq]
  split_ifs
  · exact h
  · refine ⟨?_, h.2⟩
    show (_ : TextureRow).buffer.length = _
    rw [(textureRow_iterate _ _ _ _ _ _ _ _ _ _ _ _ _ _ (minX_nonneg _) (scan_in_row _ _)
      _).2.2.2.2.2.2.2.1]
    exact h.1

end graphics

namespace graphics
open math

/-- The planes of a framebuffer constructed from a decoded image: the colour plane has
`width * height` elements, the depth plane none. -/
theorem ofImage_planes (image : Image) :
    (Framebuffer.ofImage image).buffer.length =
        (Framebuffer.ofImage image).width * (Framebuffer.ofImage image).height ∧
      (Framebuffer.ofImage image).zBuffer = [] := by
  constructor
  · simp [Framebuffer.ofImage]
  · rfl

/-- The size invariant on every path but the image constructor: the constructor by
dimensions and `flip` produce planes of `width * height` elements each, and `fill`,
`clear`, `zFill`, `zClear`, `zTransform`, `blit`, `prerenderTriangle` and both
`renderTriangle` overloads keep them so. -/
theorem framebuffer_sizes_kept (m : Libm) (exp : ℚ → ℚ) (empty : Vec4) (width height : Nat)
    (fb other texture : Framebuffer) (color : Vec4) (z : ℚ) (offsetX offsetY : Int)
    (camera : PinholeCamera) (t1 t2 t3 : Vec3) (c1 c2 c3 : Vec4) (r1 r2 r3 : Vec2)
    (n1 n2 n3 : Vec3) (dls : List DirectionalLight) (pls : List PointLight)
    (refl : Option CubeMap) (material : Material) (h : fb.WellFormed) :
    (Framebuffer.ofSize width height).WellFormed ∧ other.flip.WellFormed ∧
      (fb.fill color).WellFormed ∧ (fb.clear empty).WellFormed ∧ (fb.zFill z).WellFormed ∧
      fb.zClear.WellFormed ∧ (fb.zTransform exp).WellFormed ∧
      (other.blit fb offsetX offsetY).WellFormed ∧
      (fb.prerenderTriangle camera t1 t2 t3).WellFormed ∧
      (fb.renderTriangle m camera t1 t2 t3 c1 c2 c3 n1 n2 n3 dls pls refl
        material).framebuffer.WellFormed ∧
      (fb.renderTexturedTriangle m camera texture t1 t2 t3 r1 r2 r3 n1 n2 n3 dls pls refl
        material).framebuffer.WellFormed :=
  ⟨ofSize_wellFormed width height, flip_wellFormed other, fill_wellFormed fb color h,
    fill_wellFormed fb empty h, zFill_wellFormed fb z h, zFill_wellFormed fb 0 h,
    zTransform_wellFormed exp fb h, blit_wellFormed other fb offsetX offsetY h,
    prerenderTriangle_wellFormed fb camera t1 t2 t3 h,
    renderTriangle_wellFormed m fb camera t1 t2 t3 c1 c2 c3 n1 n2 n3 dls pls refl material h,
    renderTexturedTriangle_wellFormed m fb camera texture t1 t2 t3 r1 r2 r3 n1 n2 n3 dls pls
      refl material h⟩

/-- C24, the defect: the constructor from a decoded image resizes the colour plane and
leaves the depth plane empty, where the constructor by dimensions sizes both. For a decoded
image of one pixel, `width * height` is `1`, the colour plane has one element and the depth
plane has none, and `zFill` leaves it so. -/
theorem ofImage_depth_plane_empty :
    (Framebuffer.ofImage sampleImage).width * (Framebuffer.ofImage sampleImage).height = 1 ∧
      (Framebuffer.ofImage sampleImage).buffer.length = 1 ∧
      (Framebuffer.ofImage sampleImage).zBuffer.length = 0 ∧
      ¬ (Framebuffer.ofImage sampleImage).WellFormed ∧
      ((Framebuffer.ofImage sampleImage).zFill 1).zBuffer.length = 0 ∧
      (Framebuffer.ofSize 1 1).zBuffer.length = 1 := by
  refine ⟨by decide, by decide, by decide, ?_, by decide, by decide⟩
  intro h
  exact absurd h.2 (by decide)

end graphics

namespace graphics
open math

theorem u32_le (n : Nat) : u32 n ≤ n := Nat.mod_le _ _

theorem indicesBelow_mono {triangles : List (Nat × Nat × Nat)} {a b : Nat}
    (h : indicesBelow triangles a) (hab : a ≤ b) : indicesBelow triangles b :=
  fun triangle ht =>
    ⟨lt_of_lt_of_le (h triangle ht).1 hab, lt_of_lt_of_le (h triangle ht).2.1 hab,
      lt_of_lt_of_le (h triangle ht).2.2 hab⟩

theorem indicesBelow_append {xs ys : List (Nat × Nat × Nat)} {bound : Nat}
    (hx : indicesBelow xs bound) (hy : indicesBelow ys bound) :
    indicesBelow (xs ++ ys) bound := by
  intro triangle ht
  rcases List.mem_append.1 ht with h | h
  · exact hx triangle h
  · exact hy triangle h

/-- The colour overload of `addTriangle` keeps the three per-vertex arrays in step and
the indices in bounds. -/
theorem addTriangle_indexed (m : Libm) (mesh : TriangleMesh) (p1 p2 p3 : Vec3)
    (c1 c2 c3 : Vec4) :
    (mesh.addTriangle m p1 p2 p3 c1 c2 c3).vertices.length = mesh.vertices.length + 3 ∧
    (mesh.addTriangle m p1 p2 p3 c1 c2 c3).colors.length = mesh.colors.length + 3 ∧
    (mesh.addTriangle m p1 p2 p3 c1 c2 c3).normals.length = mesh.normals.length + 3 ∧
    (indicesBelow mesh.triangles mesh.vertices.length →
      indicesBelow (mesh.addTriangle m p1 p2 p3 c1 c2 c3).triangles
        (mesh.vertices.length + 3)) := by
  refine ⟨by simp [TriangleMesh.addTriangle], by simp [TriangleMesh.addTriangle],
    by simp [TriangleMesh.addTriangle], fun h => ?_⟩
  refine indicesBelow_append (indicesBelow_mono h (by omega)) ?_
  intro triangle ht
  have h0 := u32_le mesh.vertices.length
  have h1 := u32_le (u32 mesh.vertices.length + 1)
  have h2 := u32_le (u32 mesh.vertices.length + 2)
  simp only [List.mem_singleton] at ht
  subst ht
  exact ⟨by show u32 _ < _; omega, by show u32 _ < _; omega, by show u32 _ < _; omega⟩

/-- The member `addAlignedBox` appends eight vertices and eight colours, keeps the
indices in bounds, and leaves `normals` as it was. -/
theorem addAlignedBox_indexed (mesh : TriangleMesh) (p1 p2 : Vec3) (color : Vec4) :
    (mesh.addAlignedBox p1 p2 color).vertices.length = mesh.vertices.length + 8 ∧
    (mesh.addAlignedBox p1 p2 color).colors.length = mesh.colors.length + 8 ∧
    (mesh.addAlignedBox p1 p2 color).normals = mesh.normals ∧
    (indicesBelow mesh.triangles mesh.vertices.length →
      indicesBelow (mesh.addAlignedBox p1 p2 color).triangles (mesh.vertices.length + 8)) := by
  refine ⟨by simp [TriangleMesh.addAlignedBox], by simp [TriangleMesh.addAlignedBox], rfl,
    fun h => ?_⟩
  refine indicesBelow_append (indicesBelow_mono h (by omega)) ?_
  intro triangle ht
  have h0 := u32_le mesh.vertices.length
  have h1 := u32_le (u32 mesh.vertices.length + 1)
  have h2 := u32_le (u32 mesh.vertices.length + 2)
  have h3 := u32_le (u32 mesh.vertices.length + 3)
  have h4 := u32_le (u32 mesh.vertices.length + 4)
  have h5 := u32_le (u32 mesh.vertices.length + 5)
  have h6 := u32_le (u32 mesh.vertices.length + 6)
  have h7 := u32_le (u32 mesh.vertices.length + 7)
  simp only [List.mem_cons, List.mem_singleton, List.not_mem_nil, or_false] at ht
  rcases ht with ht | ht | ht | ht | ht | ht | ht | ht | ht | ht | ht | ht <;> subst ht <;>
    exact ⟨by show u32 _ < _; omega, by show u32 _ < _; omega, by show u32 _ < _; omega⟩

theorem cylinderStep_indexed (m : Libm) (bottomCenter : Vec3) (radius height : ℚ)
    (subdivisions j : Nat) (cur : TriangleMesh) (i : Nat)
    (hj : j + 1 < cur.vertices.length) :
    (cylinderStep m bottomCenter radius height subdivisions j cur i).vertices.length =
      cur.vertices.length + 4 ∧
    (cylinderStep m bottomCenter radius height subdivisions j cur i).colors = cur.colors ∧
    (cylinderStep m bottomCenter radius height subdivisions j cur i).normals = cur.normals ∧
    (indicesBelow cur.triangles cur.vertices.length →
      indicesBelow (cylinderStep m bottomCenter radius height subdivisions j cur i).triangles
        (cur.vertices.length + 4)) := by
  refine ⟨by simp [cylinderStep], rfl, rfl, fun h => ?_⟩
  refine indicesBelow_append (indicesBelow_mono h (by omega)) ?_
  intro triangle ht
  have h0 := u32_le cur.vertices.length
  have h1 := u32_le (u32 cur.vertices.length + 1)
  have h2 := u32_le (u32 cur.vertices.length + 2)
  have h3 := u32_le (u32 cur.vertices.length + 3)
  have h4 := u32_le (j + 1)
  simp only [List.mem_cons, List.mem_singleton, List.not_mem_nil, or_false] at ht
  rcases ht with ht | ht | ht | ht <;> subst ht
  · exact ⟨by show j < _; omega, by show u32 _ < _; omega, by show u32 _ < _; omega⟩
  · exact ⟨by show u32 _ < _; omega, by show u32 _ < _; omega, by show u32 _ < _; omega⟩
  · exact ⟨by show u32 _ < _; omega, by show u32 _ < _; omega, by show u32 _ < _; omega⟩
  · exact ⟨by show u32 _ < _; omega, by show u32 _ < _; omega, by show u32 _ < _; omega⟩

theorem cylinderLoop_indexed (m : Libm) (bottomCenter : Vec3) (radius height : ℚ)
    (subdivisions j : Nat) (start : TriangleMesh) (hj : j + 1 < start.vertices.length)
    (n : Nat) :
    ((List.range n).foldl (cylinderStep m bottomCenter radius height subdivisions j)
        start).vertices.length = start.vertices.length + 4 * n ∧
    ((List.range n).foldl (cylinderStep m bottomCenter radius height subdivisions j)
        start).colors = start.colors ∧
    ((List.range n).foldl (cylinderStep m bottomCenter radius height subdivisions j)
        start).normals = start.normals ∧
    (indicesBelow start.triangles start.vertices.length →
      indicesBelow ((List.range n).foldl
        (cylinderStep m bottomCenter radius height subdivisions j) start).triangles
        (start.vertices.length + 4 * n)) := by
  induction n with
  | zero => exact ⟨rfl, rfl, rfl, fun h => h⟩
  | succ n ih =>
    obtain ⟨hv, hc, hn, ht⟩ := ih
    rw [List.range_succ, List.foldl_append]
    simp only [List.foldl_cons, List.foldl_nil]
    obtain ⟨sv, sc, sn, st⟩ := cylinderStep_indexed m bottomCenter radius height subdivisions
      j ((List.range n).foldl (cylinderStep m bottomCenter radius height subdivisions j)
        start) n (by omega)
    refine ⟨by rw [sv, hv]; ring, by rw [sc, hc], by rw [sn, hn], fun h => ?_⟩
    have := st (by rw [hv]; exact ht h)
    rw [hv] at this
    exact indicesBelow_mono this (by omega)

/-- The member `addAlignedCylinder` appends `2 + 4 * subdivisions` vertices, keeps the
indices in bounds, appends as many colours when the count does not wrap, and leaves
`normals` as it was. -/
theorem addAlignedCylinder_indexed (m : Libm) (mesh : TriangleMesh) (bottomCenter : Vec3)
    (radius height : ℚ) (subdivisions : Nat) (color : Vec4) :
    (mesh.addAlignedCylinder m bottomCenter radius height subdivisions color).vertices.length =
      mesh.vertices.length + (subdivisions * 4 + 2) ∧
    (mesh.addAlignedCylinder m bottomCenter radius height subdivisions color).colors.length =
      mesh.colors.length + u32 (subdivisions * 4 + 2) ∧
    (mesh.addAlignedCylinder m bottomCenter radius height subdivisions color).normals =
      mesh.normals ∧
    (indicesBelow mesh.triangles mesh.vertices.length →
      indicesBelow
        (mesh.addAlignedCylinder m bottomCenter radius height subdivisions color).triangles
        (mesh.vertices.length + (subdivisions * 4 + 2))) := by
  have h0 := u32_le mesh.vertices.length
  obtain ⟨hv, hc, hn, ht⟩ := cylinderLoop_indexed m bottomCenter radius height subdivisions
    (u32 mesh.vertices.length)
    { mesh with vertices := mesh.vertices ++ [bottomCenter, bottomCenter + ![0, height, 0]] }
    (by simp only [List.length_append, List.length_cons, List.length_nil]; omega) subdivisions
  simp only [List.length_append, List.length_cons, List.length_nil] at hv ht
  refine ⟨?_, ?_, ?_, fun h => ?_⟩
  · exact hv.trans (by ring)
  · simp only [TriangleMesh.addAlignedCylinder, List.length_append, List.length_replicate, hc]
  · exact hn
  · exact indicesBelow_mono (ht (indicesBelow_mono h (by omega))) (by omega)

theorem addTriangle_kept (m : Libm) (mesh : TriangleMesh) (p1 p2 p3 : Vec3)
    (c1 c2 c3 : Vec4) (h : mesh.Indexed) : (mesh.addTriangle m p1 p2 p3 c1 c2 c3).Indexed := by
  obtain ⟨hv, hc, _, ht⟩ := addTriangle_indexed m mesh p1 p2 p3 c1 c2 c3
  exact ⟨by rw [hv]; exact ht h.1, by rw [hv, hc, h.2]⟩

theorem addTriangle_normals (m : Libm) (mesh : TriangleMesh) (p1 p2 p3 : Vec3)
    (c1 c2 c3 : Vec4) (h : mesh.normals.length = mesh.vertices.length) :
    (mesh.addTriangle m p1 p2 p3 c1 c2 c3).normals.length =
      (mesh.addTriangle m p1 p2 p3 c1 c2 c3).vertices.length := by
  obtain ⟨hv, _, hn, _⟩ := addTriangle_indexed m mesh p1 p2 p3 c1 c2 c3
  rw [hv, hn, h]

/-- One call keeps the indices in bounds and one colour per vertex. -/
theorem apply_kept (m : Libm) (mesh : TriangleMesh) (op : MeshOp) (hfit : op.countFits)
    (h : mesh.Indexed) : (op.apply m mesh).Indexed := by
  cases op with
  | addTriangle p1 p2 p3 c1 c2 c3 => exact addTriangle_kept m mesh p1 p2 p3 c1 c2 c3 h
  | addUniformTriangle p1 p2 p3 color =>
    exact addTriangle_kept m mesh p1 p2 p3 color color color h
  | addQuad p1 p2 p3 p4 c1 c2 c3 c4 =>
    exact addTriangle_kept m _ p1 p3 p4 c1 c3 c4 (addTriangle_kept m mesh p1 p2 p3 c1 c2 c3 h)
  | addUniformQuad p1 p2 p3 p4 color =>
    exact addTriangle_kept m _ p1 p3 p4 color color color
      (addTriangle_kept m mesh p1 p2 p3 color color color h)
  | addAlignedBox p1 p2 color =>
    obtain ⟨hv, hc, _, ht⟩ := addAlignedBox_indexed mesh p1 p2 color
    exact ⟨by show indicesBelow _ (mesh.addAlignedBox p1 p2 color).vertices.length
              rw [hv]; exact ht h.1,
      by show (mesh.addAlignedBox p1 p2 color).colors.length = _
         rw [hc, h.2]; exact hv.symm⟩
  | addAlignedCylinder bottomCenter radius height subdivisions color =>
    obtain ⟨hv, hc, _, ht⟩ :=
      addAlignedCylinder_indexed m mesh bottomCenter radius height subdivisions color
    have hfit2 : subdivisions * 4 + 2 < 2 ^ 32 := hfit
    exact ⟨by show indicesBelow _ (mesh.addAlignedCylinder m bottomCenter radius height
                subdivisions color).vertices.length
              rw [hv]; exact ht h.1,
      by show (mesh.addAlignedCylinder m bottomCenter radius height subdivisions
            color).colors.length = _
         rw [hc, h.2, u32, Nat.mod_eq_of_lt hfit2]; exact hv.symm⟩

/-- One call that goes through `addTriangle` keeps one normal per vertex. -/
theorem apply_normals (m : Libm) (mesh : TriangleMesh) (op : MeshOp)
    (hop : op.byTriangles = true) (h : mesh.normals.length = mesh.vertices.length) :
    (op.apply m mesh).normals.length = (op.apply m mesh).vertices.length := by
  cases op with
  | addTriangle p1 p2 p3 c1 c2 c3 => exact addTriangle_normals m mesh p1 p2 p3 c1 c2 c3 h
  | addUniformTriangle p1 p2 p3 color =>
    exact addTriangle_normals m mesh p1 p2 p3 color color color h
  | addQuad p1 p2 p3 p4 c1 c2 c3 c4 =>
    exact addTriangle_normals m _ p1 p3 p4 c1 c3 c4
      (addTriangle_normals m mesh p1 p2 p3 c1 c2 c3 h)
  | addUniformQuad p1 p2 p3 p4 color =>
    exact addTriangle_normals m _ p1 p3 p4 color color color
      (addTriangle_normals m mesh p1 p2 p3 color color color h)
  | addAlignedBox p1 p2 color => exact absurd hop Bool.false_ne_true
  | addAlignedCylinder bottomCenter radius height subdivisions color =>
    exact absurd hop Bool.false_ne_true

/-- The part of mesh well-formedness the builders keep: after any sequence of calls of the
colour variants on an empty mesh (every cylinder with a colour count that fits
`unsigned int`), every triangle index is below `vertices.size()` and
`colors.size() == vertices.size()`; when every call is an `addTriangle` or an `addQuad`,
also `normals.size() == vertices.size()`. -/
theorem build_indices_colors (m : Libm) (material : Material) (ops : List MeshOp)
    (hfit : ∀ op ∈ ops, op.countFits) :
    ((TriangleMesh.empty material).build m ops).Indexed ∧
    ((∀ op ∈ ops, op.byTriangles = true) →
      ((TriangleMesh.empty material).build m ops).normals.length =
        ((TriangleMesh.empty material).build m ops).vertices.length) := by
  have key : ∀ (ops : List MeshOp) (mesh : TriangleMesh), (∀ op ∈ ops, op.countFits) →
      (mesh.Indexed → (mesh.build m ops).Indexed) ∧
      ((∀ op ∈ ops, op.byTriangles = true) → mesh.normals.length = mesh.vertices.length →
        (mesh.build m ops).normals.length = (mesh.build m ops).vertices.length) := by
    intro ops
    induction ops with
    | nil => exact fun mesh _ => ⟨fun h => h, fun _ h => h⟩
    | cons op ops ih =>
      intro mesh hf
      have hrest := ih (op.apply m mesh) (fun o ho => hf o (List.mem_cons_of_mem _ ho))
      refine ⟨fun h => hrest.1 (apply_kept m mesh op (hf op (List.mem_cons_self _ _)) h),
        fun hb h => hrest.2 (fun o ho => hb o (List.mem_cons_of_mem _ ho))
          (apply_normals m mesh op (hb op (List.mem_cons_self _ _)) h)⟩
  have h := key ops (TriangleMesh.empty material) hfit
  exact ⟨h.1 ⟨fun _ ht => absurd ht (List.not_mem_nil _), rfl⟩, fun hb => h.2 hb rfl⟩

/-- Claim C25 (defect). The builders `addAlignedBox` and `addAlignedCylinder` append no
normals: after `addAlignedBox` on an empty mesh there are eight vertices, eight colours,
twelve triangles with every index below eight, and no normal at all, so no index is in
bounds of `normals`; the same after `addAlignedCylinder` with three subdivisions
(fourteen vertices and colours); the sibling `addTriangle` appends three of each. -/
theorem aligned_builders_leave_normals_short :
    (((TriangleMesh.empty flat).build tableLibm
        [.addAlignedBox 0 1 black]).vertices.length = 8 ∧
      ((TriangleMesh.empty flat).build tableLibm [.addAlignedBox 0 1 black]).colors.length = 8 ∧
      ((TriangleMesh.empty flat).build tableLibm [.addAlignedBox 0 1 black]).normals.length = 0 ∧
      ((TriangleMesh.empty flat).build tableLibm
        [.addAlignedBox 0 1 black]).triangles.length = 12 ∧
      indicesBelow
        ((TriangleMesh.empty flat).build tableLibm [.addAlignedBox 0 1 black]).triangles 8 ∧
      ∀ triangle ∈
          ((TriangleMesh.empty flat).build tableLibm [.addAlignedBox 0 1 black]).triangles,
        ¬ triangle.1 <
          ((TriangleMesh.empty flat).build tableLibm
            [.addAlignedBox 0 1 black]).normals.length) ∧
    (((TriangleMesh.empty flat).build tableLibm
        [.addAlignedCylinder 0 1 1 3 black]).vertices.length = 14 ∧
      ((TriangleMesh.empty flat).build tableLibm
        [.addAlignedCylinder 0 1 1 3 black]).colors.length = 14 ∧
      ((TriangleMesh.empty flat).build tableLibm
        [.addAlignedCylinder 0 1 1 3 black]).normals.length = 0) ∧
    (((TriangleMesh.empty flat).build tableLibm
        [.addUniformTriangle 0 ![1, 0, 0] ![0, 1, 0] black]).vertices.length = 3 ∧
      ((TriangleMesh.empty flat).build tableLibm
        [.addUniformTriangle 0 ![1, 0, 0] ![0, 1, 0] black]).normals.length = 3) := by
  refine ⟨⟨rfl, rfl, rfl, rfl, by decide, by decide⟩, ⟨rfl, rfl, rfl⟩, ⟨rfl, rfl⟩⟩

end graphics

namespace graphics
open math

/-- Claim C26. Mesh load failure is atomic: when the file cannot be opened, or the first
flag byte after the vertex count is not the character `y`, `addBin` leaves by an
exception (the open error; the missing-positions error, or the array allocation error
when the announced vertex count is negative) and the mesh, with its vertices, colours,
normals, texture coordinates and triangles, is exactly as before the call. -/
theorem addBin_failure_atomic (d : Decoder) (indeterminate : Nat) (mesh : TriangleMesh)
    (file : Option (List Nat))
    (h : file = none ∨
      ∃ bytes flag, file = some bytes ∧ bytes.get? 4 = some flag ∧ flag ≠ 121) :
    (mesh.addBin d indeterminate file).error.isSome = true ∧
    (mesh.addBin d indeterminate file).mesh = mesh ∧
    (file = none → (mesh.addBin d indeterminate file).error = some .cannotOpen) ∧
    (file ≠ none →
      (mesh.addBin d indeterminate file).error = some .positionsMissing ∨
      (mesh.addBin d indeterminate file).error = some .badArrayLength) := by
  rcases h with h | ⟨bytes, flag, hfile, hget, hflag⟩
  · subst h
    exact ⟨rfl, rfl, fun _ => rfl, fun hne => absurd rfl hne⟩
  · subst hfile
    rcases bytes with _ | ⟨b0, _ | ⟨b1, _ | ⟨b2, _ | ⟨b3, _ | ⟨b4, rest⟩⟩⟩⟩⟩ <;>
      simp only [List.get?_nil, List.get?_cons_succ, List.get?_cons_zero, Option.some.injEq,
        reduceCtorEq] at hget
    subst hget
    have hread : FileStream.read ⟨b0 :: b1 :: b2 :: b3 :: b4 :: rest, false⟩ 4 =
        ([b0, b1, b2, b3], ⟨b4 :: rest, false⟩) := by
      simp [FileStream.read]
    have hflagRead : FileStream.read ⟨b4 :: rest, false⟩ 1 = ([b4], ⟨rest, false⟩) := by
      simp [FileStream.read]
    by_cases hneg : d.int [b0, b1, b2, b3] < 0
    · have hres : mesh.addBin d indeterminate (some (b0 :: b1 :: b2 :: b3 :: b4 :: rest)) =
          ⟨some .badArrayLength, mesh⟩ := by
        simp only [TriangleMesh.addBin, hread, if_pos hneg]
      rw [hres]
      exact ⟨rfl, rfl, fun hn => absurd hn (by simp), fun _ => Or.inr rfl⟩
    · have hres : mesh.addBin d indeterminate (some (b0 :: b1 :: b2 :: b3 :: b4 :: rest)) =
          ⟨some .positionsMissing, mesh⟩ := by
        simp only [TriangleMesh.addBin, hread, if_neg hneg, hflagRead, List.headD_cons,
          ne_eq, hflag, not_false_eq_true, if_true]
      rw [hres]
      exact ⟨rfl, rfl, fun hn => absurd hn (by simp), fun _ => Or.inl rfl⟩

theorem addBin_failure_atomic_witness :
    (some sampleFileWithoutPositions = none ∨
      ∃ bytes flag, some sampleFileWithoutPositions = some bytes ∧
        bytes.get? 4 = some flag ∧ flag ≠ 121) ∧
    ((sampleTranslucentMesh.addBin sampleDecoder 0
        (some sampleFileWithoutPositions)).error.isSome = true ∧
      (sampleTranslucentMesh.addBin sampleDecoder 0 (some sampleFileWithoutPositions)).mesh =
        sampleTranslucentMesh ∧
      (some sampleFileWithoutPositions = none →
        (sampleTranslucentMesh.addBin sampleDecoder 0
          (some sampleFileWithoutPositions)).error = some .cannotOpen) ∧
      (some sampleFileWithoutPositions ≠ none →
        (sampleTranslucentMesh.addBin sampleDecoder 0
            (some sampleFileWithoutPositions)).error = some .positionsMissing ∨
          (sampleTranslucentMesh.addBin sampleDecoder 0
            (some sampleFileWithoutPositions)).error = some .badArrayLength)) :=
  ⟨Or.inr ⟨sampleFileWithoutPositions, 110, rfl, rfl, by decide⟩,
    addBin_failure_atomic sampleDecoder 0 sampleTranslucentMesh
      (some sampleFileWithoutPositions)
      (Or.inr ⟨sampleFileWithoutPositions, 110, rfl, rfl, by decide⟩)⟩

/-- A well-formed file loads: no exception, and the vertex of the file is appended. -/
theorem addBin_loads :
    (sampleTranslucentMesh.addBin sampleDecoder 0 (some sampleFile)).error = none ∧
    (sampleTranslucentMesh.addBin sampleDecoder 0 (some sampleFile)).mesh.vertices =
      sampleTranslucentMesh.vertices ++ [![1, 2, 3]] ∧
    (sampleTranslucentMesh.addBin sampleDecoder 0 (some sampleFile)).mesh.triangles =
      sampleTranslucentMesh.triangles := by
  decide!

end graphics

namespace graphics
open math

theorem foldl_filter_pass {α β : Type} (f : β → α → β) (p : α → Bool) (xs : List α)
    (init : β) :
    xs.foldl (fun acc x => if p x = true then f acc x else acc) init =
      (xs.filter p).foldl f init := by
  induction xs generalizing init with
  | nil => rfl
  | cons x xs ih =>
    by_cases h : p x = true
    · simp only [List.foldl_cons, h, if_true, List.filter_cons_of_pos]
      exact ih _
    · simp only [List.foldl_cons, h, if_false, Bool.false_eq_true]
      rw [List.filter_cons_of_neg h]
      exact ih _

/-- The triangles `TriangleMesh::prerender` passes to `prerenderTriangle`. -/
theorem prerender_passed (mesh : TriangleMesh) (fb : Framebuffer) (camera : PinholeCamera) :
    mesh.prerender fb camera =
      (if mesh.texture.isSome then mesh.triangles
        else mesh.triangles.filter (fun triangle =>
          decide (mesh.colors.getD triangle.1 0 3 ≥ 1 ∧ mesh.colors.getD triangle.2.1 0 3 ≥ 1 ∧
            mesh.colors.getD triangle.2.2 0 3 ≥ 1))).foldl
        (fun fb triangle =>
          fb.prerenderTriangle camera (mesh.vertices.getD triangle.1 0)
            (mesh.vertices.getD triangle.2.1 0) (mesh.vertices.getD triangle.2.2 0))
        fb := by
  unfold TriangleMesh.prerender
  by_cases htex : mesh.texture.isSome = true
  · simp only [htex, if_true]
  · simp only [htex, if_false, Bool.false_eq_true]
    rw [← foldl_filter_pass]
    simp only [decide_eq_true_eq]

/-- Claim C30 (amended). In a coloured mesh `TriangleMesh::prerender` passes to
`prerenderTriangle` exactly the triangles whose three vertex colours have alpha `>= 1`, in
order, so a mesh of one triangle with a translucent vertex leaves the framebuffer as it
was; in a textured mesh it passes every triangle, whatever the alpha of the texels. -/
theorem prerender_opaque_vertices (mesh : TriangleMesh) (fb : Framebuffer)
    (camera : PinholeCamera) :
    (mesh.texture = none →
      mesh.prerender fb camera =
        prerenderAll fb camera ((mesh.triangles.filter mesh.opaqueVertices).map mesh.corners) ∧
      (∀ triangle ∈ mesh.triangles.filter mesh.opaqueVertices,
        1 ≤ mesh.colors.getD triangle.1 0 3 ∧ 1 ≤ mesh.colors.getD triangle.2.1 0 3 ∧
          1 ≤ mesh.colors.getD triangle.2.2 0 3) ∧
      (∀ triangle, mesh.triangles = [triangle] → mesh.opaqueVertices triangle = false →
        mesh.prerender fb camera = fb)) ∧
    (mesh.texture.isSome = true →
      mesh.prerender fb camera = prerenderAll fb camera (mesh.triangles.map mesh.corners)) := by
  have hpass := prerender_passed mesh fb camera
  constructor
  · intro htex
    have hfold : mesh.prerender fb camera =
        prerenderAll fb camera
          ((mesh.triangles.filter mesh.opaqueVertices).map mesh.corners) := by
      rw [hpass, htex]
      simp only [Option.isSome_none, Bool.false_eq_true, if_false]
      unfold prerenderAll
      rw [List.foldl_map]
      rfl
    refine ⟨hfold, ?_, ?_⟩
    · intro triangle ht
      have := (List.mem_filter.1 ht).2
      unfold TriangleMesh.opaqueVertices at this
      exact of_decide_eq_true this
    · intro triangle hone hnot
      rw [hfold, hone]
      simp only [List.filter_cons, hnot, Bool.false_eq_true, if_false, List.filter_nil,
        List.map_nil]
      rfl
  · intro htex
    rw [hpass]
    simp only [htex, if_true]
    unfold prerenderAll
    rw [List.foldl_map]
    rfl

theorem prerender_opaque_vertices_witness :
    sampleTranslucentMesh.texture = none ∧
    sampleTranslucentMesh.triangles = [(0, 1, 2)] ∧
    sampleTranslucentMesh.opaqueVertices (0, 1, 2) = false ∧
    sampleTranslucentMesh.prerender sampleFramebuffer sampleCamera = sampleFramebuffer ∧
    sampleTexturedMesh.texture.isSome = true ∧
    sampleTexturedMesh.prerender sampleFramebuffer sampleCamera =
      prerenderAll sampleFramebuffer sampleCamera
        (sampleTexturedMesh.triangles.map sampleTexturedMesh.corners) :=
  ⟨rfl, rfl, by decide!,
    ((prerender_opaque_vertices sampleTranslucentMesh sampleFramebuffer sampleCamera).1
      rfl).2.2 (0, 1, 2) rfl (by decide!), rfl,
    (prerender_opaque_vertices sampleTexturedMesh sampleFramebuffer sampleCamera).2 rfl⟩

/-- Claim C30 (counterexample). The one triangle of `sampleTexturedMesh` is textured with
a texel of alpha one half, and the pre-pass of the mesh raises the depth stored at the
pixel `(1, 1)` of an empty 4 x 4 framebuffer from 0. -/
theorem textured_prepass_raises_depth :
    sampleTexturedMesh.texture = some sampleTranslucentTexture ∧
    (∀ texel ∈ sampleTranslucentTexture.buffer, texel 3 = 1 / 2) ∧
    ¬ (∀ texel ∈ sampleTranslucentTexture.buffer, texel 3 = 1) ∧
    sampleFramebuffer.zLookup 1 1 = 0 ∧
    0 < (sampleTexturedMesh.prerender sampleFramebuffer sampleCamera).zLookup 1 1 := by
  refine ⟨rfl, by decide!, by decide!, by decide!, ?_⟩
  have h := (prerenderTriangle_zLookup sampleFramebuffer sampleCamera sampleTriangle.1
    sampleTriangle.2.1 sampleTriangle.2.2 sampleFramebuffer_wellFormed 1 1 (by decide)).1
    (by decide!)
  have hmesh : sampleTexturedMesh.prerender sampleFramebuffer sampleCamera =
      sampleFramebuffer.prerenderTriangle sampleCamera sampleTriangle.1 sampleTriangle.2.1
        sampleTriangle.2.2 := rfl
  rw [hmesh, h]
  decide!

end graphics

namespace math

theorem inverse2_eq_adjugate (a : Mat2) :
    inverse2 a = divScalar (adjugate2 a) (determinant2 a) := by
  funext i j
  fin_cases i <;> fin_cases j <;>
    simp [inverse2, divScalar, adjugate2, comatrix2, cofactor2, transpose, getColumn,
      determinant1, Fin.succAbove]

theorem inverse_eq_adjugate (a : Mat3) : inverse a = divScalar (adjugate a) (determinant a) := by
  funext i j
  fin_cases i <;> fin_cases j <;>
    simp [inverse, divScalar, adjugate, comatrix, cofactor, transpose, getColumn, determinant2,
      Fin.succAbove] <;> ring

theorem mul_inverse2 (a : Mat2) (h : determinant2 a ≠ 0) :
    mul a (inverse2 a) = identity 2 ∧ mul (inverse2 a) a = identity 2 := by
  constructor <;> funext i j <;> fin_cases i <;> fin_cases j <;>
    simp [mul, dot, getColumn, inverse2, divScalar, identity, Fin.sum_univ_two] <;>
    field_simp <;> (try unfold determinant2) <;> ring

theorem mul_inverse (a : Mat3) (h : determinant a ≠ 0) :
    mul a (inverse a) = identity 3 ∧ mul (inverse a) a = identity 3 := by
  constructor <;> funext i j <;> fin_cases i <;> fin_cases j <;>
    simp [mul, dot, getColumn, inverse, identity, Fin.sum_univ_three] <;>
    field_simp <;> (try unfold determinant) <;> ring

/-- C35 (matrix inverse is a two-sided inverse): for a 2 x 2 matrix `A` and a 3 x 3 matrix
`B` with non-zero determinant, `A * A.inverse()`, `A.inverse() * A`, `B * B.inverse()` and
`B.inverse() * B` are the identity, and the inverse is the adjugate divided by the
determinant. -/
theorem inverse_two_sided (A : Mat2) (B : Mat3) (hA : determinant2 A ≠ 0)
    (hB : determinant B ≠ 0) :
    (mul A (inverse2 A) = identity 2 ∧ mul (inverse2 A) A = identity 2 ∧
      inverse2 A = divScalar (adjugate2 A) (determinant2 A)) ∧
    (mul B (inverse B) = identity 3 ∧ mul (inverse B) B = identity 3 ∧
      inverse B = divScalar (adjugate B) (determinant B)) :=
  ⟨⟨(mul_inverse2 A hA).1, (mul_inverse2 A hA).2, inverse2_eq_adjugate A⟩,
    ⟨(mul_inverse B hB).1, (mul_inverse B hB).2, inverse_eq_adjugate B⟩⟩

theorem inverse_two_sided_witness :
    (determinant2 sampleMat2 ≠ 0 ∧ determinant sampleMat3 ≠ 0) ∧
    (mul sampleMat2 (inverse2 sampleMat2) = identity 2 ∧
      mul (inverse2 sampleMat2) sampleMat2 = identity 2 ∧
      inverse2 sampleMat2 = divScalar (adjugate2 sampleMat2) (determinant2 sampleMat2)) ∧
    (mul sampleMat3 (inverse sampleMat3) = identity 3 ∧
      mul (inverse sampleMat3) sampleMat3 = identity 3 ∧
      inverse sampleMat3 = divScalar (adjugate sampleMat3) (determinant sampleMat3)) :=
  ⟨⟨by decide!, by decide!⟩,
    inverse_two_sided sampleMat2 sampleMat3 (by decide!) (by decide!)⟩

end math

namespace math

theorem determinant_transpose (a : Mat3) : determinant (transpose a) = determinant a := by
  simp only [determinant, transpose, getColumn]
  ring

/-- Linear independence of three vectors is the non-vanishing of their determinant. -/
theorem linearIndependent_iff_determinant (a b c : Vec3) :
    LinearIndependent ℚ ![a, b, c] ↔ determinant ![a, b, c] ≠ 0 := by
  have h := Matrix.linearIndependent_rows_iff_isUnit (K := ℚ) (A := Matrix.of ![a, b, c])
  have hd : Matrix.det (Matrix.of ![a, b, c]) = determinant ![a, b, c] := by
    rw [Matrix.det_fin_three]
    simp only [determinant, Matrix.of_apply]
    ring
  rw [Matrix.isUnit_iff_isUnit_det, hd, isUnit_iff_ne_zero] at h
  rw [← h]
  rfl

end math

namespace graphics
open math

/-- With the projection matrix of the basis, the vector `q = projectionMatrix * v` has
`a * q.x + b * q.y + c * q.z = v`. -/
theorem projection_coordinates (camera : PinholeCamera)
    (hdet : determinant ![camera.a, camera.b, camera.c] ≠ 0)
    (hproj : camera.projectionMatrix = camera.getProjectionMatrix) (v : Vec3) (i : Fin 3) :
    camera.a i * mulVec camera.projectionMatrix v 0 +
      camera.b i * mulVec camera.projectionMatrix v 1 +
      camera.c i * mulVec camera.projectionMatrix v 2 = v i := by
  have hT : determinant (transpose ![camera.a, camera.b, camera.c]) ≠ 0 := by
    rw [determinant_transpose]; exact hdet
  have h := (mulVec_inverse_iff (transpose ![camera.a, camera.b, camera.c]) hT v
    (mulVec camera.projectionMatrix v)).mpr (by rw [hproj]; rfl) i
  rw [← h]
  simp only [dot, transpose, getColumn, Fin.sum_univ_three, Matrix.cons_val_zero,
    Matrix.cons_val_one, Matrix.head_cons, Matrix.cons_val_two, Matrix.tail_cons]

/-- The projection matrix maps `a * x + b * y + c * z` to `(x, y, z)`. -/
theorem projection_of_combination (camera : PinholeCamera)
    (hdet : determinant ![camera.a, camera.b, camera.c] ≠ 0)
    (hproj : camera.projectionMatrix = camera.getProjectionMatrix) (w : Vec3) :
    mulVec camera.projectionMatrix
      (fun i => camera.a i * w 0 + camera.b i * w 1 + camera.c i * w 2) = w := by
  have hT : determinant (transpose ![camera.a, camera.b, camera.c]) ≠ 0 := by
    rw [determinant_transpose]; exact hdet
  have h := (mulVec_inverse_iff (transpose ![camera.a, camera.b, camera.c]) hT
    (fun i => camera.a i * w 0 + camera.b i * w 1 + camera.c i * w 2) w).mp (by
      intro i
      simp only [dot, transpose, getColumn, Fin.sum_univ_three, Matrix.cons_val_zero,
        Matrix.cons_val_one, Matrix.head_cons, Matrix.cons_val_two, Matrix.tail_cons])
  rw [hproj]
  exact h.symm

/-- The round trip world point to projection and back. -/
theorem unproject_project (camera : PinholeCamera)
    (hdet : determinant ![camera.a, camera.b, camera.c] ≠ 0)
    (hproj : camera.projectionMatrix = camera.getProjectionMatrix) (P : Vec3)
    (hP : camera.projectDivisor P ≠ 0) : camera.unproject (camera.project P) = P := by
  funext i
  have h := projection_coordinates camera hdet hproj (P - camera.center) i
  have hq : mulVec camera.projectionMatrix (P - camera.center) 2 ≠ 0 := hP
  simp only [PinholeCamera.unproject, PinholeCamera.project, Matrix.cons_val_zero,
    Matrix.cons_val_one, Matrix.head_cons, Matrix.cons_val_two, Matrix.tail_cons]
  simp only [Pi.sub_apply] at h
  field_simp
  linear_combination h

/-- The round trip projection to world point and back. -/
theorem project_unproject (camera : PinholeCamera)
    (hdet : determinant ![camera.a, camera.b, camera.c] ≠ 0)
    (hproj : camera.projectionMatrix = camera.getProjectionMatrix) (v : Vec3)
    (hv : v 2 ≠ 0) : camera.project (camera.unproject v) = v := by
  have harg : camera.unproject v - camera.center =
      fun i => camera.a i * (![v 0 / v 2, v 1 / v 2, 1 / v 2] : Vec3) 0 +
        camera.b i * (![v 0 / v 2, v 1 / v 2, 1 / v 2] : Vec3) 1 +
        camera.c i * (![v 0 / v 2, v 1 / v 2, 1 / v 2] : Vec3) 2 := by
    funext i
    simp only [PinholeCamera.unproject, Pi.sub_apply, Matrix.cons_val_zero,
      Matrix.cons_val_one, Matrix.head_cons, Matrix.cons_val_two, Matrix.tail_cons]
    field_simp
    ring
  have hq := projection_of_combination camera hdet hproj ![v 0 / v 2, v 1 / v 2, 1 / v 2]
  rw [← harg] at hq
  funext i
  unfold PinholeCamera.project
  simp only [hq]
  fin_cases i <;>
    simp only [Fin.zero_eta, Fin.mk_one, Fin.reduceFinMk, Matrix.cons_val_zero,
      Matrix.cons_val_one, Matrix.head_cons, Matrix.cons_val_two, Matrix.tail_cons] <;>
    field_simp

/-- C34 (project/unproject round trip): for a camera whose `a`, `b`, `c` are linearly
independent and whose `projectionMatrix` equals `getProjectionMatrix()`, every world point
`P` with `(projectionMatrix * (P - center)).z != 0` has `unproject(project(P)) = P`, and
every `v = (x, y, z)` with `z != 0` has `project(unproject(v)) = v`. -/
theorem project_unproject_round_trip (camera : PinholeCamera)
    (hindep : LinearIndependent ℚ ![camera.a, camera.b, camera.c])
    (hproj : camera.projectionMatrix = camera.getProjectionMatrix) (P v : Vec3)
    (hP : mulVec camera.projectionMatrix (P - camera.center) 2 ≠ 0) (hv : v 2 ≠ 0) :
    camera.unproject (camera.project P) = P ∧ camera.project (camera.unproject v) = v :=
  ⟨unproject_project camera
      ((linearIndependent_iff_determinant camera.a camera.b camera.c).1 hindep) hproj P hP,
    project_unproject camera
      ((linearIndependent_iff_determinant camera.a camera.b camera.c).1 hindep) hproj v hv⟩

theorem project_unproject_round_trip_witness :
    (LinearIndependent ℚ ![sampleCamera.a, sampleCamera.b, sampleCamera.c] ∧
      sampleCamera.projectionMatrix = sampleCamera.getProjectionMatrix ∧
      mulVec sampleCamera.projectionMatrix (sampleTriangle.1 - sampleCamera.center) 2 ≠ 0 ∧
      (![1, 2, 1 / 2] : Vec3) 2 ≠ 0) ∧
    (sampleCamera.unproject (sampleCamera.project sampleTriangle.1) = sampleTriangle.1 ∧
      sampleCamera.project (sampleCamera.unproject ![1, 2, 1 / 2]) = ![1, 2, 1 / 2]) :=
  ⟨⟨(linearIndependent_iff_determinant _ _ _).2 (by decide!), rfl, by decide!, by decide!⟩,
    project_unproject_round_trip sampleCamera
      ((linearIndependent_iff_determinant _ _ _).2 (by decide!)) rfl sampleTriangle.1
      ![1, 2, 1 / 2] (by decide!) (by decide!)⟩

end graphics

namespace math

theorem mul_eq_matrix_mul (A B : Mat3) : Matrix.of (mul A B) = Matrix.of A * Matrix.of B := by
  ext i j
  simp only [Matrix.of_apply, Matrix.mul_apply, mul, dot, getColumn]

theorem identity_eq_one : Matrix.of (identity 3) = 1 := by
  ext i j
  simp only [Matrix.of_apply, identity, Matrix.one_apply]

/-- A right inverse of a square matrix is a left inverse. -/
theorem mul_eq_identity_comm (A B : Mat3) (h : mul A B = identity 3) :
    mul B A = identity 3 := by
  have h1 : Matrix.of A * Matrix.of B = 1 := by
    rw [← mul_eq_matrix_mul, h, identity_eq_one]
  have h2 : Matrix.of B * Matrix.of A = 1 := (Matrix.mul_eq_one_comm).1 h1
  rw [← mul_eq_matrix_mul, ← identity_eq_one] at h2
  exact Matrix.of.injective h2

theorem determinant_eq_det (A : Mat3) : determinant A = Matrix.det (Matrix.of A) := by
  rw [Matrix.det_fin_three]
  simp only [determinant, Matrix.of_apply]
  ring

/-- A right inverse of a 3 x 3 matrix is its `inverse()`. -/
theorem inverse_eq_of_mul_eq_identity (A B : Mat3) (h : mul A B = identity 3) :
    determinant A ≠ 0 ∧ inverse A = B := by
  have h1 : Matrix.of A * Matrix.of B = 1 := by
    rw [← mul_eq_matrix_mul, h, identity_eq_one]
  have hdet : determinant A ≠ 0 := by
    rw [determinant_eq_det]
    intro h0
    have := congrArg Matrix.det h1
    rw [Matrix.det_mul, h0, zero_mul, Matrix.det_one] at this
    exact zero_ne_one this
  refine ⟨hdet, ?_⟩
  have h2 : Matrix.of A * Matrix.of (inverse A) = 1 := by
    rw [← mul_eq_matrix_mul, (mul_inverse A hdet).1, identity_eq_one]
  have h3 : Matrix.of (inverse A) = Matrix.of B := by
    rw [← Matrix.inv_eq_right_inv h1, ← Matrix.inv_eq_right_inv h2]
  exact Matrix.of.injective h3

theorem copysignOne_sq (z : ℚ) : copysignOne z * copysignOne z = 1 := by
  unfold copysignOne
  split_ifs <;> norm_num

/-- The divisor `sign + axis.z()` of `axesZ` does not vanish on a unit vector. -/
theorem copysignOne_add_ne_zero (axis : Vec3) (hunit : dot axis axis = 1) :
    copysignOne (axis 2) + axis 2 ≠ 0 := by
  have hu : axis 0 * axis 0 + axis 1 * axis 1 + axis 2 * axis 2 = 1 := by
    simpa only [dot, Fin.sum_univ_three] using hunit
  unfold copysignOne
  split_ifs with h
  · intro h0; linarith
  · intro h0; linarith

/-- The rows of `axesZ(axis)` are orthonormal when `axis` is a unit vector. -/
theorem axesZ_mul_transpose (axis : Vec3) (hunit : dot axis axis = 1) :
    mul (axesZ axis) (transpose (axesZ axis)) = identity 3 := by
  have hu : axis 0 * axis 0 + axis 1 * axis 1 + axis 2 * axis 2 = 1 := by
    simpa only [dot, Fin.sum_univ_three] using hunit
  have h3 := copysignOne_sq (axis 2)
  have h1 : (copysignOne (axis 2) + axis 2) * (-1 / (copysignOne (axis 2) + axis 2)) = -1 := by
    have := copysignOne_add_ne_zero axis hunit
    field_simp
  have h4 : (axis 0 * axis 0 + axis 1 * axis 1) * (-1 / (copysignOne (axis 2) + axis 2)) =
      axis 2 - copysignOne (axis 2) := by
    linear_combination (-1 / (copysignOne (axis 2) + axis 2)) * hu -
      (axis 2 - copysignOne (axis 2)) * h1 - (-1 / (copysignOne (axis 2) + axis 2)) * h3
  funext i j
  fin_cases i <;> fin_cases j <;>
    simp only [mul, dot, transpose, getColumn, axesZ, identity, Fin.sum_univ_three, Fin.zero_eta,
      Fin.mk_one, Fin.reduceFinMk, Matrix.cons_val_zero, Matrix.cons_val_one, Matrix.head_cons,
      Matrix.cons_val_two, Matrix.tail_cons, Fin.isValue, if_true, Fin.reduceEq, if_false]
  · linear_combination
      (axis 0 * axis 0 * (-1 / (copysignOne (axis 2) + axis 2)) *
        ((axis 0 * axis 0 + axis 1 * axis 1) * (-1 / (copysignOne (axis 2) + axis 2))) +
          axis 0 * axis 0) * h3 +
      axis 0 * axis 0 * (-1 / (copysignOne (axis 2) + axis 2)) * h4 + axis 0 * axis 0 * h1
  · linear_combination
      copysignOne (axis 2) * axis 0 * axis 1 * (-1 / (copysignOne (axis 2) + axis 2)) * h4 +
      copysignOne (axis 2) * axis 0 * axis 1 * h1 -
      axis 0 * axis 1 * (-1 / (copysignOne (axis 2) + axis 2)) * h3
  · linear_combination copysignOne (axis 2) * axis 0 * h4 - axis 0 * h3
  · linear_combination
      copysignOne (axis 2) * axis 0 * axis 1 * (-1 / (copysignOne (axis 2) + axis 2)) * h4 +
      copysignOne (axis 2) * axis 0 * axis 1 * h1 -
      axis 0 * axis 1 * (-1 / (copysignOne (axis 2) + axis 2)) * h3
  · linear_combination
      axis 1 * axis 1 * (-1 / (copysignOne (axis 2) + axis 2)) * h4 + axis 1 * axis 1 * h1 + h3
  · linear_combination axis 1 * h4
  · linear_combination copysignOne (axis 2) * axis 0 * h4 - axis 0 * h3
  · linear_combination axis 1 * h4
  · linear_combination hu

/-- C31 (the axes of `axesZ` are orthonormal): for every unit vector `axis`, the cases
`axis.z = -1` and `axis.z = 0` included, `axesZ(axis) * axesZ(axis).transpose()` is the
identity and the third row of `axesZ(axis)` is `axis`; hence the transpose is a two-sided
inverse and equals `axesZ(axis).inverse()`, as `rotatedAboutAxis` assumes. -/
theorem axesZ_orthonormal (axis : Vec3) (hunit : dot axis axis = 1) :
    mul (axesZ axis) (transpose (axesZ axis)) = identity 3 ∧
    mul (transpose (axesZ axis)) (axesZ axis) = identity 3 ∧
    axesZ axis 2 = axis ∧
    inverse (axesZ axis) = transpose (axesZ axis) :=
  ⟨axesZ_mul_transpose axis hunit,
    mul_eq_identity_comm _ _ (axesZ_mul_transpose axis hunit), rfl,
    (inverse_eq_of_mul_eq_identity _ _ (axesZ_mul_transpose axis hunit)).2⟩

theorem axesZ_orthonormal_witness :
    (dot (![0, 0, -1] : Vec3) ![0, 0, -1] = 1 ∧ dot (![1, 0, 0] : Vec3) ![1, 0, 0] = 1) ∧
    (mul (axesZ ![0, 0, -1]) (transpose (axesZ ![0, 0, -1])) = identity 3 ∧
      mul (transpose (axesZ ![0, 0, -1])) (axesZ ![0, 0, -1]) = identity 3 ∧
      axesZ ![0, 0, -1] 2 = ![0, 0, -1] ∧
      inverse (axesZ ![0, 0, -1]) = transpose (axesZ ![0, 0, -1])) ∧
    mul (axesZ ![1, 0, 0]) (transpose (axesZ ![1, 0, 0])) = identity 3 :=
  ⟨⟨by decide!, by decide!⟩, axesZ_orthonormal ![0, 0, -1] (by decide!),
    (axesZ_orthonormal ![1, 0, 0] (by decide!)).1⟩

end math

namespace graphics
open math

/-- The quantity of the back-face test is the determinant of the camera basis times the
determinant of the three camera-space vectors `projectionMatrix * (t - center)`. -/
theorem backface_determinant (camera : PinholeCamera)
    (hdet : determinant ![camera.a, camera.b, camera.c] ≠ 0)
    (hproj : camera.projectionMatrix = camera.getProjectionMatrix) (t1 t2 t3 : Vec3) :
    dot (t1 - camera.center) (cross (t2 - t1) (t3 - t1)) =
      determinant ![camera.a, camera.b, camera.c] *
        determinant ![mulVec camera.projectionMatrix (t1 - camera.center),
          mulVec camera.projectionMatrix (t2 - camera.center),
          mulVec camera.projectionMatrix (t3 - camera.center)] := by
  have h1 := projection_coordinates camera hdet hproj (t1 - camera.center)
  have h2 := projection_coordinates camera hdet hproj (t2 - camera.center)
  have h3 := projection_coordinates camera hdet hproj (t3 - camera.center)
  have e2 : t2 - t1 = (t2 - camera.center) - (t1 - camera.center) := by abel
  have e3 : t3 - t1 = (t3 - camera.center) - (t1 - camera.center) := by abel
  rw [e2, e3]
  generalize mulVec camera.projectionMatrix (t1 - camera.center) = q1 at h1
  generalize mulVec camera.projectionMatrix (t2 - camera.center) = q2 at h2
  generalize mulVec camera.projectionMatrix (t3 - camera.center) = q3 at h3
  generalize t1 - camera.center = v1 at h1
  generalize t2 - camera.center = v2 at h2
  generalize t3 - camera.center = v3 at h3
  simp only [dot, cross, determinant, Fin.sum_univ_three, Pi.sub_apply, Matrix.cons_val_zero,
    Matrix.cons_val_one, Matrix.head_cons, Matrix.cons_val_two, Matrix.tail_cons]
  rw [← h1 0, ← h1 1, ← h1 2, ← h2 0, ← h2 1, ← h2 2, ← h3 0, ← h3 1, ← h3 2]
  ring

/-- The doubled signed area of three projections, times the product of the three
divisors, is the determinant of the three camera-space vectors. -/
theorem area_of_projections (camera : PinholeCamera) (t1 t2 t3 : Vec3)
    (h1 : camera.projectDivisor t1 ≠ 0) (h2 : camera.projectDivisor t2 ≠ 0)
    (h3 : camera.projectDivisor t3 ≠ 0) :
    doubledSignedArea (camera.project t1) (camera.project t2) (camera.project t3) *
        (camera.projectDivisor t1 * camera.projectDivisor t2 * camera.projectDivisor t3) =
      determinant ![mulVec camera.projectionMatrix (t1 - camera.center),
        mulVec camera.projectionMatrix (t2 - camera.center),
        mulVec camera.projectionMatrix (t3 - camera.center)] := by
  unfold PinholeCamera.projectDivisor at *
  simp only [doubledSignedArea, PinholeCamera.project, determinant, Matrix.cons_val_zero,
    Matrix.cons_val_one, Matrix.head_cons, Matrix.cons_val_two, Matrix.tail_cons]
  field_simp
  ring

theorem projectDivisor_pos (camera : PinholeCamera) (t : Vec3) (h : 0 < camera.project t 2) :
    0 < camera.projectDivisor t := by
  have h0 : 0 < 1 / camera.projectDivisor t := h
  exact one_div_pos.1 h0

/-- The edge functions at a point with barycentric coordinates `w` are `w` times the
doubled signed area. -/
theorem screenEdges_barycentric (p1 p2 p3 : Vec3) (w : Vec3) (hw : w 0 + w 1 + w 2 = 1) :
    screenEdges p1 p2 p3 (w 0 * p1 0 + w 1 * p2 0 + w 2 * p3 0)
        (w 0 * p1 1 + w 1 * p2 1 + w 2 * p3 1) =
      (w 0 * doubledSignedArea p1 p2 p3, w 1 * doubledSignedArea p1 p2 p3,
        w 2 * doubledSignedArea p1 p2 p3) := by
  unfold screenEdges doubledSignedArea
  refine Prod.ext ?_ (Prod.ext ?_ ?_)
  · show _ = w 0 * _
    linear_combination ((p3 0 - p2 0) * p2 1 - (p3 1 - p2 1) * p2 0) * hw
  · show _ = w 1 * _
    linear_combination ((p1 0 - p3 0) * p3 1 - (p1 1 - p3 1) * p3 0) * hw
  · show _ = w 2 * _
    linear_combination ((p2 0 - p1 0) * p1 1 - (p2 1 - p1 1) * p1 0) * hw

/-- C32 (cull and coverage agree on winding): for a camera whose `projectionMatrix` is the
inverse of the matrix with columns `a`, `b`, `c` and with `det [a b c] < 0`, a triangle
that passes the back-face test and has three positive projected reciprocal depths
projects to a triangle of strictly positive doubled signed area; that area is the sum of
the three edge functions at every screen point, and at a point strictly inside the
projected triangle (positive barycentric coordinates `w`) the three edge functions are
positive. The condition `det [a b c] < 0` says that the focal length is positive. -/
theorem cull_agrees_with_coverage (camera : PinholeCamera) (t1 t2 t3 : Vec3)
    (hproj : camera.projectionMatrix = inverse (transpose ![camera.a, camera.b, camera.c]))
    (hdet : determinant (transpose ![camera.a, camera.b, camera.c]) < 0)
    (hfront : ¬ rejected camera t1 t2 t3) :
    0 < camera.getFocalLength ∧
    0 < doubledSignedArea (camera.project t1) (camera.project t2) (camera.project t3) ∧
    (∀ x y : ℚ,
      (screenEdges (camera.project t1) (camera.project t2) (camera.project t3) x y).1 +
        (screenEdges (camera.project t1) (camera.project t2) (camera.project t3) x y).2.1 +
        (screenEdges (camera.project t1) (camera.project t2) (camera.project t3) x y).2.2 =
      doubledSignedArea (camera.project t1) (camera.project t2) (camera.project t3)) ∧
    (∀ w : Vec3, 0 < w 0 → 0 < w 1 → 0 < w 2 → w 0 + w 1 + w 2 = 1 →
      0 < (screenEdges (camera.project t1) (camera.project t2) (camera.project t3)
        (w 0 * camera.project t1 0 + w 1 * camera.project t2 0 + w 2 * camera.project t3 0)
        (w 0 * camera.project t1 1 + w 1 * camera.project t2 1 +
          w 2 * camera.project t3 1)).1 ∧
      0 < (screenEdges (camera.project t1) (camera.project t2) (camera.project t3)
        (w 0 * camera.project t1 0 + w 1 * camera.project t2 0 + w 2 * camera.project t3 0)
        (w 0 * camera.project t1 1 + w 1 * camera.project t2 1 +
          w 2 * camera.project t3 1)).2.1 ∧
      0 < (screenEdges (camera.project t1) (camera.project t2) (camera.project t3)
        (w 0 * camera.project t1 0 + w 1 * camera.project t2 0 + w 2 * camera.project t3 0)
        (w 0 * camera.project t1 1 + w 1 * camera.project t2 1 +
          w 2 * camera.project t3 1)).2.2) := by
  rw [determinant_transpose] at hdet
  unfold rejected backFacing at hfront
  push_neg at hfront
  obtain ⟨hback, hz1, hz2, hz3⟩ := hfront
  have hq1 := projectDivisor_pos camera t1 hz1
  have hq2 := projectDivisor_pos camera t2 hz2
  have hq3 := projectDivisor_pos camera t3 hz3
  have hB := backface_determinant camera (ne_of_lt hdet) hproj t1 t2 t3
  have hA := area_of_projections camera t1 t2 t3 (ne_of_gt hq1) (ne_of_gt hq2) (ne_of_gt hq3)
  rw [hB] at hback
  rw [← hA] at hback
  have hprod : 0 < camera.projectDivisor t1 * camera.projectDivisor t2 *
      camera.projectDivisor t3 := mul_pos (mul_pos hq1 hq2) hq3
  have harea : 0 < doubledSignedArea (camera.project t1) (camera.project t2)
      (camera.project t3) := by
    by_contra hle
    push_neg at hle
    have h1 : doubledSignedArea (camera.project t1) (camera.project t2) (camera.project t3) *
        (camera.projectDivisor t1 * camera.projectDivisor t2 * camera.projectDivisor t3) ≤ 0 :=
      mul_nonpos_of_nonpos_of_nonneg hle (le_of_lt hprod)
    have h2 := mul_nonneg_of_nonpos_of_nonpos (le_of_lt hdet) h1
    linarith
  refine ⟨?_, harea, ?_, ?_⟩
  · have hf : camera.getFocalLength = -determinant ![camera.a, camera.b, camera.c] := by
      simp only [PinholeCamera.getFocalLength, PinholeCamera.getViewDirection, dot, cross,
        determinant, Fin.sum_univ_three, Matrix.cons_val_zero, Matrix.cons_val_one,
        Matrix.head_cons, Matrix.cons_val_two, Matrix.tail_cons]
      ring
    rw [hf]
    linarith
  · intro x y
    unfold screenEdges doubledSignedArea
    ring
  · intro w h0 h1 h2 hw
    rw [screenEdges_barycentric _ _ _ w hw]
    exact ⟨mul_pos h0 harea, mul_pos h1 harea, mul_pos h2 harea⟩

theorem cull_agrees_with_coverage_witness :
    (sampleCamera.projectionMatrix =
        inverse (transpose ![sampleCamera.a, sampleCamera.b, sampleCamera.c]) ∧
      determinant (transpose ![sampleCamera.a, sampleCamera.b, sampleCamera.c]) < 0 ∧
      ¬ rejected sampleCamera sampleTriangle.1 sampleTriangle.2.1 sampleTriangle.2.2) ∧
    0 < doubledSignedArea (sampleCamera.project sampleTriangle.1)
      (sampleCamera.project sampleTriangle.2.1) (sampleCamera.project sampleTriangle.2.2) :=
  ⟨⟨rfl, by decide!, by decide!⟩,
    (cull_agrees_with_coverage sampleCamera sampleTriangle.1 sampleTriangle.2.1
      sampleTriangle.2.2 rfl (by decide!) (by decide!)).2.1⟩

end graphics

namespace graphics
open math

/-- The edge values at the first pixel of the scan box: the coefficient form of
`prerenderTriangle` equals the expanded form of `renderTriangle`. -/
theorem prerenderInit_edges (f : FixedPoint) (rc : Vec3) (width : Nat) (zBuffer : List ℚ) :
    (prerenderInit f rc width zBuffer).u1 = (renderEdges f).1 ∧
    (prerenderInit f rc width zBuffer).u2 = (renderEdges f).2.1 ∧
    (prerenderInit f rc width zBuffer).u3 = (renderEdges f).2.2 := by
  simp only [prerenderInit, renderEdges, FixedPoint.a1, FixedPoint.a2, FixedPoint.a3,
    FixedPoint.b1, FixedPoint.b2, FixedPoint.b3]
  refine ⟨by ring, by ring, by ring⟩

/-- C33 (pre-pass and shading pass cover the same pixels): `prerenderTriangle` and both
`renderTriangle` overloads start from the same edge values (the coefficient form of the
first equals the expanded form of the others), and at every pixel `(x, y)` of the scan box
of the projected triangle their loop variables `x`, `v1`, `v2`, `v3` are equal, so the
pixel passes the coverage test `(v1 | v2 | v3) >= 0` in one exactly when it passes in the
other. -/
theorem prepass_covers_same_pixels (m : Libm) (fb : Framebuffer) (camera : PinholeCamera)
    (texture : Framebuffer) (t1 t2 t3 : Vec3) (c1 c2 c3 : Vec4) (r1 r2 r3 : Vec2)
    (n1 n2 n3 : Vec3) (dls : List DirectionalLight) (pls : List PointLight)
    (refl : Option CubeMap) (material : Material) (x y : Nat)
    (hbox : inScanBox (projectFixed camera t1 t2 t3) fb.width fb.height x y) :
    ((prerenderInit (projectFixed camera t1 t2 t3)
          (prerenderRc (camera.project t1) (camera.project t2) (camera.project t3)) fb.width
          fb.zBuffer).u1 = (renderEdges (projectFixed camera t1 t2 t3)).1 ∧
      (prerenderInit (projectFixed camera t1 t2 t3)
          (prerenderRc (camera.project t1) (camera.project t2) (camera.project t3)) fb.width
          fb.zBuffer).u2 = (renderEdges (projectFixed camera t1 t2 t3)).2.1 ∧
      (prerenderInit (projectFixed camera t1 t2 t3)
          (prerenderRc (camera.project t1) (camera.project t2) (camera.project t3)) fb.width
          fb.zBuffer).u3 = (renderEdges (projectFixed camera t1 t2 t3)).2.2) ∧
    ((prerenderStateAt fb camera t1 t2 t3 x y).x =
        (renderStateAt m fb camera t1 t2 t3 c1 c2 c3 n1 n2 n3 dls pls refl material x y).x ∧
      (prerenderStateAt fb camera t1 t2 t3 x y).v1 =
        (renderStateAt m fb camera t1 t2 t3 c1 c2 c3 n1 n2 n3 dls pls refl material x y).v1 ∧
      (prerenderStateAt fb camera t1 t2 t3 x y).v2 =
        (renderStateAt m fb camera t1 t2 t3 c1 c2 c3 n1 n2 n3 dls pls refl material x y).v2 ∧
      (prerenderStateAt fb camera t1 t2 t3 x y).v3 =
        (renderStateAt m fb camera t1 t2 t3 c1 c2 c3 n1 n2 n3 dls pls refl material x y).v3 ∧
      (coverageTest (prerenderStateAt fb camera t1 t2 t3 x y).v1
          (prerenderStateAt fb camera t1 t2 t3 x y).v2
          (prerenderStateAt fb camera t1 t2 t3 x y).v3 ↔
        coverageTest
          (renderStateAt m fb camera t1 t2 t3 c1 c2 c3 n1 n2 n3 dls pls refl material x y).v1
          (renderStateAt m fb camera t1 t2 t3 c1 c2 c3 n1 n2 n3 dls pls refl material x y).v2
          (renderStateAt m fb camera t1 t2 t3 c1 c2 c3 n1 n2 n3 dls pls refl material x
            y).v3)) ∧
    ((prerenderStateAt fb camera t1 t2 t3 x y).x =
        (renderTexturedStateAt m fb camera texture t1 t2 t3 r1 r2 r3 n1 n2 n3 dls pls refl
          material x y).x ∧
      (prerenderStateAt fb camera t1 t2 t3 x y).v1 =
        (renderTexturedStateAt m fb camera texture t1 t2 t3 r1 r2 r3 n1 n2 n3 dls pls refl
          material x y).v1 ∧
      (prerenderStateAt fb camera t1 t2 t3 x y).v2 =
        (renderTexturedStateAt m fb camera texture t1 t2 t3 r1 r2 r3 n1 n2 n3 dls pls refl
          material x y).v2 ∧
      (prerenderStateAt fb camera t1 t2 t3 x y).v3 =
        (renderTexturedStateAt m fb camera texture t1 t2 t3 r1 r2 r3 n1 n2 n3 dls pls refl
          material x y).v3 ∧
      (coverageTest (prerenderStateAt fb camera t1 t2 t3 x y).v1
          (prerenderStateAt fb camera t1 t2 t3 x y).v2
          (prerenderStateAt fb camera t1 t2 t3 x y).v3 ↔
        coverageTest
          (renderTexturedStateAt m fb camera texture t1 t2 t3 r1 r2 r3 n1 n2 n3 dls pls refl
            material x y).v1
          (renderTexturedStateAt m fb camera texture t1 t2 t3 r1 r2 r3 n1 n2 n3 dls pls refl
            material x y).v2
          (renderTexturedStateAt m fb camera texture t1 t2 t3 r1 r2 r3 n1 n2 n3 dls pls refl
            material x y).v3)) := by
  obtain ⟨⟨px, p1, p2, p3⟩, ⟨sx, s1, s2, s3⟩, ⟨tx, q1, q2, q3⟩⟩ :=
    scan_state_edges m fb camera texture t1 t2 t3 c1 c2 c3 r1 r2 r3 n1 n2 n3 dls pls refl
      material x y hbox
  refine ⟨prerenderInit_edges _ _ _ _, ⟨?_, ?_, ?_, ?_, ?_⟩, ⟨?_, ?_, ?_, ?_, ?_⟩⟩
  · rw [px, sx]
  · rw [p1, s1]
  · rw [p2, s2]
  · rw [p3, s3]
  · rw [p1, p2, p3, s1, s2, s3]
  · rw [px, tx]
  · rw [p1, q1]
  · rw [p2, q2]
  · rw [p3, q3]
  · rw [p1, p2, p3, q1, q2, q3]

theorem prepass_covers_same_pixels_witness :
    inScanBox (projectFixed sampleCamera sampleTriangle.1 sampleTriangle.2.1
        sampleTriangle.2.2) sampleFramebuffer.width sampleFramebuffer.height 2 1 ∧
      (prerenderStateAt sampleFramebuffer sampleCamera sampleTriangle.1 sampleTriangle.2.1
          sampleTriangle.2.2 2 1).v2 =
        (renderStateAt tableLibm sampleFramebuffer sampleCamera sampleTriangle.1
          sampleTriangle.2.1 sampleTriangle.2.2 ![1, 0, 0, 1] ![0, 1, 0, 1] ![0, 0, 1, 1]
          ![0, 0, 1] ![0, 0, 1] ![0, 0, 1] [] [] none flat 2 1).v2 :=
  ⟨by decide!,
    (prepass_covers_same_pixels tableLibm sampleFramebuffer sampleCamera sampleTexture
      sampleTriangle.1 sampleTriangle.2.1 sampleTriangle.2.2 ![1, 0, 0, 1] ![0, 1, 0, 1]
      ![0, 0, 1, 1] ![0, 0] ![1, 0] ![0, 1] ![0, 0, 1] ![0, 0, 1] ![0, 0, 1] [] [] none flat 2 1
      (by decide!)).2.1.2.2.1⟩

end graphics

namespace graphics
open math

theorem light_eq_composeLight (m : Libm) (reflectionMap : Option CubeMap) (color : Vec4)
    (normal surfacePoint cameraPosition : Vec3) (directionalLights : List DirectionalLight)
    (pointLights : List PointLight) (w : ℚ) (material : Material) :
    light m reflectionMap color normal surfacePoint cameraPosition directionalLights
        pointLights w material =
      composeLight m reflectionMap color normal surfacePoint cameraPosition material
        (accumulate m normal
          ((2 : ℚ) • projectOnto m (unit m (cameraPosition - surfacePoint)) normal -
            unit m (cameraPosition - surfacePoint))
          surfacePoint directionalLights pointLights w material) := by
  unfold light shade composeLight
  cases reflectionMap with
  | none => rfl
  | some environment =>
    by_cases h : material.kR = 0
    · simp only [h, if_true]
    · simp only [h, if_false]

/-- The diffuse term of one point light: unnormalised direction over the cube of the
distance, or normalised direction over its square. -/
theorem diffuse_term_eq (m : Libm) (normal direction : Vec3) (strength : ℚ)
    (hd : norm m direction ≠ 0) :
    dot direction normal * strength /
        (norm m direction * norm m direction * norm m direction) =
      dot (unit m direction) normal * strength / (norm m direction * norm m direction) := by
  have hu : dot (unit m direction) normal = dot direction normal / norm m direction := by
    simp only [dot, unit, Finset.sum_div]
    refine Finset.sum_congr rfl fun i _ => ?_
    ring
  rw [hu, div_eq_div_iff (mul_ne_zero (mul_ne_zero hd hd) hd) (mul_ne_zero hd hd)]
  field_simp
  ring

theorem directionalSpecular_zero (reflectedRay : Vec3) (material : Material)
    (hkT : material.kT = 0) (l : DirectionalLight) :
    directionalSpecular reflectedRay material l = 0 := by
  unfold directionalSpecular
  rw [hkT, mul_zero, zero_smul]

theorem pointSpecular_zero (m : Libm) (reflectedRay surfacePoint : Vec3) (material : Material)
    (hkT : material.kT = 0) (visibility : ℚ) (pointLight : PointLight) :
    pointSpecular m reflectedRay surfacePoint material visibility pointLight = 0 := by
  unfold pointSpecular
  simp only [hkT, mul_zero, zero_div, zero_smul]

/-- Without specular strength the loop over the directional lights of the combined branch
accumulates the diffuse factor of the pure-diffuse branch and leaves `kS` as it was. -/
theorem directional_fold_diffuse (normal reflectedRay : Vec3) (material : Material)
    (hkT : material.kT = 0) (directionalLights : List DirectionalLight) (init : ℚ × Vec3) :
    directionalLights.foldl
        (fun acc l => (acc.1 + directionalDiffuse normal l,
          acc.2 + directionalSpecular reflectedRay material l)) init =
      (directionalLights.foldl (fun kD l => kD + directionalDiffuse normal l) init.1,
        init.2) := by
  induction directionalLights generalizing init with
  | nil => rfl
  | cons l rest ih =>
    simp only [List.foldl_cons]
    rw [ih, directionalSpecular_zero reflectedRay material hkT, add_zero]

/-- Without specular strength the loop over the point lights of the combined branch
accumulates the diffuse factor of the pure-diffuse branch, leaves `kS` as it was and
leaves the same point lights. -/
theorem mixedPointLights_diffuse (m : Libm) (normal reflectedRay surfacePoint : Vec3) (w : ℚ)
    (material : Material) (hkT : material.kT = 0) (pointLights : List PointLight)
    (hdist : ∀ pointLight ∈ pointLights, norm m (pointLight.position - surfacePoint) ≠ 0)
    (acc : ℚ × Vec3) :
    mixedPointLights m normal reflectedRay surfacePoint w material acc pointLights =
      (((diffusePointLights m normal surfacePoint w acc.1 pointLights).1, acc.2),
        (diffusePointLights m normal surfacePoint w acc.1 pointLights).2) := by
  induction pointLights generalizing acc with
  | nil => rfl
  | cons pointLight rest ih =>
    have hrest : ∀ q ∈ rest, norm m (q.position - surfacePoint) ≠ 0 :=
      fun q hq => hdist q (List.mem_cons_of_mem _ hq)
    have hterm := diffuse_term_eq m normal (pointLight.position - surfacePoint)
      pointLight.strength (hdist pointLight (List.mem_cons_self _ _))
    simp only [mixedPointLights, diffusePointLights]
    rw [ih hrest, pointSpecular_zero m reflectedRay surfacePoint material hkT, add_zero,
      ← hterm]
    by_cases hv : (pointLight.shadowMap.getVisibility w).1 ≠ 0
    · simp only [hv, if_true, not_false_eq_true, ne_eq]
    · simp only [hv, if_false]

theorem accumulate_eq_combined (m : Libm) (normal reflectedRay surfacePoint : Vec3)
    (directionalLights : List DirectionalLight) (pointLights : List PointLight) (w : ℚ)
    (material : Material) (hkT : material.kT = 0) (hkR : material.kR ≠ 1)
    (hdist : ∀ pointLight ∈ pointLights, norm m (pointLight.position - surfacePoint) ≠ 0) :
    accumulate m normal reflectedRay surfacePoint directionalLights pointLights w material =
      combinedAccumulate m normal reflectedRay surfacePoint directionalLights pointLights w
        material := by
  unfold accumulate combinedAccumulate
  rw [if_pos ⟨hkT, hkR⟩, directional_fold_diffuse normal reflectedRay material hkT,
    mixedPointLights_diffuse m normal reflectedRay surfacePoint w material hkT pointLights
      hdist]

/-- C36 (the pure-diffuse and combined regimes agree on diffuse light): for every point
light at non-zero distance from the surface point, the diffuse term of the pure-diffuse
branch (unnormalised direction dotted with the normal, over the distance cubed) equals
that of the combined branch (normalised direction, over the distance squared); and for
`kT == 0` and `kR != 1` the function `light` returns what its combined branch computes:
the same colour, point lights and environment map. -/
theorem diffuse_regimes_agree (m : Libm) (reflectionMap : Option CubeMap) (color : Vec4)
    (normal surfacePoint cameraPosition : Vec3) (directionalLights : List DirectionalLight)
    (pointLights : List PointLight) (w : ℚ) (material : Material)
    (hkT : material.kT = 0) (hkR : material.kR ≠ 1)
    (hdist : ∀ pointLight ∈ pointLights, norm m (pointLight.position - surfacePoint) ≠ 0) :
    (∀ pointLight ∈ pointLights,
      dot (pointLight.position - surfacePoint) normal * pointLight.strength /
          (norm m (pointLight.position - surfacePoint) *
            norm m (pointLight.position - surfacePoint) *
            norm m (pointLight.position - surfacePoint)) =
        dot (unit m (pointLight.position - surfacePoint)) normal * pointLight.strength /
          (norm m (pointLight.position - surfacePoint) *
            norm m (pointLight.position - surfacePoint))) ∧
    light m reflectionMap color normal surfacePoint cameraPosition directionalLights
        pointLights w material =
      combinedLight m reflectionMap color normal surfacePoint cameraPosition
        directionalLights pointLights w material := by
  refine ⟨fun pointLight hp => diffuse_term_eq m normal _ _ (hdist pointLight hp), ?_⟩
  rw [light_eq_composeLight, accumulate_eq_combined m normal _ surfacePoint directionalLights
    pointLights w material hkT hkR hdist]
  rfl

theorem diffuse_regimes_agree_witness :
    (flat.kT = 0 ∧ flat.kR ≠ 1 ∧
      ∀ pointLight ∈ [samplePointLight],
        norm tableLibm (pointLight.position - (0 : Vec3)) ≠ 0) ∧
    light tableLibm none ![1, 0, 0, 1] ![0, 0, 1] 0 ![0, 0, 1] [sampleSun] [samplePointLight]
        1 flat =
      combinedLight tableLibm none ![1, 0, 0, 1] ![0, 0, 1] 0 ![0, 0, 1] [sampleSun]
        [samplePointLight] 1 flat :=
  ⟨⟨rfl, by decide!, by decide!⟩,
    (diffuse_regimes_agree tableLibm none ![1, 0, 0, 1] ![0, 0, 1] 0 ![0, 0, 1] [sampleSun]
      [samplePointLight] 1 flat rfl (by decide!) (by decide!)).2⟩

end graphics

namespace graphics
open math

theorem probeAccesses_bounds (cm : CubeMap) (probe : Nat → ℚ × Vec3) (faces : List Nat)
    (hf : ∀ i ∈ faces, i < 3) :
    (∀ k ∈ (cm.probeAccesses probe faces).1, k ≤ 2) ∧
      (∀ k ∈ (cm.probeAccesses probe faces).2, k ≤ 5) := by
  induction faces with
  | nil => exact ⟨fun k hk => absurd hk (List.not_mem_nil k), fun k hk =>
      absurd hk (List.not_mem_nil k)⟩
  | cons i rest ih =>
    have hi : i < 3 := hf i (List.mem_cons_self i rest)
    have hrest := ih fun k hk => hf k (List.mem_cons_of_mem i hk)
    unfold CubeMap.probeAccesses
    split_ifs with h1 h2 h3
    · refine ⟨fun k hk => ?_, fun k hk => ?_⟩
      · rw [List.mem_singleton.1 hk]; omega
      · rw [List.mem_singleton.1 hk]; omega
    · refine ⟨fun k hk => ?_, fun k hk => ?_⟩
      · rw [List.mem_singleton.1 hk]; omega
      · rw [List.mem_singleton.1 hk]; omega
    · refine ⟨fun k hk => ?_, hrest.2⟩
      rcases List.mem_cons.1 hk with h | h
      · omega
      · exact hrest.1 k h
    · exact hrest

theorem faceAccesses_bounds (cm : CubeMap) (probe : Nat → ℚ × Vec3)
    (hprev : cm.previousHit < 3) :
    (∀ k ∈ (cm.faceAccesses probe).1, k ≤ 2) ∧ (∀ k ∈ (cm.faceAccesses probe).2, k ≤ 5) := by
  have hp := probeAccesses_bounds cm probe [0, 1, 2] (by decide)
  unfold CubeMap.faceAccesses
  split_ifs with h1 h2
  · refine ⟨fun k hk => ?_, fun k hk => ?_⟩
    · rw [List.mem_singleton.1 hk]; omega
    · rw [List.mem_singleton.1 hk]; omega
  · refine ⟨fun k hk => ?_, fun k hk => ?_⟩
    · rw [List.mem_singleton.1 hk]; omega
    · rw [List.mem_singleton.1 hk]; omega
  · refine ⟨fun k hk => ?_, hp.2⟩
    rcases List.mem_cons.1 hk with h | h
    · omega
    · exact hp.1 k h

/-- C37 (face-cache invariant): the constructors `CubeMap(resolution, position)` and
`CubeMap(framebuffers)` set `previousHit` to `0`; when `previousHit` is in `{0, 1, 2}`
before a call of `lookup` or `getVisibility` it is in `{0, 1, 2}` after it, every
subscript the call applies to `cameras` is at most `2` and every subscript it applies to
`framebuffers` is at most `5`. -/
theorem face_cache_invariant (m : Libm) (resolution : Nat) (position : Vec3)
    (framebuffers : List Framebuffer) (cm : CubeMap) (ray : Vec3) (w : ℚ)
    (hprev : cm.previousHit < 3) :
    ((CubeMap.ofResolution m resolution position).previousHit = 0 ∧
      (CubeMap.ofFramebuffers m framebuffers).previousHit = 0) ∧
    ((cm.lookup ray).2.previousHit < 3 ∧ (cm.getVisibility w).2.previousHit < 3) ∧
    ((∀ k ∈ (cm.lookupAccesses ray).1, k ≤ 2) ∧ (∀ k ∈ (cm.lookupAccesses ray).2, k ≤ 5)) ∧
    ((∀ k ∈ (cm.visibilityAccesses w).1, k ≤ 2) ∧
      (∀ k ∈ (cm.visibilityAccesses w).2, k ≤ 5)) := by
  have hinv := previousHit_primary m resolution position framebuffers cm ray w hprev
  refine ⟨⟨rfl, rfl⟩, ⟨hinv.2.2.1, hinv.2.2.2⟩, ⟨fun k hk => ?_, ?_⟩,
    faceAccesses_bounds cm _ hprev⟩
  · rcases List.mem_cons.1 hk with h | h
    · omega
    · exact (faceAccesses_bounds cm _ hprev).1 k h
  · exact (faceAccesses_bounds cm _ hprev).2

theorem face_cache_invariant_witness :
    (CubeMap.ofResolution tableLibm 2 0).previousHit < 3 ∧
    ((CubeMap.ofResolution tableLibm 2 0).lookup ![0, 1, 0]).2.previousHit < 3 ∧
    (∀ k ∈ ((CubeMap.ofResolution tableLibm 2 0).lookupAccesses ![0, 1, 0]).2, k ≤ 5) :=
  ⟨show (0 : Nat) < 3 from by decide,
    (face_cache_invariant tableLibm 2 0 [] (CubeMap.ofResolution tableLibm 2 0) ![0, 1, 0] 1
      (show (0 : Nat) < 3 from by decide)).2.1.1,
    (face_cache_invariant tableLibm 2 0 [] (CubeMap.ofResolution tableLibm 2 0) ![0, 1, 0] 1
      (show (0 : Nat) < 3 from by decide)).2.2.1.2⟩

end graphics

namespace math

/-- At the rationals the routines over a field of scalars are the routines of the camera:
`orient` with the square root of `m`. -/
theorem orient_over (m : Libm) (camera : PinholeCamera) (direction up : Vec3) :
    (camera.orient m direction up).over = camera.over.orient m.sqrt direction up ∧
    (camera.orient m direction up).getViewDirection =
      (camera.over.orient m.sqrt direction up).getViewDirection ∧
    (camera.orient m direction up).getFocalLength =
      (camera.over.orient m.sqrt direction up).getFocalLength ∧
    (camera.orient m direction up).getPrincipalPoint =
      (camera.over.orient m.sqrt direction up).getPrincipalPoint ∧
    (camera.orient m direction up).getProjectionMatrix =
      (camera.over.orient m.sqrt direction up).getProjectionMatrix :=
  ⟨rfl, rfl, rfl, rfl, rfl⟩

theorem dotOver_self_pos (v : Fin 3 → ℝ) (hv : v ≠ 0) : 0 < dotOver v v := by
  have s0 := mul_self_nonneg (v 0)
  have s1 := mul_self_nonneg (v 1)
  have s2 := mul_self_nonneg (v 2)
  have hnonneg : 0 ≤ dotOver v v := by
    simp only [dotOver, Fin.sum_univ_three]
    linarith
  rcases lt_or_eq_of_le hnonneg with h | h
  · exact h
  · exfalso
    apply hv
    simp only [dotOver, Fin.sum_univ_three] at h
    have h0 : v 0 = 0 := mul_self_eq_zero.1 (by linarith)
    have h1 : v 1 = 0 := mul_self_eq_zero.1 (by linarith)
    have h2 : v 2 = 0 := mul_self_eq_zero.1 (by linarith)
    funext i
    fin_cases i
    · exact h0
    · exact h1
    · exact h2

/-- The real norm of a non-zero vector is positive and squares to the squared length. -/
theorem normOver_real (v : Fin 3 → ℝ) (hv : v ≠ 0) :
    0 < normOver Real.sqrt v ∧ normOver Real.sqrt v * normOver Real.sqrt v = dotOver v v :=
  ⟨Real.sqrt_pos.2 (dotOver_self_pos v hv), Real.mul_self_sqrt (le_of_lt (dotOver_self_pos v hv))⟩

/-- The unit vector of a non-zero real vector has squared length one. -/
theorem unitOver_dot_self (v : Fin 3 → ℝ) (hv : v ≠ 0) :
    dotOver (unitOver Real.sqrt v) (unitOver Real.sqrt v) = 1 := by
  obtain ⟨hpos, hn⟩ := normOver_real v hv
  have hne : normOver Real.sqrt v ≠ 0 := ne_of_gt hpos
  have hn2 : normOver Real.sqrt v * normOver Real.sqrt v = v 0 * v 0 + v 1 * v 1 + v 2 * v 2 := by
    rw [hn]; simp only [dotOver, Fin.sum_univ_three]
  simp only [dotOver, unitOver, Fin.sum_univ_three]
  field_simp
  linear_combination -hn2

theorem unitOver_dot_unit {K : Type} [Field K] (sqrt : K → K) (v u : Fin 3 → K)
    (hperp : dotOver v u = 0) : dotOver (unitOver sqrt v) (unitOver sqrt u) = 0 := by
  have h : dotOver (unitOver sqrt v) (unitOver sqrt u) =
      dotOver v u / (normOver sqrt v * normOver sqrt u) := by
    simp only [dotOver, unitOver, Fin.sum_univ_three]
    ring
  rw [h, hperp, zero_div]

/-- The frame `orient` builds from a unit direction `D` and a unit vector `U`
perpendicular to it. -/
theorem orient_frame {K : Type} [Field K] (D U : Fin 3 → K) (f w h : K)
    (hDD : dotOver D D = 1) (hUU : dotOver U U = 1) (hDU : dotOver D U = 0) :
    dotOver (crossOver D U) (crossOver D U) = 1 ∧
    dotOver (crossOver (crossOver D U) D) (crossOver (crossOver D U) D) = 1 ∧
    dotOver (crossOver D U) (crossOver (crossOver D U) D) = 0 ∧
    crossOver (crossOver (crossOver D U) D) (crossOver D U) = D ∧
    dotOver (fun i => D i * f - crossOver D U i * w - crossOver (crossOver D U) D i * h)
      (crossOver (crossOver (crossOver D U) D) (crossOver D U)) = f ∧
    -dotOver (fun i => D i * f - crossOver D U i * w - crossOver (crossOver D U) D i * h) (crossOver D U) = w ∧
    -dotOver (fun i => D i * f - crossOver D U i * w - crossOver (crossOver D U) D i * h)
      (crossOver (crossOver D U) D) = h := by
  simp only [dotOver, Fin.sum_univ_three] at hDD hUU hDU
  have haa : dotOver (crossOver D U) (crossOver D U) = 1 := by
    simp only [dotOver, crossOver, Fin.sum_univ_three, Matrix.cons_val_zero, Matrix.cons_val_one,
      Matrix.head_cons, Matrix.cons_val_two, Matrix.tail_cons]
    linear_combination (U 0 * U 0 + U 1 * U 1 + U 2 * U 2) * hDD + hUU -
      (D 0 * U 0 + D 1 * U 1 + D 2 * U 2) * hDU
  have hview : crossOver (crossOver (crossOver D U) D) (crossOver D U) = D := by
    have haa2 := haa
    simp only [dotOver, crossOver, Fin.sum_univ_three, Matrix.cons_val_zero, Matrix.cons_val_one,
      Matrix.head_cons, Matrix.cons_val_two, Matrix.tail_cons] at haa2
    funext i
    fin_cases i <;>
      simp only [crossOver, Fin.zero_eta, Fin.mk_one, Fin.reduceFinMk, Matrix.cons_val_zero,
        Matrix.cons_val_one, Matrix.head_cons, Matrix.cons_val_two, Matrix.tail_cons]
    · linear_combination D 0 * haa2
    · linear_combination D 1 * haa2
    · linear_combination D 2 * haa2
  have hbb : dotOver (crossOver (crossOver D U) D) (crossOver (crossOver D U) D) = 1 := by
    have haa2 := haa
    simp only [dotOver, crossOver, Fin.sum_univ_three, Matrix.cons_val_zero, Matrix.cons_val_one,
      Matrix.head_cons, Matrix.cons_val_two, Matrix.tail_cons] at haa2 ⊢
    linear_combination (D 0 * D 0 + D 1 * D 1 + D 2 * D 2) * haa2 + hDD
  have hab : dotOver (crossOver D U) (crossOver (crossOver D U) D) = 0 := by
    simp only [dotOver, crossOver, Fin.sum_univ_three, Matrix.cons_val_zero, Matrix.cons_val_one,
      Matrix.head_cons, Matrix.cons_val_two, Matrix.tail_cons]
    ring
  have haD : dotOver (crossOver D U) D = 0 := by
    simp only [dotOver, crossOver, Fin.sum_univ_three, Matrix.cons_val_zero, Matrix.cons_val_one,
      Matrix.head_cons, Matrix.cons_val_two, Matrix.tail_cons]
    ring
  have hbD : dotOver (crossOver (crossOver D U) D) D = 0 := by
    simp only [dotOver, crossOver, Fin.sum_univ_three, Matrix.cons_val_zero, Matrix.cons_val_one,
      Matrix.head_cons, Matrix.cons_val_two, Matrix.tail_cons]
    ring
  refine ⟨haa, hbb, hab, hview, ?_, ?_, ?_⟩
  · rw [hview]
    simp only [dotOver, Fin.sum_univ_three] at haD hbD ⊢
    linear_combination f * hDD - w * haD - h * hbD
  · simp only [dotOver, Fin.sum_univ_three] at haa hab haD ⊢
    linear_combination -f * haD + w * haa + h * hab
  · simp only [dotOver, Fin.sum_univ_three] at hbb hab hbD ⊢
    linear_combination -f * hbD + w * hab + h * hbb

/-- C38 (orient keeps the camera well-formed): in real arithmetic, `std::sqrt` being the
real square root, for every camera, every non-zero `direction` and every non-zero `up`
perpendicular to it, after `orient(direction, up)` the vectors `a` and `b` are orthonormal,
`getViewDirection()` is `direction.unit()`, `getFocalLength()` is what it was before the
call, `getPrincipalPoint()` is `(width / 2, height / 2)` and `projectionMatrix` equals
`getProjectionMatrix()`. -/
theorem orient_well_formed (camera : CameraOver ℝ) (direction up : Fin 3 → ℝ)
    (hd0 : direction ≠ 0) (hu0 : up ≠ 0) (hperp : dotOver direction up = 0) :
    (dotOver (camera.orient Real.sqrt direction up).a (camera.orient Real.sqrt direction up).a
        = 1 ∧
      dotOver (camera.orient Real.sqrt direction up).b
        (camera.orient Real.sqrt direction up).b = 1 ∧
      dotOver (camera.orient Real.sqrt direction up).a
        (camera.orient Real.sqrt direction up).b = 0) ∧
    (camera.orient Real.sqrt direction up).getViewDirection = unitOver Real.sqrt direction ∧
    (camera.orient Real.sqrt direction up).getFocalLength = camera.getFocalLength ∧
    (camera.orient Real.sqrt direction up).getPrincipalPoint =
      ![(camera.width : ℝ) / 2, (camera.height : ℝ) / 2] ∧
    (camera.orient Real.sqrt direction up).projectionMatrix =
      (camera.orient Real.sqrt direction up).getProjectionMatrix := by
  obtain ⟨haa, hbb, hab, hview, hfocal, hpx, hpy⟩ :=
    orient_frame (unitOver Real.sqrt direction) (unitOver Real.sqrt up) camera.getFocalLength
      ((camera.width : ℝ) / 2) ((camera.height : ℝ) / 2)
      (unitOver_dot_self direction hd0) (unitOver_dot_self up hu0)
      (unitOver_dot_unit Real.sqrt direction up hperp)
  refine ⟨⟨haa, hbb, hab⟩, hview, hfocal, ?_, rfl⟩
  funext i
  fin_cases i
  · exact hpx
  · exact hpy

theorem orient_well_formed_witness :
    ((![1, 1, 0] : Fin 3 → ℝ) ≠ 0 ∧ (![1, -1, 1] : Fin 3 → ℝ) ≠ 0 ∧
      dotOver (![1, 1, 0] : Fin 3 → ℝ) ![1, -1, 1] = 0) ∧
    (dotOver ((sampleCameraOver ℝ).orient Real.sqrt ![1, 1, 0] ![1, -1, 1]).a
        ((sampleCameraOver ℝ).orient Real.sqrt ![1, 1, 0] ![1, -1, 1]).a = 1 ∧
      dotOver ((sampleCameraOver ℝ).orient Real.sqrt ![1, 1, 0] ![1, -1, 1]).b
        ((sampleCameraOver ℝ).orient Real.sqrt ![1, 1, 0] ![1, -1, 1]).b = 1 ∧
      dotOver ((sampleCameraOver ℝ).orient Real.sqrt ![1, 1, 0] ![1, -1, 1]).a
        ((sampleCameraOver ℝ).orient Real.sqrt ![1, 1, 0] ![1, -1, 1]).b = 0) ∧
    ((sampleCameraOver ℝ).orient Real.sqrt ![1, 1, 0] ![1, -1, 1]).getViewDirection =
      unitOver Real.sqrt ![1, 1, 0] ∧
    ((sampleCameraOver ℝ).orient Real.sqrt ![1, 1, 0] ![1, -1, 1]).getFocalLength = 2 ∧
    ((sampleCameraOver ℝ).orient Real.sqrt ![1, 1, 0] ![1, -1, 1]).getPrincipalPoint =
      ![2, 2] :=
  have hd : (![1, 1, 0] : Fin 3 → ℝ) ≠ 0 := fun h => one_ne_zero (congrFun h 0)
  have hu : (![1, -1, 1] : Fin 3 → ℝ) ≠ 0 := fun h => one_ne_zero (congrFun h 0)
  have hperp : dotOver (![1, 1, 0] : Fin 3 → ℝ) ![1, -1, 1] = 0 := by
    simp [dotOver, Fin.sum_univ_three]
  have hfocal : (sampleCameraOver ℝ).getFocalLength = 2 := by
    simp [CameraOver.getFocalLength, CameraOver.getViewDirection, sampleCameraOver, dotOver,
      crossOver, Fin.sum_univ_three]
  have hpoint : (![((sampleCameraOver ℝ).width : ℝ) / 2, ((sampleCameraOver ℝ).height : ℝ) / 2] :
      Fin 2 → ℝ) = ![2, 2] := by
    simp [sampleCameraOver]
    norm_num
  ⟨⟨hd, hu, hperp⟩,
    (orient_well_formed (sampleCameraOver ℝ) ![1, 1, 0] ![1, -1, 1] hd hu hperp).1,
    (orient_well_formed (sampleCameraOver ℝ) ![1, 1, 0] ![1, -1, 1] hd hu hperp).2.1,
    ((orient_well_formed (sampleCameraOver ℝ) ![1, 1, 0] ![1, -1, 1] hd hu hperp).2.2.1).trans
      hfocal,
    ((orient_well_formed (sampleCameraOver ℝ) ![1, 1, 0] ![1, -1, 1] hd hu hperp).2.2.2.1).trans
      hpoint⟩

end math

namespace math

/-- The parameters of a common point of two non-parallel lines. -/
theorem intersection_parameters (p r q s : Vec2) (hc : cross2 r s ≠ 0) (t u : ℚ)
    (h : p + t • r = q + u • s) :
    t = cross2 (q - p) s / cross2 r s ∧ u = cross2 (q - p) r / cross2 r s := by
  have h0 := congrFun h 0
  have h1 := congrFun h 1
  simp only [Pi.add_apply, Pi.smul_apply, smul_eq_mul] at h0 h1
  unfold cross2 at hc ⊢
  simp only [Pi.sub_apply]
  constructor
  · rw [eq_div_iff hc]
    linear_combination s 1 * h0 - s 0 * h1
  · rw [eq_div_iff hc]
    linear_combination r 1 * h0 - r 0 * h1

/-- The point of the first line at the parameter `cross(q - p, s) / cross(r, s)` is the
point of the second line at the parameter `cross(q - p, r) / cross(r, s)`. -/
theorem intersection_common (p r q s : Vec2) (hc : cross2 r s ≠ 0) :
    p + (cross2 (q - p) s / cross2 r s) • r = q + (cross2 (q - p) r / cross2 r s) • s := by
  funext i
  unfold cross2 at hc ⊢
  fin_cases i <;>
    simp only [Fin.zero_eta, Fin.mk_one, Pi.add_apply, Pi.smul_apply, Pi.sub_apply,
      smul_eq_mul] <;>
    field_simp <;> ring

/-- C39 (`lineIntersection` is sound and complete for non-parallel segments): it returns
true exactly when the direction vectors have non-zero cross product and the two closed
segments share a point; when it returns true, `intersection` is that common point, of the
form `l1p1 + t * (l1p2 - l1p1) = l2p1 + u * (l2p2 - l2p1)` with `t`, `u` in `[0, 1]`, and
every common point of the two segments is equal to it; when it returns false,
`intersection` is left unmodified. -/
theorem lineIntersection_sound_complete (l1p1 l1p2 l2p1 l2p2 intersection : Vec2) :
    ((lineIntersection l1p1 l1p2 l2p1 l2p2 intersection).1 = true ↔
      cross2 (l1p2 - l1p1) (l2p2 - l2p1) ≠ 0 ∧
        ∃ t u : ℚ, 0 ≤ t ∧ t ≤ 1 ∧ 0 ≤ u ∧ u ≤ 1 ∧
          l1p1 + t • (l1p2 - l1p1) = l2p1 + u • (l2p2 - l2p1)) ∧
    ((lineIntersection l1p1 l1p2 l2p1 l2p2 intersection).1 = true →
      (∃ t u : ℚ, 0 ≤ t ∧ t ≤ 1 ∧ 0 ≤ u ∧ u ≤ 1 ∧
        (lineIntersection l1p1 l1p2 l2p1 l2p2 intersection).2 = l1p1 + t • (l1p2 - l1p1) ∧
        (lineIntersection l1p1 l1p2 l2p1 l2p2 intersection).2 =
          l2p1 + u • (l2p2 - l2p1)) ∧
      ∀ t u : ℚ, l1p1 + t • (l1p2 - l1p1) = l2p1 + u • (l2p2 - l2p1) →
        (lineIntersection l1p1 l1p2 l2p1 l2p2 intersection).2 =
          l1p1 + t • (l1p2 - l1p1)) ∧
    ((lineIntersection l1p1 l1p2 l2p1 l2p2 intersection).1 = false →
      (lineIntersection l1p1 l1p2 l2p1 l2p2 intersection).2 = intersection) := by
  by_cases hc : cross2 (l1p2 - l1p1) (l2p2 - l2p1) = 0
  · have hres : lineIntersection l1p1 l1p2 l2p1 l2p2 intersection = (false, intersection) := by
      unfold lineIntersection
      simp only [hc, if_true]
    rw [hres]
    refine ⟨⟨fun h => absurd h Bool.false_ne_true, fun h => absurd hc h.1⟩,
      fun h => absurd h Bool.false_ne_true, fun _ => rfl⟩
  · by_cases hr : cross2 (l2p1 - l1p1) (l2p2 - l2p1) / cross2 (l1p2 - l1p1) (l2p2 - l2p1) ≥ 0 ∧
        cross2 (l2p1 - l1p1) (l2p2 - l2p1) / cross2 (l1p2 - l1p1) (l2p2 - l2p1) ≤ 1 ∧
        cross2 (l2p1 - l1p1) (l1p2 - l1p1) / cross2 (l1p2 - l1p1) (l2p2 - l2p1) ≥ 0 ∧
        cross2 (l2p1 - l1p1) (l1p2 - l1p1) / cross2 (l1p2 - l1p1) (l2p2 - l2p1) ≤ 1
    · have hres : lineIntersection l1p1 l1p2 l2p1 l2p2 intersection =
          (true, l1p1 + (cross2 (l2p1 - l1p1) (l2p2 - l2p1) /
            cross2 (l1p2 - l1p1) (l2p2 - l2p1)) • (l1p2 - l1p1)) := by
        unfold lineIntersection
        simp only [hc, if_false, hr, and_self, if_true]
      rw [hres]
      have hcommon := intersection_common l1p1 (l1p2 - l1p1) l2p1 (l2p2 - l2p1) hc
      refine ⟨⟨fun _ => ⟨hc, _, _, hr.1, hr.2.1, hr.2.2.1, hr.2.2.2, hcommon⟩, fun _ => rfl⟩,
        fun _ => ⟨⟨_, _, hr.1, hr.2.1, hr.2.2.1, hr.2.2.2, rfl, hcommon⟩, fun t u h => ?_⟩,
        fun h => absurd h.symm Bool.false_ne_true⟩
      rw [(intersection_parameters l1p1 (l1p2 - l1p1) l2p1 (l2p2 - l2p1) hc t u h).1]
    · have hres : lineIntersection l1p1 l1p2 l2p1 l2p2 intersection = (false, intersection) := by
        unfold lineIntersection
        simp only [hc, if_false, hr]
      rw [hres]
      refine ⟨⟨fun h => absurd h Bool.false_ne_true, fun h => ?_⟩,
        fun h => absurd h Bool.false_ne_true, fun _ => rfl⟩
      obtain ⟨_, t, u, ht0, ht1, hu0, hu1, h⟩ := h
      obtain ⟨et, eu⟩ := intersection_parameters l1p1 (l1p2 - l1p1) l2p1 (l2p2 - l2p1) hc t u h
      exact absurd ⟨et ▸ ht0, et ▸ ht1, eu ▸ hu0, eu ▸ hu1⟩ hr

theorem lineIntersection_sound_complete_witness :
    (lineIntersection ![0, 0] ![2, 2] ![0, 2] ![2, 0] 0).1 = true ∧
    (lineIntersection ![0, 0] ![2, 2] ![0, 2] ![2, 0] 0).2 =
      ![0, 0] + (1 / 2 : ℚ) • (![2, 2] - ![0, 0]) ∧
    ((lineIntersection ![0, 0] ![1, 1] ![0, 2] ![2, 0] ![5, 5]).1 = false →
      (lineIntersection ![0, 0] ![1, 1] ![0, 2] ![2, 0] ![5, 5]).2 = ![5, 5]) :=
  ⟨(lineIntersection_sound_complete ![0, 0] ![2, 2] ![0, 2] ![2, 0] 0).1.2
      ⟨by decide!, 1 / 2, 1 / 2, by norm_num, by norm_num, by norm_num, by norm_num,
        by decide!⟩,
    ((lineIntersection_sound_complete ![0, 0] ![2, 2] ![0, 2] ![2, 0] 0).2.1
      (by decide!)).2 (1 / 2) (1 / 2) (by decide!),
    (lineIntersection_sound_complete ![0, 0] ![1, 1] ![0, 2] ![2, 0] ![5, 5]).2.2⟩

end math

namespace graphics
open math

/-- At the rationals the routines over a field of scalars are the routines of the mesh,
with the square root of `m`. -/
theorem setSize_over (m : Libm) (mesh : TriangleMesh) (center : Vec3) (size : ℚ) :
    mesh.getCenter = getCenterOver mesh.vertices ∧
    (mesh.scaleAbout center size).vertices = scaleOver mesh.vertices center size ∧
    mesh.getSizeAbout m center = getSizeAboutOver m.sqrt mesh.vertices center ∧
    mesh.getSize m = getSizeOver m.sqrt mesh.vertices ∧
    (mesh.setSizeAbout m center size).vertices =
      setSizeAboutOver m.sqrt mesh.vertices center size ∧
    sampleSegmentMesh.vertices = sampleSegmentOver ℚ :=
  ⟨rfl, rfl, rfl, rfl, rfl, rfl⟩

/-- The sum of the vertices after `scale(center, multiplier)`. -/
theorem foldl_add_scaled {K : Type} [Field K] (center : Fin 3 → K) (multiplier : K)
    (vertices : List (Fin 3 → K)) (init scaled : Fin 3 → K) (i : Fin 3) :
    (vertices.map fun vertex j => (vertex j - center j) * multiplier + center j).foldl
        (fun acc vertex => acc + vertex) scaled i =
      vertices.foldl (fun acc vertex => acc + vertex) init i * multiplier +
        (vertices.length : K) * (1 - multiplier) * center i +
        (scaled i - init i * multiplier) := by
  induction vertices generalizing init scaled with
  | nil => simp only [List.map_nil, List.foldl_nil, List.length_nil, Nat.cast_zero]; ring
  | cons vertex rest ih =>
    simp only [List.map_cons, List.foldl_cons, List.length_cons, Nat.cast_succ]
    rw [ih (init + vertex)]
    simp only [Pi.add_apply]
    ring

/-- The centre of the vertices after `scale(center, multiplier)` is the scaled centre. -/
theorem getCenterOver_scaleOver (vertices : List (Fin 3 → ℝ)) (center : Fin 3 → ℝ)
    (multiplier : ℝ) (hne : vertices ≠ []) (i : Fin 3) :
    getCenterOver (scaleOver vertices center multiplier) i =
      (getCenterOver vertices i - center i) * multiplier + center i := by
  have hlen : (vertices.length : ℝ) ≠ 0 := by
    rw [Nat.cast_ne_zero]
    exact fun h => hne (List.length_eq_zero.1 h)
  unfold getCenterOver scaleOver
  simp only [List.length_map]
  rw [foldl_add_scaled center multiplier vertices 0 0 i]
  simp only [Pi.zero_apply]
  field_simp
  ring

/-- The sum of distances when every distance is multiplied by `k`. -/
theorem foldl_norm_scaled (f : (Fin 3 → ℝ) → (Fin 3 → ℝ)) (g g2 : Fin 3 → ℝ) (k : ℝ)
    (vertices : List (Fin 3 → ℝ))
    (h : ∀ vertex ∈ vertices,
      normOver Real.sqrt (f vertex - g2) = k * normOver Real.sqrt (vertex - g))
    (init scaled : ℝ) :
    (vertices.map f).foldl (fun size vertex => size + normOver Real.sqrt (vertex - g2))
        scaled =
      k * vertices.foldl (fun size vertex => size + normOver Real.sqrt (vertex - g)) init +
        (scaled - k * init) := by
  induction vertices generalizing init scaled with
  | nil => simp only [List.map_nil, List.foldl_nil]; ring
  | cons vertex rest ih =>
    simp only [List.map_cons, List.foldl_cons]
    rw [ih (fun v hv => h v (List.mem_cons_of_mem _ hv))
        (init + normOver Real.sqrt (vertex - g)),
      h vertex (List.mem_cons_self _ _)]
    ring

/-- A sum of distances is at least its initial value and at least each of its terms. -/
theorem foldl_norm_bounds (g : Fin 3 → ℝ) (vertices : List (Fin 3 → ℝ)) (init : ℝ) :
    init ≤ vertices.foldl (fun size vertex => size + normOver Real.sqrt (vertex - g)) init ∧
      ∀ vertex ∈ vertices, init + normOver Real.sqrt (vertex - g) ≤
        vertices.foldl (fun size vertex => size + normOver Real.sqrt (vertex - g)) init := by
  induction vertices generalizing init with
  | nil => exact ⟨le_refl _, fun v hv => absurd hv (List.not_mem_nil v)⟩
  | cons vertex rest ih =>
    have hrest := ih (init + normOver Real.sqrt (vertex - g))
    have h0 : 0 ≤ normOver Real.sqrt (vertex - g) := Real.sqrt_nonneg _
    simp only [List.foldl_cons]
    refine ⟨by linarith [hrest.1], fun v hv => ?_⟩
    rcases List.mem_cons.1 hv with e | hmem
    · rw [e]; exact hrest.1
    · have := hrest.2 v hmem
      linarith

/-- The real norm of a vector scaled by `k >= 0` is `k` times the norm. -/
theorem norm_scaled (v scaled : Fin 3 → ℝ) (k : ℝ) (hk : 0 ≤ k)
    (hs : ∀ i, scaled i = v i * k) :
    normOver Real.sqrt scaled = k * normOver Real.sqrt v := by
  have hdot : dotOver scaled scaled = k * k * dotOver v v := by
    simp only [dotOver, Fin.sum_univ_three, hs]
    ring
  unfold normOver
  rw [hdot, Real.sqrt_mul (mul_self_nonneg k), Real.sqrt_mul_self hk]

/-- Vertices that are not all equal have a positive size. -/
theorem getSizeOver_pos (vertices : List (Fin 3 → ℝ))
    (hdiff : ∃ v ∈ vertices, ∃ w ∈ vertices, v ≠ w) : 0 < getSizeOver Real.sqrt vertices := by
  obtain ⟨v, hv, w, hw, hvw⟩ := hdiff
  have hfar : ∃ u ∈ vertices, u ≠ getCenterOver vertices := by
    by_cases h : v = getCenterOver vertices
    · exact ⟨w, hw, fun hwc => hvw (h.trans hwc.symm)⟩
    · exact ⟨v, hv, h⟩
  obtain ⟨u, hu, huc⟩ := hfar
  have hpos : 0 < normOver Real.sqrt (u - getCenterOver vertices) :=
    (normOver_real (u - getCenterOver vertices) (sub_ne_zero.2 huc)).1
  have hsum := (foldl_norm_bounds (getCenterOver vertices) vertices 0).2 u hu
  have hlen : (0 : ℝ) < vertices.length := by
    rw [Nat.cast_pos]
    exact List.length_pos_of_mem hu
  unfold getSizeOver getSizeAboutOver
  exact div_pos (by linarith) hlen

/-- The sizes after `setSize(center, s)`, about the centre of the vertices and about
`center`. -/
theorem setSizeAboutOver_sizes (vertices : List (Fin 3 → ℝ)) (center : Fin 3 → ℝ) (s : ℝ)
    (hs : 0 < s) (hdiff : ∃ v ∈ vertices, ∃ w ∈ vertices, v ≠ w) :
    getSizeOver Real.sqrt (setSizeAboutOver Real.sqrt vertices center s) = s ∧
    getSizeAboutOver Real.sqrt (setSizeAboutOver Real.sqrt vertices center s) center =
      s / getSizeOver Real.sqrt vertices * getSizeAboutOver Real.sqrt vertices center := by
  have hsize := getSizeOver_pos vertices hdiff
  obtain ⟨v0, hv0, -⟩ := hdiff
  have hne : vertices ≠ [] := List.ne_nil_of_mem hv0
  have hlen : (vertices.length : ℝ) ≠ 0 := by
    rw [Nat.cast_ne_zero]
    exact fun h => hne (List.length_eq_zero.1 h)
  have hk : 0 ≤ s / getSizeOver Real.sqrt vertices := le_of_lt (div_pos hs hsize)
  have hterm : ∀ vertex ∈ vertices,
      normOver Real.sqrt
          ((fun j => (vertex j - center j) * (s / getSizeOver Real.sqrt vertices) + center j) -
            getCenterOver (setSizeAboutOver Real.sqrt vertices center s)) =
        s / getSizeOver Real.sqrt vertices *
          normOver Real.sqrt (vertex - getCenterOver vertices) := by
    intro vertex _
    refine norm_scaled _ _ _ hk (fun i => ?_)
    have hc := getCenterOver_scaleOver vertices center (s / getSizeOver Real.sqrt vertices)
      hne i
    simp only [Pi.sub_apply]
    unfold setSizeAboutOver
    rw [hc]
    ring
  have hterm2 : ∀ vertex ∈ vertices,
      normOver Real.sqrt
          ((fun j => (vertex j - center j) * (s / getSizeOver Real.sqrt vertices) + center j) -
            center) =
        s / getSizeOver Real.sqrt vertices * normOver Real.sqrt (vertex - center) := by
    intro vertex _
    refine norm_scaled _ _ _ hk (fun i => ?_)
    simp only [Pi.sub_apply]
    ring
  have hfold := foldl_norm_scaled
    (fun vertex j => (vertex j - center j) * (s / getSizeOver Real.sqrt vertices) + center j)
    (getCenterOver vertices) (getCenterOver (setSizeAboutOver Real.sqrt vertices center s))
    (s / getSizeOver Real.sqrt vertices) vertices hterm 0 0
  have hfold2 := foldl_norm_scaled
    (fun vertex j => (vertex j - center j) * (s / getSizeOver Real.sqrt vertices) + center j)
    center center (s / getSizeOver Real.sqrt vertices) vertices hterm2 0 0
  have hdef : getSizeOver Real.sqrt (setSizeAboutOver Real.sqrt vertices center s) =
      (vertices.map fun vertex j =>
          (vertex j - center j) * (s / getSizeOver Real.sqrt vertices) + center j).foldl
        (fun size vertex => size + normOver Real.sqrt
          (vertex - getCenterOver (setSizeAboutOver Real.sqrt vertices center s)))
        0 / ((vertices.map fun vertex j =>
          (vertex j - center j) * (s / getSizeOver Real.sqrt vertices) + center j).length : ℝ) :=
    rfl
  have hdef2 : getSizeAboutOver Real.sqrt (setSizeAboutOver Real.sqrt vertices center s)
        center =
      (vertices.map fun vertex j =>
          (vertex j - center j) * (s / getSizeOver Real.sqrt vertices) + center j).foldl
        (fun size vertex => size + normOver Real.sqrt (vertex - center))
        0 / ((vertices.map fun vertex j =>
          (vertex j - center j) * (s / getSizeOver Real.sqrt vertices) + center j).length : ℝ) :=
    rfl
  rw [List.length_map] at hdef hdef2
  refine ⟨?_, ?_⟩
  · rw [hdef, hfold]
    have hsz : getSizeOver Real.sqrt vertices =
        vertices.foldl (fun size vertex => size + normOver Real.sqrt
          (vertex - getCenterOver vertices)) 0 / (vertices.length : ℝ) := rfl
    have hne2 := ne_of_gt hsize
    rw [hsz] at hne2 ⊢
    have hS := (div_ne_zero_iff.1 hne2).1
    field_simp
  · rw [hdef2, hfold2]
    unfold getSizeAboutOver
    ring

/-- C40 (what `setSize(center, s)` sets): in real arithmetic, `std::sqrt` being the real
square root, for every mesh whose vertices are not all equal, every point `center` and every
`s > 0`, after `setSize(center, s)` the mean distance of the vertices from the centre of the
mesh, `getSize()`, equals `s`; their mean distance from `center`, `getSize(center)`, is
what it was before the call multiplied by `s / getSize()`, the factor of the scaling. -/
theorem setSize_sets_own_size (vertices : List (Fin 3 → ℝ)) (center : Fin 3 → ℝ) (s : ℝ)
    (hs : 0 < s) (hdiff : ∃ v ∈ vertices, ∃ w ∈ vertices, v ≠ w) :
    getSizeOver Real.sqrt (setSizeAboutOver Real.sqrt vertices center s) = s ∧
    getSizeAboutOver Real.sqrt (setSizeAboutOver Real.sqrt vertices center s) center =
      s / getSizeOver Real.sqrt vertices * getSizeAboutOver Real.sqrt vertices center :=
  setSizeAboutOver_sizes vertices center s hs hdiff

theorem setSize_sets_own_size_witness :
    ((0 : ℝ) < 2 ∧
      ∃ v ∈ sampleSegmentOver ℝ, ∃ w ∈ sampleSegmentOver ℝ, v ≠ w) ∧
    getSizeOver Real.sqrt (setSizeAboutOver Real.sqrt (sampleSegmentOver ℝ) ![3, 0, 0] 2) = 2 :=
  have hdiff : ∃ v ∈ sampleSegmentOver ℝ, ∃ w ∈ sampleSegmentOver ℝ, v ≠ w :=
    ⟨![0, 0, 0], List.mem_cons_self _ _, ![2, 0, 0],
      List.mem_cons_of_mem _ (List.mem_cons_self _ _),
      fun h => two_ne_zero (congrFun h 0).symm⟩
  ⟨⟨two_pos, hdiff⟩,
    (setSize_sets_own_size (sampleSegmentOver ℝ) ![3, 0, 0] 2 two_pos hdiff).1⟩

/-- The sizes of the vertices `(0, 0, 0)` and `(2, 0, 0)` in real arithmetic: `1` about
their centre and `2` about `(3, 0, 0)`. -/
theorem sampleSegmentOver_sizes :
    getSizeOver Real.sqrt (sampleSegmentOver ℝ) = 1 ∧
    getSizeAboutOver Real.sqrt (sampleSegmentOver ℝ) ![3, 0, 0] = 2 := by
  have h1 : Real.sqrt 1 = 1 := Real.sqrt_one
  have h9 : Real.sqrt 9 = 3 := by
    rw [show (9 : ℝ) = 3 * 3 by norm_num]
    exact Real.sqrt_mul_self (by norm_num)
  have hc : getCenterOver (sampleSegmentOver ℝ) = ![1, 0, 0] := by
    funext i
    fin_cases i <;> simp [getCenterOver, sampleSegmentOver]
  refine ⟨?_, ?_⟩
  · unfold getSizeOver
    rw [hc]
    simp only [getSizeAboutOver, sampleSegmentOver, List.foldl_cons, List.foldl_nil, normOver,
      dotOver, Fin.sum_univ_three, Pi.sub_apply, Matrix.cons_val_zero, Matrix.cons_val_one,
      Matrix.head_cons, Matrix.cons_val_two, Matrix.tail_cons, List.length_cons,
      List.length_nil]
    norm_num
  · simp only [getSizeAboutOver, sampleSegmentOver, List.foldl_cons, List.foldl_nil, normOver,
      dotOver, Fin.sum_univ_three, Pi.sub_apply, Matrix.cons_val_zero, Matrix.cons_val_one,
      Matrix.head_cons, Matrix.cons_val_two, Matrix.tail_cons, List.length_cons,
      List.length_nil]
    norm_num
    rw [h9]
    norm_num

/-- C40, counterexample: `setSize(center, size)` scales about `center` by
`size / getSize()`, the size about the centre of the mesh, not by `size / getSize(center)`.
The mesh of the two vertices `(0, 0, 0)` and `(2, 0, 0)` has size `1` about its centre
`(1, 0, 0)`. After `setSize((3, 0, 0), 2)` the vertices are `(-3, 0, 0)` and `(1, 0, 0)`:
their mean distance from the centre `(3, 0, 0)` of the call is `4`, not `2`, both with a
square root that is exact on the squares involved and in real arithmetic. -/
theorem setSize_about_centre_misses_size :
    (sampleSegmentMesh.vertices ≠ [] ∧
      (∃ v ∈ sampleSegmentMesh.vertices, ∃ w ∈ sampleSegmentMesh.vertices, v ≠ w) ∧
      sampleSegmentMesh.getSize squaresLibm = 1) ∧
    (sampleSegmentMesh.setSizeAbout squaresLibm ![3, 0, 0] 2).vertices =
      [![-3, 0, 0], ![1, 0, 0]] ∧
    (sampleSegmentMesh.setSizeAbout squaresLibm ![3, 0, 0] 2).getSizeAbout squaresLibm
      ![3, 0, 0] = 4 ∧
    ¬ (sampleSegmentMesh.setSizeAbout squaresLibm ![3, 0, 0] 2).getSizeAbout squaresLibm
      ![3, 0, 0] = 2 ∧
    getSizeAboutOver Real.sqrt (setSizeAboutOver Real.sqrt (sampleSegmentOver ℝ) ![3, 0, 0] 2)
      ![3, 0, 0] = 4 ∧
    ¬ getSizeAboutOver Real.sqrt (setSizeAboutOver Real.sqrt (sampleSegmentOver ℝ) ![3, 0, 0] 2)
      ![3, 0, 0] = 2 := by
  have hdiff : ∃ v ∈ sampleSegmentOver ℝ, ∃ w ∈ sampleSegmentOver ℝ, v ≠ w :=
    ⟨![0, 0, 0], List.mem_cons_self _ _, ![2, 0, 0],
      List.mem_cons_of_mem _ (List.mem_cons_self _ _),
      fun h => two_ne_zero (congrFun h 0).symm⟩
  have hreal : getSizeAboutOver Real.sqrt
      (setSizeAboutOver Real.sqrt (sampleSegmentOver ℝ) ![3, 0, 0] 2) ![3, 0, 0] = 4 := by
    rw [(setSizeAboutOver_sizes (sampleSegmentOver ℝ) ![3, 0, 0] 2 two_pos hdiff).2,
      sampleSegmentOver_sizes.1, sampleSegmentOver_sizes.2]
    norm_num
  refine ⟨⟨by decide!, ⟨![0, 0, 0], by decide!, ![2, 0, 0], by decide!, by decide!⟩,
    by decide!⟩, by decide!, by decide!, by decide!, hreal, ?_⟩
  rw [hreal]
  norm_num

end graphics
